import Mathlib

/-!
Generic geographic network (GNM): connectivity, rules and graph synchronisation

A shallow embedding of `gnm/gnmgenericnetwork.cpp` (class `GNMGenericNetwork`).

* Global feature ids (`GNMGFID`, the signed 64-bit integer `GIntBig` in the source) are
  mathematical integers, and `isGIntBig` tells which of them are values of the source type.
  The arithmetic on ids is the decrement in `GetNewVirtualFID`, the increment in
  `GetNewGlobalFID` and the `nFID + 1` of `LoadFeaturesLayer`; where the mathematical result
  is not a value of `GIntBig` the source overflows, which is undefined behaviour.  The
  statements about the order of new ids therefore carry the condition that the counter has
  room, under which the source computes what the definitions compute.
* Costs are `double` values that the network code stores and hands on and never computes
  with; they are integers here.  Only the path searches of the graph, which are modelled
  from the specification, add and compare them; the sums are exact in the model, so the
  rounding of `double` sums and the value NaN are outside the model.
* The persistent store (`OGRLayer`) is an external collaborator.  A layer is the list of
  its records in reading order; the outcome of each write call is given by a fault
  oracle (`StorageFaults`), and a write call that fails leaves the layer as it was.
* `GNMGraph` and `GNMRule` live in source files that are not part of this development;
  they are modelled from the specification.
-/

namespace GNM

/-! ## Basic types and constants -/

/-- Error class returned by the network methods (`CPLErr`); only these two values occur. -/
inductive CPLErr
  | CE_None
  | CE_Failure
  deriving DecidableEq, Repr

/-- Global feature identifier: `GIntBig`, a signed integer of 64 bits, in the source and a
mathematical integer here; `isGIntBig` below gives the values of the source type. -/
abbrev GNMGFID := Int

/-- The least value of `GIntBig`, the signed 64-bit integer type of the ids (`cpl_port.h`,
which is not among the sources). -/
def GINTBIG_MIN : Int := -9223372036854775808

/-- The greatest value of `GIntBig` (`cpl_port.h`). -/
def GINTBIG_MAX : Int := 9223372036854775807

/-- Whether a mathematical integer is a value of `GIntBig`. -/
def isGIntBig (n : Int) : Prop := GINTBIG_MIN ≤ n ∧ n ≤ GINTBIG_MAX

instance isGIntBig.decidable (n : Int) : Decidable (isGIntBig n) :=
  inferInstanceAs (Decidable (GINTBIG_MIN ≤ n ∧ n ≤ GINTBIG_MAX))

/-- Direction of an edge (`typedef int GNMDirection`). -/
abbrev GNMDirection := Int

/-- Cost values: stored and handed on by the network, added and compared by the path
searches of the graph. -/
abbrev Cost := Int

/-- Error code of the feature store (`typedef int OGRErr` in `ogr_core.h`). -/
abbrev OGRErr := Int

def OGRERR_NONE : OGRErr := 0

def OGRERR_FAILURE : OGRErr := 6

def OGRERR_NON_EXISTING_FEATURE : OGRErr := 9

/-- Feature id of a feature that was not written yet (`ogr_core.h`). -/
def OGRNullFID : Int := -1

/-- Modelled from the spec: the direction constants of `gnm.h`, which is not among the
sources.  The spec has a direction enum "forward-only vs. bidirectional"; the
both-directions value is 0 and the two one-way values are 1 and 2. -/
def GNM_EDGE_DIR_BOTH : GNMDirection := 0

/-- Modelled from the spec: the forward-only direction (`gnm.h`). -/
def GNM_EDGE_DIR_SRCTOTGT : GNMDirection := 1

/-- Modelled from the spec: the backward-only direction (`gnm.h`). -/
def GNM_EDGE_DIR_TGTTOSRC : GNMDirection := 2

/-- Modelled from the spec: the block-mask constants of `gnm_priv.h`, which is not among
the sources.  The spec has "a bitmask with independent bits for source endpoint blocked,
target endpoint blocked, connector blocked". -/
def GNM_BLOCK_NONE : Int := 0

/-- Modelled from the spec: the bit "source endpoint blocked" (`gnm_priv.h`). -/
def GNM_BLOCK_SRC : Int := 1

/-- Modelled from the spec: the bit "target endpoint blocked" (`gnm_priv.h`). -/
def GNM_BLOCK_TGT : Int := 2

/-- Modelled from the spec: the bit "connector blocked" (`gnm_priv.h`). -/
def GNM_BLOCK_CONN : Int := 4

/-- Modelled from the spec: the three block bits together (`gnm_priv.h`). -/
def GNM_BLOCK_ALL : Int := 7

/-- Upper-case code of an ASCII character, other characters keep their code. -/
def upperCode (c : Char) : Nat :=
  if 97 ≤ c.toNat ∧ c.toNat ≤ 122 then c.toNat - 32 else c.toNat

/-- Modelled from the spec: the `EQUAL` macro of `cpl_port.h`, which is not among the
sources: comparison of two C strings that ignores the case of ASCII letters. -/
def EQUAL (a b : String) : Bool :=
  a.data.map upperCode == b.data.map upperCode

/-! ## Rules (`GNMRule`) -/

/-- Modelled from the spec: the class `GNMRule` of `gnmrule.cpp`, which is not among the
sources.  A rule is `(sourceLayerPattern, targetLayerPattern, connectorLayerPattern,
allow)`; `m_bAny` marks the `ANY` wildcard form, `m_bValid` a text that follows the
grammar, and `m_soRuleString` keeps the text. -/
structure GNMRule where
  m_soSrcLayerName : String
  m_soTgtLayerName : String
  m_soConnLayerName : String
  m_bAllow : Bool
  m_bValid : Bool
  m_bAny : Bool
  m_soRuleString : String
  deriving DecidableEq, Repr

/-- Pieces of a character list between occurrences of a separator. -/
def splitOnChar (sep : Char) : List Char → List (List Char)
  | [] => [[]]
  | c :: cs =>
    if c = sep then [] :: splitOnChar sep cs
    else
      match splitOnChar sep cs with
      | [] => [[c]]
      | w :: ws => (c :: w) :: ws

/-- Blank-separated words of a text. -/
def words (s : String) : List String :=
  ((splitOnChar ' ' s.data).filter (fun w => !w.isEmpty)).map String.mk

/-- Modelled from the spec: the constructor `GNMRule(const char *)`, which parses the
grammar `("ALLOW"|"DENY") CONNECTS (ANY | layer "," layer ["," layer])`.  A text outside
the grammar gives an invalid rule. -/
def GNMRule.ofString (s : String) : GNMRule :=
  let invalid : GNMRule :=
    { m_soSrcLayerName := "", m_soTgtLayerName := "", m_soConnLayerName := "",
      m_bAllow := false, m_bValid := false, m_bAny := false, m_soRuleString := s }
  match words s with
  | [kw, conn, what] =>
    if (kw = "ALLOW" ∨ kw = "DENY") ∧ conn = "CONNECTS" then
      if what = "ANY" then
        { invalid with m_bAllow := decide (kw = "ALLOW"), m_bValid := true, m_bAny := true }
      else
        match (splitOnChar ',' what.data).map String.mk with
        | [src, tgt] =>
          if src ≠ "" ∧ tgt ≠ "" then
            { invalid with m_soSrcLayerName := src, m_soTgtLayerName := tgt,
                           m_bAllow := decide (kw = "ALLOW"), m_bValid := true }
          else invalid
        | [src, tgt, con] =>
          if src ≠ "" ∧ tgt ≠ "" ∧ con ≠ "" then
            { invalid with m_soSrcLayerName := src, m_soTgtLayerName := tgt,
                           m_soConnLayerName := con,
                           m_bAllow := decide (kw = "ALLOW"), m_bValid := true }
          else invalid
        | _ => invalid
    else invalid
  | _ => invalid

def GNMRule.IsValid (r : GNMRule) : Bool := r.m_bValid

def GNMRule.IsAcceptAny (r : GNMRule) : Bool := r.m_bAny

def GNMRule.GetSourceLayerName (r : GNMRule) : String := r.m_soSrcLayerName

def GNMRule.GetTargetLayerName (r : GNMRule) : String := r.m_soTgtLayerName

def GNMRule.GetConnectorLayerName (r : GNMRule) : String := r.m_soConnLayerName

/-- Modelled from the spec: a pattern matches a layer name when it is `ANY` or the name
itself ("pattern `ANY` matches every layer name"; "an empty connector layer name matches
only rules whose connector pattern is also empty or `ANY`"). -/
def patternMatches (pattern name : String) : Bool :=
  pattern == "ANY" || pattern == name

/-- Modelled from the spec: whether the patterns of a rule match a triple of layer names;
the `ANY` wildcard form matches every triple. -/
def GNMRule.Matches (r : GNMRule) (soSrcLayerName soTgtLayerName soConnLayerName : String) :
    Bool :=
  r.m_bAny ||
    (patternMatches r.m_soSrcLayerName soSrcLayerName &&
      patternMatches r.m_soTgtLayerName soTgtLayerName &&
      patternMatches r.m_soConnLayerName soConnLayerName)

/-- Modelled from the spec: `GNMRule::CanConnect` of `gnmrule.cpp`.  "A connection is
permitted only if every rule whose patterns match the triple evaluates to allow; any
matching deny rule vetoes the connection": a rule objects exactly when it matches the
triple and is a deny rule. -/
def GNMRule.CanConnect (r : GNMRule) (soSrcLayerName soTgtLayerName soConnLayerName : String) :
    Bool :=
  !(r.Matches soSrcLayerName soTgtLayerName soConnLayerName) || r.m_bAllow

/-! ## The persistent graph record set (`OGRLayer` collaborator) -/

/-- Modelled from the spec: a feature of the graph layer (`OGRFeature`, of the feature
store that is not among the sources): "one record per edge with fields `source`, `target`,
`connector`, `cost`, `invcost`, `direction`, `blocked`", and its feature id. -/
structure OGRFeature where
  nFID : Int
  source : GNMGFID
  target : GNMGFID
  connector : GNMGFID
  cost : Cost
  invcost : Cost
  direction : Int
  blocked : Int
  deriving DecidableEq, Repr

/-- The two attribute filters that the network installs on the graph layer:
`source = s and target = t and connector = c` (`FindConnection`) and
`source = n or target = n or connector = n` (`DisconnectFeaturesWithId`). -/
inductive AttrFilter
  | connection (nSrcFID nTgtFID nConFID : GNMGFID)
  | reference (nFID : GNMGFID)
  deriving DecidableEq, Repr

/-- Whether a graph record passes an attribute filter. -/
def AttrFilter.eval : AttrFilter → OGRFeature → Bool
  | .connection s t c, f => f.source == s && f.target == t && f.connector == c
  | .reference n, f => f.source == n || f.target == n || f.connector == n

/-- Modelled from the spec: the graph record set (`OGRLayer`, of the feature store that is
not among the sources; the spec leaves the store "specified only at its interface"): its
records in reading order, the feature id that the next created record gets, and the
attribute filter that is installed. -/
structure OGRLayer where
  features : List OGRFeature
  nNextFID : Int
  attrFilter : Option AttrFilter
  deriving DecidableEq, Repr

/-- Modelled from the spec: a feature of a network layer, as far as the network reads and
writes it: its global id and its `blocked` field. -/
structure LayerFeature where
  nGFID : GNMGFID
  blocked : Int
  deriving DecidableEq, Repr

/-- Modelled from the spec: a metadata record, a "key/value pair", with its feature id. -/
structure MetadataFeature where
  nFID : Int
  soKey : String
  soValue : String
  deriving DecidableEq, Repr

/-- Modelled from the spec: the "StorageFailure propagated from the persistence
collaborator": which write calls of the store fail.  The first three fields are for the
graph layer, `layerSetFails` for a network layer (given by name), the next two for the
metadata layer, and `featDeleteFails` for the features layer. -/
structure StorageFaults where
  createFails : OGRFeature → Bool
  setFails : OGRFeature → Bool
  deleteFails : Int → Bool
  layerSetFails : String → LayerFeature → Bool := fun _ _ => false
  metaCreateFails : MetadataFeature → Bool := fun _ => false
  metaDeleteFails : Int → Bool := fun _ => false
  featDeleteFails : Int → Bool := fun _ => false

/-- A store on which every write succeeds. -/
def StorageFaults.none : StorageFaults :=
  { createFails := fun _ => false, setFails := fun _ => false, deleteFails := fun _ => false }

/-- Modelled from the spec: `OGRLayer::SetAttributeFilter`; `none` removes the filter. -/
def OGRLayer.SetAttributeFilter (l : OGRLayer) (q : Option AttrFilter) : OGRLayer :=
  { l with attrFilter := q }

/-- Modelled from the spec: the features that successive `OGRLayer::GetNextFeature` calls
return after `ResetReading`: the records that pass the installed filter, in order. -/
def OGRLayer.reading (l : OGRLayer) : List OGRFeature :=
  match l.attrFilter with
  | none => l.features
  | some q => l.features.filter q.eval

/-- Modelled from the spec: after `ResetReading`, the first `OGRLayer::GetNextFeature`
(`none` for the null pointer, when no record passes the filter). -/
def OGRLayer.GetNextFeature (l : OGRLayer) : Option OGRFeature :=
  l.reading.head?

/-- Modelled from the spec: `OGRLayer::CreateFeature`: the new record gets the next feature
id and is read last; a call that fails leaves the layer as it was. -/
def OGRLayer.CreateFeature (flt : StorageFaults) (l : OGRLayer) (poFeature : OGRFeature) :
    OGRErr × OGRLayer :=
  if flt.createFails poFeature then (OGRERR_FAILURE, l)
  else
    (OGRERR_NONE,
      { l with features := l.features ++ [{ poFeature with nFID := l.nNextFID }],
               nNextFID := l.nNextFID + 1 })

/-- Modelled from the spec: `OGRLayer::DeleteFeature`: deletion of the record with a
feature id; there must be one. -/
def OGRLayer.DeleteFeature (flt : StorageFaults) (l : OGRLayer) (nFID : Int) :
    OGRErr × OGRLayer :=
  if flt.deleteFails nFID then (OGRERR_FAILURE, l)
  else if !l.features.any (fun f => f.nFID == nFID) then (OGRERR_NON_EXISTING_FEATURE, l)
  else (OGRERR_NONE, { l with features := l.features.filter (fun f => f.nFID != nFID) })

/-- Modelled from the spec: `OGRLayer::SetFeature`: rewriting of the record that has the
feature id of `poFeature`; there must be one. -/
def OGRLayer.SetFeature (flt : StorageFaults) (l : OGRLayer) (poFeature : OGRFeature) :
    OGRErr × OGRLayer :=
  if flt.setFails poFeature then (OGRERR_FAILURE, l)
  else if !l.features.any (fun f => f.nFID == poFeature.nFID) then
    (OGRERR_NON_EXISTING_FEATURE, l)
  else
    (OGRERR_NONE,
      { l with features := l.features.map
                 (fun f => if f.nFID = poFeature.nFID then poFeature else f) })

/-- Modelled from the spec: the metadata record set: its records in reading order and the
feature id that the next created record gets.  (The network installs an attribute filter
on it only inside `DeleteAllRules`, which removes it again before it returns.) -/
structure MetadataLayer where
  features : List MetadataFeature
  nNextFID : Int
  deriving DecidableEq, Repr

/-- Modelled from the spec: `OGRLayer::CreateFeature` on the metadata layer. -/
def MetadataLayer.CreateFeature (flt : StorageFaults) (l : MetadataLayer)
    (poFeature : MetadataFeature) : OGRErr × MetadataLayer :=
  if flt.metaCreateFails poFeature then (OGRERR_FAILURE, l)
  else
    (OGRERR_NONE,
      { features := l.features ++ [{ poFeature with nFID := l.nNextFID }],
        nNextFID := l.nNextFID + 1 })

/-- Modelled from the spec: `OGRLayer::DeleteFeature` on the metadata layer. -/
def MetadataLayer.DeleteFeature (flt : StorageFaults) (l : MetadataLayer) (nFID : Int) :
    OGRErr × MetadataLayer :=
  if flt.metaDeleteFails nFID then (OGRERR_FAILURE, l)
  else if !l.features.any (fun f => f.nFID == nFID) then (OGRERR_NON_EXISTING_FEATURE, l)
  else (OGRERR_NONE, { l with features := l.features.filter (fun f => f.nFID != nFID) })

/-- Modelled from the spec: a features index record, "one record per feature participating
in the network, with fields `gfid`, `layer-name`", with its feature id. -/
structure FeaturesRecord where
  nFID : Int
  gfid : GNMGFID
  layerName : String
  deriving DecidableEq, Repr

/-- Modelled from the spec: the features index record set: its records in reading order.
(The network installs no attribute filter on it.) -/
structure FeaturesLayer where
  features : List FeaturesRecord
  deriving DecidableEq, Repr

/-- Modelled from the spec: `OGRLayer::DeleteFeature` on the features layer. -/
def FeaturesLayer.DeleteFeature (flt : StorageFaults) (l : FeaturesLayer) (nFID : Int) :
    OGRErr × FeaturesLayer :=
  if flt.featDeleteFails nFID then (OGRERR_FAILURE, l)
  else if !l.features.any (fun f => f.nFID == nFID) then (OGRERR_NON_EXISTING_FEATURE, l)
  else (OGRERR_NONE, { features := l.features.filter (fun f => f.nFID != nFID) })

/-! ## The in-memory graph (`GNMGraph`) -/

/-- Modelled from the spec: the edge of the GraphStore, `(connectorGFID, sourceGFID,
targetGFID, cost, inverseCost, bidirectional, blockMask)`; `gnmgraph.cpp` is not among
the sources. -/
structure GNMStdEdge where
  connectorGFID : GNMGFID
  sourceGFID : GNMGFID
  targetGFID : GNMGFID
  cost : Cost
  inverseCost : Cost
  bidirectional : Bool
  blockMask : Int
  deriving DecidableEq, Repr

/-- The mutating calls that the network makes on its graph, with their arguments. -/
inductive GraphCall
  | AddEdge (nConFID nSrcFID nTgtFID : GNMGFID) (bIsBidir : Bool) (dfCost dfInvCost : Cost)
  | DeleteEdge (nConFID : GNMGFID)
  | DeleteVertex (nFID : GNMGFID)
  | ChangeEdge (nFID : GNMGFID) (dfCost dfInvCost : Cost)
  | ChangeBlockState (nFID : GNMGFID) (bBlock : Bool)
  | ChangeAllBlockState (bBlock : Bool)
  | Clear
  deriving DecidableEq, Repr

/-- Modelled from the spec: the GraphStore (`GNMGraph` of `gnmgraph.cpp`, not among the
sources): the edges keyed by connector id and the vertex ids present in adjacency
lookups.  `calls` is a history variable: the mutating calls received so far, oldest
first. -/
structure GNMGraph where
  edges : List GNMStdEdge
  vertices : List GNMGFID
  calls : List GraphCall
  deriving DecidableEq, Repr

/-- The graph at construction: "GraphStore is empty at construction". -/
def GNMGraph.empty : GNMGraph := { edges := [], vertices := [], calls := [] }

/-- The edge keyed by a connector id, if there is one. -/
def GNMGraph.GetEdge (g : GNMGraph) (nConFID : GNMGFID) : Option GNMStdEdge :=
  g.edges.find? (fun e => e.connectorGFID == nConFID)

/-- Modelled from the spec: `AddEdge(connector, source, target, bidirectional, cost,
invCost)` "inserts or overwrites the edge keyed by connector"; the endpoints become
vertices ("a vertex is implicitly whatever GFID appears as a source/target"). -/
def GNMGraph.AddEdge (g : GNMGraph) (nConFID nSrcFID nTgtFID : GNMGFID) (bIsBidir : Bool)
    (dfCost dfInvCost : Cost) : GNMGraph :=
  let e : GNMStdEdge :=
    { connectorGFID := nConFID, sourceGFID := nSrcFID, targetGFID := nTgtFID,
      cost := dfCost, inverseCost := dfInvCost, bidirectional := bIsBidir,
      blockMask := GNM_BLOCK_NONE }
  { edges :=
      if g.edges.any (fun x => x.connectorGFID == nConFID) then
        g.edges.map (fun x => if x.connectorGFID = nConFID then e else x)
      else g.edges ++ [e],
    vertices := (g.vertices.insert nSrcFID).insert nTgtFID,
    calls := g.calls ++ [GraphCall.AddEdge nConFID nSrcFID nTgtFID bIsBidir dfCost dfInvCost] }

/-- Modelled from the spec: `DeleteEdge(connector)` "removes the edge; no error if
absent". -/
def GNMGraph.DeleteEdge (g : GNMGraph) (nConFID : GNMGFID) : GNMGraph :=
  { g with edges := g.edges.filter (fun e => e.connectorGFID != nConFID),
           calls := g.calls ++ [GraphCall.DeleteEdge nConFID] }

/-- Modelled from the spec: `DeleteVertex(id)` "removes the vertex's presence from
adjacency lookups; does not implicitly delete edges still referencing it". -/
def GNMGraph.DeleteVertex (g : GNMGraph) (nFID : GNMGFID) : GNMGraph :=
  { g with vertices := g.vertices.filter (fun v => v != nFID),
           calls := g.calls ++ [GraphCall.DeleteVertex nFID] }

/-- Modelled from the spec: `ChangeEdge(connector, cost, invCost)` "updates weights in
place; fails silently (no-op) if the connector is unknown". -/
def GNMGraph.ChangeEdge (g : GNMGraph) (nFID : GNMGFID) (dfCost dfInvCost : Cost) : GNMGraph :=
  { g with edges := g.edges.map (fun e =>
             if e.connectorGFID = nFID then { e with cost := dfCost, inverseCost := dfInvCost }
             else e),
           calls := g.calls ++ [GraphCall.ChangeEdge nFID dfCost dfInvCost] }

/-- Set or clear the bits of `bit` in a block mask. -/
def setBlockBit (mask bit : Int) (bBlock : Bool) : Int :=
  if bBlock then Int.lor mask bit else Int.land mask (Int.lnot bit)

/-- Modelled from the spec: `ChangeBlockState(id, blocked)` "sets or clears all block bits
associated with a vertex/connector id across every edge referencing it". -/
def GNMGraph.ChangeBlockState (g : GNMGraph) (nFID : GNMGFID) (bBlock : Bool) : GNMGraph :=
  { g with edges := g.edges.map (fun e =>
             let m1 := if e.sourceGFID = nFID then setBlockBit e.blockMask GNM_BLOCK_SRC bBlock
                       else e.blockMask
             let m2 := if e.targetGFID = nFID then setBlockBit m1 GNM_BLOCK_TGT bBlock else m1
             let m3 := if e.connectorGFID = nFID then setBlockBit m2 GNM_BLOCK_CONN bBlock
                       else m2
             { e with blockMask := m3 }),
           calls := g.calls ++ [GraphCall.ChangeBlockState nFID bBlock] }

/-- Modelled from the spec: `ChangeAllBlockState(blocked)` "sets or clears block bits
network-wide". -/
def GNMGraph.ChangeAllBlockState (g : GNMGraph) (bBlock : Bool) : GNMGraph :=
  { g with edges := g.edges.map (fun e =>
             { e with blockMask := if bBlock then GNM_BLOCK_ALL else GNM_BLOCK_NONE }),
           calls := g.calls ++ [GraphCall.ChangeAllBlockState bBlock] }

/-- Modelled from the spec: `Clear()` "empties the structure". -/
def GNMGraph.Clear (g : GNMGraph) : GNMGraph :=
  { edges := [], vertices := [], calls := g.calls ++ [GraphCall.Clear] }

/-! ## The network (`GNMGenericNetwork`) -/

/-- A layer of the network: its name (`GetName`), its features, and the number of features
that were read since the last `ResetReading`. -/
structure GNMGenericLayer where
  name : String
  features : List LayerFeature := []
  nCursor : Nat := 0
  deriving DecidableEq, Repr

def GNMGenericLayer.GetName (l : GNMGenericLayer) : String := l.name

/-- The FeatureLayerIndex `m_moFeatureFIDMap` (a `std::map` from GFID to layer name). -/
abbrev FeatureFIDMap := List (GNMGFID × String)

/-- The expression `m_moFeatureFIDMap[nFID]`: the name stored for the id; when the id is
not in the map, `operator[]` enters it with an empty name and returns that. -/
def FeatureFIDMap.index (m : FeatureFIDMap) (nFID : GNMGFID) : String × FeatureFIDMap :=
  match m.lookup nFID with
  | some soLayerName => (soLayerName, m)
  | none => ("", m ++ [(nFID, "")])

/-- State of a network object: the members that the methods below use (the class
declaration in `gnm.h` is not among the sources).  `m_poGraphLayer` is `none` for the null
pointer.
`virtualFIDs` is a history variable: the ids that `GetNewVirtualFID` returned so far on
this object, newest first. -/
structure GNMGenericNetwork where
  m_apoLayers : List GNMGenericLayer
  m_asRules : List GNMRule
  m_bIsRulesChanged : Bool
  m_bIsGraphLoaded : Bool
  m_poGraphLayer : Option OGRLayer
  m_moFeatureFIDMap : FeatureFIDMap
  m_nGID : GNMGFID
  m_nVirtualConnectionGID : GNMGFID
  m_oGraph : GNMGraph
  virtualFIDs : List GNMGFID
  m_poMetadataLayer : MetadataLayer := { features := [], nNextFID := 0 }
  m_soName : String := ""
  sDescription : String := ""
  m_oSRS : String := ""
  m_nVersion : Int := 0
  m_poFeaturesLayer : Option FeaturesLayer := none
  deriving DecidableEq, Repr

namespace GNMGenericNetwork

/-- The source: `return --m_nVirtualConnectionGID;`.  The decrement is the mathematical
one: at `GINTBIG_MIN` its result is not a value of `GIntBig` and the source overflows. -/
def GetNewVirtualFID (net : GNMGenericNetwork) : GNMGFID × GNMGenericNetwork :=
  (net.m_nVirtualConnectionGID - 1,
    { net with m_nVirtualConnectionGID := net.m_nVirtualConnectionGID - 1,
               virtualFIDs := (net.m_nVirtualConnectionGID - 1) :: net.virtualFIDs })

/-- The source: `FindConnection`: installs the filter on the three ids, reads the first
feature and removes the filter. -/
def FindConnection (layer : OGRLayer) (nSrcFID nTgtFID nConFID : GNMGFID) :
    Option OGRFeature × OGRLayer :=
  let filtered := layer.SetAttributeFilter (some (AttrFilter.connection nSrcFID nTgtFID nConFID))
  (filtered.GetNextFeature, filtered.SetAttributeFilter none)

/-- Body of the reading loop of `LoadGraph` for one graph record. -/
def LoadGraph.step (net : GNMGenericNetwork) (poFeature : OGRFeature) : GNMGenericNetwork :=
  let nSrcFID := poFeature.source
  let nTgtFID := poFeature.target
  let nConFID := poFeature.connector
  let dfCost := poFeature.cost
  let dfInvCost := poFeature.invcost
  let eDir := poFeature.direction
  let nBlockState := poFeature.blocked
  let bIsBlock : Bool := GNM_BLOCK_NONE != nBlockState
  let g0 := net.m_oGraph.AddEdge nConFID nSrcFID nTgtFID (eDir == GNM_EDGE_DIR_BOTH) dfCost
    dfInvCost
  let g3 :=
    if bIsBlock then
      let g1 := if Int.land nBlockState GNM_BLOCK_SRC != 0 then g0.ChangeBlockState nSrcFID bIsBlock
                else g0
      let g2 := if Int.land nBlockState GNM_BLOCK_TGT != 0 then g1.ChangeBlockState nTgtFID bIsBlock
                else g1
      if Int.land nBlockState GNM_BLOCK_CONN != 0 then g2.ChangeBlockState nConFID bIsBlock
      else g2
    else g0
  { net with m_oGraph := g3,
             m_nVirtualConnectionGID :=
               if nConFID < net.m_nVirtualConnectionGID then nConFID
               else net.m_nVirtualConnectionGID }

/-- The source: `LoadGraph`. -/
def LoadGraph (net : GNMGenericNetwork) : CPLErr × GNMGenericNetwork :=
  if net.m_bIsGraphLoaded then (CPLErr.CE_None, net)
  else
    match net.m_poGraphLayer with
    | none => (CPLErr.CE_Failure, net)
    | some layer =>
      (CPLErr.CE_None, { layer.reading.foldl LoadGraph.step net with m_bIsGraphLoaded := true })

/-- The guard `if (!m_bIsGraphLoaded && LoadGraph() != CE_None) return CE_Failure;` at the
head of the graph operations: `none` when the guard returns, the state to go on with
otherwise. -/
def ensureGraphLoaded (net : GNMGenericNetwork) : Option GNMGenericNetwork :=
  if net.m_bIsGraphLoaded then some net
  else
    match net.LoadGraph with
    | (CPLErr.CE_None, net1) => some net1
    | (CPLErr.CE_Failure, _) => none

/-- The lines of `ConnectFeatures` that make the connector, the source and the target
virtual, in this order, when they are passed as `-1`: the ids to write as
`(source, target, connector)` and the state after the allocations. -/
def ConnectFeatures.virtualIds (net : GNMGenericNetwork) (nSrcGFID nTgtGFID nConGFID : GNMGFID) :
    (GNMGFID × GNMGFID × GNMGFID) × GNMGenericNetwork :=
  let (nConGFID1, net1) := if nConGFID = -1 then net.GetNewVirtualFID else (nConGFID, net)
  let (nSrcGFID1, net2) := if nSrcGFID = -1 then net1.GetNewVirtualFID else (nSrcGFID, net1)
  let (nTgtGFID1, net3) := if nTgtGFID = -1 then net2.GetNewVirtualFID else (nTgtGFID, net2)
  ((nSrcGFID1, nTgtGFID1, nConGFID1), net3)

/-- The same lines as a function of the counter `m_nVirtualConnectionGID` alone: the ids to
write as `(source, target, connector)`, the counter afterwards and the ids allocated,
newest first. -/
def ConnectFeatures.virtualIdsFrom (m : GNMGFID) (nSrcGFID nTgtGFID nConGFID : GNMGFID) :
    (GNMGFID × GNMGFID × GNMGFID) × GNMGFID × List GNMGFID :=
  let m1 := if nConGFID = -1 then m - 1 else m
  let m2 := if nSrcGFID = -1 then m1 - 1 else m1
  let m3 := if nTgtGFID = -1 then m2 - 1 else m2
  ((if nSrcGFID = -1 then m2 else nSrcGFID, if nTgtGFID = -1 then m3 else nTgtGFID,
      if nConGFID = -1 then m1 else nConGFID),
    m3,
    (if nTgtGFID = -1 then [m3] else []) ++ (if nSrcGFID = -1 then [m2] else []) ++
      (if nConGFID = -1 then [m1] else []))

/-- The source: `ConnectFeatures`.  Without a graph layer there is nothing to read
(a null `m_poGraphLayer` with the loaded flag set does not arise in the source, where
only `LoadGraph` sets the flag). -/
def ConnectFeatures (flt : StorageFaults) (net : GNMGenericNetwork)
    (nSrcGFID nTgtGFID nConGFID : GNMGFID) (dfCost dfInvCost : Cost) (eDir : GNMDirection) :
    CPLErr × GNMGenericNetwork :=
  match net.ensureGraphLoaded with
  | none => (CPLErr.CE_Failure, net)
  | some net0 =>
    match net0.m_poGraphLayer with
    | none => (CPLErr.CE_Failure, net0)
    | some layer0 =>
      let (poFeature, layer1) := FindConnection layer0 nSrcGFID nTgtGFID nConGFID
      let net1 := { net0 with m_poGraphLayer := some layer1 }
      if poFeature.isSome then (CPLErr.CE_Failure, net1)
      else if net1.m_asRules.isEmpty then (CPLErr.CE_Failure, net1)
      else
        let (soSrcLayerName, map1) := net1.m_moFeatureFIDMap.index nSrcGFID
        let (soTgtLayerName, map2) := map1.index nTgtGFID
        let (soConnLayerName, map3) := map2.index nConGFID
        let net2 := { net1 with m_moFeatureFIDMap := map3 }
        if !(net2.m_asRules.all
              (fun r => r.CanConnect soSrcLayerName soTgtLayerName soConnLayerName)) then
          (CPLErr.CE_Failure, net2)
        else
          let ((nSrcGFID1, nTgtGFID1, nConGFID1), net3) :=
            ConnectFeatures.virtualIds net2 nSrcGFID nTgtGFID nConGFID
          let poNew : OGRFeature :=
            { nFID := OGRNullFID, source := nSrcGFID1, target := nTgtGFID1,
              connector := nConGFID1, cost := dfCost, invcost := dfInvCost,
              direction := eDir, blocked := GNM_BLOCK_NONE }
          let (eCreate, layer2) := layer1.CreateFeature flt poNew
          if eCreate != OGRERR_NONE then (CPLErr.CE_Failure, net3)
          else
            (CPLErr.CE_None,
              { net3 with
                m_poGraphLayer := some layer2,
                m_oGraph := net3.m_oGraph.AddEdge nConGFID1 nSrcGFID1 nTgtGFID1
                  (eDir == GNM_EDGE_DIR_BOTH) dfCost dfInvCost })

/-- The source: `DisconnectFeatures`. -/
def DisconnectFeatures (flt : StorageFaults) (net : GNMGenericNetwork)
    (nSrcGFID nTgtGFID nConGFID : GNMGFID) : CPLErr × GNMGenericNetwork :=
  match net.ensureGraphLoaded with
  | none => (CPLErr.CE_Failure, net)
  | some net0 =>
    match net0.m_poGraphLayer with
    | none => (CPLErr.CE_Failure, net0)
    | some layer0 =>
      let (found, layer1) := FindConnection layer0 nSrcGFID nTgtGFID nConGFID
      let net1 := { net0 with m_poGraphLayer := some layer1 }
      match found with
      | none => (CPLErr.CE_Failure, net1)
      | some poFeature =>
        let (eDelete, layer2) := layer1.DeleteFeature flt poFeature.nFID
        if eDelete != OGRERR_NONE then (CPLErr.CE_Failure, net1)
        else
          (CPLErr.CE_None,
            { net1 with m_poGraphLayer := some layer2,
                        m_oGraph := net1.m_oGraph.DeleteEdge nConGFID })

/-- The source: `ReconnectFeatures`. -/
def ReconnectFeatures (flt : StorageFaults) (net : GNMGenericNetwork)
    (nSrcGFID nTgtGFID nConGFID : GNMGFID) (dfCost dfInvCost : Cost) (eDir : GNMDirection) :
    CPLErr × GNMGenericNetwork :=
  match net.ensureGraphLoaded with
  | none => (CPLErr.CE_Failure, net)
  | some net0 =>
    match net0.m_poGraphLayer with
    | none => (CPLErr.CE_Failure, net0)
    | some layer0 =>
      let (found, layer1) := FindConnection layer0 nSrcGFID nTgtGFID nConGFID
      let net1 := { net0 with m_poGraphLayer := some layer1 }
      match found with
      | none => (CPLErr.CE_Failure, net1)
      | some poFeature =>
        let poChanged : OGRFeature :=
          { poFeature with cost := dfCost, invcost := dfInvCost, direction := eDir }
        let (eSet, layer2) := layer1.SetFeature flt poChanged
        if eSet != OGRERR_NONE then (CPLErr.CE_Failure, net1)
        else
          (CPLErr.CE_None,
            { net1 with m_poGraphLayer := some layer2,
                        m_oGraph := net1.m_oGraph.ChangeEdge nConGFID dfCost dfInvCost })

/-- Body of the layer loop of `CreateRule`: the three flags after one more layer. -/
def CreateRule.step (oRule : GNMRule) (flags : Bool × Bool × Bool) (poLayer : GNMGenericLayer) :
    Bool × Bool × Bool :=
  let (bSrcExist, bTgtExist, bConnExist) := flags
  if EQUAL oRule.GetSourceLayerName poLayer.GetName then (true, bTgtExist, bConnExist)
  else if EQUAL oRule.GetTargetLayerName poLayer.GetName then (bSrcExist, true, bConnExist)
  else if EQUAL oRule.GetConnectorLayerName poLayer.GetName then (bSrcExist, bTgtExist, true)
  else (bSrcExist, bTgtExist, bConnExist)

/-- The block of `CreateRule` under `if (!oRule.IsAcceptAny())`: `false` when the block
returns `CE_Failure`, `true` when control reaches the `push_back`. -/
def CreateRule.layersExist (oRule : GNMRule) (apoLayers : List GNMGenericLayer) : Bool :=
  let (bSrcExist, bTgtExist, bConnExist) :=
    apoLayers.foldl (CreateRule.step oRule) (false, false, false)
  if !bSrcExist || !bTgtExist then false
  else if !bConnExist && !oRule.GetConnectorLayerName.isEmpty then false
  else true

/-- The source: `CreateRule`. -/
def CreateRule (net : GNMGenericNetwork) (pszRuleStr : String) : CPLErr × GNMGenericNetwork :=
  let oRule := GNMRule.ofString pszRuleStr
  if !oRule.IsValid then (CPLErr.CE_Failure, net)
  else if !oRule.IsAcceptAny && !CreateRule.layersExist oRule net.m_apoLayers then
    (CPLErr.CE_Failure, net)
  else
    (CPLErr.CE_None,
      { net with m_asRules := net.m_asRules ++ [oRule], m_bIsRulesChanged := true })

/-- The persisted graph records, in reading order (none without a graph layer). -/
def graphRecords (net : GNMGenericNetwork) : List OGRFeature :=
  match net.m_poGraphLayer with
  | none => []
  | some layer => layer.features

/-- The layer name that the FeatureLayerIndex gives for an id (empty when it has none). -/
def layerName (net : GNMGenericNetwork) (nFID : GNMGFID) : String :=
  (net.m_moFeatureFIDMap.lookup nFID).getD ""

end GNMGenericNetwork

/-- The `AddEdge` call that `LoadGraph` makes for a graph record, and the call recorded
for it. -/
def addEdgeOf (g : GNMGraph) (poFeature : OGRFeature) : GNMGraph :=
  g.AddEdge poFeature.connector poFeature.source poFeature.target
    (poFeature.direction == GNM_EDGE_DIR_BOTH) poFeature.cost poFeature.invcost

def addEdgeCallOf (poFeature : OGRFeature) : GraphCall :=
  GraphCall.AddEdge poFeature.connector poFeature.source poFeature.target
    (poFeature.direction == GNM_EDGE_DIR_BOTH) poFeature.cost poFeature.invcost

/-- The virtual ids handed out so far are strictly decreasing in the order of their
allocation (the history is newest first), and none of them is below the counter. -/
def VirtualIdsDecrease (net : GNMGenericNetwork) : Prop :=
  List.Pairwise (fun a b => a < b) net.virtualFIDs ∧
    ∀ v ∈ net.virtualFIDs, net.m_nVirtualConnectionGID ≤ v

/-- The arguments of one `ConnectFeatures` call, with the outcome of the store's writes
during it. -/
structure ConnectArgs where
  flt : StorageFaults
  nSrcGFID : GNMGFID
  nTgtGFID : GNMGFID
  nConGFID : GNMGFID
  dfCost : Cost
  dfInvCost : Cost
  eDir : GNMDirection

/-- A sequence of `ConnectFeatures` calls all of which succeed: the final state, or
`none` when one of the calls fails. -/
def connectAll : GNMGenericNetwork → List ConnectArgs → Option GNMGenericNetwork
  | net, [] => some net
  | net, a :: rest =>
    match net.ConnectFeatures a.flt a.nSrcGFID a.nTgtGFID a.nConGFID a.dfCost a.dfInvCost
        a.eDir with
    | (CPLErr.CE_None, net1) => connectAll net1 rest
    | (CPLErr.CE_Failure, _) => none

/-! ## Example networks -/

/-- The default rule that `CreateMetadataLayer` installs in a new network. -/
def defaultRule : GNMRule := GNMRule.ofString "ALLOW CONNECTS ANY"

/-- A store that refuses to create records. -/
def StorageFaults.refuseCreate : StorageFaults :=
  { createFails := fun _ => true, setFails := fun _ => false, deleteFails := fun _ => false }

/-- A network with the layer `Roads`, the default rule only, the features 1 and 2 in
layer `Roads`, no graph record, and the (empty) graph loaded. -/
def roadsNetwork : GNMGenericNetwork :=
  { m_apoLayers := [{ name := "Roads" }],
    m_asRules := [defaultRule],
    m_bIsRulesChanged := true,
    m_bIsGraphLoaded := true,
    m_poGraphLayer := some { features := [], nNextFID := 0, attrFilter := none },
    m_moFeatureFIDMap := [(1, "Roads"), (2, "Roads")],
    m_nGID := 3,
    m_nVirtualConnectionGID := -1,
    m_oGraph := GNMGraph.empty,
    virtualFIDs := [] }

/-- The same network with the rule `DENY CONNECTS Roads,Roads` stored after the default
rule (as `LoadMetadataLayer` stores the valid rules it reads). -/
def roadsDeniedNetwork : GNMGenericNetwork :=
  { roadsNetwork with
    m_asRules := [defaultRule, GNMRule.ofString "DENY CONNECTS Roads,Roads"] }

/-- The graph record of the connection of 1 to 2 by 3, in both directions, cost 1. -/
def recordOneTwo : OGRFeature :=
  { nFID := 0, source := 1, target := 2, connector := 3, cost := 1, invcost := 1,
    direction := GNM_EDGE_DIR_BOTH, blocked := GNM_BLOCK_NONE }

/-- The network `roadsNetwork` with this one connection, graph loaded. -/
def oneEdgeNetwork : GNMGenericNetwork :=
  { roadsNetwork with
    m_poGraphLayer := some { features := [recordOneTwo], nNextFID := 1, attrFilter := none },
    m_oGraph := addEdgeOf GNMGraph.empty recordOneTwo }

/-- The same persisted network just opened: the graph is not loaded yet. -/
def unloadedNetwork : GNMGenericNetwork :=
  { oneEdgeNetwork with m_bIsGraphLoaded := false, m_oGraph := GNMGraph.empty }

/-- Two connections, the second between two virtual vertices. -/
def twoConnects : List ConnectArgs :=
  [{ flt := StorageFaults.none, nSrcGFID := 1, nTgtGFID := 2, nConGFID := -1,
     dfCost := 5, dfInvCost := 6, eDir := GNM_EDGE_DIR_BOTH },
   { flt := StorageFaults.none, nSrcGFID := -1, nTgtGFID := -1, nConGFID := 7,
     dfCost := 1, dfInvCost := 1, eDir := GNM_EDGE_DIR_SRCTOTGT }]

/-- The network `roadsNetwork` after its rules were removed. -/
def noRulesNetwork : GNMGenericNetwork :=
  { roadsNetwork with m_asRules := [] }

/-- The network `roadsNetwork` after a first connection, of 1 to 2 by a virtual connector. -/
def firstConnected : GNMGenericNetwork :=
  (roadsNetwork.ConnectFeatures StorageFaults.none 1 2 (-1) 5 6 GNM_EDGE_DIR_BOTH).2

/-- The network `roadsNetwork` after the two connections of `twoConnects`. -/
def twoConnected : GNMGenericNetwork :=
  (connectAll roadsNetwork twoConnects).getD roadsNetwork

/-- A network object that was just opened on the graph records that `twoConnected` left. -/
def reopened : GNMGenericNetwork :=
  { roadsNetwork with m_bIsGraphLoaded := false,
                      m_poGraphLayer := twoConnected.m_poGraphLayer }

/-! ## Disconnection by id and of everything -/

namespace GNMGenericNetwork

/-- The reading loop of `DisconnectFeaturesWithId` over the features that the filtered layer
gives: each is deleted by its feature id; the loop returns at the first deletion that does
not succeed, with its error code. -/
def DisconnectFeaturesWithId.loop (flt : StorageFaults) :
    List OGRFeature → OGRLayer → OGRErr × OGRLayer
  | [], l => (OGRERR_NONE, l)
  | poFeature :: rest, l =>
    match l.DeleteFeature flt poFeature.nFID with
    | (e, l1) =>
      if e != OGRERR_NONE then (e, l1) else DisconnectFeaturesWithId.loop flt rest l1

/-- The source: `DisconnectFeaturesWithId`.  On a failed deletion the method returns inside
the loop, with the attribute filter still installed. -/
def DisconnectFeaturesWithId (flt : StorageFaults) (net : GNMGenericNetwork) (nFID : GNMGFID) :
    CPLErr × GNMGenericNetwork :=
  match net.ensureGraphLoaded with
  | none => (CPLErr.CE_Failure, net)
  | some net0 =>
    match net0.m_poGraphLayer with
    | none => (CPLErr.CE_Failure, net0)
    | some layer0 =>
      let filtered := layer0.SetAttributeFilter (some (AttrFilter.reference nFID))
      match DisconnectFeaturesWithId.loop flt filtered.reading filtered with
      | (e, layer1) =>
        if e != OGRERR_NONE then
          (CPLErr.CE_Failure, { net0 with m_poGraphLayer := some layer1 })
        else
          (CPLErr.CE_None,
            { net0 with m_poGraphLayer := some (layer1.SetAttributeFilter none),
                        m_oGraph := (net0.m_oGraph.DeleteEdge nFID).DeleteVertex nFID })

/-- The reading loop of `DisconnectAll`: each feature read is deleted by its feature id and
the outcome of the deletion is ignored (`CPL_IGNORE_RET_VAL`). -/
def DisconnectAll.loop (flt : StorageFaults) : List OGRFeature → OGRLayer → OGRLayer
  | [], l => l
  | poFeature :: rest, l => DisconnectAll.loop flt rest (l.DeleteFeature flt poFeature.nFID).2

/-- The source: `DisconnectAll`. -/
def DisconnectAll (flt : StorageFaults) (net : GNMGenericNetwork) :
    CPLErr × GNMGenericNetwork :=
  match net.ensureGraphLoaded with
  | none => (CPLErr.CE_Failure, net)
  | some net0 =>
    match net0.m_poGraphLayer with
    | none => (CPLErr.CE_Failure, net0)
    | some layer0 =>
      (CPLErr.CE_None,
        { net0 with m_poGraphLayer := some (DisconnectAll.loop flt layer0.reading layer0),
                    m_oGraph := net0.m_oGraph.Clear })

end GNMGenericNetwork

/-! ## Block state -/

/-- Modelled from the spec: `GetFeature` of a network layer: the feature with a global
id. -/
def GNMGenericLayer.GetFeature (l : GNMGenericLayer) (nFID : GNMGFID) : Option LayerFeature :=
  l.features.find? (fun f => f.nGFID == nFID)

/-- Modelled from the spec: `SetFeature` of a network layer: rewriting of the feature that
has the global id of `poFeature`; there must be one. -/
def GNMGenericLayer.SetFeature (flt : StorageFaults) (l : GNMGenericLayer)
    (poFeature : LayerFeature) : OGRErr × GNMGenericLayer :=
  if flt.layerSetFails l.name poFeature then (OGRERR_FAILURE, l)
  else if !l.features.any (fun f => f.nGFID == poFeature.nGFID) then
    (OGRERR_NON_EXISTING_FEATURE, l)
  else
    (OGRERR_NONE,
      { l with features := l.features.map
                 (fun f => if f.nGFID = poFeature.nGFID then poFeature else f) })

/-- Position and value of the first layer of a list that passes a test. -/
def firstLayer (p : GNMGenericLayer → Bool) :
    List GNMGenericLayer → Option (Nat × GNMGenericLayer)
  | [] => none
  | l :: rest =>
    if p l then some (0, l)
    else
      match firstLayer p rest with
      | none => none
      | some (i, found) => some (i + 1, found)

/-- A reading loop over graph records that rewrites each record read with `SetFeature`,
after the change `change`; it returns at the first `SetFeature` that does not succeed,
with its error code. -/
def rewriteLoop (flt : StorageFaults) (change : OGRFeature → OGRFeature) :
    List OGRFeature → OGRLayer → OGRErr × OGRLayer
  | [], l => (OGRERR_NONE, l)
  | poFeature :: rest, l =>
    match l.SetFeature flt (change poFeature) with
    | (e, l1) => if e != OGRERR_NONE then (e, l1) else rewriteLoop flt change rest l1

namespace GNMGenericNetwork

/-- Modelled from the spec: `GetLayerByName` of the dataset, which is not among the
sources: the first layer with the name, and failing that the first layer whose name is
`EQUAL` to it; with its position in `m_apoLayers`. -/
def GetLayerByName (net : GNMGenericNetwork) (pszName : String) :
    Option (Nat × GNMGenericLayer) :=
  match firstLayer (fun l => l.GetName == pszName) net.m_apoLayers with
  | some found => some found
  | none => firstLayer (fun l => EQUAL l.GetName pszName) net.m_apoLayers

/-- The change that the graph-layer loop of `ChangeBlockState` makes to one record: the
new value of `blocked`, by the `if / else if / else if` chain on source, target and
connector. -/
def ChangeBlockState.change (nFID : GNMGFID) (bIsBlock : Bool) (poFeature : OGRFeature) :
    OGRFeature :=
  let nSrcFID := poFeature.source
  let nTgtFID := poFeature.target
  let nConFID := poFeature.connector
  let nBlockState := poFeature.blocked
  if bIsBlock then
    { poFeature with blocked :=
        if nSrcFID = nFID then Int.lor nBlockState GNM_BLOCK_SRC
        else if nTgtFID = nFID then Int.lor nBlockState GNM_BLOCK_TGT
        else if nConFID = nFID then Int.lor nBlockState GNM_BLOCK_CONN
        else nBlockState }
  else
    { poFeature with blocked :=
        if nSrcFID = nFID then Int.land nBlockState (Int.lnot GNM_BLOCK_SRC)
        else if nTgtFID = nFID then Int.land nBlockState (Int.lnot GNM_BLOCK_TGT)
        else if nConFID = nFID then Int.land nBlockState (Int.lnot GNM_BLOCK_CONN)
        else nBlockState }

/-- The source: `ChangeBlockState`. -/
def ChangeBlockState (flt : StorageFaults) (net : GNMGenericNetwork) (nFID : GNMGFID)
    (bIsBlock : Bool) : CPLErr × GNMGenericNetwork :=
  match net.ensureGraphLoaded with
  | none => (CPLErr.CE_Failure, net)
  | some net0 =>
    match net0.m_moFeatureFIDMap.index nFID with
    | (soLayerName, map1) =>
      let net1 := { net0 with m_moFeatureFIDMap := map1 }
      match net1.GetLayerByName soLayerName with
      | none => (CPLErr.CE_Failure, net1)
      | some (i, poLayer) =>
        match poLayer.GetFeature nFID with
        | none => (CPLErr.CE_Failure, net1)
        | some poFeature =>
          let poBlocked : LayerFeature :=
            { poFeature with blocked := if bIsBlock then GNM_BLOCK_ALL else GNM_BLOCK_NONE }
          match poLayer.SetFeature flt poBlocked with
          | (eSet, poLayer1) =>
            if eSet != OGRERR_NONE then (CPLErr.CE_Failure, net1)
            else
              let net2 := { net1 with m_apoLayers := net1.m_apoLayers.set i poLayer1 }
              match net2.m_poGraphLayer with
              | none => (CPLErr.CE_Failure, net2)
              | some layer0 =>
                match rewriteLoop flt (ChangeBlockState.change nFID bIsBlock) layer0.reading
                    layer0 with
                | (e, layer1) =>
                  if e != OGRERR_NONE then
                    (CPLErr.CE_Failure, { net2 with m_poGraphLayer := some layer1 })
                  else
                    (CPLErr.CE_None,
                      { net2 with m_poGraphLayer := some layer1,
                                  m_oGraph := net2.m_oGraph.ChangeBlockState nFID bIsBlock })

/-- The loop of `ChangeAllBlockState` over the features of one network layer: it reads on
from where the layer stands (there is no `ResetReading`), sets `blocked` and rewrites the
feature; it returns at the first `SetFeature` that does not succeed. -/
def ChangeAllBlockState.layerLoop (flt : StorageFaults) (nMask : Int) :
    List LayerFeature → GNMGenericLayer → OGRErr × GNMGenericLayer
  | [], l => (OGRERR_NONE, l)
  | poFeature :: rest, l =>
    match ({ l with nCursor := l.nCursor + 1 } : GNMGenericLayer).SetFeature flt
        { poFeature with blocked := nMask } with
    | (e, l1) =>
      if e != OGRERR_NONE then (e, l1) else ChangeAllBlockState.layerLoop flt nMask rest l1

/-- The loop of `ChangeAllBlockState` over `m_apoLayers`: the error code and the layers
afterwards. -/
def ChangeAllBlockState.layersLoop (flt : StorageFaults) (nMask : Int) :
    List GNMGenericLayer → OGRErr × List GNMGenericLayer
  | [] => (OGRERR_NONE, [])
  | poLayer :: rest =>
    match ChangeAllBlockState.layerLoop flt nMask (poLayer.features.drop poLayer.nCursor)
        poLayer with
    | (e, poLayer1) =>
      if e != OGRERR_NONE then (e, poLayer1 :: rest)
      else
        match ChangeAllBlockState.layersLoop flt nMask rest with
        | (e2, rest1) => (e2, poLayer1 :: rest1)

/-- The value that `ChangeAllBlockState` writes to `blocked`. -/
def ChangeAllBlockState.mask (bIsBlock : Bool) : Int :=
  if bIsBlock then GNM_BLOCK_ALL else GNM_BLOCK_NONE

/-- The source: `ChangeAllBlockState`. -/
def ChangeAllBlockState (flt : StorageFaults) (net : GNMGenericNetwork) (bIsBlock : Bool) :
    CPLErr × GNMGenericNetwork :=
  match net.ensureGraphLoaded with
  | none => (CPLErr.CE_Failure, net)
  | some net0 =>
    match net0.m_poGraphLayer with
    | none => (CPLErr.CE_Failure, net0)
    | some layer0 =>
      match rewriteLoop flt
          (fun poFeature => { poFeature with blocked := ChangeAllBlockState.mask bIsBlock })
          layer0.reading layer0 with
      | (e, layer1) =>
        let net1 := { net0 with m_poGraphLayer := some layer1 }
        if e != OGRERR_NONE then (CPLErr.CE_Failure, net1)
        else
          match ChangeAllBlockState.layersLoop flt (ChangeAllBlockState.mask bIsBlock)
              net1.m_apoLayers with
          | (e2, apoLayers1) =>
            let net2 := { net1 with m_apoLayers := apoLayers1 }
            if e2 != OGRERR_NONE then (CPLErr.CE_Failure, net2)
            else
              (CPLErr.CE_None,
                { net2 with m_oGraph := net2.m_oGraph.ChangeAllBlockState bIsBlock })

end GNMGenericNetwork

/-! ## Rules: deletion and persistence -/

/-- Modelled from the spec: the keys of the metadata records (constants of `gnm_priv.h`,
which is not among the sources): "key/value pairs for name, description, version, spatial
reference, and one record per rule (`RULE1`, `RULE2`, ...)". -/
def GNM_MD_NAME : String := "NAME"

/-- Modelled from the spec: the key of the description. -/
def GNM_MD_DESCR : String := "DESCRIPTION"

/-- Modelled from the spec: the key of the spatial reference. -/
def GNM_MD_SRS : String := "SRS"

/-- Modelled from the spec: the key of the version. -/
def GNM_MD_VERSION : String := "VERSION"

/-- Modelled from the spec: the prefix of the key of a rule record. -/
def GNM_MD_RULE : String := "RULE"

/-- Modelled from the spec: the `EQUALN` macro of `cpl_port.h`, which is not among the
sources: comparison of the first `n` characters of two C strings that ignores the case of
ASCII letters. -/
def EQUALN (a b : String) (n : Nat) : Bool :=
  (a.data.take n).map upperCode == (b.data.take n).map upperCode

/-- Whether a metadata key starts with the rule prefix: the test of `LoadMetadataLayer`,
and (modelled from the spec) the attribute filter `key LIKE 'RULE%'` of `DeleteAllRules`. -/
def isRuleKey (soKey : String) : Bool :=
  EQUALN soKey GNM_MD_RULE GNM_MD_RULE.length

/-- The digits of a number, most significant first (`fuel` bounds their number). -/
def decimalDigits : Nat → Nat → List Nat
  | 0, _ => []
  | fuel + 1, n => if n < 10 then [n] else decimalDigits fuel (n / 10) ++ [n % 10]

/-- The character of a digit. -/
def digitChar (d : Nat) : Char := Char.ofNat (48 + d)

/-- What the `%d` conversion of `CPLSPrintf` makes of a number that is not negative. -/
def formatDecimal (n : Nat) : String :=
  String.mk ((decimalDigits (n + 1) n).map digitChar)

/-- The value of a digit character, `none` for another character. -/
def digitValue (c : Char) : Option Nat :=
  if 48 ≤ c.toNat ∧ c.toNat ≤ 57 then some (c.toNat - 48) else none

/-- The number that the leading digits of a text make, continuing from `acc`. -/
def atoiDigits : Nat → List Char → Nat
  | acc, [] => acc
  | acc, c :: cs =>
    match digitValue c with
    | some d => atoiDigits (acc * 10 + d) cs
    | none => acc

/-- The C library function `atoi` on the characters of a text: white space is skipped, a
sign is read, and the leading digits give the number (0 when there are none). -/
def atoiChars : List Char → Int
  | [] => 0
  | c :: cs =>
    if c = ' ' ∨ c = '\t' ∨ c = '\n' ∨ c = '\r' then atoiChars cs
    else if c = '-' then -((atoiDigits 0 cs : Nat) : Int)
    else if c = '+' then ((atoiDigits 0 cs : Nat) : Int)
    else ((atoiDigits 0 (c :: cs) : Nat) : Int)

/-- The C library function `atoi`. -/
def atoi (s : String) : Int := atoiChars s.data

/-- The assignment `moRules[k] = v` on a `std::map<int, GNMRule>`, kept as the list of its
entries in the order of the keys. -/
def mapAssign : List (Int × GNMRule) → Int → GNMRule → List (Int × GNMRule)
  | [], k, v => [(k, v)]
  | (k1, v1) :: rest, k, v =>
    if k < k1 then (k, v) :: (k1, v1) :: rest
    else if k = k1 then (k, v) :: rest
    else (k1, v1) :: mapAssign rest k v

namespace GNMGenericNetwork

/-- The loop of `DeleteRule`: the rule list without the first rule whose text is `EQUAL`
to the given text, `none` when there is no such rule. -/
def DeleteRule.loop (pszRuleStr : String) : List GNMRule → Option (List GNMRule)
  | [] => none
  | r :: rest =>
    if EQUAL pszRuleStr r.m_soRuleString then some rest
    else
      match DeleteRule.loop pszRuleStr rest with
      | none => none
      | some rest1 => some (r :: rest1)

/-- The source: `DeleteRule`. -/
def DeleteRule (net : GNMGenericNetwork) (pszRuleStr : String) : CPLErr × GNMGenericNetwork :=
  match DeleteRule.loop pszRuleStr net.m_asRules with
  | some asRules => (CPLErr.CE_None, { net with m_asRules := asRules, m_bIsRulesChanged := true })
  | none => (CPLErr.CE_Failure, net)

/-- The source: `GetRules`: the texts of the rules, in the order of the list. -/
def GetRules (net : GNMGenericNetwork) : List String :=
  net.m_asRules.map (fun r => r.m_soRuleString)

/-- The source: `DeleteAllRules`: the feature ids of the metadata records whose key starts
with the rule prefix are collected, and each is deleted; the outcome of a deletion is
ignored (`CPL_IGNORE_RET_VAL`).  The member `m_asRules` is not touched. -/
def DeleteAllRules (flt : StorageFaults) (net : GNMGenericNetwork) :
    CPLErr × GNMGenericNetwork :=
  let aFIDs := (net.m_poMetadataLayer.features.filter (fun f => isRuleKey f.soKey)).map
    (fun f => f.nFID)
  (CPLErr.CE_None,
    { net with m_poMetadataLayer :=
        aFIDs.foldl (fun l nFID => (l.DeleteFeature flt nFID).2) net.m_poMetadataLayer })

/-- The loop of `SaveRules` from index `i` on: a record `RULE<i+1>` is created for each
rule; a creation that fails makes the result `false` and the loop goes on. -/
def SaveRules.loop (flt : StorageFaults) : Nat → List GNMRule → MetadataLayer →
    Bool × MetadataLayer
  | _, [], l => (true, l)
  | i, r :: rest, l =>
    match l.CreateFeature flt
        { nFID := OGRNullFID, soKey := GNM_MD_RULE ++ formatDecimal (i + 1),
          soValue := r.m_soRuleString } with
    | (e, l1) =>
      match SaveRules.loop flt (i + 1) rest l1 with
      | (bOK, l2) => (if e != OGRERR_NONE then false else bOK, l2)

/-- The source: `SaveRules`. -/
def SaveRules (flt : StorageFaults) (net : GNMGenericNetwork) : Bool × GNMGenericNetwork :=
  if !net.m_bIsRulesChanged then (true, net)
  else
    match net.DeleteAllRules flt with
    | (e, net1) =>
      if e != CPLErr.CE_None then (false, net1)
      else
        match SaveRules.loop flt 0 net1.m_asRules net1.m_poMetadataLayer with
        | (bOK, l) => (bOK, { net1 with m_poMetadataLayer := l })

/-- The source: `LoadNetworkSrs` of this class (derived classes replace it). -/
def LoadNetworkSrs (_net : GNMGenericNetwork) : CPLErr := CPLErr.CE_Failure

/-- Body of the reading loop of `LoadMetadataLayer` for one metadata record: the state
and the map `moRules`.  The spatial reference is kept as its text (`importFromWkt`). -/
def LoadMetadataLayer.step (st : GNMGenericNetwork × List (Int × GNMRule))
    (poFeature : MetadataFeature) : GNMGenericNetwork × List (Int × GNMRule) :=
  let pKey := poFeature.soKey
  let pValue := poFeature.soValue
  if EQUAL pKey GNM_MD_NAME then ({ st.1 with m_soName := pValue }, st.2)
  else if EQUAL pKey GNM_MD_DESCR then ({ st.1 with sDescription := pValue }, st.2)
  else if EQUAL pKey GNM_MD_SRS then ({ st.1 with m_oSRS := pValue }, st.2)
  else if EQUAL pKey GNM_MD_VERSION then ({ st.1 with m_nVersion := atoi pValue }, st.2)
  else if EQUALN pKey GNM_MD_RULE GNM_MD_RULE.length then
    (st.1, mapAssign st.2 (atoiChars (pKey.data.drop GNM_MD_RULE.length))
      (GNMRule.ofString pValue))
  else st

/-- The source: `LoadMetadataLayer`; `poLayer` is what the dataset gives for the name of
the metadata layer (`none` for a null pointer, with which the method fails; the member
`m_poMetadataLayer`, null in the source then, keeps its value here). -/
def LoadMetadataLayer (net : GNMGenericNetwork) (poLayer : Option MetadataLayer) :
    CPLErr × GNMGenericNetwork :=
  match poLayer with
  | none => (CPLErr.CE_Failure, net)
  | some layer =>
    match layer.features.foldl LoadMetadataLayer.step
        ({ net with m_poMetadataLayer := layer }, []) with
    | (net1, moRules) =>
      let net2 :=
        { net1 with m_asRules :=
            net1.m_asRules ++ (moRules.map (fun kv => kv.2)).filter (fun r => r.IsValid) }
      if !net2.m_oSRS.isEmpty then
        if net2.LoadNetworkSrs != CPLErr.CE_None then (CPLErr.CE_Failure, net2)
        else (CPLErr.CE_None, net2)
      else (CPLErr.CE_None, net2)

end GNMGenericNetwork

/-! ## More example networks -/

/-- A store that refuses to delete records, in the graph layer and in the metadata layer. -/
def StorageFaults.refuseDelete : StorageFaults :=
  { createFails := fun _ => false, setFails := fun _ => false, deleteFails := fun _ => true,
    metaDeleteFails := fun _ => true }

/-- The graph record of a connection of 5 to itself by 7. -/
def recordLoop : OGRFeature :=
  { nFID := 0, source := 5, target := 5, connector := 7, cost := 1, invcost := 1,
    direction := GNM_EDGE_DIR_BOTH, blocked := GNM_BLOCK_NONE }

/-- A network with the features 5 and 6 in its layer `Roads` and the connection of 5 to
itself by 7, graph loaded. -/
def loopNetwork : GNMGenericNetwork :=
  { m_apoLayers :=
      [{ name := "Roads",
         features := [{ nGFID := 5, blocked := 0 }, { nGFID := 6, blocked := 0 }] }],
    m_asRules := [defaultRule],
    m_bIsRulesChanged := true,
    m_bIsGraphLoaded := true,
    m_poGraphLayer := some { features := [recordLoop], nNextFID := 1, attrFilter := none },
    m_moFeatureFIDMap := [(5, "Roads"), (6, "Roads")],
    m_nGID := 7,
    m_nVirtualConnectionGID := -1,
    m_oGraph := addEdgeOf GNMGraph.empty recordLoop,
    virtualFIDs := [] }

/-- The network `oneEdgeNetwork` with the connector 3 blocked, in the graph record and in
the graph. -/
def blockedNetwork : GNMGenericNetwork :=
  { oneEdgeNetwork with
    m_poGraphLayer :=
      some { features := [{ recordOneTwo with blocked := GNM_BLOCK_CONN }], nNextFID := 1,
             attrFilter := none },
    m_oGraph := (addEdgeOf GNMGraph.empty recordOneTwo).ChangeBlockState 3 true }

/-- A network whose rule list is the default rule, with the rules-changed flag set, and
whose metadata layer holds the version and two rule records of an earlier state. -/
def staleRulesNetwork : GNMGenericNetwork :=
  { roadsNetwork with
    m_poMetadataLayer :=
      { features :=
          [{ nFID := 0, soKey := "VERSION", soValue := "1" },
           { nFID := 1, soKey := "RULE1", soValue := "ALLOW CONNECTS ANY" },
           { nFID := 2, soKey := "RULE2", soValue := "DENY CONNECTS ANY" }],
        nNextFID := 3 } }

/-- A store that refuses to delete the metadata record with the feature id 2. -/
def StorageFaults.keepSecondRule : StorageFaults :=
  { createFails := fun _ => false, setFails := fun _ => false, deleteFails := fun _ => false,
    metaDeleteFails := fun nFID => nFID == 2 }

/-! ## Runs of connecting, disconnecting and reconnecting -/

/-- The connection that a graph record stands for: its source, target and connector. -/
def OGRFeature.connection (f : OGRFeature) : GNMGFID × GNMGFID × GNMGFID :=
  (f.source, f.target, f.connector)

/-- The feature id of a graph record together with its connection. -/
def OGRFeature.key (f : OGRFeature) : Int × GNMGFID × GNMGFID × GNMGFID :=
  (f.nFID, f.source, f.target, f.connector)

/-- The graph record of the connection of 2 to 1 by 4, in both directions, cost 1. -/
def recordTwoOne : OGRFeature :=
  { nFID := 1, source := 2, target := 1, connector := 4, cost := 1, invcost := 1,
    direction := GNM_EDGE_DIR_BOTH, blocked := GNM_BLOCK_NONE }

/-- The network `roadsNetwork` with the connections of 1 to 2 by 3 and of 2 to 1 by 4, graph
loaded. -/
def twoRecordsNetwork : GNMGenericNetwork :=
  { roadsNetwork with
    m_poGraphLayer :=
      some { features := [recordOneTwo, recordTwoOne], nNextFID := 2, attrFilter := none },
    m_oGraph := addEdgeOf (addEdgeOf GNMGraph.empty recordOneTwo) recordTwoOne }

/-- A store that refuses to rewrite the graph record with the feature id 1. -/
def StorageFaults.refuseSecondWrite : StorageFaults :=
  { createFails := fun _ => false, setFails := fun f => f.nFID == 1,
    deleteFails := fun _ => false }

/-- A network object before anything is loaded into it: the layer `Roads`, no rules. -/
def newNetwork : GNMGenericNetwork :=
  { roadsNetwork with m_asRules := [], m_bIsRulesChanged := false, m_bIsGraphLoaded := false,
                      m_poGraphLayer := none }

/-! ## Path finding on the graph (`GNMGraph`) -/

/-- Modelled from the spec: a path, "an ordered sequence of alternating (vertex, edge)
pairs": each vertex with the connector of the edge by which it is reached; the start vertex
comes with `-1`, "unspecified". -/
abbrev GNMPATH := List (GNMGFID × GNMGFID)

/-- Modelled from the spec: one traversal of an edge, from one of its endpoints to the
other, with the cost of the traversal. -/
structure GNMMove where
  connector : GNMGFID
  source : GNMGFID
  target : GNMGFID
  cost : Cost
  deriving DecidableEq, Repr

/-- Modelled from the spec: the traversals that an edge allows: "an edge is traversable from
A to B if (A==source and not blocked-at-source-or-connector) or (bidirectional and A==target
and not blocked-at-target-or-connector); the directional traversal uses `cost`, the reverse
traversal (when bidirectional) uses `inverseCost`". -/
def GNMStdEdge.moves (e : GNMStdEdge) : List GNMMove :=
  (if Int.land e.blockMask GNM_BLOCK_SRC = 0 ∧ Int.land e.blockMask GNM_BLOCK_CONN = 0 then
      [{ connector := e.connectorGFID, source := e.sourceGFID, target := e.targetGFID,
         cost := e.cost }]
    else []) ++
  (if e.bidirectional = true ∧ Int.land e.blockMask GNM_BLOCK_TGT = 0 ∧
        Int.land e.blockMask GNM_BLOCK_CONN = 0 then
      [{ connector := e.connectorGFID, source := e.targetGFID, target := e.sourceGFID,
         cost := e.inverseCost }]
    else [])

/-- The traversals that a graph allows, in the order of its edges. -/
def GNMGraph.moves (g : GNMGraph) : List GNMMove :=
  g.edges.flatMap GNMStdEdge.moves

/-- The traversals that start at a vertex. -/
def GNMGraph.GetOutMoves (g : GNMGraph) (nFID : GNMGFID) : List GNMMove :=
  g.moves.filter (fun m => m.source == nFID)

/-- Whether an id is "present as any edge endpoint". -/
def GNMGraph.isEndpoint (g : GNMGraph) (nFID : GNMGFID) : Bool :=
  g.edges.any (fun e => e.sourceGFID == nFID || e.targetGFID == nFID)

/-- The path that a sequence of traversals from a start vertex makes. -/
def pathOfMoves (nStartFID : GNMGFID) (moves : List GNMMove) : GNMPATH :=
  (nStartFID, -1) :: moves.map (fun m => (m.target, m.connector))

/-- The summed cost of a sequence of traversals. -/
def movesCost (moves : List GNMMove) : Cost :=
  (moves.map (fun m => m.cost)).sum

/-- An entry of the frontier of the Dijkstra search: a vertex, the traversals by which it
is reached from the start, and their accumulated cost. -/
structure DijkstraLabel where
  cost : Cost
  vertex : GNMGFID
  moves : List GNMMove
  deriving DecidableEq, Repr

/-- The entry of least accumulated cost of a frontier; among entries of equal cost the one
that was inserted first ("ties in cost are broken by insertion order"). -/
def DijkstraShortestPath.minLabel : List DijkstraLabel → Option DijkstraLabel
  | [] => none
  | l :: rest =>
    match DijkstraShortestPath.minLabel rest with
    | none => some l
    | some m => if m.cost < l.cost then some m else some l

/-- Modelled from the spec: the search of Dijkstra, "classic single-source shortest path
with a min-priority frontier keyed by accumulated cost": the entry of least cost leaves
the frontier; when its vertex is not settled yet it is settled with this entry, and the
traversals out of it enter the frontier.  The result is the list of the settled entries.
Each step takes one entry from the frontier, so `fuel` bounds the number of steps. -/
def DijkstraShortestPath.loop (g : GNMGraph) :
    Nat → List DijkstraLabel → List DijkstraLabel → List DijkstraLabel
  | 0, settled, _ => settled
  | fuel + 1, settled, frontier =>
    match DijkstraShortestPath.minLabel frontier with
    | none => settled
    | some l =>
      if settled.any (fun x => x.vertex == l.vertex) then
        DijkstraShortestPath.loop g fuel settled (frontier.erase l)
      else
        DijkstraShortestPath.loop g fuel (settled ++ [l])
          (frontier.erase l ++
            (g.GetOutMoves l.vertex).map
              (fun m => { cost := l.cost + m.cost, vertex := m.target,
                          moves := l.moves ++ [m] }))

/-- The traversals of the path that the Dijkstra search finds from a start to an end
vertex: `none` when the end is not reached and when "a start or end id [is] not present as
any edge endpoint".  The frontier receives the start entry and at most one entry for each
traversal of the graph, which bounds the number of steps. -/
def GNMGraph.DijkstraMoves (g : GNMGraph) (nStartFID nEndFID : GNMGFID) :
    Option (List GNMMove) :=
  if !g.isEndpoint nStartFID || !g.isEndpoint nEndFID then none
  else
    ((DijkstraShortestPath.loop g (g.moves.length + 1) []
        [{ cost := 0, vertex := nStartFID, moves := [] }]).find?
      (fun l => l.vertex == nEndFID)).map (fun l => l.moves)

/-- Modelled from the spec: `Dijkstra(start, end)`: "returns an ordered sequence of
alternating (vertex, edge) pairs from start to end, or an empty result if unreachable". -/
def GNMGraph.DijkstraShortestPath (g : GNMGraph) (nStartFID nEndFID : GNMGFID) : GNMPATH :=
  match g.DijkstraMoves nStartFID nEndFID with
  | none => []
  | some moves => pathOfMoves nStartFID moves

/-- The vertices of a sequence of traversals from a start vertex, the start first. -/
def movesVertices (nStartFID : GNMGFID) (moves : List GNMMove) : List GNMGFID :=
  nStartFID :: moves.map (fun m => m.target)

/-- The graph in which Yen's algorithm searches the spur path at the `i`-th node of the
accepted path `P`: without "the edges already used by previously accepted paths sharing
that prefix" (the edge that follows the prefix in an accepted path) and without the edges
at the nodes of the prefix before the spur node, "that would duplicate the root-path
prefix". -/
def KShortestPaths.spurGraph (g : GNMGraph) (nStartFID : GNMGFID) (A : List (List GNMMove))
    (P : List GNMMove) (i : Nat) : GNMGraph :=
  let removedEdges : List GNMGFID :=
    A.filterMap (fun Q => if Q.take i = P.take i then (Q.get? i).map (fun m => m.connector)
                          else none)
  let removedVertices : List GNMGFID := (movesVertices nStartFID P).take i
  { g with edges := g.edges.filter (fun e =>
      !removedEdges.contains e.connectorGFID && !removedVertices.contains e.sourceGFID &&
        !removedVertices.contains e.targetGFID) }

/-- The candidates that the accepted path `P` gives: for each node of `P` except the last,
the prefix of `P` up to the node spliced with the Dijkstra path from the node to the end in
the spur graph, when there is one. -/
def KShortestPaths.candidates (g : GNMGraph) (nStartFID nEndFID : GNMGFID)
    (A : List (List GNMMove)) (P : List GNMMove) : List (List GNMMove) :=
  (List.range P.length).filterMap (fun i =>
    ((KShortestPaths.spurGraph g nStartFID A P i).DijkstraMoves
        ((movesVertices nStartFID P).getD i nStartFID) nEndFID).map
      (fun spur => P.take i ++ spur))

/-- The first candidate of least cost in a pending list. -/
def KShortestPaths.minCandidate : List (List GNMMove) → Option (List GNMMove)
  | [] => none
  | c :: rest =>
    match KShortestPaths.minCandidate rest with
    | none => some c
    | some m => if movesCost m < movesCost c then some m else some c

/-- The "lowest-cost unique candidate" of the pending list: the first candidate of least
cost among those whose path is not accepted yet. -/
def KShortestPaths.pop (nStartFID : GNMGFID) (A B : List (List GNMMove)) :
    Option (List GNMMove) :=
  KShortestPaths.minCandidate
    (B.filter (fun c => !(A.map (pathOfMoves nStartFID)).contains (pathOfMoves nStartFID c)))

/-- The iterations of Yen's algorithm: `A` is the accepted list, `B` the pending list;
each iteration adds the candidates of the path accepted last and accepts one candidate. -/
def KShortestPaths.loop (g : GNMGraph) (nStartFID nEndFID : GNMGFID) :
    Nat → List (List GNMMove) → List (List GNMMove) → List (List GNMMove)
  | 0, A, _ => A
  | n + 1, A, B =>
    match A.getLast? with
    | none => A
    | some P =>
      match KShortestPaths.pop nStartFID A
          (B ++ KShortestPaths.candidates g nStartFID nEndFID A P) with
      | none => A
      | some c =>
        KShortestPaths.loop g nStartFID nEndFID n (A ++ [c])
          ((B ++ KShortestPaths.candidates g nStartFID nEndFID A P).erase c)

/-- Modelled from the spec: `KShortestPaths(start, end, k)`, "Yen's algorithm: compute the
first shortest path via Dijkstra; then iteratively, for each node in the previous accepted
path (except the last), [...] run Dijkstra from that node to `end`, splice with the prefix,
and push the candidate into a cost-ordered pending set; pop the lowest-cost unique
candidate into the accepted list.  Stops when `k` paths are found or no further candidates
exist." -/
def GNMGraph.KShortestPaths (g : GNMGraph) (nStartFID nEndFID : GNMGFID) (nK : Int) :
    List GNMPATH :=
  if nK ≤ 0 then []
  else
    match g.DijkstraMoves nStartFID nEndFID with
    | none => []
    | some first =>
      (KShortestPaths.loop g nStartFID nEndFID (nK.toNat - 1) [first] []).map
        (pathOfMoves nStartFID)

/-- The traversal of `ConnectedComponents`: the vertices of the queue are visited in turn;
a vertex that is visited for the first time gives the pair of each traversal out of it, and
the targets that are new join the queue. -/
def ConnectedComponents.loop (g : GNMGraph) :
    Nat → List GNMGFID → List GNMGFID → GNMPATH → GNMPATH
  | 0, _, _, acc => acc
  | _ + 1, [], _, acc => acc
  | fuel + 1, a :: queue, seen, acc =>
    if seen.contains a then ConnectedComponents.loop g fuel queue seen acc
    else
      ConnectedComponents.loop g fuel
        (queue ++ ((g.GetOutMoves a).map (fun m => m.target)).filter
          (fun v => !(a :: seen).contains v))
        (a :: seen)
        (acc ++ (g.GetOutMoves a).map (fun m => (m.target, m.connector)))

/-- Modelled from the spec: `ConnectedComponents(emitters)`, "multi-source breadth/depth
traversal from the given set of GFIDs following only non-blocked, traversal-eligible edges
[...], returning every vertex and edge reached.  With an empty emitter set the result is
empty".  An emitter that is an edge endpoint comes first in the result, with `-1`. -/
def GNMGraph.ConnectedComponents (g : GNMGraph) (anEmitters : List GNMGFID) : GNMPATH :=
  ConnectedComponents.loop g (anEmitters.length + g.moves.length + 1) anEmitters []
    ((anEmitters.filter g.isEndpoint).map (fun v => (v, -1)))

/-! ## Features index, layers and path queries of the network -/

/-- The assignment `m_moFeatureFIDMap[nFID] = pFeatureClass`. -/
def FeatureFIDMap.assign (m : FeatureFIDMap) (nFID : GNMGFID) (pFeatureClass : String) :
    FeatureFIDMap :=
  if m.any (fun kv => kv.1 == nFID) then
    m.map (fun kv => if kv.1 = nFID then (nFID, pFeatureClass) else kv)
  else m ++ [(nFID, pFeatureClass)]

/-- Modelled from the spec: the option list `papszOptions` of a path query, as its
name/value pairs in order. -/
abbrev Options := List (String × String)

/-- Modelled from the spec: the names of the path-query options `includeEdges`,
`includeVertices`, `pathCount` and `emitterIds` (constants of `gnm_priv.h`, which is not
among the sources). -/
def GNM_MD_FETCHEDGES : String := "includeEdges"

/-- Modelled from the spec: the name of the option `includeVertices`. -/
def GNM_MD_FETCHVERTEX : String := "includeVertices"

/-- Modelled from the spec: the name of the option `pathCount`. -/
def GNM_MD_NUM_PATHS : String := "pathCount"

/-- Modelled from the spec: the name of the option `emitterIds`. -/
def GNM_MD_EMITTER : String := "emitterIds"

/-- Modelled from the spec: `CSLFetchNameValue` of `cpl_string.h`, which is not among the
sources: the value of the first pair with the name, compared without regard to case;
`none` for a null list and when there is no such pair. -/
def CSLFetchNameValue (papszOptions : Option Options) (pszName : String) : Option String :=
  match papszOptions with
  | none => none
  | some l => (l.find? (fun kv => EQUAL kv.1 pszName)).map (fun kv => kv.2)

/-- Modelled from the spec: `CSLFetchNameValueDef`: the value, or the default. -/
def CSLFetchNameValueDef (papszOptions : Option Options) (pszName pszDefault : String) :
    String :=
  (CSLFetchNameValue papszOptions pszName).getD pszDefault

/-- Modelled from the spec: `CSLFetchNameValueMultiple`: the values of all pairs with the
name, in order. -/
def CSLFetchNameValueMultiple (papszOptions : Options) (pszName : String) : List String :=
  (papszOptions.filter (fun kv => EQUAL kv.1 pszName)).map (fun kv => kv.2)

/-- Modelled from the spec: `CPLTestBool`: every text but `NO`, `FALSE`, `OFF` and `0` is
true. -/
def CPLTestBool (pszValue : String) : Bool :=
  !(EQUAL pszValue "NO" || EQUAL pszValue "FALSE" || EQUAL pszValue "OFF" ||
    EQUAL pszValue "0")

/-- Modelled from the spec: `CPLFetchBool`: the truth value of the option, or the default
when the option is not given. -/
def CPLFetchBool (papszOptions : Option Options) (pszKey : String) (bDefault : Bool) : Bool :=
  match CSLFetchNameValue papszOptions pszKey with
  | none => bDefault
  | some v => CPLTestBool v

/-- The selector of the path algorithm. -/
inductive GNMGraphAlgorithmType
  | GATDijkstraShortestPath
  | GATKShortestPath
  | GATConnectedComponents
  deriving DecidableEq, Repr

/-- Modelled from the spec: a record of the result of a path query: a feature "annotated
with path rank and an edge/vertex discriminator flag", and with the name of its layer. -/
structure ResultRecord where
  poFeature : LayerFeature
  soLayerName : String
  nPathNo : Int
  bIsEdge : Bool
  deriving DecidableEq, Repr

/-- Modelled from the spec: the result of a path query (`OGRGNMWrappedResultLayer`, which is
not among the sources): the records inserted, in the order of their insertion. -/
abbrev OGRGNMWrappedResultLayer := List ResultRecord

/-- Modelled from the spec: `OGRGNMWrappedResultLayer::InsertFeature`. -/
def OGRGNMWrappedResultLayer.InsertFeature (poResLayer : OGRGNMWrappedResultLayer)
    (poFeature : LayerFeature) (soLayerName : String) (nPathNo : Int) (bIsEdge : Bool) :
    OGRGNMWrappedResultLayer :=
  poResLayer ++ [{ poFeature := poFeature, soLayerName := soLayerName, nPathNo := nPathNo,
                   bIsEdge := bIsEdge }]

namespace GNMGenericNetwork

/-- The source: `GetNewGlobalFID`: `return m_nGID++;`.  The increment is the mathematical
one: at `GINTBIG_MAX` its result is not a value of `GIntBig` and the source overflows. -/
def GetNewGlobalFID (net : GNMGenericNetwork) : GNMGFID × GNMGenericNetwork :=
  (net.m_nGID, { net with m_nGID := net.m_nGID + 1 })

/-- Body of the reading loop of `LoadFeaturesLayer` for one features index record.
`LoadNetworkLayer` is a virtual method that the classes derived from this one define; it
is taken to change the layer list only.  The sum `nFID + 1` is the mathematical one, which
for the GFID `GINTBIG_MAX` is not a value of `GIntBig`. -/
def LoadFeaturesLayer.step
    (LoadNetworkLayer : List GNMGenericLayer → String → List GNMGenericLayer)
    (net : GNMGenericNetwork) (poFeature : FeaturesRecord) : GNMGenericNetwork :=
  let nFID := poFeature.gfid
  let pFeatureClass := poFeature.layerName
  { net with m_nGID := if nFID ≥ net.m_nGID then nFID + 1 else net.m_nGID,
             m_moFeatureFIDMap := net.m_moFeatureFIDMap.assign nFID pFeatureClass,
             m_apoLayers := LoadNetworkLayer net.m_apoLayers pFeatureClass }

/-- The source: `LoadFeaturesLayer`; `poLayer` is what the dataset gives for the name of the
features layer (`none` for a null pointer). -/
def LoadFeaturesLayer
    (LoadNetworkLayer : List GNMGenericLayer → String → List GNMGenericLayer)
    (net : GNMGenericNetwork) (poLayer : Option FeaturesLayer) :
    CPLErr × GNMGenericNetwork :=
  match poLayer with
  | none => (CPLErr.CE_Failure, { net with m_poFeaturesLayer := none })
  | some layer =>
    (CPLErr.CE_None,
      layer.features.foldl (LoadFeaturesLayer.step LoadNetworkLayer)
        { net with m_poFeaturesLayer := some layer })

/-- The first reading loop of `DeleteLayer`, over the features index records: the records
of the layer are deleted (the outcome is ignored, `CPL_IGNORE_RET_VAL`) and their GFIDs
collected in the set `anGFIDs`. -/
def DeleteLayer.featuresLoop (flt : StorageFaults) (pszLayerName : String) :
    List FeaturesRecord → List GNMGFID × FeaturesLayer → List GNMGFID × FeaturesLayer
  | [], st => st
  | poFeature :: rest, (anGFIDs, l) =>
    if EQUAL poFeature.layerName pszLayerName then
      DeleteLayer.featuresLoop flt pszLayerName rest
        (anGFIDs.insert poFeature.gfid, (l.DeleteFeature flt poFeature.nFID).2)
    else DeleteLayer.featuresLoop flt pszLayerName rest (anGFIDs, l)

/-- The second reading loop of `DeleteLayer`, over the graph records: a record whose source,
target or connector is in `anGFIDs` is deleted (the outcome is ignored). -/
def DeleteLayer.graphLoop (flt : StorageFaults) (anGFIDs : List GNMGFID) :
    List OGRFeature → OGRLayer → OGRLayer
  | [], l => l
  | poFeature :: rest, l =>
    if anGFIDs.contains poFeature.source then
      DeleteLayer.graphLoop flt anGFIDs rest (l.DeleteFeature flt poFeature.nFID).2
    else if anGFIDs.contains poFeature.target then
      DeleteLayer.graphLoop flt anGFIDs rest (l.DeleteFeature flt poFeature.nFID).2
    else if anGFIDs.contains poFeature.connector then
      DeleteLayer.graphLoop flt anGFIDs rest (l.DeleteFeature flt poFeature.nFID).2
    else DeleteLayer.graphLoop flt anGFIDs rest l

/-- The loop of `DeleteLayer` over the rules, `for (size_t i = m_asRules.size(); i > 0;
--i)`: the rule list and the rules-changed flag after the iterations `i, i - 1, ..., 1`. -/
def DeleteLayer.rulesLoop (pszLayerName : String) :
    Nat → List GNMRule × Bool → List GNMRule × Bool
  | 0, st => st
  | i + 1, (asRules, bIsRulesChanged) =>
    match asRules.get? i with
    | none => DeleteLayer.rulesLoop pszLayerName i (asRules, bIsRulesChanged)
    | some oRule =>
      if EQUAL oRule.GetSourceLayerName pszLayerName then
        DeleteLayer.rulesLoop pszLayerName i (asRules.eraseIdx i, true)
      else if EQUAL oRule.GetTargetLayerName pszLayerName then
        DeleteLayer.rulesLoop pszLayerName i (asRules.eraseIdx i, true)
      else if EQUAL oRule.GetConnectorLayerName pszLayerName then
        DeleteLayer.rulesLoop pszLayerName i (asRules.eraseIdx i, true)
      else DeleteLayer.rulesLoop pszLayerName i (asRules, bIsRulesChanged)

/-- The source: `DeleteLayer`.  The source dereferences `m_poFeaturesLayer` and
`m_poGraphLayer`; when one of them is null the loop over it is left out here. -/
def DeleteLayer (flt : StorageFaults) (net : GNMGenericNetwork) (nIndex : Int) :
    OGRErr × GNMGenericNetwork :=
  if nIndex < 0 ∨ nIndex ≥ (net.m_apoLayers.length : Int) then (OGRERR_FAILURE, net)
  else
    match net.m_apoLayers.get? nIndex.toNat with
    | none => (OGRERR_FAILURE, net)
    | some poLayer =>
      let pszLayerName := poLayer.GetName
      let (anGFIDs, poFeaturesLayer) : List GNMGFID × Option FeaturesLayer :=
        match net.m_poFeaturesLayer with
        | none => ([], none)
        | some l =>
          let r := DeleteLayer.featuresLoop flt pszLayerName l.features ([], l)
          (r.1, some r.2)
      let poGraphLayer : Option OGRLayer :=
        match net.m_poGraphLayer with
        | none => none
        | some l => some (DeleteLayer.graphLoop flt anGFIDs l.reading l)
      let rules :=
        DeleteLayer.rulesLoop pszLayerName net.m_asRules.length
          (net.m_asRules, net.m_bIsRulesChanged)
      (OGRERR_NONE,
        { net with m_poFeaturesLayer := poFeaturesLayer,
                   m_poGraphLayer := poGraphLayer,
                   m_asRules := rules.1,
                   m_bIsRulesChanged := rules.2,
                   m_apoLayers := net.m_apoLayers.eraseIdx nIndex.toNat })

/-- The source: `GetFeatureByGlobalFID`: the feature with the id in the first layer whose
name is `EQUAL` to the name that `m_moFeatureFIDMap[nFID]` gives; `none` for the null
pointer. -/
def GetFeatureByGlobalFID (net : GNMGenericNetwork) (nFID : GNMGFID) :
    Option LayerFeature × GNMGenericNetwork :=
  match net.m_moFeatureFIDMap.index nFID with
  | (soLayerName, map1) =>
    (match firstLayer (fun l => EQUAL soLayerName l.GetName) net.m_apoLayers with
      | none => none
      | some (_, poLayer) => poLayer.GetFeature nFID,
      { net with m_moFeatureFIDMap := map1 })

/-- The part of the body of the loop of `FillResultLayer` for one id of a path segment:
the feature of the id, when there is one, is inserted with the layer name of the id, the
number of the path and the flag. -/
def FillResultLayer.insert (nNoOfPath : Int) (bIsEdge : Bool)
    (st : GNMGenericNetwork × OGRGNMWrappedResultLayer) (nGFID : GNMGFID) :
    GNMGenericNetwork × OGRGNMWrappedResultLayer :=
  match st.1.m_moFeatureFIDMap.index nGFID with
  | (soLayerName, map1) =>
    match ({ st.1 with m_moFeatureFIDMap := map1 } : GNMGenericNetwork).GetFeatureByGlobalFID
        nGFID with
    | (some poFeature, net1) => (net1, st.2.InsertFeature poFeature soLayerName nNoOfPath bIsEdge)
    | (none, net1) => (net1, st.2)

/-- Body of the loop of `FillResultLayer` for one segment of the path. -/
def FillResultLayer.step (nNoOfPath : Int) (bReturnVertices bReturnEdges : Bool)
    (st : GNMGenericNetwork × OGRGNMWrappedResultLayer) (seg : GNMGFID × GNMGFID) :
    GNMGenericNetwork × OGRGNMWrappedResultLayer :=
  let st1 := if bReturnVertices then FillResultLayer.insert nNoOfPath false st seg.1 else st
  if bReturnEdges then FillResultLayer.insert nNoOfPath true st1 seg.2 else st1

/-- The source: `FillResultLayer`. -/
def FillResultLayer (net : GNMGenericNetwork) (poResLayer : OGRGNMWrappedResultLayer)
    (path : GNMPATH) (nNoOfPath : Int) (bReturnVertices bReturnEdges : Bool) :
    GNMGenericNetwork × OGRGNMWrappedResultLayer :=
  path.foldl (FillResultLayer.step nNoOfPath bReturnVertices bReturnEdges) (net, poResLayer)

/-- The loop of `GetPath` over the k shortest paths, from the index `i` on: the path with
the index `i` is filled in with the number `i + 1`. -/
def GetPath.fillPaths (bReturnVertices bReturnEdges : Bool) :
    Nat → List GNMPATH → GNMGenericNetwork × OGRGNMWrappedResultLayer →
    GNMGenericNetwork × OGRGNMWrappedResultLayer
  | _, [], st => st
  | i, path :: rest, st =>
    GetPath.fillPaths bReturnVertices bReturnEdges (i + 1) rest
      (FillResultLayer st.1 st.2 path ((i : Int) + 1) bReturnVertices bReturnEdges)

/-- The emitter list that `GetPath` builds for a connected-components query: the emitters
of the options (`atol` of each value), then the start id and the end id, each under the
test `nStartFID != -1` as in the source. -/
def GetPath.emitters (nStartFID nEndFID : GNMGFID) (papszOptions : Option Options) :
    List GNMGFID :=
  let anEmitters0 : List GNMGFID :=
    match papszOptions with
    | none => []
    | some l => (CSLFetchNameValueMultiple l GNM_MD_EMITTER).map atoi
  let anEmitters1 := if nStartFID ≠ -1 then anEmitters0 ++ [nStartFID] else anEmitters0
  if nStartFID ≠ -1 then anEmitters1 ++ [nEndFID] else anEmitters1

/-- The source: `GetPath`; `poMEMDrv` tells whether the driver registry has the `Memory`
driver, and the result is `none` for the null pointer.  (The name and the spatial reference
of the result layer are left out.) -/
def GetPath (net : GNMGenericNetwork) (poMEMDrv : Bool) (nStartFID nEndFID : GNMGFID)
    (eAlgorithm : GNMGraphAlgorithmType) (papszOptions : Option Options) :
    Option OGRGNMWrappedResultLayer × GNMGenericNetwork :=
  match net.ensureGraphLoaded with
  | none => (none, net)
  | some net0 =>
    if !poMEMDrv then (none, net0)
    else
      let poResLayer : OGRGNMWrappedResultLayer := []
      let bReturnEdges := CPLFetchBool papszOptions GNM_MD_FETCHEDGES true
      let bReturnVertices := CPLFetchBool papszOptions GNM_MD_FETCHVERTEX true
      match eAlgorithm with
      | GNMGraphAlgorithmType.GATDijkstraShortestPath =>
        let path := net0.m_oGraph.DijkstraShortestPath nStartFID nEndFID
        let r := FillResultLayer net0 poResLayer path 1 bReturnVertices bReturnEdges
        (some r.2, r.1)
      | GNMGraphAlgorithmType.GATKShortestPath =>
        let nK := atoi (CSLFetchNameValueDef papszOptions GNM_MD_NUM_PATHS "1")
        let paths := net0.m_oGraph.KShortestPaths nStartFID nEndFID nK
        let r := GetPath.fillPaths bReturnVertices bReturnEdges 0 paths (net0, poResLayer)
        (some r.2, r.1)
      | GNMGraphAlgorithmType.GATConnectedComponents =>
        let anEmitters := GetPath.emitters nStartFID nEndFID papszOptions
        let path := net0.m_oGraph.ConnectedComponents anEmitters
        let r := FillResultLayer net0 poResLayer path 1 bReturnVertices bReturnEdges
        (some r.2, r.1)

end GNMGenericNetwork

/-- Whether a recorded call on the graph is an `AddEdge` call. -/
def GraphCall.isAddEdge : GraphCall → Bool
  | .AddEdge _ _ _ _ _ _ => true
  | _ => false

/-- Features index records of the features 1 and 2; the feature 1 is recorded twice, first
for the layer `Roads` and then for the layer `Rivers`. -/
def featuresIndex : FeaturesLayer :=
  { features :=
      [{ nFID := 0, gfid := 1, layerName := "Roads" },
       { nFID := 1, gfid := 2, layerName := "Roads" },
       { nFID := 2, gfid := 1, layerName := "Rivers" }] }

/-- The network `roadsNetwork` with its features index records: the features 1 and 2 of
the layer `Roads`. -/
def indexedNetwork : GNMGenericNetwork :=
  { roadsNetwork with
    m_poFeaturesLayer :=
      some { features := [{ nFID := 0, gfid := 1, layerName := "Roads" },
                          { nFID := 1, gfid := 2, layerName := "Roads" }] } }

/-- Whether a rule names a layer as its source, its target or its connector (the names are
compared with `EQUAL`). -/
def GNMRule.namesLayer (r : GNMRule) (pszLayerName : String) : Bool :=
  EQUAL r.GetSourceLayerName pszLayerName || EQUAL r.GetTargetLayerName pszLayerName ||
    EQUAL r.GetConnectorLayerName pszLayerName

/-- The network `indexedNetwork` with a second layer `Rivers` and three rules, two of which
name the layer `Roads`. -/
def twoLayersNetwork : GNMGenericNetwork :=
  { indexedNetwork with
    m_apoLayers := [{ name := "Roads" }, { name := "Rivers" }],
    m_bIsRulesChanged := false,
    m_asRules :=
      [GNMRule.ofString "ALLOW CONNECTS Roads,Rivers", defaultRule,
       GNMRule.ofString "DENY CONNECTS Rivers,Rivers,roads"] }

/-- The record that `FillResultLayer` inserts for an id: the feature that
`GetFeatureByGlobalFID` gives for the id, when there is one, with the layer name of the id,
the number of the path and the flag. -/
def GNMGenericNetwork.resultRecords (net : GNMGenericNetwork) (nNoOfPath : Int)
    (bIsEdge : Bool) (nGFID : GNMGFID) : List ResultRecord :=
  match (net.GetFeatureByGlobalFID nGFID).1 with
  | some poFeature =>
    [{ poFeature := poFeature, soLayerName := net.layerName nGFID, nPathNo := nNoOfPath,
       bIsEdge := bIsEdge }]
  | none => []

/-- The records of a path: for each pair, in the order of the path, the record of the
vertex with the vertex flag, when vertices are asked for, and then the record of the edge
with the edge flag, when edges are asked for. -/
def GNMGenericNetwork.pathRecords (net : GNMGenericNetwork) (path : GNMPATH)
    (nNoOfPath : Int) (bReturnVertices bReturnEdges : Bool) : List ResultRecord :=
  path.flatMap (fun seg =>
    (if bReturnVertices then net.resultRecords nNoOfPath false seg.1 else []) ++
      (if bReturnEdges then net.resultRecords nNoOfPath true seg.2 else []))

/-- A walk in the graph from a vertex to a vertex: a sequence of traversals that the graph
allows, each starting where the one before it ends. -/
def GNMGraph.IsWalk (g : GNMGraph) : GNMGFID → List GNMMove → GNMGFID → Prop
  | a, [], b => a = b
  | a, m :: rest, b => m ∈ g.moves ∧ m.source = a ∧ g.IsWalk m.target rest b

/-- The entry with which the Dijkstra search starts. -/
def DijkstraShortestPath.start (nStartFID : GNMGFID) : DijkstraLabel :=
  { cost := 0, vertex := nStartFID, moves := [] }

/-- The entry that a traversal out of the vertex of an entry gives. -/
def DijkstraLabel.extend (l : DijkstraLabel) (m : GNMMove) : DijkstraLabel :=
  { cost := l.cost + m.cost, vertex := m.target, moves := l.moves ++ [m] }

/-- The invariant of the Dijkstra search from `s`, for the settled entries and the
frontier, with `fuel` steps left: a settled entry holds a cheapest walk from `s` to its
vertex, which is a simple path through settled vertices; an entry of the frontier is the
start entry or extends a settled entry by one traversal; each traversal out of a settled
vertex leads to a settled vertex or has its entry in the frontier; and the steps left
suffice for the entries in the frontier and those that can still enter it. -/
def DijkstraShortestPath.Inv (g : GNMGraph) (s : GNMGFID) (fuel : Nat)
    (settled frontier : List DijkstraLabel) : Prop :=
  (∀ l ∈ settled, g.IsWalk s l.moves l.vertex ∧ l.cost = movesCost l.moves ∧
    (∀ w, g.IsWalk s w l.vertex → l.cost ≤ movesCost w) ∧
    (movesVertices s l.moves).Nodup ∧
    (∀ v ∈ movesVertices s l.moves, ∃ l1 ∈ settled, l1.vertex = v)) ∧
  (∀ l ∈ frontier, l = DijkstraShortestPath.start s ∨
    ∃ l0 ∈ settled, ∃ m ∈ g.GetOutMoves l0.vertex, l = l0.extend m) ∧
  (∀ l ∈ settled, ∀ m ∈ g.GetOutMoves l.vertex,
    (∃ l1 ∈ settled, l1.vertex = m.target) ∨ l.extend m ∈ frontier) ∧
  ((∃ l ∈ settled, l.vertex = s) ∨ DijkstraShortestPath.start s ∈ frontier) ∧
  frontier.length +
    (g.moves.filter (fun m => !settled.any (fun x => x.vertex == m.source))).length ≤ fuel

instance GNMGraph.decidableIsWalk (g : GNMGraph) :
    (a : GNMGFID) → (w : List GNMMove) → (b : GNMGFID) → Decidable (g.IsWalk a w b)
  | a, [], b => inferInstanceAs (Decidable (a = b))
  | a, m :: rest, b =>
    have := GNMGraph.decidableIsWalk g m.target rest b
    inferInstanceAs (Decidable (m ∈ g.moves ∧ m.source = a ∧ g.IsWalk m.target rest b))

/-- A graph with a negative cost: the edges 1 → 2 (connector 101, cost 2), 1 → 3
(connector 102, cost 3) and 3 → 2 (connector 103, cost -2), each in one direction. -/
def negativeCostGraph : GNMGraph :=
  ((GNMGraph.empty.AddEdge 101 1 2 false 2 2).AddEdge 102 1 3 false 3 3).AddEdge 103 3 2 false
    (-2) (-2)

/-- The graph of the scenario of the spec: the edges A → B (cost 1, connector C1, forward)
and B → C (cost 1, connector C2, bidirectional, inverse cost 2), with A, B, C = 1, 2, 3 and
C1, C2 = 101, 102. -/
def scenarioGraph : GNMGraph :=
  (GNMGraph.empty.AddEdge 101 1 2 false 1 1).AddEdge 102 2 3 true 1 2

/-- A simple path in the graph: a walk on which no vertex repeats. -/
def GNMGraph.IsPath (g : GNMGraph) (a : GNMGFID) (w : List GNMMove) (b : GNMGFID) : Prop :=
  g.IsWalk a w b ∧ (movesVertices a w).Nodup

/-- The edges of the graph are keyed by their connector ids: no two edges share one. -/
def GNMGraph.UniqueConnectors (g : GNMGraph) : Prop :=
  (g.edges.map (fun e => e.connectorGFID)).Nodup

/-- The length of the longest common prefix of two sequences of traversals. -/
def commonPrefixLength : List GNMMove → List GNMMove → Nat
  | a :: P, b :: Q => if a = b then commonPrefixLength P Q + 1 else 0
  | _, _ => 0

/-- A graph with three simple paths from 1 to 4: the edges 1 → 2 (connector 101, cost 1),
2 → 4 (connector 102, cost 1), 1 → 3 (connector 103, cost 1), 3 → 4 (connector 104, cost 2)
and 2 → 3 (connector 105, cost 1), each in one direction. -/
def threePathsGraph : GNMGraph :=
  ((((GNMGraph.empty.AddEdge 101 1 2 false 1 1).AddEdge 102 2 4 false 1 1).AddEdge 103 1 3 false
    1 1).AddEdge 104 3 4 false 2 2).AddEdge 105 2 3 false 1 1

instance GNMGraph.decidableUniqueConnectors (g : GNMGraph) : Decidable g.UniqueConnectors :=
  inferInstanceAs
    (Decidable (List.Nodup (g.edges.map (fun e : GNMStdEdge => e.connectorGFID))))

/-! ## The states of a network object -/

/-- The counter of virtual ids and the virtual ids handed out so far are not above the
greatest value of `GIntBig`. -/
def VirtualIdsBelowMax (net : GNMGenericNetwork) : Prop :=
  net.m_nVirtualConnectionGID ≤ GINTBIG_MAX ∧ ∀ v ∈ net.virtualFIDs, v ≤ GINTBIG_MAX

/-- The states a network object can be in: it starts (constructed, created or opened)
without having handed out a virtual id and with a counter of virtual ids that is a value
of `GIntBig`, and then goes through calls of its methods, with any arguments and any
behaviour of the store.  The last rule stands for the methods of the class that are not
embedded here: in the source the counter occurs in `GetNewVirtualFID` and `LoadGraph`
only. -/
inductive Reachable : GNMGenericNetwork → Prop
  | start (net : GNMGenericNetwork) (h : net.virtualFIDs = [])
      (hc : isGIntBig net.m_nVirtualConnectionGID) : Reachable net
  | ConnectFeatures (flt : StorageFaults) (nSrcGFID nTgtGFID nConGFID : GNMGFID)
      (dfCost dfInvCost : Cost) (eDir : GNMDirection) (net : GNMGenericNetwork)
      (h : Reachable net) :
      Reachable (net.ConnectFeatures flt nSrcGFID nTgtGFID nConGFID dfCost dfInvCost eDir).2
  | DisconnectFeatures (flt : StorageFaults) (nSrcGFID nTgtGFID nConGFID : GNMGFID)
      (net : GNMGenericNetwork) (h : Reachable net) :
      Reachable (net.DisconnectFeatures flt nSrcGFID nTgtGFID nConGFID).2
  | ReconnectFeatures (flt : StorageFaults) (nSrcGFID nTgtGFID nConGFID : GNMGFID)
      (dfCost dfInvCost : Cost) (eDir : GNMDirection) (net : GNMGenericNetwork)
      (h : Reachable net) :
      Reachable (net.ReconnectFeatures flt nSrcGFID nTgtGFID nConGFID dfCost dfInvCost eDir).2
  | DisconnectFeaturesWithId (flt : StorageFaults) (nFID : GNMGFID) (net : GNMGenericNetwork)
      (h : Reachable net) : Reachable (net.DisconnectFeaturesWithId flt nFID).2
  | DisconnectAll (flt : StorageFaults) (net : GNMGenericNetwork) (h : Reachable net) :
      Reachable (net.DisconnectAll flt).2
  | CreateRule (pszRuleStr : String) (net : GNMGenericNetwork) (h : Reachable net) :
      Reachable (net.CreateRule pszRuleStr).2
  | DeleteRule (pszRuleStr : String) (net : GNMGenericNetwork) (h : Reachable net) :
      Reachable (net.DeleteRule pszRuleStr).2
  | DeleteAllRules (flt : StorageFaults) (net : GNMGenericNetwork) (h : Reachable net) :
      Reachable (net.DeleteAllRules flt).2
  | SaveRules (flt : StorageFaults) (net : GNMGenericNetwork) (h : Reachable net) :
      Reachable (net.SaveRules flt).2
  | LoadMetadataLayer (poLayer : Option MetadataLayer) (net : GNMGenericNetwork)
      (h : Reachable net) : Reachable (net.LoadMetadataLayer poLayer).2
  | ChangeBlockState (flt : StorageFaults) (nFID : GNMGFID) (bIsBlock : Bool)
      (net : GNMGenericNetwork) (h : Reachable net) :
      Reachable (net.ChangeBlockState flt nFID bIsBlock).2
  | ChangeAllBlockState (flt : StorageFaults) (bIsBlock : Bool) (net : GNMGenericNetwork)
      (h : Reachable net) : Reachable (net.ChangeAllBlockState flt bIsBlock).2
  | LoadGraph (net : GNMGenericNetwork) (h : Reachable net) : Reachable net.LoadGraph.2
  | LoadFeaturesLayer
      (LoadNetworkLayer : List GNMGenericLayer → String → List GNMGenericLayer)
      (poLayer : Option FeaturesLayer) (net : GNMGenericNetwork) (h : Reachable net) :
      Reachable (net.LoadFeaturesLayer LoadNetworkLayer poLayer).2
  | DeleteLayer (flt : StorageFaults) (nIndex : Int) (net : GNMGenericNetwork)
      (h : Reachable net) : Reachable (net.DeleteLayer flt nIndex).2
  | GetNewGlobalFID (net : GNMGenericNetwork) (h : Reachable net) :
      Reachable net.GetNewGlobalFID.2
  | GetNewVirtualFID (net : GNMGenericNetwork) (h : Reachable net) :
      Reachable net.GetNewVirtualFID.2
  | GetFeatureByGlobalFID (nFID : GNMGFID) (net : GNMGenericNetwork) (h : Reachable net) :
      Reachable (net.GetFeatureByGlobalFID nFID).2
  | FillResultLayer (poResLayer : OGRGNMWrappedResultLayer) (path : GNMPATH)
      (nNoOfPath : Int) (bReturnVertices bReturnEdges : Bool) (net : GNMGenericNetwork)
      (h : Reachable net) :
      Reachable (net.FillResultLayer poResLayer path nNoOfPath bReturnVertices bReturnEdges).1
  | GetPath (poMEMDrv : Bool) (nStartFID nEndFID : GNMGFID)
      (eAlgorithm : GNMGraphAlgorithmType) (papszOptions : Option Options)
      (net : GNMGenericNetwork) (h : Reachable net) :
      Reachable (net.GetPath poMEMDrv nStartFID nEndFID eAlgorithm papszOptions).2
  | other (net net1 : GNMGenericNetwork) (h : Reachable net)
      (hv : net1.virtualFIDs = net.virtualFIDs)
      (hc : net1.m_nVirtualConnectionGID = net.m_nVirtualConnectionGID) : Reachable net1

/-- A network object that was just opened on one graph record, written in an earlier
session by `ConnectFeatures(1, 2, GINTBIG_MIN + 1)`: the connector id is the least value of
`GIntBig` but one. -/
def lowConnectorNetwork : GNMGenericNetwork :=
  { roadsNetwork with
    m_bIsGraphLoaded := false,
    m_poGraphLayer :=
      (roadsNetwork.ConnectFeatures StorageFaults.none 1 2 (GINTBIG_MIN + 1) 1 1
        GNM_EDGE_DIR_BOTH).2.m_poGraphLayer }

/-- Features index records with the feature `GINTBIG_MAX` of the layer `Roads`. -/
def greatestIndex : FeaturesLayer :=
  { features := [{ nFID := 0, gfid := 1, layerName := "Roads" },
                 { nFID := 1, gfid := GINTBIG_MAX, layerName := "Roads" }] }

/-! ## Auxiliary facts -/

namespace GNMGenericNetwork

theorem index_fst (m : FeatureFIDMap) (k : GNMGFID) :
    (m.index k).1 = (m.lookup k).getD "" := by
  unfold FeatureFIDMap.index
  cases h : List.lookup k m <;> simp

theorem index_snd_lookup (m : FeatureFIDMap) (k k2 : GNMGFID) :
    (List.lookup k2 (m.index k).2).getD "" = (List.lookup k2 m).getD "" := by
  unfold FeatureFIDMap.index
  cases h : List.lookup k m with
  | some v => simp
  | none =>
    simp only [List.lookup_append]
    cases h2 : List.lookup k2 m with
    | some w => simp
    | none =>
      by_cases hk : k2 = k
      · subst hk; simp
      · have hb : (k2 == k) = false := by simpa using hk
        simp [List.lookup_cons, hb]

theorem FindConnection_fst (layer : OGRLayer) (s t c : GNMGFID) :
    (FindConnection layer s t c).1 =
      layer.features.find? (AttrFilter.connection s t c).eval := by
  simp [FindConnection, OGRLayer.GetNextFeature, OGRLayer.reading, OGRLayer.SetAttributeFilter,
    List.filter_head?]

theorem FindConnection_snd (layer : OGRLayer) (s t c : GNMGFID) :
    (FindConnection layer s t c).2 = { layer with attrFilter := none } := by
  simp [FindConnection, OGRLayer.SetAttributeFilter]

theorem ensureGraphLoaded_of_loaded (net : GNMGenericNetwork)
    (h : net.m_bIsGraphLoaded = true) : net.ensureGraphLoaded = some net := by
  simp [ensureGraphLoaded, h]

end GNMGenericNetwork

namespace GNMGenericNetwork

theorem index_names (net : GNMGenericNetwork) (s t c : GNMGFID) :
    (net.m_moFeatureFIDMap.index s).1 = net.layerName s ∧
    ((net.m_moFeatureFIDMap.index s).2.index t).1 = net.layerName t ∧
    (((net.m_moFeatureFIDMap.index s).2.index t).2.index c).1 = net.layerName c := by
  refine ⟨index_fst _ _, ?_, ?_⟩
  · rw [index_fst, index_snd_lookup]; rfl
  · rw [index_fst, index_snd_lookup, index_snd_lookup]; rfl


theorem LoadGraph_step_frame (net : GNMGenericNetwork) (f : OGRFeature) :
    (LoadGraph.step net f).m_poGraphLayer = net.m_poGraphLayer ∧
    (LoadGraph.step net f).m_asRules = net.m_asRules ∧
    (LoadGraph.step net f).m_moFeatureFIDMap = net.m_moFeatureFIDMap ∧
    (LoadGraph.step net f).virtualFIDs = net.virtualFIDs ∧
    (LoadGraph.step net f).m_bIsGraphLoaded = net.m_bIsGraphLoaded ∧
    (LoadGraph.step net f).m_nVirtualConnectionGID ≤ net.m_nVirtualConnectionGID := by
  refine ⟨rfl, rfl, rfl, rfl, rfl, ?_⟩
  show (if f.connector < net.m_nVirtualConnectionGID then f.connector
    else net.m_nVirtualConnectionGID) ≤ net.m_nVirtualConnectionGID
  split
  · exact le_of_lt (by assumption)
  · exact le_refl _

theorem LoadGraph_foldl_frame (fs : List OGRFeature) (net : GNMGenericNetwork) :
    (fs.foldl LoadGraph.step net).m_poGraphLayer = net.m_poGraphLayer ∧
    (fs.foldl LoadGraph.step net).m_asRules = net.m_asRules ∧
    (fs.foldl LoadGraph.step net).m_moFeatureFIDMap = net.m_moFeatureFIDMap ∧
    (fs.foldl LoadGraph.step net).virtualFIDs = net.virtualFIDs ∧
    (fs.foldl LoadGraph.step net).m_bIsGraphLoaded = net.m_bIsGraphLoaded ∧
    (fs.foldl LoadGraph.step net).m_nVirtualConnectionGID ≤ net.m_nVirtualConnectionGID := by
  induction fs generalizing net with
  | nil => simp
  | cons f rest ih =>
    obtain ⟨a1, a2, a3, a4, a5, a6⟩ := LoadGraph_step_frame net f
    obtain ⟨b1, b2, b3, b4, b5, b6⟩ := ih (LoadGraph.step net f)
    simp only [List.foldl_cons]
    exact ⟨b1.trans a1, b2.trans a2, b3.trans a3, b4.trans a4, b5.trans a5, le_trans b6 a6⟩

/-- The guard at the head of the graph operations goes on with the state that `LoadGraph`
leaves, and stops only when `LoadGraph` changed nothing. -/
theorem ensureGraphLoaded_cases (net : GNMGenericNetwork) :
    (net.ensureGraphLoaded = none ∧ net.LoadGraph.2 = net ∧ net.m_bIsGraphLoaded = false) ∨
    (net.ensureGraphLoaded = some net.LoadGraph.2 ∧ net.LoadGraph.2.m_bIsGraphLoaded = true) := by
  unfold ensureGraphLoaded LoadGraph
  by_cases h : net.m_bIsGraphLoaded = true
  · right; simp [h]
  · cases hL : net.m_poGraphLayer with
    | none => left; simp [h, hL]
    | some layer => right; simp [h, hL]


theorem virtualIds_eq (net : GNMGenericNetwork) (s t c : GNMGFID) :
    ConnectFeatures.virtualIds net s t c =
      ((ConnectFeatures.virtualIdsFrom net.m_nVirtualConnectionGID s t c).1,
        { net with
          m_nVirtualConnectionGID :=
            (ConnectFeatures.virtualIdsFrom net.m_nVirtualConnectionGID s t c).2.1,
          virtualFIDs :=
            (ConnectFeatures.virtualIdsFrom net.m_nVirtualConnectionGID s t c).2.2 ++
              net.virtualFIDs }) := by
  by_cases hc : c = -1 <;> by_cases hs : s = -1 <;> by_cases ht : t = -1 <;>
    simp [ConnectFeatures.virtualIds, ConnectFeatures.virtualIdsFrom, GetNewVirtualFID, hc, hs, ht]

theorem CreateFeature_cases (flt : StorageFaults) (l : OGRLayer) (f : OGRFeature) :
    (flt.createFails f = true ∧ l.CreateFeature flt f = (OGRERR_FAILURE, l)) ∨
    (flt.createFails f = false ∧
      l.CreateFeature flt f =
        (OGRERR_NONE,
          { l with features := l.features ++ [{ f with nFID := l.nNextFID }],
                   nNextFID := l.nNextFID + 1 })) := by
  unfold OGRLayer.CreateFeature
  cases h : flt.createFails f <;> simp

/-- What `ConnectFeatures` does on a network whose graph is loaded. -/
theorem ConnectFeatures_loaded (flt : StorageFaults) (net : GNMGenericNetwork)
    (layer0 : OGRLayer) (s t c : GNMGFID) (dfCost dfInvCost : Cost) (eDir : GNMDirection)
    (hLoaded : net.m_bIsGraphLoaded = true) (hL : net.m_poGraphLayer = some layer0)
    (ids : GNMGFID × GNMGFID × GNMGFID) (m : GNMGFID) (fresh : List GNMGFID)
    (hIds : ConnectFeatures.virtualIdsFrom net.m_nVirtualConnectionGID s t c = (ids, m, fresh))
    (res : CPLErr × GNMGenericNetwork)
    (hRes : net.ConnectFeatures flt s t c dfCost dfInvCost eDir = res) :
    (res.1 = CPLErr.CE_Failure ∧
      res.2.m_oGraph = net.m_oGraph ∧
      res.2.m_poGraphLayer = some { layer0 with attrFilter := none } ∧
      res.2.m_bIsGraphLoaded = true ∧
      ((res.2.m_nVirtualConnectionGID = net.m_nVirtualConnectionGID ∧
          res.2.virtualFIDs = net.virtualFIDs) ∨
       (res.2.m_nVirtualConnectionGID = m ∧ res.2.virtualFIDs = fresh ++ net.virtualFIDs ∧
          flt.createFails
            { nFID := OGRNullFID, source := ids.1, target := ids.2.1, connector := ids.2.2,
              cost := dfCost, invcost := dfInvCost, direction := eDir,
              blocked := GNM_BLOCK_NONE } = true))) ∨
    (res.1 = CPLErr.CE_None ∧
      flt.createFails
        { nFID := OGRNullFID, source := ids.1, target := ids.2.1, connector := ids.2.2,
          cost := dfCost, invcost := dfInvCost, direction := eDir,
          blocked := GNM_BLOCK_NONE } = false ∧
      res.2.m_oGraph =
        net.m_oGraph.AddEdge ids.2.2 ids.1 ids.2.1 (eDir == GNM_EDGE_DIR_BOTH) dfCost dfInvCost ∧
      res.2.m_poGraphLayer =
        some { features := layer0.features ++
                 [{ nFID := layer0.nNextFID, source := ids.1, target := ids.2.1,
                    connector := ids.2.2, cost := dfCost, invcost := dfInvCost,
                    direction := eDir, blocked := GNM_BLOCK_NONE }],
               nNextFID := layer0.nNextFID + 1, attrFilter := none } ∧
      res.2.m_nVirtualConnectionGID = m ∧
      res.2.virtualFIDs = fresh ++ net.virtualFIDs ∧
      res.2.m_bIsGraphLoaded = true) := by
  subst hRes
  unfold ConnectFeatures
  rw [ensureGraphLoaded_of_loaded net hLoaded]
  simp only [hL, FindConnection_fst, FindConnection_snd, virtualIds_eq, hIds]
  by_cases hf : (List.find? (AttrFilter.connection s t c).eval layer0.features).isSome = true
  · simp [hf, hLoaded]
  · by_cases he : net.m_asRules.isEmpty = true
    · simp [hf, he, hLoaded]
    · rcases CreateFeature_cases flt { layer0 with attrFilter := none }
          { nFID := OGRNullFID, source := ids.1, target := ids.2.1, connector := ids.2.2,
            cost := dfCost, invcost := dfInvCost, direction := eDir,
            blocked := GNM_BLOCK_NONE } with ⟨h1, h2⟩ | ⟨h1, h2⟩
      · left
        simp only [hf, he, h2]
        split_ifs <;> simp_all [OGRERR_NONE, OGRERR_FAILURE]
      · simp only [hf, he, h2]
        split_ifs <;> simp_all [OGRERR_NONE, OGRERR_FAILURE]


theorem ConnectFeatures_after_load (flt : StorageFaults) (net : GNMGenericNetwork)
    (s t c : GNMGFID) (dfCost dfInvCost : Cost) (eDir : GNMDirection) :
    (net.ensureGraphLoaded = none ∧
      net.ConnectFeatures flt s t c dfCost dfInvCost eDir = (CPLErr.CE_Failure, net) ∧
      net.LoadGraph.2 = net) ∨
    (net.LoadGraph.2.m_bIsGraphLoaded = true ∧
      net.ConnectFeatures flt s t c dfCost dfInvCost eDir =
        net.LoadGraph.2.ConnectFeatures flt s t c dfCost dfInvCost eDir) := by
  rcases ensureGraphLoaded_cases net with ⟨h1, h2, _⟩ | ⟨h1, h2⟩
  · left
    exact ⟨h1, by simp [ConnectFeatures, h1], h2⟩
  · right
    refine ⟨h2, ?_⟩
    have h3 := ensureGraphLoaded_of_loaded _ h2
    simp only [ConnectFeatures, h1, h3]

theorem reading_eq_features (layer : OGRLayer)
    (h : layer.features = [] ∨ layer.attrFilter = none) : layer.reading = layer.features := by
  unfold OGRLayer.reading
  rcases h with h | h
  · cases layer.attrFilter <;> simp [h]
  · simp [h]

theorem LoadGraph_snd_layer (net : GNMGenericNetwork) :
    net.LoadGraph.2.m_poGraphLayer = net.m_poGraphLayer := by
  unfold LoadGraph
  by_cases h : net.m_bIsGraphLoaded = true
  · simp [h]
  · cases hL : net.m_poGraphLayer with
    | none => simp [h, hL]
    | some layer => simpa [h, hL] using (LoadGraph_foldl_frame layer.reading net).1.trans hL

theorem VirtualIdsDecrease_frame (net net1 : GNMGenericNetwork) (h : VirtualIdsDecrease net)
    (hv : net1.virtualFIDs = net.virtualFIDs)
    (hm : net1.m_nVirtualConnectionGID ≤ net.m_nVirtualConnectionGID) :
    VirtualIdsDecrease net1 := by
  unfold VirtualIdsDecrease at *
  rw [hv]
  exact ⟨h.1, fun v hv1 => le_trans hm (h.2 v hv1)⟩

theorem VirtualIdsDecrease_GetNewVirtualFID (net : GNMGenericNetwork)
    (h : VirtualIdsDecrease net) : VirtualIdsDecrease net.GetNewVirtualFID.2 := by
  unfold VirtualIdsDecrease at *
  simp only [GetNewVirtualFID, List.pairwise_cons, List.mem_cons]
  refine ⟨⟨fun v hv => ?_, h.1⟩, fun v hv => ?_⟩
  · have := h.2 v hv; linarith
  · rcases hv with hv | hv
    · rw [hv]
    · have := h.2 v hv; linarith

theorem VirtualIdsDecrease_virtualIds (net : GNMGenericNetwork) (s t c : GNMGFID)
    (h : VirtualIdsDecrease net) : VirtualIdsDecrease (ConnectFeatures.virtualIds net s t c).2 := by
  unfold ConnectFeatures.virtualIds
  have step : ∀ (n : GNMGenericNetwork) (x : GNMGFID), VirtualIdsDecrease n →
      VirtualIdsDecrease (if x = -1 then n.GetNewVirtualFID else (x, n)).2 := by
    intro n x hn
    split
    · exact VirtualIdsDecrease_GetNewVirtualFID n hn
    · exact hn
  exact step _ t (step _ s (step _ c h))

theorem LoadGraph_snd_frame (net : GNMGenericNetwork) :
    net.LoadGraph.2.virtualFIDs = net.virtualFIDs ∧
    net.LoadGraph.2.m_nVirtualConnectionGID ≤ net.m_nVirtualConnectionGID := by
  unfold LoadGraph
  by_cases h : net.m_bIsGraphLoaded = true
  · simp [h]
  · cases hL : net.m_poGraphLayer with
    | none => simp [h, hL]
    | some layer =>
      obtain ⟨_, _, _, a4, _, a6⟩ := LoadGraph_foldl_frame layer.reading net
      simpa [h, hL] using And.intro a4 a6

theorem ConnectFeatures_no_layer (flt : StorageFaults) (net : GNMGenericNetwork)
    (s t c : GNMGFID) (dfCost dfInvCost : Cost) (eDir : GNMDirection)
    (hLoaded : net.m_bIsGraphLoaded = true) (hL : net.m_poGraphLayer = none) :
    net.ConnectFeatures flt s t c dfCost dfInvCost eDir = (CPLErr.CE_Failure, net) := by
  unfold ConnectFeatures
  rw [ensureGraphLoaded_of_loaded net hLoaded]
  simp [hL]

theorem VirtualIdsDecrease_ConnectFeatures (flt : StorageFaults) (net : GNMGenericNetwork)
    (s t c : GNMGFID) (dfCost dfInvCost : Cost) (eDir : GNMDirection)
    (h : VirtualIdsDecrease net) :
    VirtualIdsDecrease (net.ConnectFeatures flt s t c dfCost dfInvCost eDir).2 := by
  have h0 : VirtualIdsDecrease net.LoadGraph.2 :=
    VirtualIdsDecrease_frame net _ h (LoadGraph_snd_frame net).1 (LoadGraph_snd_frame net).2
  rcases ConnectFeatures_after_load flt net s t c dfCost dfInvCost eDir with
    ⟨_, h2, _⟩ | ⟨hload, heq⟩
  · rw [h2]; exact h
  · rw [heq]
    cases hL : net.LoadGraph.2.m_poGraphLayer with
    | none => rw [ConnectFeatures_no_layer flt _ s t c dfCost dfInvCost eDir hload hL]; exact h0
    | some layer =>
      have hv := VirtualIdsDecrease_virtualIds net.LoadGraph.2 s t c h0
      rw [virtualIds_eq] at hv
      rcases hids : ConnectFeatures.virtualIdsFrom net.LoadGraph.2.m_nVirtualConnectionGID s t c
        with ⟨ids, m, fresh⟩
      rw [hids] at hv
      have hv2 : List.Pairwise (fun a b => a < b) (fresh ++ net.LoadGraph.2.virtualFIDs) ∧
          ∀ v ∈ fresh ++ net.LoadGraph.2.virtualFIDs, m ≤ v := hv
      rcases ConnectFeatures_loaded flt net.LoadGraph.2 layer s t c dfCost dfInvCost eDir hload hL
        ids m fresh hids _ rfl with
        ⟨_, _, _, _, ⟨a, b⟩ | ⟨a, b, _⟩⟩ | ⟨_, _, _, _, a, b, _⟩
      · exact VirtualIdsDecrease_frame _ _ h0 b (le_of_eq a)
      · unfold VirtualIdsDecrease; rw [a, b]; exact hv2
      · unfold VirtualIdsDecrease; rw [a, b]; exact hv2

theorem Disconnect_frame (flt : StorageFaults) (net : GNMGenericNetwork) (s t c : GNMGFID) :
    (net.DisconnectFeatures flt s t c).2.virtualFIDs = net.LoadGraph.2.virtualFIDs ∧
    (net.DisconnectFeatures flt s t c).2.m_nVirtualConnectionGID =
      net.LoadGraph.2.m_nVirtualConnectionGID := by
  unfold DisconnectFeatures
  rcases ensureGraphLoaded_cases net with ⟨h1, h2, _⟩ | ⟨h1, _⟩
  · simp [h1, h2]
  · simp only [h1]
    cases hL : net.LoadGraph.2.m_poGraphLayer with
    | none => simp
    | some layer =>
      simp only [FindConnection_fst, FindConnection_snd]
      split
      · simp
      · split <;> simp

theorem Reconnect_frame (flt : StorageFaults) (net : GNMGenericNetwork) (s t c : GNMGFID)
    (dfCost dfInvCost : Cost) (eDir : GNMDirection) :
    (net.ReconnectFeatures flt s t c dfCost dfInvCost eDir).2.virtualFIDs =
      net.LoadGraph.2.virtualFIDs ∧
    (net.ReconnectFeatures flt s t c dfCost dfInvCost eDir).2.m_nVirtualConnectionGID =
      net.LoadGraph.2.m_nVirtualConnectionGID := by
  unfold ReconnectFeatures
  rcases ensureGraphLoaded_cases net with ⟨h1, h2, _⟩ | ⟨h1, _⟩
  · simp [h1, h2]
  · simp only [h1]
    cases hL : net.LoadGraph.2.m_poGraphLayer with
    | none => simp
    | some layer =>
      simp only [FindConnection_fst, FindConnection_snd]
      split
      · simp
      · split <;> simp

theorem CreateRule_frame (net : GNMGenericNetwork) (pszRuleStr : String) :
    (net.CreateRule pszRuleStr).2.virtualFIDs = net.virtualFIDs ∧
    (net.CreateRule pszRuleStr).2.m_nVirtualConnectionGID = net.m_nVirtualConnectionGID := by
  unfold CreateRule
  dsimp only
  split
  · simp
  · split <;> simp

end GNMGenericNetwork

namespace GNMGenericNetwork

/-- In the layer loop of `CreateRule` the test of the target name is an `else if` of the
test of the source name: when the two names are `EQUAL`, no layer sets `bTgtExist`. -/
theorem CreateRule_step_same_names (oRule : GNMRule) (apoLayers : List GNMGenericLayer)
    (flags : Bool × Bool × Bool)
    (hSame : EQUAL oRule.GetSourceLayerName oRule.GetTargetLayerName = true)
    (hFlag : flags.2.1 = false) :
    (apoLayers.foldl (CreateRule.step oRule) flags).2.1 = false := by
  induction apoLayers generalizing flags with
  | nil => simpa using hFlag
  | cons poLayer rest ih =>
    simp only [List.foldl_cons]
    apply ih
    obtain ⟨bSrcExist, bTgtExist, bConnExist⟩ := flags
    simp only at hFlag
    simp only [CreateRule.step]
    by_cases h1 : EQUAL oRule.GetSourceLayerName poLayer.GetName = true
    · simp [h1, hFlag]
    · have h2 : EQUAL oRule.GetTargetLayerName poLayer.GetName = false := by
        cases h : EQUAL oRule.GetTargetLayerName poLayer.GetName with
        | false => rfl
        | true =>
          exfalso
          apply h1
          simp only [EQUAL, beq_iff_eq] at hSame h ⊢
          rw [hSame, h]
      have h1f : EQUAL oRule.GetSourceLayerName poLayer.GetName = false := by
        simpa using h1
      cases h3 : EQUAL oRule.GetConnectorLayerName poLayer.GetName <;>
        simp [h1f, h2, h3, hFlag]

/-- A valid rule that is not of the `ANY` form and whose source and target layer names are
`EQUAL` is rejected by `CreateRule` on every network. -/
theorem CreateRule_same_source_and_target (net : GNMGenericNetwork) (pszRuleStr : String)
    (hValid : (GNMRule.ofString pszRuleStr).IsValid = true)
    (hNotAny : (GNMRule.ofString pszRuleStr).IsAcceptAny = false)
    (hSame : EQUAL (GNMRule.ofString pszRuleStr).GetSourceLayerName
      (GNMRule.ofString pszRuleStr).GetTargetLayerName = true) :
    net.CreateRule pszRuleStr = (CPLErr.CE_Failure, net) := by
  have h := CreateRule_step_same_names (GNMRule.ofString pszRuleStr) net.m_apoLayers
    (false, false, false) hSame rfl
  have hl : CreateRule.layersExist (GNMRule.ofString pszRuleStr) net.m_apoLayers = false := by
    unfold CreateRule.layersExist
    rcases hf : List.foldl (CreateRule.step (GNMRule.ofString pszRuleStr)) (false, false, false)
      net.m_apoLayers with ⟨a, b, d⟩
    rw [hf] at h
    simp only at h
    simp [h]
  simp [CreateRule, hValid, hNotAny, hl]

/-- The outcomes of `CreateRule`: an invalid text is rejected, a valid rule of the `ANY`
form is accepted without a look at the layers, acceptance appends the rule at the end of
the rule list and sets the rules-changed flag, and rejection changes nothing. -/
theorem CreateRule_outcomes (net : GNMGenericNetwork) (pszRuleStr : String) :
    ((GNMRule.ofString pszRuleStr).IsValid = false →
      net.CreateRule pszRuleStr = (CPLErr.CE_Failure, net)) ∧
    ((GNMRule.ofString pszRuleStr).IsValid = true →
      (GNMRule.ofString pszRuleStr).IsAcceptAny = true →
      (net.CreateRule pszRuleStr).1 = CPLErr.CE_None) ∧
    ((net.CreateRule pszRuleStr).1 = CPLErr.CE_None →
      (net.CreateRule pszRuleStr).2 =
        { net with m_asRules := net.m_asRules ++ [GNMRule.ofString pszRuleStr],
                   m_bIsRulesChanged := true }) ∧
    ((net.CreateRule pszRuleStr).1 = CPLErr.CE_Failure →
      (net.CreateRule pszRuleStr).2 = net) := by
  unfold CreateRule
  dsimp only
  refine ⟨fun h => by simp [h], fun h1 h2 => by simp [h1, h2], ?_, ?_⟩
  · split
    · intro h; simp at h
    · split
      · intro h; simp at h
      · intro _; rfl
  · split
    · intro _; rfl
    · split
      · intro _; rfl
      · intro h; simp at h

end GNMGenericNetwork

set_option maxRecDepth 4000

/-! ## Claims about `ConnectFeatures` -/

/-- C1: on a network whose graph is loaded, if one stored rule answers `CanConnect = false`
for the layer names that the FeatureLayerIndex gives for the source, the target and the
connector, then `ConnectFeatures` fails, wherever that rule stands in the list and whatever
the other rules answer; no graph record is written, the in-memory graph receives no call
and no virtual id is allocated.  (The rule list is then not empty; the statement holds
whether or not the three ids are connected already.) -/
theorem ConnectFeatures_any_rule_vetoes (flt : StorageFaults) (net : GNMGenericNetwork)
    (s t c : GNMGFID) (dfCost dfInvCost : Cost) (eDir : GNMDirection)
    (hLoaded : net.m_bIsGraphLoaded = true)
    (hDeny : ∃ r ∈ net.m_asRules,
      r.CanConnect (net.layerName s) (net.layerName t) (net.layerName c) = false) :
    (net.ConnectFeatures flt s t c dfCost dfInvCost eDir).1 = CPLErr.CE_Failure ∧
    (net.ConnectFeatures flt s t c dfCost dfInvCost eDir).2.graphRecords = net.graphRecords ∧
    (net.ConnectFeatures flt s t c dfCost dfInvCost eDir).2.m_oGraph = net.m_oGraph ∧
    (net.ConnectFeatures flt s t c dfCost dfInvCost eDir).2.m_nVirtualConnectionGID =
      net.m_nVirtualConnectionGID ∧
    (net.ConnectFeatures flt s t c dfCost dfInvCost eDir).2.virtualFIDs = net.virtualFIDs := by
  obtain ⟨r, hr, hcan⟩ := hDeny
  obtain ⟨h1, h2, h3⟩ := GNMGenericNetwork.index_names net s t c
  unfold GNMGenericNetwork.ConnectFeatures
  rw [GNMGenericNetwork.ensureGraphLoaded_of_loaded net hLoaded]
  cases hL : net.m_poGraphLayer with
  | none => simp [GNMGenericNetwork.graphRecords, hL]
  | some layer0 =>
    have hall : (net.m_asRules.all fun r =>
        r.CanConnect (net.layerName s) (net.layerName t) (net.layerName c)) = false := by
      rw [List.all_eq_false]
      exact ⟨r, hr, by simp [hcan]⟩
    simp only [GNMGenericNetwork.FindConnection_fst, GNMGenericNetwork.FindConnection_snd]
    by_cases hf : (List.find? (AttrFilter.connection s t c).eval layer0.features).isSome = true
    · simp [hf, GNMGenericNetwork.graphRecords, hL]
    · by_cases he : net.m_asRules.isEmpty = true
      · simp [hf, he, GNMGenericNetwork.graphRecords, hL]
      · simp [hf, he, GNMGenericNetwork.graphRecords, hL, h1, h2, h3, hall]

/-- Instance of C1: the deny rule stands after the allowing default rule, the features 1
and 2 of layer `Roads` are not connected yet, and the connection is refused. -/
theorem ConnectFeatures_any_rule_vetoes_witness :
    roadsDeniedNetwork.graphRecords = [] ∧
    roadsDeniedNetwork.m_bIsGraphLoaded = true ∧
    (∃ r ∈ roadsDeniedNetwork.m_asRules,
      r.CanConnect (roadsDeniedNetwork.layerName 1) (roadsDeniedNetwork.layerName 2)
        (roadsDeniedNetwork.layerName (-1)) = false) ∧
    (roadsDeniedNetwork.ConnectFeatures StorageFaults.none 1 2 (-1) 1 1 GNM_EDGE_DIR_BOTH).1 =
      CPLErr.CE_Failure ∧
    (roadsDeniedNetwork.ConnectFeatures StorageFaults.none 1 2 (-1) 1 1
      GNM_EDGE_DIR_BOTH).2.graphRecords = roadsDeniedNetwork.graphRecords ∧
    (roadsDeniedNetwork.ConnectFeatures StorageFaults.none 1 2 (-1) 1 1
      GNM_EDGE_DIR_BOTH).2.m_oGraph = roadsDeniedNetwork.m_oGraph ∧
    (roadsDeniedNetwork.ConnectFeatures StorageFaults.none 1 2 (-1) 1 1
      GNM_EDGE_DIR_BOTH).2.m_nVirtualConnectionGID = roadsDeniedNetwork.m_nVirtualConnectionGID ∧
    (roadsDeniedNetwork.ConnectFeatures StorageFaults.none 1 2 (-1) 1 1
      GNM_EDGE_DIR_BOTH).2.virtualFIDs = roadsDeniedNetwork.virtualFIDs :=
  ⟨by decide, by decide,
    ⟨GNMRule.ofString "DENY CONNECTS Roads,Roads", by decide, by decide⟩,
    ConnectFeatures_any_rule_vetoes StorageFaults.none roadsDeniedNetwork 1 2 (-1) 1 1
      GNM_EDGE_DIR_BOTH (by decide)
      ⟨GNMRule.ofString "DENY CONNECTS Roads,Roads", by decide, by decide⟩⟩

/-- C2: on a network whose graph is loaded and whose rule list is empty, `ConnectFeatures`
fails for every combination of arguments, and the graph records, the in-memory graph and
the virtual-id counter are after the call what they were before it. -/
theorem ConnectFeatures_fails_without_rules (flt : StorageFaults) (net : GNMGenericNetwork)
    (s t c : GNMGFID) (dfCost dfInvCost : Cost) (eDir : GNMDirection)
    (hLoaded : net.m_bIsGraphLoaded = true) (hRules : net.m_asRules = []) :
    (net.ConnectFeatures flt s t c dfCost dfInvCost eDir).1 = CPLErr.CE_Failure ∧
    (net.ConnectFeatures flt s t c dfCost dfInvCost eDir).2.graphRecords = net.graphRecords ∧
    (net.ConnectFeatures flt s t c dfCost dfInvCost eDir).2.m_oGraph = net.m_oGraph ∧
    (net.ConnectFeatures flt s t c dfCost dfInvCost eDir).2.m_nVirtualConnectionGID =
      net.m_nVirtualConnectionGID ∧
    (net.ConnectFeatures flt s t c dfCost dfInvCost eDir).2.virtualFIDs = net.virtualFIDs := by
  unfold GNMGenericNetwork.ConnectFeatures
  rw [GNMGenericNetwork.ensureGraphLoaded_of_loaded net hLoaded]
  cases hL : net.m_poGraphLayer with
  | none => simp [GNMGenericNetwork.graphRecords, hL]
  | some layer0 =>
    simp only [GNMGenericNetwork.FindConnection_fst, GNMGenericNetwork.FindConnection_snd]
    by_cases hf : (List.find? (AttrFilter.connection s t c).eval layer0.features).isSome = true
    · simp [hf, GNMGenericNetwork.graphRecords, hL]
    · simp [hf, hRules, GNMGenericNetwork.graphRecords, hL]

/-- Instance of C2: without rules the features 1 and 2 cannot be connected. -/
theorem ConnectFeatures_fails_without_rules_witness :
    noRulesNetwork.m_bIsGraphLoaded = true ∧ noRulesNetwork.m_asRules = [] ∧
    (noRulesNetwork.ConnectFeatures StorageFaults.none 1 2 3 1 1 GNM_EDGE_DIR_BOTH).1 =
      CPLErr.CE_Failure ∧
    (noRulesNetwork.ConnectFeatures StorageFaults.none 1 2 3 1 1
      GNM_EDGE_DIR_BOTH).2.graphRecords = noRulesNetwork.graphRecords ∧
    (noRulesNetwork.ConnectFeatures StorageFaults.none 1 2 3 1 1
      GNM_EDGE_DIR_BOTH).2.m_oGraph = noRulesNetwork.m_oGraph ∧
    (noRulesNetwork.ConnectFeatures StorageFaults.none 1 2 3 1 1
      GNM_EDGE_DIR_BOTH).2.m_nVirtualConnectionGID = noRulesNetwork.m_nVirtualConnectionGID ∧
    (noRulesNetwork.ConnectFeatures StorageFaults.none 1 2 3 1 1
      GNM_EDGE_DIR_BOTH).2.virtualFIDs = noRulesNetwork.virtualFIDs :=
  ⟨by decide, by decide,
    ConnectFeatures_fails_without_rules StorageFaults.none noRulesNetwork 1 2 3 1 1
      GNM_EDGE_DIR_BOTH (by decide) (by decide)⟩

/-- C3: on a network whose graph is loaded, if a persisted graph record has source `s`,
target `t` and connector `c`, then `ConnectFeatures(s, t, c, ...)` fails whatever the
rules, the costs and the direction are; no graph record is added, the in-memory graph
receives no call and no virtual id is allocated. -/
theorem ConnectFeatures_rejects_existing_connection (flt : StorageFaults)
    (net : GNMGenericNetwork) (s t c : GNMGFID) (dfCost dfInvCost : Cost) (eDir : GNMDirection)
    (hLoaded : net.m_bIsGraphLoaded = true)
    (hExists : ∃ f ∈ net.graphRecords, f.source = s ∧ f.target = t ∧ f.connector = c) :
    (net.ConnectFeatures flt s t c dfCost dfInvCost eDir).1 = CPLErr.CE_Failure ∧
    (net.ConnectFeatures flt s t c dfCost dfInvCost eDir).2.graphRecords = net.graphRecords ∧
    (net.ConnectFeatures flt s t c dfCost dfInvCost eDir).2.m_oGraph = net.m_oGraph ∧
    (net.ConnectFeatures flt s t c dfCost dfInvCost eDir).2.m_nVirtualConnectionGID =
      net.m_nVirtualConnectionGID ∧
    (net.ConnectFeatures flt s t c dfCost dfInvCost eDir).2.virtualFIDs = net.virtualFIDs := by
  obtain ⟨f, hf, hs, ht, hc⟩ := hExists
  unfold GNMGenericNetwork.ConnectFeatures
  rw [GNMGenericNetwork.ensureGraphLoaded_of_loaded net hLoaded]
  cases hL : net.m_poGraphLayer with
  | none => simp [GNMGenericNetwork.graphRecords, hL]
  | some layer0 =>
    have hfound : (List.find? (AttrFilter.connection s t c).eval layer0.features).isSome
        = true := by
      rw [List.find?_isSome]
      refine ⟨f, ?_, ?_⟩
      · simpa [GNMGenericNetwork.graphRecords, hL] using hf
      · simp [AttrFilter.eval, hs, ht, hc]
    simp [GNMGenericNetwork.FindConnection_fst, GNMGenericNetwork.FindConnection_snd, hfound,
      GNMGenericNetwork.graphRecords, hL]

/-- Instance of C3: the connection of 1 to 2 by 3 exists and is not made again, with other
costs and another direction. -/
theorem ConnectFeatures_rejects_existing_connection_witness :
    oneEdgeNetwork.m_bIsGraphLoaded = true ∧
    (∃ f ∈ oneEdgeNetwork.graphRecords, f.source = 1 ∧ f.target = 2 ∧ f.connector = 3) ∧
    (oneEdgeNetwork.ConnectFeatures StorageFaults.none 1 2 3 8 9 GNM_EDGE_DIR_SRCTOTGT).1 =
      CPLErr.CE_Failure ∧
    (oneEdgeNetwork.ConnectFeatures StorageFaults.none 1 2 3 8 9
      GNM_EDGE_DIR_SRCTOTGT).2.graphRecords = oneEdgeNetwork.graphRecords ∧
    (oneEdgeNetwork.ConnectFeatures StorageFaults.none 1 2 3 8 9
      GNM_EDGE_DIR_SRCTOTGT).2.m_oGraph = oneEdgeNetwork.m_oGraph ∧
    (oneEdgeNetwork.ConnectFeatures StorageFaults.none 1 2 3 8 9
      GNM_EDGE_DIR_SRCTOTGT).2.m_nVirtualConnectionGID = oneEdgeNetwork.m_nVirtualConnectionGID ∧
    (oneEdgeNetwork.ConnectFeatures StorageFaults.none 1 2 3 8 9
      GNM_EDGE_DIR_SRCTOTGT).2.virtualFIDs = oneEdgeNetwork.virtualFIDs :=
  ⟨by decide, ⟨recordOneTwo, by decide, by decide⟩,
    ConnectFeatures_rejects_existing_connection StorageFaults.none oneEdgeNetwork 1 2 3 8 9
      GNM_EDGE_DIR_SRCTOTGT (by decide) ⟨recordOneTwo, by decide, by decide⟩⟩

/-- C4, counterexample to the claim as stated: on a network whose graph is not loaded yet
and that has a persisted graph record, a `ConnectFeatures` whose record creation fails
returns failure, but the in-memory graph, which held no edge before the call, holds the
edge of the persisted record after it (the bulk load at the head of the call). -/
theorem ConnectFeatures_create_failure_after_lazy_load :
    StorageFaults.refuseCreate.createFails
      { nFID := OGRNullFID, source := 4, target := 5, connector := 6, cost := 1, invcost := 1,
        direction := GNM_EDGE_DIR_BOTH, blocked := GNM_BLOCK_NONE } = true ∧
    (unloadedNetwork.ConnectFeatures StorageFaults.refuseCreate 4 5 6 1 1 GNM_EDGE_DIR_BOTH).1 =
      CPLErr.CE_Failure ∧
    unloadedNetwork.m_oGraph.edges = [] ∧
    (unloadedNetwork.ConnectFeatures StorageFaults.refuseCreate 4 5 6 1 1
      GNM_EDGE_DIR_BOTH).2.m_oGraph.edges =
      [{ connectorGFID := 3, sourceGFID := 1, targetGFID := 2, cost := 1, inverseCost := 1,
         bidirectional := true, blockMask := GNM_BLOCK_NONE }] ∧
    (unloadedNetwork.ConnectFeatures StorageFaults.refuseCreate 4 5 6 1 1
      GNM_EDGE_DIR_BOTH).2.m_oGraph.edges ≠ unloadedNetwork.m_oGraph.edges := by
  decide

/-- C4, amended: `ConnectFeatures` is storage-first.  For every network state and
arguments: when the call fails, in particular when the store refuses to create the graph
record, the in-memory graph is the graph that the bulk load at the head of the call leaves
(`LoadGraph`, which leaves the state as it is when the graph was loaded before); when the
call succeeds, the store accepted the record, the record was appended to the graph
records, and the graph is the loaded graph after the one `AddEdge` call for that record. -/
theorem ConnectFeatures_storage_first (flt : StorageFaults) (net : GNMGenericNetwork)
    (s t c : GNMGFID) (dfCost dfInvCost : Cost) (eDir : GNMDirection) :
    (net.m_bIsGraphLoaded = true → net.LoadGraph.2 = net) ∧
    ((net.ConnectFeatures flt s t c dfCost dfInvCost eDir).1 = CPLErr.CE_Failure →
      (net.ConnectFeatures flt s t c dfCost dfInvCost eDir).2.m_oGraph =
        net.LoadGraph.2.m_oGraph) ∧
    ((net.ConnectFeatures flt s t c dfCost dfInvCost eDir).1 = CPLErr.CE_None →
      ∃ r, flt.createFails { r with nFID := OGRNullFID } = false ∧
        (net.ConnectFeatures flt s t c dfCost dfInvCost eDir).2.graphRecords =
          net.graphRecords ++ [r] ∧
        (net.ConnectFeatures flt s t c dfCost dfInvCost eDir).2.m_oGraph =
          addEdgeOf net.LoadGraph.2.m_oGraph r) ∧
    ((∀ f, flt.createFails f = true) →
      (net.ConnectFeatures flt s t c dfCost dfInvCost eDir).1 = CPLErr.CE_Failure ∧
      (net.ConnectFeatures flt s t c dfCost dfInvCost eDir).2.m_oGraph =
        net.LoadGraph.2.m_oGraph) := by
  have key :
      ((net.ConnectFeatures flt s t c dfCost dfInvCost eDir).1 = CPLErr.CE_Failure ∧
        (net.ConnectFeatures flt s t c dfCost dfInvCost eDir).2.m_oGraph =
          net.LoadGraph.2.m_oGraph) ∨
      ((net.ConnectFeatures flt s t c dfCost dfInvCost eDir).1 = CPLErr.CE_None ∧
        ∃ r, flt.createFails { r with nFID := OGRNullFID } = false ∧
          (net.ConnectFeatures flt s t c dfCost dfInvCost eDir).2.graphRecords =
            net.graphRecords ++ [r] ∧
          (net.ConnectFeatures flt s t c dfCost dfInvCost eDir).2.m_oGraph =
            addEdgeOf net.LoadGraph.2.m_oGraph r) := by
    rcases GNMGenericNetwork.ConnectFeatures_after_load flt net s t c dfCost dfInvCost eDir with
      ⟨_, h2, h3⟩ | ⟨hload, heq⟩
    · left; rw [h2, h3]; exact ⟨rfl, rfl⟩
    · rw [heq]
      cases hL : net.LoadGraph.2.m_poGraphLayer with
      | none =>
        left
        rw [GNMGenericNetwork.ConnectFeatures_no_layer flt _ s t c dfCost dfInvCost eDir hload hL]
        exact ⟨rfl, rfl⟩
      | some layer =>
        have hL0 : net.m_poGraphLayer = some layer :=
          (GNMGenericNetwork.LoadGraph_snd_layer net).symm.trans hL
        rcases hids : GNMGenericNetwork.ConnectFeatures.virtualIdsFrom
          net.LoadGraph.2.m_nVirtualConnectionGID s t c with ⟨ids, m, fresh⟩
        rcases GNMGenericNetwork.ConnectFeatures_loaded flt net.LoadGraph.2 layer s t c dfCost
          dfInvCost eDir hload hL ids m fresh hids _ rfl with
          ⟨a1, a2, _⟩ | ⟨b1, b2, b3, b4, _⟩
        · left; exact ⟨a1, a2⟩
        · right
          refine ⟨b1, { nFID := layer.nNextFID, source := ids.1, target := ids.2.1,
                        connector := ids.2.2, cost := dfCost, invcost := dfInvCost,
                        direction := eDir, blocked := GNM_BLOCK_NONE }, b2, ?_, ?_⟩
          · simp only [GNMGenericNetwork.graphRecords, b4, hL0]
          · rw [b3]; rfl
  refine ⟨?_, ?_, ?_, ?_⟩
  · intro h
    simp [GNMGenericNetwork.LoadGraph, h]
  · intro h
    rcases key with ⟨_, k2⟩ | ⟨k1, _⟩
    · exact k2
    · rw [k1] at h; exact absurd h (by decide)
  · intro h
    rcases key with ⟨k1, _⟩ | ⟨_, k2⟩
    · rw [k1] at h; exact absurd h (by decide)
    · exact k2
  · intro h
    rcases key with k | ⟨_, r, k2, _⟩
    · exact k
    · rw [h] at k2; exact absurd k2 (by decide)

/-- Instance of C4 as amended: the store refuses the record; the call fails and the graph
is the one that the bulk load leaves. -/
theorem ConnectFeatures_storage_first_witness :
    (∀ f, StorageFaults.refuseCreate.createFails f = true) ∧
    (unloadedNetwork.ConnectFeatures StorageFaults.refuseCreate 4 5 6 1 1 GNM_EDGE_DIR_BOTH).1 =
      CPLErr.CE_Failure ∧
    (unloadedNetwork.ConnectFeatures StorageFaults.refuseCreate 4 5 6 1 1
      GNM_EDGE_DIR_BOTH).2.m_oGraph = unloadedNetwork.LoadGraph.2.m_oGraph :=
  ⟨fun _ => rfl,
    (ConnectFeatures_storage_first StorageFaults.refuseCreate unloadedNetwork 4 5 6 1 1
      GNM_EDGE_DIR_BOTH).2.2.2 (fun _ => rfl)⟩

namespace GNMGenericNetwork

theorem ensureGraphLoaded_virtual_frame (net net0 : GNMGenericNetwork)
    (h : net.ensureGraphLoaded = some net0) :
    net0.virtualFIDs = net.virtualFIDs ∧
    net0.m_nVirtualConnectionGID ≤ net.m_nVirtualConnectionGID := by
  rcases ensureGraphLoaded_cases net with ⟨h1, _, _⟩ | ⟨h1, _⟩
  · rw [h1] at h; simp at h
  · rw [h1] at h
    simp only [Option.some.injEq] at h
    rw [← h]
    exact LoadGraph_snd_frame net

theorem DisconnectFeaturesWithId_virtual_frame (flt : StorageFaults) (net : GNMGenericNetwork)
    (nFID : GNMGFID) :
    (net.DisconnectFeaturesWithId flt nFID).2.virtualFIDs = net.virtualFIDs ∧
    (net.DisconnectFeaturesWithId flt nFID).2.m_nVirtualConnectionGID ≤
      net.m_nVirtualConnectionGID := by
  unfold DisconnectFeaturesWithId
  cases h : net.ensureGraphLoaded with
  | none => exact ⟨rfl, le_refl _⟩
  | some net0 =>
    have hf := ensureGraphLoaded_virtual_frame net net0 h
    simp only
    repeat' split
    all_goals exact hf

theorem DisconnectAll_virtual_frame (flt : StorageFaults) (net : GNMGenericNetwork) :
    (net.DisconnectAll flt).2.virtualFIDs = net.virtualFIDs ∧
    (net.DisconnectAll flt).2.m_nVirtualConnectionGID ≤ net.m_nVirtualConnectionGID := by
  unfold DisconnectAll
  cases h : net.ensureGraphLoaded with
  | none => exact ⟨rfl, le_refl _⟩
  | some net0 =>
    have hf := ensureGraphLoaded_virtual_frame net net0 h
    simp only
    repeat' split
    all_goals exact hf

theorem ChangeBlockState_virtual_frame (flt : StorageFaults) (net : GNMGenericNetwork)
    (nFID : GNMGFID) (bIsBlock : Bool) :
    (net.ChangeBlockState flt nFID bIsBlock).2.virtualFIDs = net.virtualFIDs ∧
    (net.ChangeBlockState flt nFID bIsBlock).2.m_nVirtualConnectionGID ≤
      net.m_nVirtualConnectionGID := by
  unfold ChangeBlockState
  cases h : net.ensureGraphLoaded with
  | none => exact ⟨rfl, le_refl _⟩
  | some net0 =>
    have hf := ensureGraphLoaded_virtual_frame net net0 h
    simp only
    repeat' split
    all_goals exact hf

theorem ChangeAllBlockState_virtual_frame (flt : StorageFaults) (net : GNMGenericNetwork)
    (bIsBlock : Bool) :
    (net.ChangeAllBlockState flt bIsBlock).2.virtualFIDs = net.virtualFIDs ∧
    (net.ChangeAllBlockState flt bIsBlock).2.m_nVirtualConnectionGID ≤
      net.m_nVirtualConnectionGID := by
  unfold ChangeAllBlockState
  cases h : net.ensureGraphLoaded with
  | none => exact ⟨rfl, le_refl _⟩
  | some net0 =>
    have hf := ensureGraphLoaded_virtual_frame net net0 h
    simp only
    repeat' split
    all_goals exact hf

theorem DeleteRule_virtual_frame (net : GNMGenericNetwork) (pszRuleStr : String) :
    (net.DeleteRule pszRuleStr).2.virtualFIDs = net.virtualFIDs ∧
    (net.DeleteRule pszRuleStr).2.m_nVirtualConnectionGID = net.m_nVirtualConnectionGID := by
  unfold DeleteRule
  split <;> exact ⟨rfl, rfl⟩

theorem DeleteAllRules_virtual_frame (flt : StorageFaults) (net : GNMGenericNetwork) :
    (net.DeleteAllRules flt).2.virtualFIDs = net.virtualFIDs ∧
    (net.DeleteAllRules flt).2.m_nVirtualConnectionGID = net.m_nVirtualConnectionGID :=
  ⟨rfl, rfl⟩

theorem SaveRules_virtual_frame (flt : StorageFaults) (net : GNMGenericNetwork) :
    (net.SaveRules flt).2.virtualFIDs = net.virtualFIDs ∧
    (net.SaveRules flt).2.m_nVirtualConnectionGID = net.m_nVirtualConnectionGID := by
  simp only [SaveRules, DeleteAllRules]
  repeat' split
  all_goals exact ⟨rfl, rfl⟩

theorem LoadMetadataLayer_step_virtual_frame (st : GNMGenericNetwork × List (Int × GNMRule))
    (poFeature : MetadataFeature) :
    (LoadMetadataLayer.step st poFeature).1.virtualFIDs = st.1.virtualFIDs ∧
    (LoadMetadataLayer.step st poFeature).1.m_nVirtualConnectionGID =
      st.1.m_nVirtualConnectionGID := by
  simp only [LoadMetadataLayer.step]
  split_ifs <;> exact ⟨rfl, rfl⟩

theorem LoadMetadataLayer_foldl_virtual_frame (fs : List MetadataFeature) :
    ∀ (st : GNMGenericNetwork × List (Int × GNMRule)),
      (fs.foldl LoadMetadataLayer.step st).1.virtualFIDs = st.1.virtualFIDs ∧
      (fs.foldl LoadMetadataLayer.step st).1.m_nVirtualConnectionGID =
        st.1.m_nVirtualConnectionGID := by
  induction fs with
  | nil => intro st; exact ⟨rfl, rfl⟩
  | cons f rest ih =>
    intro st
    obtain ⟨a, b⟩ := ih (LoadMetadataLayer.step st f)
    obtain ⟨c, d⟩ := LoadMetadataLayer_step_virtual_frame st f
    simp only [List.foldl_cons]
    exact ⟨a.trans c, b.trans d⟩

theorem LoadMetadataLayer_virtual_frame (net : GNMGenericNetwork)
    (poLayer : Option MetadataLayer) :
    (net.LoadMetadataLayer poLayer).2.virtualFIDs = net.virtualFIDs ∧
    (net.LoadMetadataLayer poLayer).2.m_nVirtualConnectionGID =
      net.m_nVirtualConnectionGID := by
  unfold LoadMetadataLayer
  cases poLayer with
  | none => exact ⟨rfl, rfl⟩
  | some layer =>
    have hf := LoadMetadataLayer_foldl_virtual_frame layer.features
      ({ net with m_poMetadataLayer := layer }, [])
    simp only
    rcases hfold : layer.features.foldl LoadMetadataLayer.step
        ({ net with m_poMetadataLayer := layer }, []) with ⟨net1, moRules⟩
    rw [hfold] at hf
    simp only
    repeat' split
    all_goals exact hf

theorem LoadFeaturesLayer_virtual_frame
    (LoadNetworkLayer : List GNMGenericLayer → String → List GNMGenericLayer)
    (net : GNMGenericNetwork) (poLayer : Option FeaturesLayer) :
    (net.LoadFeaturesLayer LoadNetworkLayer poLayer).2.virtualFIDs = net.virtualFIDs ∧
    (net.LoadFeaturesLayer LoadNetworkLayer poLayer).2.m_nVirtualConnectionGID =
      net.m_nVirtualConnectionGID := by
  have hfold : ∀ (fs : List FeaturesRecord) (n : GNMGenericNetwork),
      (fs.foldl (LoadFeaturesLayer.step LoadNetworkLayer) n).virtualFIDs = n.virtualFIDs ∧
      (fs.foldl (LoadFeaturesLayer.step LoadNetworkLayer) n).m_nVirtualConnectionGID =
        n.m_nVirtualConnectionGID := by
    intro fs
    induction fs with
    | nil => intro n; exact ⟨rfl, rfl⟩
    | cons f rest ih =>
      intro n
      simp only [List.foldl_cons]
      exact ih _
  unfold LoadFeaturesLayer
  cases poLayer with
  | none => exact ⟨rfl, rfl⟩
  | some layer => exact hfold layer.features _

theorem DeleteLayer_virtual_frame (flt : StorageFaults) (net : GNMGenericNetwork)
    (nIndex : Int) :
    (net.DeleteLayer flt nIndex).2.virtualFIDs = net.virtualFIDs ∧
    (net.DeleteLayer flt nIndex).2.m_nVirtualConnectionGID = net.m_nVirtualConnectionGID := by
  unfold DeleteLayer
  repeat' split
  all_goals exact ⟨rfl, rfl⟩

theorem FillResultLayer_insert_virtual_frame (nNoOfPath : Int) (bIsEdge : Bool)
    (st : GNMGenericNetwork × OGRGNMWrappedResultLayer) (nGFID : GNMGFID) :
    (FillResultLayer.insert nNoOfPath bIsEdge st nGFID).1.virtualFIDs = st.1.virtualFIDs ∧
    (FillResultLayer.insert nNoOfPath bIsEdge st nGFID).1.m_nVirtualConnectionGID =
      st.1.m_nVirtualConnectionGID := by
  unfold FillResultLayer.insert
  simp only [GetFeatureByGlobalFID]
  split
  · rename_i h
    have h2 := (Prod.mk.inj h).2
    rw [← h2]
    exact ⟨rfl, rfl⟩
  · rename_i h
    have h2 := (Prod.mk.inj h).2
    rw [← h2]
    exact ⟨rfl, rfl⟩

theorem FillResultLayer_virtual_frame (nNoOfPath : Int) (bReturnVertices bReturnEdges : Bool) :
    ∀ (path : GNMPATH) (net : GNMGenericNetwork) (poResLayer : OGRGNMWrappedResultLayer),
      (net.FillResultLayer poResLayer path nNoOfPath bReturnVertices
        bReturnEdges).1.virtualFIDs = net.virtualFIDs ∧
      (net.FillResultLayer poResLayer path nNoOfPath bReturnVertices
        bReturnEdges).1.m_nVirtualConnectionGID = net.m_nVirtualConnectionGID := by
  have hstep : ∀ (st : GNMGenericNetwork × OGRGNMWrappedResultLayer) (seg : GNMGFID × GNMGFID),
      (FillResultLayer.step nNoOfPath bReturnVertices bReturnEdges st seg).1.virtualFIDs =
        st.1.virtualFIDs ∧
      (FillResultLayer.step nNoOfPath bReturnVertices bReturnEdges st
        seg).1.m_nVirtualConnectionGID = st.1.m_nVirtualConnectionGID := by
    intro st seg
    unfold FillResultLayer.step
    cases bReturnVertices <;> cases bReturnEdges
    · exact ⟨rfl, rfl⟩
    · exact FillResultLayer_insert_virtual_frame _ _ _ _
    · exact FillResultLayer_insert_virtual_frame _ _ _ _
    · obtain ⟨a, b⟩ := FillResultLayer_insert_virtual_frame nNoOfPath false st seg.1
      obtain ⟨c, d⟩ := FillResultLayer_insert_virtual_frame nNoOfPath true
        (FillResultLayer.insert nNoOfPath false st seg.1) seg.2
      exact ⟨c.trans a, d.trans b⟩
  have hfold : ∀ (path : GNMPATH) (st : GNMGenericNetwork × OGRGNMWrappedResultLayer),
      (path.foldl (FillResultLayer.step nNoOfPath bReturnVertices bReturnEdges)
        st).1.virtualFIDs = st.1.virtualFIDs ∧
      (path.foldl (FillResultLayer.step nNoOfPath bReturnVertices bReturnEdges)
        st).1.m_nVirtualConnectionGID = st.1.m_nVirtualConnectionGID := by
    intro path
    induction path with
    | nil => intro st; exact ⟨rfl, rfl⟩
    | cons seg rest ih =>
      intro st
      obtain ⟨a, b⟩ := ih (FillResultLayer.step nNoOfPath bReturnVertices bReturnEdges st seg)
      obtain ⟨c, d⟩ := hstep st seg
      simp only [List.foldl_cons]
      exact ⟨a.trans c, b.trans d⟩
  intro path net res
  exact hfold path (net, res)

theorem GetPath_fillPaths_virtual_frame (bReturnVertices bReturnEdges : Bool) :
    ∀ (paths : List GNMPATH) (i : Nat) (st : GNMGenericNetwork × OGRGNMWrappedResultLayer),
      (GetPath.fillPaths bReturnVertices bReturnEdges i paths st).1.virtualFIDs =
        st.1.virtualFIDs ∧
      (GetPath.fillPaths bReturnVertices bReturnEdges i paths st).1.m_nVirtualConnectionGID =
        st.1.m_nVirtualConnectionGID := by
  intro paths
  induction paths with
  | nil => intro i st; exact ⟨rfl, rfl⟩
  | cons path rest ih =>
    intro i st
    obtain ⟨a, b⟩ := ih (i + 1)
      (FillResultLayer st.1 st.2 path ((i : Int) + 1) bReturnVertices bReturnEdges)
    obtain ⟨c, d⟩ := FillResultLayer_virtual_frame ((i : Int) + 1) bReturnVertices bReturnEdges
      path st.1 st.2
    simp only [GetPath.fillPaths]
    exact ⟨a.trans c, b.trans d⟩

theorem GetPath_virtual_frame (net : GNMGenericNetwork) (poMEMDrv : Bool)
    (nStartFID nEndFID : GNMGFID) (eAlgorithm : GNMGraphAlgorithmType)
    (papszOptions : Option Options) :
    (net.GetPath poMEMDrv nStartFID nEndFID eAlgorithm papszOptions).2.virtualFIDs =
      net.virtualFIDs ∧
    (net.GetPath poMEMDrv nStartFID nEndFID eAlgorithm
      papszOptions).2.m_nVirtualConnectionGID ≤ net.m_nVirtualConnectionGID := by
  unfold GetPath
  cases h : net.ensureGraphLoaded with
  | none => exact ⟨rfl, le_refl _⟩
  | some net0 =>
    obtain ⟨a, b⟩ := ensureGraphLoaded_virtual_frame net net0 h
    simp only
    split
    · exact ⟨a, b⟩
    · cases eAlgorithm with
      | GATDijkstraShortestPath =>
        obtain ⟨c, d⟩ := FillResultLayer_virtual_frame 1
          (CPLFetchBool papszOptions GNM_MD_FETCHVERTEX true)
          (CPLFetchBool papszOptions GNM_MD_FETCHEDGES true)
          (net0.m_oGraph.DijkstraShortestPath nStartFID nEndFID) net0 []
        exact ⟨c.trans a, d ▸ b⟩
      | GATKShortestPath =>
        obtain ⟨c, d⟩ := GetPath_fillPaths_virtual_frame
          (CPLFetchBool papszOptions GNM_MD_FETCHVERTEX true)
          (CPLFetchBool papszOptions GNM_MD_FETCHEDGES true)
          (net0.m_oGraph.KShortestPaths nStartFID nEndFID
            (atoi (CSLFetchNameValueDef papszOptions GNM_MD_NUM_PATHS "1"))) 0 (net0, [])
        exact ⟨c.trans a, d ▸ b⟩
      | GATConnectedComponents =>
        obtain ⟨c, d⟩ := FillResultLayer_virtual_frame 1
          (CPLFetchBool papszOptions GNM_MD_FETCHVERTEX true)
          (CPLFetchBool papszOptions GNM_MD_FETCHEDGES true)
          (net0.m_oGraph.ConnectedComponents
            (GetPath.emitters nStartFID nEndFID papszOptions)) net0 []
        exact ⟨c.trans a, d ▸ b⟩

end GNMGenericNetwork

namespace GNMGenericNetwork

theorem VirtualIdsBelowMax_frame (net net1 : GNMGenericNetwork) (h : VirtualIdsBelowMax net)
    (hv : net1.virtualFIDs = net.virtualFIDs)
    (hm : net1.m_nVirtualConnectionGID ≤ net.m_nVirtualConnectionGID) :
    VirtualIdsBelowMax net1 := by
  unfold VirtualIdsBelowMax at *
  rw [hv]
  exact ⟨le_trans hm h.1, h.2⟩

theorem VirtualIdsBelowMax_GetNewVirtualFID (net : GNMGenericNetwork)
    (h : VirtualIdsBelowMax net) : VirtualIdsBelowMax net.GetNewVirtualFID.2 := by
  unfold VirtualIdsBelowMax at *
  simp only [GetNewVirtualFID, List.mem_cons]
  obtain ⟨h1, h2⟩ := h
  refine ⟨by linarith, fun v hv => ?_⟩
  rcases hv with hv | hv
  · rw [hv]; linarith
  · exact h2 v hv

theorem VirtualIdsBelowMax_virtualIds (net : GNMGenericNetwork) (s t c : GNMGFID)
    (h : VirtualIdsBelowMax net) :
    VirtualIdsBelowMax (ConnectFeatures.virtualIds net s t c).2 := by
  unfold ConnectFeatures.virtualIds
  have step : ∀ (n : GNMGenericNetwork) (x : GNMGFID), VirtualIdsBelowMax n →
      VirtualIdsBelowMax (if x = -1 then n.GetNewVirtualFID else (x, n)).2 := by
    intro n x hn
    split
    · exact VirtualIdsBelowMax_GetNewVirtualFID n hn
    · exact hn
  exact step _ t (step _ s (step _ c h))

theorem VirtualIdsBelowMax_ConnectFeatures (flt : StorageFaults) (net : GNMGenericNetwork)
    (s t c : GNMGFID) (dfCost dfInvCost : Cost) (eDir : GNMDirection)
    (h : VirtualIdsBelowMax net) :
    VirtualIdsBelowMax (net.ConnectFeatures flt s t c dfCost dfInvCost eDir).2 := by
  have h0 : VirtualIdsBelowMax net.LoadGraph.2 :=
    VirtualIdsBelowMax_frame net _ h (LoadGraph_snd_frame net).1 (LoadGraph_snd_frame net).2
  rcases ConnectFeatures_after_load flt net s t c dfCost dfInvCost eDir with
    ⟨_, h2, _⟩ | ⟨hload, heq⟩
  · rw [h2]; exact h
  · rw [heq]
    cases hL : net.LoadGraph.2.m_poGraphLayer with
    | none => rw [ConnectFeatures_no_layer flt _ s t c dfCost dfInvCost eDir hload hL]; exact h0
    | some layer =>
      have hv := VirtualIdsBelowMax_virtualIds net.LoadGraph.2 s t c h0
      rw [virtualIds_eq] at hv
      rcases hids : ConnectFeatures.virtualIdsFrom net.LoadGraph.2.m_nVirtualConnectionGID s t c
        with ⟨ids, m, fresh⟩
      rw [hids] at hv
      have hv2 : m ≤ GINTBIG_MAX ∧ ∀ v ∈ fresh ++ net.LoadGraph.2.virtualFIDs, v ≤ GINTBIG_MAX :=
        hv
      rcases ConnectFeatures_loaded flt net.LoadGraph.2 layer s t c dfCost dfInvCost eDir hload hL
        ids m fresh hids _ rfl with
        ⟨_, _, _, _, ⟨a, b⟩ | ⟨a, b, _⟩⟩ | ⟨_, _, _, _, a, b, _⟩
      · exact VirtualIdsBelowMax_frame _ _ h0 b (le_of_eq a)
      · unfold VirtualIdsBelowMax; rw [a, b]; exact hv2
      · unfold VirtualIdsBelowMax; rw [a, b]; exact hv2

end GNMGenericNetwork

/-- In every state of a network object the virtual ids handed out so far are strictly
decreasing in the order of their allocation, none of them is below the counter, and neither
they nor the counter are above the greatest value of `GIntBig`. -/
theorem VirtualIds_of_Reachable (net : GNMGenericNetwork) (h : Reachable net) :
    VirtualIdsDecrease net ∧ VirtualIdsBelowMax net := by
  induction h with
  | start n hn hc =>
    exact ⟨by simp [VirtualIdsDecrease, hn], by simp [VirtualIdsBelowMax, hn, hc.2]⟩
  | ConnectFeatures flt s t c dfCost dfInvCost eDir n _ ih =>
    exact ⟨GNMGenericNetwork.VirtualIdsDecrease_ConnectFeatures flt n s t c dfCost dfInvCost
        eDir ih.1,
      GNMGenericNetwork.VirtualIdsBelowMax_ConnectFeatures flt n s t c dfCost dfInvCost eDir
        ih.2⟩
  | DisconnectFeatures flt s t c n _ ih =>
    obtain ⟨a, b⟩ := GNMGenericNetwork.Disconnect_frame flt n s t c
    obtain ⟨l1, l2⟩ := GNMGenericNetwork.LoadGraph_snd_frame n
    exact ⟨GNMGenericNetwork.VirtualIdsDecrease_frame _ _ ih.1 (a.trans l1) (b ▸ l2),
      GNMGenericNetwork.VirtualIdsBelowMax_frame _ _ ih.2 (a.trans l1) (b ▸ l2)⟩
  | ReconnectFeatures flt s t c dfCost dfInvCost eDir n _ ih =>
    obtain ⟨a, b⟩ := GNMGenericNetwork.Reconnect_frame flt n s t c dfCost dfInvCost eDir
    obtain ⟨l1, l2⟩ := GNMGenericNetwork.LoadGraph_snd_frame n
    exact ⟨GNMGenericNetwork.VirtualIdsDecrease_frame _ _ ih.1 (a.trans l1) (b ▸ l2),
      GNMGenericNetwork.VirtualIdsBelowMax_frame _ _ ih.2 (a.trans l1) (b ▸ l2)⟩
  | DisconnectFeaturesWithId flt nFID n _ ih =>
    obtain ⟨a, b⟩ := GNMGenericNetwork.DisconnectFeaturesWithId_virtual_frame flt n nFID
    exact ⟨GNMGenericNetwork.VirtualIdsDecrease_frame _ _ ih.1 a b,
      GNMGenericNetwork.VirtualIdsBelowMax_frame _ _ ih.2 a b⟩
  | DisconnectAll flt n _ ih =>
    obtain ⟨a, b⟩ := GNMGenericNetwork.DisconnectAll_virtual_frame flt n
    exact ⟨GNMGenericNetwork.VirtualIdsDecrease_frame _ _ ih.1 a b,
      GNMGenericNetwork.VirtualIdsBelowMax_frame _ _ ih.2 a b⟩
  | CreateRule pszRuleStr n _ ih =>
    obtain ⟨a, b⟩ := GNMGenericNetwork.CreateRule_frame n pszRuleStr
    exact ⟨GNMGenericNetwork.VirtualIdsDecrease_frame _ _ ih.1 a (le_of_eq b),
      GNMGenericNetwork.VirtualIdsBelowMax_frame _ _ ih.2 a (le_of_eq b)⟩
  | DeleteRule pszRuleStr n _ ih =>
    obtain ⟨a, b⟩ := GNMGenericNetwork.DeleteRule_virtual_frame n pszRuleStr
    exact ⟨GNMGenericNetwork.VirtualIdsDecrease_frame _ _ ih.1 a (le_of_eq b),
      GNMGenericNetwork.VirtualIdsBelowMax_frame _ _ ih.2 a (le_of_eq b)⟩
  | DeleteAllRules flt n _ ih =>
    obtain ⟨a, b⟩ := GNMGenericNetwork.DeleteAllRules_virtual_frame flt n
    exact ⟨GNMGenericNetwork.VirtualIdsDecrease_frame _ _ ih.1 a (le_of_eq b),
      GNMGenericNetwork.VirtualIdsBelowMax_frame _ _ ih.2 a (le_of_eq b)⟩
  | SaveRules flt n _ ih =>
    obtain ⟨a, b⟩ := GNMGenericNetwork.SaveRules_virtual_frame flt n
    exact ⟨GNMGenericNetwork.VirtualIdsDecrease_frame _ _ ih.1 a (le_of_eq b),
      GNMGenericNetwork.VirtualIdsBelowMax_frame _ _ ih.2 a (le_of_eq b)⟩
  | LoadMetadataLayer poLayer n _ ih =>
    obtain ⟨a, b⟩ := GNMGenericNetwork.LoadMetadataLayer_virtual_frame n poLayer
    exact ⟨GNMGenericNetwork.VirtualIdsDecrease_frame _ _ ih.1 a (le_of_eq b),
      GNMGenericNetwork.VirtualIdsBelowMax_frame _ _ ih.2 a (le_of_eq b)⟩
  | ChangeBlockState flt nFID bIsBlock n _ ih =>
    obtain ⟨a, b⟩ := GNMGenericNetwork.ChangeBlockState_virtual_frame flt n nFID bIsBlock
    exact ⟨GNMGenericNetwork.VirtualIdsDecrease_frame _ _ ih.1 a b,
      GNMGenericNetwork.VirtualIdsBelowMax_frame _ _ ih.2 a b⟩
  | ChangeAllBlockState flt bIsBlock n _ ih =>
    obtain ⟨a, b⟩ := GNMGenericNetwork.ChangeAllBlockState_virtual_frame flt n bIsBlock
    exact ⟨GNMGenericNetwork.VirtualIdsDecrease_frame _ _ ih.1 a b,
      GNMGenericNetwork.VirtualIdsBelowMax_frame _ _ ih.2 a b⟩
  | LoadGraph n _ ih =>
    obtain ⟨a, b⟩ := GNMGenericNetwork.LoadGraph_snd_frame n
    exact ⟨GNMGenericNetwork.VirtualIdsDecrease_frame _ _ ih.1 a b,
      GNMGenericNetwork.VirtualIdsBelowMax_frame _ _ ih.2 a b⟩
  | LoadFeaturesLayer LoadNetworkLayer poLayer n _ ih =>
    obtain ⟨a, b⟩ := GNMGenericNetwork.LoadFeaturesLayer_virtual_frame LoadNetworkLayer n poLayer
    exact ⟨GNMGenericNetwork.VirtualIdsDecrease_frame _ _ ih.1 a (le_of_eq b),
      GNMGenericNetwork.VirtualIdsBelowMax_frame _ _ ih.2 a (le_of_eq b)⟩
  | DeleteLayer flt nIndex n _ ih =>
    obtain ⟨a, b⟩ := GNMGenericNetwork.DeleteLayer_virtual_frame flt n nIndex
    exact ⟨GNMGenericNetwork.VirtualIdsDecrease_frame _ _ ih.1 a (le_of_eq b),
      GNMGenericNetwork.VirtualIdsBelowMax_frame _ _ ih.2 a (le_of_eq b)⟩
  | GetNewGlobalFID n _ ih =>
    exact ⟨GNMGenericNetwork.VirtualIdsDecrease_frame _ _ ih.1 rfl (le_refl _),
      GNMGenericNetwork.VirtualIdsBelowMax_frame _ _ ih.2 rfl (le_refl _)⟩
  | GetNewVirtualFID n _ ih =>
    exact ⟨GNMGenericNetwork.VirtualIdsDecrease_GetNewVirtualFID n ih.1,
      GNMGenericNetwork.VirtualIdsBelowMax_GetNewVirtualFID n ih.2⟩
  | GetFeatureByGlobalFID nFID n _ ih =>
    exact ⟨GNMGenericNetwork.VirtualIdsDecrease_frame _ _ ih.1 rfl (le_refl _),
      GNMGenericNetwork.VirtualIdsBelowMax_frame _ _ ih.2 rfl (le_refl _)⟩
  | FillResultLayer poResLayer path nNoOfPath bV bE n _ ih =>
    obtain ⟨a, b⟩ := GNMGenericNetwork.FillResultLayer_virtual_frame nNoOfPath bV bE path n
      poResLayer
    exact ⟨GNMGenericNetwork.VirtualIdsDecrease_frame _ _ ih.1 a (le_of_eq b),
      GNMGenericNetwork.VirtualIdsBelowMax_frame _ _ ih.2 a (le_of_eq b)⟩
  | GetPath poMEMDrv s t alg opts n _ ih =>
    obtain ⟨a, b⟩ := GNMGenericNetwork.GetPath_virtual_frame n poMEMDrv s t alg opts
    exact ⟨GNMGenericNetwork.VirtualIdsDecrease_frame _ _ ih.1 a b,
      GNMGenericNetwork.VirtualIdsBelowMax_frame _ _ ih.2 a b⟩
  | other n n1 _ hv hc ih =>
    exact ⟨GNMGenericNetwork.VirtualIdsDecrease_frame _ _ ih.1 hv (le_of_eq hc),
      GNMGenericNetwork.VirtualIdsBelowMax_frame _ _ ih.2 hv (le_of_eq hc)⟩

/-! ## Claims about the virtual ids -/

/-- C6 (as stated, refuted): the ids are values of `GIntBig`, and below its least value
there is none.  The network object `lowConnectorNetwork` is opened on a graph record whose
connector, passed to `ConnectFeatures` in an earlier session, is `GINTBIG_MIN + 1`;
`LoadGraph`, run by the guard of `ConnectFeatures`, lowers the counter of virtual ids to it.
`ConnectFeatures(-1, -1, 8)` passes the checks and allocates the source `GINTBIG_MIN`; for
the target the source decrements the counter once more, at the least value of `GIntBig`:
the result `GINTBIG_MIN - 1` that the definitions compute is not a value of `GIntBig` (the
decrement of the source overflows), and no value of `GIntBig` is less than the source id
or is the source id minus one.  Likewise the second of two successive results of
`GetNewVirtualFID` on the loaded object cannot be less than the first. -/
theorem ConnectFeatures_needs_an_id_below_the_least :
    Reachable lowConnectorNetwork ∧
    lowConnectorNetwork.graphRecords.map (fun f => (f.source, f.target, f.connector)) =
      [(1, 2, GINTBIG_MIN + 1)] ∧
    lowConnectorNetwork.LoadGraph.2.m_nVirtualConnectionGID = GINTBIG_MIN + 1 ∧
    (lowConnectorNetwork.ConnectFeatures StorageFaults.none (-1) (-1) 8 1 1
      GNM_EDGE_DIR_BOTH).1 = CPLErr.CE_None ∧
    (lowConnectorNetwork.ConnectFeatures StorageFaults.none (-1) (-1) 8 1 1
      GNM_EDGE_DIR_BOTH).2.graphRecords.map (fun f => (f.source, f.target, f.connector)) =
      [(1, 2, GINTBIG_MIN + 1), (GINTBIG_MIN, GINTBIG_MIN - 1, 8)] ∧
    lowConnectorNetwork.LoadGraph.2.GetNewVirtualFID.1 = GINTBIG_MIN ∧
    lowConnectorNetwork.LoadGraph.2.GetNewVirtualFID.2.GetNewVirtualFID.1 = GINTBIG_MIN - 1 ∧
    isGIntBig GINTBIG_MIN ∧ ¬isGIntBig (GINTBIG_MIN - 1) ∧
    ¬∃ v, isGIntBig v ∧ (v < GINTBIG_MIN ∨ v = GINTBIG_MIN - 1) :=
  ⟨Reachable.start _ (by decide) (by decide), by decide, by decide, by decide, by decide,
    by decide, by decide, by decide, by decide,
    fun ⟨v, hv, h⟩ => by
      have h1 := hv.1
      rcases h with h | h
      · exact absurd h1 (not_le.mpr h)
      · rw [h] at h1
        exact absurd h1 (by decide)⟩

/-- C6 (amended): let `ConnectFeatures(-1, -1, c, ...)` with `c` other than `-1` succeed on
a network object in a reachable state whose counter of virtual ids, after the graph records
are loaded, leaves room for two ids above the least value of `GIntBig`.  Then it appended
one graph record `r` with connector `c` whose source and target are the two ids that the
call allocated, the source first: both are values of `GIntBig`, the target is the source
minus one, the two differ, and each is strictly less than every virtual id that the object
handed out before the call.  More generally, in every reachable state whose counter is not
below the least value of `GIntBig` the virtual ids handed out so far are values of
`GIntBig` and strictly decreasing in the order of their allocation, hence pairwise
distinct, and when the counter is above the least value the next result of
`GetNewVirtualFID` is a value of `GIntBig` strictly less than all of them. -/
theorem ConnectFeatures_virtual_endpoints_decrease (flt : StorageFaults)
    (net net1 : GNMGenericNetwork) (c : GNMGFID) (dfCost dfInvCost : Cost) (eDir : GNMDirection)
    (hReach : Reachable net) (hc : c ≠ -1)
    (hRoom : GINTBIG_MIN + 2 ≤ net.LoadGraph.2.m_nVirtualConnectionGID)
    (hOk : net.ConnectFeatures flt (-1) (-1) c dfCost dfInvCost eDir = (CPLErr.CE_None, net1)) :
    (∃ r, net1.graphRecords = net.graphRecords ++ [r] ∧ r.connector = c ∧
      net1.virtualFIDs = r.target :: r.source :: net.virtualFIDs ∧
      isGIntBig r.source ∧ isGIntBig r.target ∧
      r.target = r.source - 1 ∧ r.source ≠ r.target ∧
      ∀ v ∈ net.virtualFIDs, r.source < v ∧ r.target < v) ∧
    (∀ n, Reachable n → GINTBIG_MIN ≤ n.m_nVirtualConnectionGID →
      List.Pairwise (fun a b => a < b) n.virtualFIDs ∧ n.virtualFIDs.Nodup ∧
      (∀ v ∈ n.virtualFIDs, isGIntBig v) ∧
      (GINTBIG_MIN < n.m_nVirtualConnectionGID →
        isGIntBig n.GetNewVirtualFID.1 ∧ ∀ v ∈ n.virtualFIDs, n.GetNewVirtualFID.1 < v)) := by
  constructor
  · obtain ⟨hinv, hmax⟩ := VirtualIds_of_Reachable net hReach
    obtain ⟨hfr1, hfr2⟩ := GNMGenericNetwork.LoadGraph_snd_frame net
    have hmax0 : net.LoadGraph.2.m_nVirtualConnectionGID ≤ GINTBIG_MAX := le_trans hfr2 hmax.1
    rcases GNMGenericNetwork.ConnectFeatures_after_load flt net (-1) (-1) c dfCost dfInvCost eDir
      with ⟨_, h2, _⟩ | ⟨hload, heq⟩
    · rw [h2] at hOk; simp at hOk
    · rw [heq] at hOk
      cases hL : net.LoadGraph.2.m_poGraphLayer with
      | none =>
        rw [GNMGenericNetwork.ConnectFeatures_no_layer flt _ _ _ c dfCost dfInvCost eDir hload hL]
          at hOk
        simp at hOk
      | some layer =>
        have hL0 : net.m_poGraphLayer = some layer :=
          (GNMGenericNetwork.LoadGraph_snd_layer net).symm.trans hL
        have hids : GNMGenericNetwork.ConnectFeatures.virtualIdsFrom
            net.LoadGraph.2.m_nVirtualConnectionGID (-1) (-1) c =
            ((net.LoadGraph.2.m_nVirtualConnectionGID - 1,
              net.LoadGraph.2.m_nVirtualConnectionGID - 1 - 1, c),
             net.LoadGraph.2.m_nVirtualConnectionGID - 1 - 1,
             [net.LoadGraph.2.m_nVirtualConnectionGID - 1 - 1,
              net.LoadGraph.2.m_nVirtualConnectionGID - 1]) := by
          simp [GNMGenericNetwork.ConnectFeatures.virtualIdsFrom, hc]
        rcases GNMGenericNetwork.ConnectFeatures_loaded flt net.LoadGraph.2 layer (-1) (-1) c
          dfCost dfInvCost eDir hload hL _ _ _ hids _ hOk with
          ⟨h1, _⟩ | ⟨_, _, _, hl1, _, hv1, _⟩
        · simp at h1
        · simp only at hl1 hv1
          refine ⟨{ nFID := layer.nNextFID,
                    source := net.LoadGraph.2.m_nVirtualConnectionGID - 1,
                    target := net.LoadGraph.2.m_nVirtualConnectionGID - 1 - 1, connector := c,
                    cost := dfCost, invcost := dfInvCost, direction := eDir,
                    blocked := GNM_BLOCK_NONE }, ?_, ?_, ?_, ?_, ?_, ?_, ?_, ?_⟩
          · simp only [GNMGenericNetwork.graphRecords, hl1, hL0]
          · rfl
          · rw [hv1, hfr1]; rfl
          · show GINTBIG_MIN ≤ net.LoadGraph.2.m_nVirtualConnectionGID - 1 ∧
              net.LoadGraph.2.m_nVirtualConnectionGID - 1 ≤ GINTBIG_MAX
            constructor <;> linarith
          · show GINTBIG_MIN ≤ net.LoadGraph.2.m_nVirtualConnectionGID - 1 - 1 ∧
              net.LoadGraph.2.m_nVirtualConnectionGID - 1 - 1 ≤ GINTBIG_MAX
            constructor <;> linarith
          · rfl
          · show net.LoadGraph.2.m_nVirtualConnectionGID - 1 ≠
              net.LoadGraph.2.m_nVirtualConnectionGID - 1 - 1
            intro h; linarith
          · intro v hv
            have h3 := hinv.2 v hv
            show net.LoadGraph.2.m_nVirtualConnectionGID - 1 < v ∧
              net.LoadGraph.2.m_nVirtualConnectionGID - 1 - 1 < v
            constructor <;> linarith
  · intro n hn hlow
    obtain ⟨hinv, hmax⟩ := VirtualIds_of_Reachable n hn
    refine ⟨hinv.1, hinv.1.imp (fun h => ne_of_lt h),
      fun v hv => ⟨le_trans hlow (hinv.2 v hv), hmax.2 v hv⟩, fun hroom => ⟨?_, fun v hv => ?_⟩⟩
    · have h1 := hmax.1
      show GINTBIG_MIN ≤ n.m_nVirtualConnectionGID - 1 ∧
        n.m_nVirtualConnectionGID - 1 ≤ GINTBIG_MAX
      constructor
      · have : GINTBIG_MIN + 1 ≤ n.m_nVirtualConnectionGID := hroom
        linarith
      · linarith
    · have := hinv.2 v hv
      show n.m_nVirtualConnectionGID - 1 < v
      linarith

/-- Instance of C6: after a first connection that allocated the virtual connector `-2`,
the connection of two virtual vertices by 7 writes the source `-3` and the target `-4`. -/
theorem ConnectFeatures_virtual_endpoints_decrease_witness :
    firstConnected.virtualFIDs = [-2] ∧
    GINTBIG_MIN + 2 ≤ firstConnected.LoadGraph.2.m_nVirtualConnectionGID ∧
    firstConnected.ConnectFeatures StorageFaults.none (-1) (-1) 7 1 1 GNM_EDGE_DIR_SRCTOTGT =
      (CPLErr.CE_None, twoConnected) ∧
    twoConnected.virtualFIDs = [-4, -3, -2] ∧
    ((∃ r, twoConnected.graphRecords = firstConnected.graphRecords ++ [r] ∧ r.connector = 7 ∧
      twoConnected.virtualFIDs = r.target :: r.source :: firstConnected.virtualFIDs ∧
      isGIntBig r.source ∧ isGIntBig r.target ∧
      r.target = r.source - 1 ∧ r.source ≠ r.target ∧
      ∀ v ∈ firstConnected.virtualFIDs, r.source < v ∧ r.target < v) ∧
    (∀ n, Reachable n → GINTBIG_MIN ≤ n.m_nVirtualConnectionGID →
      List.Pairwise (fun a b => a < b) n.virtualFIDs ∧ n.virtualFIDs.Nodup ∧
      (∀ v ∈ n.virtualFIDs, isGIntBig v) ∧
      (GINTBIG_MIN < n.m_nVirtualConnectionGID →
        isGIntBig n.GetNewVirtualFID.1 ∧ ∀ v ∈ n.virtualFIDs, n.GetNewVirtualFID.1 < v))) :=
  ⟨by decide, by decide, by decide, by decide,
    ConnectFeatures_virtual_endpoints_decrease StorageFaults.none firstConnected twoConnected 7
      1 1 GNM_EDGE_DIR_SRCTOTGT
      (Reachable.ConnectFeatures StorageFaults.none 1 2 (-1) 5 6 GNM_EDGE_DIR_BOTH roadsNetwork
        (Reachable.start _ (by decide) (by decide)))
      (by decide) (by decide) (by decide)⟩

/-! ## Claims about `CreateRule` -/

/-- C7, the code at the scenario: the network has the layer `Roads`, holds only the default
rule and places the features 1 and 2 in layer `Roads`.  `CreateRule` on
`DENY CONNECTS Roads,Roads`, a text of the rule grammar, returns failure and leaves the rule
list as it was, and the following `ConnectFeatures` of 1 and 2 succeeds, writes a graph
record and adds a graph edge. -/
theorem CreateRule_deny_Roads_Roads_is_rejected :
    roadsNetwork.m_apoLayers.map GNMGenericLayer.GetName = ["Roads"] ∧
    roadsNetwork.m_asRules = [defaultRule] ∧
    roadsNetwork.layerName 1 = "Roads" ∧ roadsNetwork.layerName 2 = "Roads" ∧
    (GNMRule.ofString "DENY CONNECTS Roads,Roads").IsValid = true ∧
    (roadsNetwork.CreateRule "DENY CONNECTS Roads,Roads").1 = CPLErr.CE_Failure ∧
    (roadsNetwork.CreateRule "DENY CONNECTS Roads,Roads").2.m_asRules = [defaultRule] ∧
    ((roadsNetwork.CreateRule "DENY CONNECTS Roads,Roads").2.ConnectFeatures StorageFaults.none
      1 2 (-1) 1 1 GNM_EDGE_DIR_BOTH).1 = CPLErr.CE_None ∧
    ((roadsNetwork.CreateRule "DENY CONNECTS Roads,Roads").2.ConnectFeatures StorageFaults.none
      1 2 (-1) 1 1 GNM_EDGE_DIR_BOTH).2.graphRecords =
      [{ nFID := 0, source := 1, target := 2, connector := -2, cost := 1, invcost := 1,
         direction := GNM_EDGE_DIR_BOTH, blocked := GNM_BLOCK_NONE }] ∧
    ((roadsNetwork.CreateRule "DENY CONNECTS Roads,Roads").2.ConnectFeatures StorageFaults.none
      1 2 (-1) 1 1 GNM_EDGE_DIR_BOTH).2.m_oGraph.edges =
      [{ connectorGFID := -2, sourceGFID := 1, targetGFID := 2, cost := 1, inverseCost := 1,
         bidirectional := true, blockMask := GNM_BLOCK_NONE }] := by
  decide

/-- C8, the code at a rule that the claim has accepted: `ALLOW CONNECTS Roads,Roads` is a
text of the rule grammar and not of the `ANY` form, its source and target layer name are
both the name of the layer `Roads` of the network and its connector layer name is empty;
`CreateRule` returns failure and the rule list stays as it was. -/
theorem CreateRule_same_layer_twice_is_rejected :
    roadsNetwork.m_apoLayers.map GNMGenericLayer.GetName = ["Roads"] ∧
    (GNMRule.ofString "ALLOW CONNECTS Roads,Roads").IsValid = true ∧
    (GNMRule.ofString "ALLOW CONNECTS Roads,Roads").IsAcceptAny = false ∧
    (GNMRule.ofString "ALLOW CONNECTS Roads,Roads").GetSourceLayerName = "Roads" ∧
    (GNMRule.ofString "ALLOW CONNECTS Roads,Roads").GetTargetLayerName = "Roads" ∧
    (GNMRule.ofString "ALLOW CONNECTS Roads,Roads").GetConnectorLayerName = "" ∧
    roadsNetwork.CreateRule "ALLOW CONNECTS Roads,Roads" = (CPLErr.CE_Failure, roadsNetwork) := by
  decide

/-! ## Claims about `DisconnectFeatures` and `ReconnectFeatures` -/

/-- C9: on a network whose graph is loaded, when no persisted graph record has source `s`,
target `t` and connector `c`, both `DisconnectFeatures(s, t, c)` and
`ReconnectFeatures(s, t, c, ...)` return failure, and the graph records and the in-memory
graph are after the call what they were before it. -/
theorem Disconnect_Reconnect_absent_connection (flt : StorageFaults)
    (net : GNMGenericNetwork) (s t c : GNMGFID) (dfCost dfInvCost : Cost) (eDir : GNMDirection)
    (hLoaded : net.m_bIsGraphLoaded = true)
    (hAbsent : ∀ f ∈ net.graphRecords, ¬(f.source = s ∧ f.target = t ∧ f.connector = c)) :
    ((net.DisconnectFeatures flt s t c).1 = CPLErr.CE_Failure ∧
      (net.DisconnectFeatures flt s t c).2.graphRecords = net.graphRecords ∧
      (net.DisconnectFeatures flt s t c).2.m_oGraph = net.m_oGraph) ∧
    ((net.ReconnectFeatures flt s t c dfCost dfInvCost eDir).1 = CPLErr.CE_Failure ∧
      (net.ReconnectFeatures flt s t c dfCost dfInvCost eDir).2.graphRecords = net.graphRecords ∧
      (net.ReconnectFeatures flt s t c dfCost dfInvCost eDir).2.m_oGraph = net.m_oGraph) := by
  unfold GNMGenericNetwork.DisconnectFeatures GNMGenericNetwork.ReconnectFeatures
  rw [GNMGenericNetwork.ensureGraphLoaded_of_loaded net hLoaded]
  cases hL : net.m_poGraphLayer with
  | none => simp [GNMGenericNetwork.graphRecords, hL]
  | some layer0 =>
    have hnone : List.find? (AttrFilter.connection s t c).eval layer0.features = none := by
      rw [List.find?_eq_none]
      intro f hf
      have := hAbsent f (by simpa [GNMGenericNetwork.graphRecords, hL] using hf)
      simpa [AttrFilter.eval] using this
    simp [GNMGenericNetwork.FindConnection_fst, GNMGenericNetwork.FindConnection_snd, hnone,
      GNMGenericNetwork.graphRecords, hL]

/-- Instance of C9: the network connects 1 to 2 by 3; the connection of 2 to 1 by 3 is
absent. -/
theorem Disconnect_Reconnect_absent_connection_witness :
    oneEdgeNetwork.m_bIsGraphLoaded = true ∧
    (∀ f ∈ oneEdgeNetwork.graphRecords,
      ¬(f.source = 2 ∧ f.target = 1 ∧ f.connector = 3)) ∧
    ((oneEdgeNetwork.DisconnectFeatures StorageFaults.none 2 1 3).1 = CPLErr.CE_Failure ∧
      (oneEdgeNetwork.DisconnectFeatures StorageFaults.none 2 1 3).2.graphRecords =
        oneEdgeNetwork.graphRecords ∧
      (oneEdgeNetwork.DisconnectFeatures StorageFaults.none 2 1 3).2.m_oGraph =
        oneEdgeNetwork.m_oGraph) ∧
    ((oneEdgeNetwork.ReconnectFeatures StorageFaults.none 2 1 3 5 6 GNM_EDGE_DIR_BOTH).1 =
        CPLErr.CE_Failure ∧
      (oneEdgeNetwork.ReconnectFeatures StorageFaults.none 2 1 3 5 6
        GNM_EDGE_DIR_BOTH).2.graphRecords = oneEdgeNetwork.graphRecords ∧
      (oneEdgeNetwork.ReconnectFeatures StorageFaults.none 2 1 3 5 6
        GNM_EDGE_DIR_BOTH).2.m_oGraph = oneEdgeNetwork.m_oGraph) :=
  ⟨by decide, by decide,
    Disconnect_Reconnect_absent_connection StorageFaults.none oneEdgeNetwork 2 1 3 5 6
      GNM_EDGE_DIR_BOTH (by decide) (by decide)⟩

/-- C10, the code at a change of direction: the network connects 1 to 2 by 3 in both
directions, in the graph records and in the graph.  `ReconnectFeatures(1, 2, 3, 5, 6,
GNM_EDGE_DIR_SRCTOTGT)` succeeds; the record then carries the new costs and the one-way
direction, and the graph edge keyed by 3 carries the new costs but is still
bidirectional: the graph only receives `ChangeEdge(3, 5, 6)`. -/
theorem ReconnectFeatures_leaves_graph_direction :
    oneEdgeNetwork.graphRecords = [recordOneTwo] ∧
    oneEdgeNetwork.m_oGraph.GetEdge 3 =
      some { connectorGFID := 3, sourceGFID := 1, targetGFID := 2, cost := 1,
             inverseCost := 1, bidirectional := true, blockMask := GNM_BLOCK_NONE } ∧
    (oneEdgeNetwork.ReconnectFeatures StorageFaults.none 1 2 3 5 6 GNM_EDGE_DIR_SRCTOTGT).1 =
      CPLErr.CE_None ∧
    (oneEdgeNetwork.ReconnectFeatures StorageFaults.none 1 2 3 5 6
      GNM_EDGE_DIR_SRCTOTGT).2.graphRecords =
      [{ recordOneTwo with cost := 5, invcost := 6, direction := GNM_EDGE_DIR_SRCTOTGT }] ∧
    (GNM_EDGE_DIR_SRCTOTGT == GNM_EDGE_DIR_BOTH) = false ∧
    (oneEdgeNetwork.ReconnectFeatures StorageFaults.none 1 2 3 5 6
      GNM_EDGE_DIR_SRCTOTGT).2.m_oGraph.GetEdge 3 =
      some { connectorGFID := 3, sourceGFID := 1, targetGFID := 2, cost := 5,
             inverseCost := 6, bidirectional := true, blockMask := GNM_BLOCK_NONE } ∧
    (oneEdgeNetwork.ReconnectFeatures StorageFaults.none 1 2 3 5 6
      GNM_EDGE_DIR_SRCTOTGT).2.m_oGraph.calls =
      oneEdgeNetwork.m_oGraph.calls ++ [GraphCall.ChangeEdge 3 5 6] := by
  decide

/-! ## Facts about the reading loops -/

namespace GNMGenericNetwork

/-- Records with pairwise different feature ids: among them, a filter passes a record with
the feature id of `x` exactly when it passes `x`. -/
theorem any_fid_filter (l : List OGRFeature) (q : OGRFeature → Bool) (x : OGRFeature)
    (hFIDs : (l.map (fun f => f.nFID)).Nodup) (hx : x ∈ l) :
    (l.filter q).any (fun f => f.nFID == x.nFID) = q x := by
  cases hq : q x with
  | true =>
    rw [List.any_eq_true]
    exact ⟨x, List.mem_filter.mpr ⟨hx, hq⟩, by simp⟩
  | false =>
    rw [List.any_eq_false]
    intro f hf hfx
    obtain ⟨hfl, hqf⟩ := List.mem_filter.mp hf
    have hfid : f.nFID = x.nFID := by simpa using hfx
    have : f = x := List.inj_on_of_nodup_map hFIDs hfl hx hfid
    rw [this, hq] at hqf
    exact absurd hqf (by decide)

/-- A run of the loop of `DisconnectFeaturesWithId` that ends without error has deleted the
records that carry the feature id of a feature read, and nothing else. -/
theorem DisconnectFeaturesWithId_loop_ok (flt : StorageFaults) (todo : List OGRFeature)
    (l l1 : OGRLayer)
    (h : DisconnectFeaturesWithId.loop flt todo l = (OGRERR_NONE, l1)) :
    l1.features = l.features.filter (fun x => !todo.any (fun f => f.nFID == x.nFID)) ∧
    l1.attrFilter = l.attrFilter ∧ l1.nNextFID = l.nNextFID := by
  induction todo generalizing l with
  | nil =>
    simp only [DisconnectFeaturesWithId.loop, Prod.mk.injEq, true_and] at h
    subst h
    simp
  | cons f rest ih =>
    simp only [DisconnectFeaturesWithId.loop, OGRLayer.DeleteFeature] at h
    by_cases h1 : flt.deleteFails f.nFID = true
    · simp [h1, OGRERR_NONE, OGRERR_FAILURE] at h
    · by_cases h2 : (!l.features.any (fun g => g.nFID == f.nFID)) = true
      · simp [h1, h2, OGRERR_NONE, OGRERR_NON_EXISTING_FEATURE] at h
      · simp only [h1, h2, OGRERR_NONE] at h
        simp only [bne_self_eq_false, Bool.false_eq_true, ↓reduceIte] at h
        obtain ⟨a1, a2, a3⟩ := ih _ h
        refine ⟨?_, a2, a3⟩
        rw [a1, List.filter_filter]
        apply List.filter_congr
        intro x _
        by_cases hxf : x.nFID = f.nFID
        · simp [hxf]
        · have e1 : (x.nFID != f.nFID) = true := bne_iff_ne.mpr hxf
          have e2 : (f.nFID == x.nFID) = false := beq_eq_false_iff_ne.mpr (fun h => hxf h.symm)
          simp only [List.any_cons, e1, e2, Bool.false_or, Bool.and_true]

end GNMGenericNetwork

/-! ## Claims about `DisconnectFeaturesWithId` -/

/-- C11: on a network whose graph is loaded and whose graph records have pairwise different
feature ids, after `DisconnectFeaturesWithId(id)` returned success no graph record has `id`
as its source, its target or its connector, and the graph records are the earlier records
that did not reference `id`, unchanged and in their order. -/
theorem DisconnectFeaturesWithId_deletes_the_references (flt : StorageFaults)
    (net net1 : GNMGenericNetwork) (nFID : GNMGFID)
    (hLoaded : net.m_bIsGraphLoaded = true)
    (hFIDs : (net.graphRecords.map (fun f => f.nFID)).Nodup)
    (hOk : net.DisconnectFeaturesWithId flt nFID = (CPLErr.CE_None, net1)) :
    (∀ f ∈ net1.graphRecords, f.source ≠ nFID ∧ f.target ≠ nFID ∧ f.connector ≠ nFID) ∧
    net1.graphRecords =
      net.graphRecords.filter
        (fun f => !(f.source == nFID || f.target == nFID || f.connector == nFID)) := by
  have hrec : net1.graphRecords =
      net.graphRecords.filter
        (fun f => !(f.source == nFID || f.target == nFID || f.connector == nFID)) := by
    unfold GNMGenericNetwork.DisconnectFeaturesWithId at hOk
    rw [GNMGenericNetwork.ensureGraphLoaded_of_loaded net hLoaded] at hOk
    cases hL : net.m_poGraphLayer with
    | none => simp [hL] at hOk
    | some layer0 =>
      simp only [hL] at hOk
      rcases hloop : GNMGenericNetwork.DisconnectFeaturesWithId.loop flt
        (layer0.SetAttributeFilter (some (AttrFilter.reference nFID))).reading
        (layer0.SetAttributeFilter (some (AttrFilter.reference nFID))) with ⟨e, layer1⟩
      rw [hloop] at hOk
      by_cases he : e = OGRERR_NONE
      · subst he
        obtain ⟨a1, _, _⟩ := GNMGenericNetwork.DisconnectFeaturesWithId_loop_ok flt _ _ _ hloop
        simp only [bne_self_eq_false, Bool.false_eq_true, ↓reduceIte, Prod.mk.injEq,
          true_and] at hOk
        subst hOk
        have hF : (layer0.features.map (fun f => f.nFID)).Nodup := by
          simpa [GNMGenericNetwork.graphRecords, hL] using hFIDs
        simp only [GNMGenericNetwork.graphRecords, hL, OGRLayer.SetAttributeFilter, a1,
          OGRLayer.reading]
        apply List.filter_congr
        intro x hx
        rw [GNMGenericNetwork.any_fid_filter layer0.features _ x hF hx]
        rfl
      · have : (e != OGRERR_NONE) = true := by simpa using he
        simp [this] at hOk
  refine ⟨?_, hrec⟩
  intro f hf
  rw [hrec, List.mem_filter] at hf
  have := hf.2
  simp only [Bool.not_eq_true', Bool.or_eq_false_iff, beq_eq_false_iff_ne, ne_eq] at this
  exact ⟨this.1.1, this.1.2, this.2⟩

/-- Instance of C11: the network connects 1 to 2 by 3; after `DisconnectFeaturesWithId(1)`
no graph record is left. -/
theorem DisconnectFeaturesWithId_deletes_the_references_witness :
    oneEdgeNetwork.m_bIsGraphLoaded = true ∧
    (oneEdgeNetwork.graphRecords.map (fun f => f.nFID)).Nodup ∧
    oneEdgeNetwork.DisconnectFeaturesWithId StorageFaults.none 1 =
      (CPLErr.CE_None, (oneEdgeNetwork.DisconnectFeaturesWithId StorageFaults.none 1).2) ∧
    (∀ f ∈ (oneEdgeNetwork.DisconnectFeaturesWithId StorageFaults.none 1).2.graphRecords,
      f.source ≠ 1 ∧ f.target ≠ 1 ∧ f.connector ≠ 1) ∧
    (oneEdgeNetwork.DisconnectFeaturesWithId StorageFaults.none 1).2.graphRecords =
      oneEdgeNetwork.graphRecords.filter
        (fun f => !(f.source == 1 || f.target == 1 || f.connector == 1)) :=
  ⟨by decide, by decide, by decide,
    DisconnectFeaturesWithId_deletes_the_references StorageFaults.none oneEdgeNetwork _ 1
      (by decide) (by decide) (by decide)⟩

/-- C12, the code at a vertex id: the network connects 1 to 2 by 3, and its graph is the
graph of its one graph record.  `DisconnectFeaturesWithId(1)` succeeds and deletes the
record; the graph receives `DeleteEdge(1)`, which finds no edge keyed by 1, and
`DeleteVertex(1)`, which leaves the edges in place: the graph still holds the edge 3 with
source 1 while no graph record is left. -/
theorem DisconnectFeaturesWithId_leaves_the_edges_of_a_vertex :
    oneEdgeNetwork.m_oGraph = oneEdgeNetwork.graphRecords.foldl addEdgeOf GNMGraph.empty ∧
    (oneEdgeNetwork.DisconnectFeaturesWithId StorageFaults.none 1).1 = CPLErr.CE_None ∧
    (oneEdgeNetwork.DisconnectFeaturesWithId StorageFaults.none 1).2.graphRecords = [] ∧
    (oneEdgeNetwork.DisconnectFeaturesWithId StorageFaults.none 1).2.m_oGraph.edges =
      [{ connectorGFID := 3, sourceGFID := 1, targetGFID := 2, cost := 1, inverseCost := 1,
         bidirectional := true, blockMask := GNM_BLOCK_NONE }] ∧
    (oneEdgeNetwork.DisconnectFeaturesWithId StorageFaults.none 1).2.m_oGraph.calls =
      oneEdgeNetwork.m_oGraph.calls ++ [GraphCall.DeleteEdge 1, GraphCall.DeleteVertex 1] := by
  decide

/-! ## Facts about runs of connecting, disconnecting and reconnecting -/

namespace GNMGenericNetwork

end GNMGenericNetwork

/-- C14 (code at a failing input): the graph-record loop of `ChangeBlockState` tests source,
target and connector in an `if / else if / else if` chain, so a record gets the bit of the
first role only.  In `loopNetwork` the one graph record has source 5 and target 5; after
the successful `ChangeBlockState(5, true)` its `blocked` field is `GNM_BLOCK_SRC`: the
target bit is not set. -/
theorem ChangeBlockState_sets_one_bit_of_a_loop :
    loopNetwork.graphRecords.map (fun f => (f.source, f.target, f.connector, f.blocked)) =
      [(5, 5, 7, GNM_BLOCK_NONE)] ∧
    (loopNetwork.ChangeBlockState StorageFaults.none 5 true).1 = CPLErr.CE_None ∧
    (loopNetwork.ChangeBlockState StorageFaults.none 5 true).2.graphRecords.map
      (fun f => (f.source, f.target, f.connector, f.blocked)) = [(5, 5, 7, GNM_BLOCK_SRC)] ∧
    (loopNetwork.ChangeBlockState StorageFaults.none 5 true).2.graphRecords.map
      (fun f => Int.land f.blocked GNM_BLOCK_TGT) = [0] := by
  decide


/-! ## Facts about the rewriting loops -/

theorem OGRLayer.SetFeature_at (flt : StorageFaults) (l : OGRLayer) (pre rest : List OGRFeature)
    (f g : OGRFeature) (hl : l.features = pre ++ f :: rest)
    (hnd : (l.features.map (fun x => x.nFID)).Nodup) (hg : g.nFID = f.nFID)
    (hok : flt.setFails g = false) :
    l.SetFeature flt g = (OGRERR_NONE, { l with features := pre ++ g :: rest }) := by
  have hnd2 : ((pre ++ f :: rest).map (fun x => x.nFID)).Nodup := hl ▸ hnd
  rw [List.map_append, List.map_cons, List.nodup_append] at hnd2
  obtain ⟨_, h2, h3⟩ := hnd2
  have hpre : ∀ x ∈ pre, x.nFID ≠ f.nFID := by
    intro x hx he
    exact h3 (List.mem_map_of_mem _ hx) (he ▸ List.mem_cons_self _ _)
  have hrest : ∀ x ∈ rest, x.nFID ≠ f.nFID := by
    intro x hx he
    exact (List.nodup_cons.mp h2).1 (he ▸ List.mem_map_of_mem _ hx)
  have hany : l.features.any (fun x => x.nFID == g.nFID) = true := by
    rw [hl]; simp [hg]
  have hmap : l.features.map (fun x => if x.nFID = g.nFID then g else x) =
      pre ++ g :: rest := by
    rw [hl, List.map_append, List.map_cons, hg]
    have e1 : pre.map (fun x => if x.nFID = f.nFID then g else x) = pre := by
      conv_rhs => rw [← List.map_id pre]
      apply List.map_congr_left
      intro x hx
      simp [hpre x hx]
    have e2 : rest.map (fun x => if x.nFID = f.nFID then g else x) = rest := by
      conv_rhs => rw [← List.map_id rest]
      apply List.map_congr_left
      intro x hx
      simp [hrest x hx]
    rw [e1, e2]
    simp
  unfold OGRLayer.SetFeature
  simp only [hok, hany, hmap]
  simp

/-- The rewriting loop when no write fails: every record read is rewritten. -/
theorem rewriteLoop_ok (flt : StorageFaults) (change : OGRFeature → OGRFeature)
    (hchg : ∀ f, (change f).nFID = f.nFID) :
    ∀ (todo pre : List OGRFeature) (l : OGRLayer), l.features = pre ++ todo →
      (l.features.map (fun x => x.nFID)).Nodup →
      (∀ f ∈ todo, flt.setFails (change f) = false) →
      rewriteLoop flt change todo l =
        (OGRERR_NONE, { l with features := pre ++ todo.map change }) := by
  intro todo
  induction todo with
  | nil =>
    intro pre l hl _ _
    simp only [rewriteLoop, List.map_nil, ← hl]
  | cons f rest ih =>
    intro pre l hl hnd hok
    have hset := OGRLayer.SetFeature_at flt l pre rest f (change f) hl hnd (hchg f)
      (hok f (List.mem_cons_self _ _))
    have hnd1 : ((pre ++ change f :: rest).map (fun x => x.nFID)).Nodup := by
      have : (pre ++ change f :: rest).map (fun x => x.nFID) =
          l.features.map (fun x => x.nFID) := by
        rw [hl]; simp [hchg f]
      rw [this]; exact hnd
    have hrec := ih (pre ++ [change f]) { l with features := pre ++ change f :: rest }
      (by simp) hnd1 (fun x hx => hok x (List.mem_cons_of_mem _ hx))
    unfold rewriteLoop
    rw [hset]
    simp only [bne_self_eq_false, Bool.false_eq_true, if_false]
    rw [hrec]
    simp

/-- The rewriting loop when the write of one record fails and the writes of the records
before it do not: the records before it are rewritten, the others are as they were. -/
theorem rewriteLoop_fails (flt : StorageFaults) (change : OGRFeature → OGRFeature)
    (hchg : ∀ f, (change f).nFID = f.nFID) :
    ∀ (a pre : List OGRFeature) (r : OGRFeature) (b : List OGRFeature) (l : OGRLayer),
      l.features = pre ++ (a ++ r :: b) →
      (l.features.map (fun x => x.nFID)).Nodup →
      (∀ f ∈ a, flt.setFails (change f) = false) →
      flt.setFails (change r) = true →
      rewriteLoop flt change (a ++ r :: b) l =
        (OGRERR_FAILURE, { l with features := pre ++ (a.map change ++ r :: b) }) := by
  intro a
  induction a with
  | nil =>
    intro pre r b l hl _ _ hfail
    simp only [List.nil_append, rewriteLoop, OGRLayer.SetFeature, hfail, if_true,
      List.map_nil, ← hl]
    simp only [List.nil_append] at hl
    simp [OGRERR_FAILURE, OGRERR_NONE, ← hl]
  | cons f rest ih =>
    intro pre r b l hl hnd hok hfail
    have hset := OGRLayer.SetFeature_at flt l pre (rest ++ r :: b) f (change f) hl hnd (hchg f)
      (hok f (List.mem_cons_self _ _))
    have hnd1 : ((pre ++ change f :: (rest ++ r :: b)).map (fun x => x.nFID)).Nodup := by
      have : (pre ++ change f :: (rest ++ r :: b)).map (fun x => x.nFID) =
          l.features.map (fun x => x.nFID) := by
        rw [hl]; simp [hchg f]
      rw [this]; exact hnd
    have hrec := ih (pre ++ [change f]) r b
      { l with features := pre ++ change f :: (rest ++ r :: b) }
      (by simp) hnd1 (fun x hx => hok x (List.mem_cons_of_mem _ hx)) hfail
    rw [List.cons_append]
    unfold rewriteLoop
    rw [hset]
    simp only [bne_self_eq_false, Bool.false_eq_true, if_false]
    rw [hrec]
    simp

/-- A rewriting loop that returns without an error met no failing write. -/
theorem rewriteLoop_no_fault (flt : StorageFaults) (change : OGRFeature → OGRFeature) :
    ∀ (todo : List OGRFeature) (l : OGRLayer),
      (rewriteLoop flt change todo l).1 = OGRERR_NONE →
      ∀ f ∈ todo, flt.setFails (change f) = false := by
  intro todo
  induction todo with
  | nil => intro l _ f hf; simp at hf
  | cons g rest ih =>
    intro l hres f hf
    unfold rewriteLoop at hres
    cases hfail : flt.setFails (change g) with
    | true =>
      simp [OGRLayer.SetFeature, hfail, OGRERR_FAILURE, OGRERR_NONE] at hres
    | false =>
      rcases List.mem_cons.mp hf with hf | hf
      · rw [hf]; exact hfail
      · by_cases he : ((l.SetFeature flt (change g)).1 != OGRERR_NONE) = true
        · simp only [he, if_true] at hres
          simp [hres] at he
        · simp only [he, if_false] at hres
          exact ih _ hres f hf

namespace GNMGenericNetwork

theorem layerLoop_ok (flt : StorageFaults) (nMask : Int)
    (hok : ∀ name g, flt.layerSetFails name g = false) :
    ∀ (todo : List LayerFeature) (l : GNMGenericLayer),
      (∀ f ∈ todo, ∃ x ∈ l.features, x.nGFID = f.nGFID) →
      (ChangeAllBlockState.layerLoop flt nMask todo l).1 = OGRERR_NONE := by
  intro todo
  induction todo with
  | nil => intro l _; rfl
  | cons f rest ih =>
    intro l hmem
    obtain ⟨x, hx, hxf⟩ := hmem f (List.mem_cons_self _ _)
    have hany : l.features.any (fun y => y.nGFID == f.nGFID) = true := by
      simp only [List.any_eq_true, beq_iff_eq]
      exact ⟨x, hx, hxf⟩
    unfold ChangeAllBlockState.layerLoop
    simp only [GNMGenericLayer.SetFeature, hok, hany, Bool.false_eq_true, if_false,
      Bool.not_true, bne_self_eq_false]
    apply ih
    intro g hg
    obtain ⟨y, hy, hyg⟩ := hmem g (List.mem_cons_of_mem _ hg)
    refine ⟨if y.nGFID = f.nGFID then { f with blocked := nMask } else y, ?_, ?_⟩
    · exact List.mem_map.mpr ⟨y, hy, rfl⟩
    · by_cases h : y.nGFID = f.nGFID
      · simp only [h, if_true]; rw [← hyg, h]
      · simp only [h, if_false]; exact hyg

theorem layersLoop_ok (flt : StorageFaults) (nMask : Int)
    (hok : ∀ name g, flt.layerSetFails name g = false) :
    ∀ layers : List GNMGenericLayer,
      (ChangeAllBlockState.layersLoop flt nMask layers).1 = OGRERR_NONE := by
  intro layers
  induction layers with
  | nil => rfl
  | cons l rest ih =>
    have h1 := layerLoop_ok flt nMask hok (l.features.drop l.nCursor) l
      (fun f hf => ⟨f, List.mem_of_mem_drop hf, rfl⟩)
    unfold ChangeAllBlockState.layersLoop
    simp only [h1, bne_self_eq_false, Bool.false_eq_true, if_false]
    exact ih

/-- What a successful `ChangeAllBlockState` on a loaded network went through and left. -/
theorem ChangeAllBlockState_ok (flt : StorageFaults) (net net1 : GNMGenericNetwork)
    (layer0 : OGRLayer) (bIsBlock : Bool) (hLoaded : net.m_bIsGraphLoaded = true)
    (hL : net.m_poGraphLayer = some layer0)
    (hOk : net.ChangeAllBlockState flt bIsBlock = (CPLErr.CE_None, net1)) :
    (rewriteLoop flt
        (fun poFeature => { poFeature with blocked := ChangeAllBlockState.mask bIsBlock })
        layer0.reading layer0).1 = OGRERR_NONE ∧
    net1.m_poGraphLayer = some (rewriteLoop flt
        (fun poFeature => { poFeature with blocked := ChangeAllBlockState.mask bIsBlock })
        layer0.reading layer0).2 ∧
    net1.m_oGraph = net.m_oGraph.ChangeAllBlockState bIsBlock ∧
    net1.m_bIsGraphLoaded = true := by
  unfold ChangeAllBlockState at hOk
  rw [ensureGraphLoaded_of_loaded net hLoaded] at hOk
  simp only [hL] at hOk
  split_ifs at hOk with h1 h2
  · simp at hOk
  · simp at hOk
  · have e := (Prod.mk.inj hOk).2
    subst e
    refine ⟨by simpa using h1, rfl, rfl, hLoaded⟩

/-- The outcome of `ChangeAllBlockState` on a loaded network when a write of a graph
record fails. -/
theorem ChangeAllBlockState_records_fail (flt : StorageFaults) (net : GNMGenericNetwork)
    (layer0 : OGRLayer) (bIsBlock : Bool) (hLoaded : net.m_bIsGraphLoaded = true)
    (hL : net.m_poGraphLayer = some layer0)
    (hFail : (rewriteLoop flt
        (fun poFeature => { poFeature with blocked := ChangeAllBlockState.mask bIsBlock })
        layer0.reading layer0).1 ≠ OGRERR_NONE) :
    net.ChangeAllBlockState flt bIsBlock =
      (CPLErr.CE_Failure,
        { net with m_poGraphLayer := some (rewriteLoop flt
            (fun poFeature => { poFeature with blocked := ChangeAllBlockState.mask bIsBlock })
            layer0.reading layer0).2 }) := by
  unfold ChangeAllBlockState
  rw [ensureGraphLoaded_of_loaded net hLoaded]
  simp only [hL]
  have : ((rewriteLoop flt
        (fun poFeature => { poFeature with blocked := ChangeAllBlockState.mask bIsBlock })
        layer0.reading layer0).1 != OGRERR_NONE) = true := bne_iff_ne.mpr hFail
  simp only [this, if_true]

/-- The outcome of `ChangeAllBlockState` on a loaded network when no write fails. -/
theorem ChangeAllBlockState_no_fault (flt : StorageFaults) (net : GNMGenericNetwork)
    (layer0 : OGRLayer) (bIsBlock : Bool) (hLoaded : net.m_bIsGraphLoaded = true)
    (hL : net.m_poGraphLayer = some layer0)
    (hRec : (rewriteLoop flt
        (fun poFeature => { poFeature with blocked := ChangeAllBlockState.mask bIsBlock })
        layer0.reading layer0).1 = OGRERR_NONE)
    (hok : ∀ name g, flt.layerSetFails name g = false) :
    (net.ChangeAllBlockState flt bIsBlock).1 = CPLErr.CE_None ∧
    (net.ChangeAllBlockState flt bIsBlock).2.m_poGraphLayer = some (rewriteLoop flt
        (fun poFeature => { poFeature with blocked := ChangeAllBlockState.mask bIsBlock })
        layer0.reading layer0).2 ∧
    (net.ChangeAllBlockState flt bIsBlock).2.m_oGraph =
      net.m_oGraph.ChangeAllBlockState bIsBlock := by
  have h2 := layersLoop_ok flt (ChangeAllBlockState.mask bIsBlock) hok net.m_apoLayers
  unfold ChangeAllBlockState
  rw [ensureGraphLoaded_of_loaded net hLoaded]
  simp only [hL, hRec, h2, bne_self_eq_false, Bool.false_eq_true, if_false]
  exact ⟨trivial, trivial, trivial⟩

end GNMGenericNetwork

theorem map_const_eq_iff {α β : Type} (l : List α) (g : α → β) (c : β) :
    l.map (fun _ => c) = l.map g ↔ ∀ x ∈ l, g x = c := by
  induction l with
  | nil => simp
  | cons a rest ih =>
    simp only [List.map_cons, List.cons.injEq, List.mem_cons, forall_eq_or_imp, ih]
    constructor
    · rintro ⟨h1, h2⟩; exact ⟨h1.symm, h2⟩
    · rintro ⟨h1, h2⟩; exact ⟨h1.symm, h2⟩

namespace GNMGenericNetwork

/-- The graph records and the graph after a successful `ChangeAllBlockState`. -/
theorem ChangeAllBlockState_ok_records (flt : StorageFaults) (net net1 : GNMGenericNetwork)
    (layer0 : OGRLayer) (bIsBlock : Bool) (hLoaded : net.m_bIsGraphLoaded = true)
    (hL : net.m_poGraphLayer = some layer0) (hFilter : layer0.attrFilter = none)
    (hFIDs : (layer0.features.map (fun f => f.nFID)).Nodup)
    (hOk : net.ChangeAllBlockState flt bIsBlock = (CPLErr.CE_None, net1)) :
    net1.m_poGraphLayer =
      some { layer0 with
        features := (layer0.features.map
          (fun f => { f with blocked := ChangeAllBlockState.mask bIsBlock })) } ∧
    net1.m_oGraph = net.m_oGraph.ChangeAllBlockState bIsBlock ∧
    net1.m_bIsGraphLoaded = true := by
  obtain ⟨a1, a2, a3, a4⟩ := ChangeAllBlockState_ok flt net net1 layer0 bIsBlock hLoaded hL hOk
  have hread := reading_eq_features layer0 (Or.inr hFilter)
  rw [hread] at a1 a2
  have hnf := rewriteLoop_no_fault flt _ _ _ a1
  have hrw := rewriteLoop_ok flt
    (fun poFeature => { poFeature with blocked := ChangeAllBlockState.mask bIsBlock })
    (fun _ => rfl) layer0.features [] layer0 rfl hFIDs hnf
  rw [hrw] at a2
  exact ⟨by simpa using a2, a3, a4⟩

end GNMGenericNetwork

/-- C15 (as stated, refuted): in `blockedNetwork` the connector 3 is blocked, in the graph
record and in the graph.  `ChangeAllBlockState(true)` and then `ChangeAllBlockState(false)`
both succeed, and afterwards the record and the edge carry no block: the masks are not
the same as before the two calls. -/
theorem ChangeAllBlockState_round_trip_loses_a_block :
    blockedNetwork.m_bIsGraphLoaded = true ∧
    (blockedNetwork.ChangeAllBlockState StorageFaults.none true).1 = CPLErr.CE_None ∧
    ((blockedNetwork.ChangeAllBlockState StorageFaults.none true).2.ChangeAllBlockState
      StorageFaults.none false).1 = CPLErr.CE_None ∧
    blockedNetwork.graphRecords.map (fun f => f.blocked) = [GNM_BLOCK_CONN] ∧
    ((blockedNetwork.ChangeAllBlockState StorageFaults.none true).2.ChangeAllBlockState
      StorageFaults.none false).2.graphRecords.map (fun f => f.blocked) = [GNM_BLOCK_NONE] ∧
    blockedNetwork.m_oGraph.edges.map (fun e => e.blockMask) = [GNM_BLOCK_CONN] ∧
    ((blockedNetwork.ChangeAllBlockState StorageFaults.none true).2.ChangeAllBlockState
      StorageFaults.none false).2.m_oGraph.edges.map (fun e => e.blockMask) =
      [GNM_BLOCK_NONE] := by
  decide

/-- C15 (amended): for every loaded network whose graph records have pairwise different
feature ids and no attribute filter installed, after `ChangeAllBlockState(true)` and then
`ChangeAllBlockState(false)` have both succeeded every block mask is clear, in the
persisted graph records and in the in-memory graph; the masks are the same as before the
two calls exactly when no block bit was set before. -/
theorem ChangeAllBlockState_round_trip_clears (flt1 flt2 : StorageFaults)
    (net net1 net2 : GNMGenericNetwork) (layer0 : OGRLayer)
    (hLoaded : net.m_bIsGraphLoaded = true) (hL : net.m_poGraphLayer = some layer0)
    (hFilter : layer0.attrFilter = none)
    (hFIDs : (net.graphRecords.map (fun f => f.nFID)).Nodup)
    (h1 : net.ChangeAllBlockState flt1 true = (CPLErr.CE_None, net1))
    (h2 : net1.ChangeAllBlockState flt2 false = (CPLErr.CE_None, net2)) :
    net2.graphRecords = net.graphRecords.map (fun f => { f with blocked := GNM_BLOCK_NONE }) ∧
    net2.m_oGraph.edges =
      net.m_oGraph.edges.map (fun e => { e with blockMask := GNM_BLOCK_NONE }) ∧
    (net2.graphRecords.map (fun f => f.blocked) = net.graphRecords.map (fun f => f.blocked) ↔
      ∀ f ∈ net.graphRecords, f.blocked = GNM_BLOCK_NONE) ∧
    (net2.m_oGraph.edges.map (fun e => e.blockMask) =
        net.m_oGraph.edges.map (fun e => e.blockMask) ↔
      ∀ e ∈ net.m_oGraph.edges, e.blockMask = GNM_BLOCK_NONE) := by
  have hrec : net.graphRecords = layer0.features := by
    simp [GNMGenericNetwork.graphRecords, hL]
  rw [hrec] at hFIDs
  obtain ⟨a1, a2, a3⟩ := GNMGenericNetwork.ChangeAllBlockState_ok_records flt1 net net1 layer0
    true hLoaded hL hFilter hFIDs h1
  have hFIDs1 : (({ layer0 with
      features := (layer0.features.map
        (fun f => { f with blocked := GNMGenericNetwork.ChangeAllBlockState.mask true })) } :
      OGRLayer).features.map (fun f => f.nFID)).Nodup := by
    simpa [List.map_map, Function.comp] using hFIDs
  obtain ⟨b1, b2, _⟩ := GNMGenericNetwork.ChangeAllBlockState_ok_records flt2 net1 net2 _
    false a3 a1 hFilter hFIDs1 h2
  have r2 : net2.graphRecords =
      layer0.features.map (fun f => { f with blocked := GNM_BLOCK_NONE }) := by
    simp [GNMGenericNetwork.graphRecords, b1, List.map_map, Function.comp,
      GNMGenericNetwork.ChangeAllBlockState.mask]
  have g2 : net2.m_oGraph.edges =
      net.m_oGraph.edges.map (fun e => { e with blockMask := GNM_BLOCK_NONE }) := by
    rw [b2, a2]
    simp [GNMGraph.ChangeAllBlockState, List.map_map, Function.comp]
  refine ⟨by rw [r2, hrec], g2, ?_, ?_⟩
  · rw [r2, hrec, List.map_map]
    exact map_const_eq_iff layer0.features (fun f => f.blocked) GNM_BLOCK_NONE
  · rw [g2, List.map_map]
    exact map_const_eq_iff net.m_oGraph.edges (fun e => e.blockMask) GNM_BLOCK_NONE

theorem ChangeAllBlockState_round_trip_clears_witness :
    oneEdgeNetwork.m_bIsGraphLoaded = true ∧
    ((oneEdgeNetwork.ChangeAllBlockState StorageFaults.none true).2.ChangeAllBlockState
      StorageFaults.none false).2.graphRecords =
      oneEdgeNetwork.graphRecords.map (fun f => { f with blocked := GNM_BLOCK_NONE }) :=
  ⟨by decide,
    (ChangeAllBlockState_round_trip_clears StorageFaults.none StorageFaults.none oneEdgeNetwork
      (oneEdgeNetwork.ChangeAllBlockState StorageFaults.none true).2
      ((oneEdgeNetwork.ChangeAllBlockState StorageFaults.none true).2.ChangeAllBlockState
        StorageFaults.none false).2
      { features := [recordOneTwo], nNextFID := 1, attrFilter := none }
      (by decide) (by decide) (by decide) (by decide) (by decide) (by decide)).1⟩

/-- What `ChangeAllBlockState` does when no attribute filter is left installed: on a loaded
network whose graph records have pairwise different feature ids and whose graph layer has no
attribute filter, `ChangeAllBlockState(b)` rewrites the graph records in
reading order and returns at the first write that fails: when the records before a record
are written and the write of that record fails, the call returns `CE_Failure`, the records
before it carry the new mask (`GNM_BLOCK_ALL` when `b`, `GNM_BLOCK_NONE` otherwise), that
record and the later ones are as they were, and the graph is as it was; when no write
fails the call returns `CE_None`, every graph record carries the new mask and the graph got
the call `ChangeAllBlockState(b)`. -/
theorem ChangeAllBlockState_aborts_at_first_failure (flt : StorageFaults)
    (net : GNMGenericNetwork) (layer0 : OGRLayer) (bIsBlock : Bool)
    (hLoaded : net.m_bIsGraphLoaded = true) (hL : net.m_poGraphLayer = some layer0)
    (hFilter : layer0.attrFilter = none)
    (hFIDs : (net.graphRecords.map (fun f => f.nFID)).Nodup) :
    (∀ (pre : List OGRFeature) (r : OGRFeature) (post : List OGRFeature),
      net.graphRecords = pre ++ r :: post →
      (∀ f ∈ pre,
        flt.setFails { f with blocked := if bIsBlock then GNM_BLOCK_ALL else GNM_BLOCK_NONE } =
          false) →
      flt.setFails { r with blocked := if bIsBlock then GNM_BLOCK_ALL else GNM_BLOCK_NONE } =
        true →
      (net.ChangeAllBlockState flt bIsBlock).1 = CPLErr.CE_Failure ∧
      (net.ChangeAllBlockState flt bIsBlock).2.graphRecords =
        pre.map (fun f =>
          { f with blocked := if bIsBlock then GNM_BLOCK_ALL else GNM_BLOCK_NONE }) ++
          r :: post ∧
      (net.ChangeAllBlockState flt bIsBlock).2.m_oGraph = net.m_oGraph) ∧
    ((∀ f ∈ net.graphRecords,
        flt.setFails { f with blocked := if bIsBlock then GNM_BLOCK_ALL else GNM_BLOCK_NONE } =
          false) →
      (∀ name g, flt.layerSetFails name g = false) →
      (net.ChangeAllBlockState flt bIsBlock).1 = CPLErr.CE_None ∧
      (net.ChangeAllBlockState flt bIsBlock).2.graphRecords =
        net.graphRecords.map (fun f =>
          { f with blocked := if bIsBlock then GNM_BLOCK_ALL else GNM_BLOCK_NONE }) ∧
      (net.ChangeAllBlockState flt bIsBlock).2.m_oGraph =
        net.m_oGraph.ChangeAllBlockState bIsBlock) := by
  have hrec : net.graphRecords = layer0.features := by
    simp [GNMGenericNetwork.graphRecords, hL]
  rw [hrec] at hFIDs ⊢
  have hread := GNMGenericNetwork.reading_eq_features layer0 (Or.inr hFilter)
  constructor
  · intro pre r post hsplit hpre hfail
    have hrw := rewriteLoop_fails flt
      (fun poFeature =>
        { poFeature with blocked := GNMGenericNetwork.ChangeAllBlockState.mask bIsBlock })
      (fun _ => rfl) pre [] r post layer0 hsplit hFIDs hpre hfail
    have hne : (rewriteLoop flt
        (fun poFeature =>
          { poFeature with blocked := GNMGenericNetwork.ChangeAllBlockState.mask bIsBlock })
        layer0.reading layer0).1 ≠ OGRERR_NONE := by
      rw [hread, hsplit, hrw]
      show OGRERR_FAILURE ≠ OGRERR_NONE
      decide
    rw [GNMGenericNetwork.ChangeAllBlockState_records_fail flt net layer0 bIsBlock hLoaded hL
      hne, hread, hsplit, hrw]
    exact ⟨rfl, rfl, rfl⟩
  · intro hall hlayers
    have hrw := rewriteLoop_ok flt
      (fun poFeature =>
        { poFeature with blocked := GNMGenericNetwork.ChangeAllBlockState.mask bIsBlock })
      (fun _ => rfl) layer0.features [] layer0 rfl hFIDs hall
    have hnone : (rewriteLoop flt
        (fun poFeature =>
          { poFeature with blocked := GNMGenericNetwork.ChangeAllBlockState.mask bIsBlock })
        layer0.reading layer0).1 = OGRERR_NONE := by
      rw [hread, hrw]
    obtain ⟨c1, c2, c3⟩ := GNMGenericNetwork.ChangeAllBlockState_no_fault flt net layer0
      bIsBlock hLoaded hL hnone hlayers
    rw [hread, hrw] at c2
    refine ⟨c1, ?_, c3⟩
    simp only [GNMGenericNetwork.graphRecords, c2, List.nil_append]
    rfl

theorem ChangeAllBlockState_aborts_at_first_failure_witness :
    twoRecordsNetwork.m_bIsGraphLoaded = true ∧
    ((twoRecordsNetwork.ChangeAllBlockState StorageFaults.refuseSecondWrite true).1 =
        CPLErr.CE_Failure ∧
      (twoRecordsNetwork.ChangeAllBlockState StorageFaults.refuseSecondWrite true).2.graphRecords =
        [{ recordOneTwo with blocked := GNM_BLOCK_ALL }, recordTwoOne] ∧
      (twoRecordsNetwork.ChangeAllBlockState StorageFaults.refuseSecondWrite true).2.m_oGraph =
        twoRecordsNetwork.m_oGraph) :=
  ⟨by decide,
    (ChangeAllBlockState_aborts_at_first_failure StorageFaults.refuseSecondWrite twoRecordsNetwork
      { features := [recordOneTwo, recordTwoOne], nNextFID := 2, attrFilter := none } true
      (by decide) (by decide) (by decide) (by decide)).1 [recordOneTwo] recordTwoOne [] (by decide)
      (by decide) (by decide)⟩

/-- C16 (code at a failing input): `ChangeAllBlockState` reads the graph records through the
attribute filter that is installed on the graph layer, and `DisconnectFeaturesWithId`
leaves its filter installed when a deletion fails (the defect of C30).  On
`twoRecordsNetwork`, `DisconnectFeaturesWithId(4)` with a store that refuses deletions
fails and leaves both records and the filter on the id 4.  In this state, with a store that
accepts every write, `ChangeAllBlockState(true)` returns `CE_None` and every edge of the
graph is blocked, but only the second graph record, the one that passes the filter, carries
the new mask: the first record keeps its mask `GNM_BLOCK_NONE`. -/
theorem ChangeAllBlockState_skips_the_records_outside_a_left_filter :
    (twoRecordsNetwork.DisconnectFeaturesWithId StorageFaults.refuseDelete 4).1 =
      CPLErr.CE_Failure ∧
    (twoRecordsNetwork.DisconnectFeaturesWithId StorageFaults.refuseDelete 4).2.m_bIsGraphLoaded =
      true ∧
    (twoRecordsNetwork.DisconnectFeaturesWithId StorageFaults.refuseDelete 4).2.graphRecords =
      [recordOneTwo, recordTwoOne] ∧
    (twoRecordsNetwork.DisconnectFeaturesWithId StorageFaults.refuseDelete 4).2.m_oGraph =
      twoRecordsNetwork.m_oGraph ∧
    (∀ f ∈ [recordOneTwo, recordTwoOne],
      StorageFaults.none.setFails { f with blocked := GNM_BLOCK_ALL } = false) ∧
    ((twoRecordsNetwork.DisconnectFeaturesWithId
      StorageFaults.refuseDelete 4).2.ChangeAllBlockState StorageFaults.none true).1 =
      CPLErr.CE_None ∧
    ((twoRecordsNetwork.DisconnectFeaturesWithId
      StorageFaults.refuseDelete 4).2.ChangeAllBlockState StorageFaults.none true).2.graphRecords =
      [recordOneTwo, { recordTwoOne with blocked := GNM_BLOCK_ALL }] ∧
    ((twoRecordsNetwork.DisconnectFeaturesWithId
      StorageFaults.refuseDelete 4).2.ChangeAllBlockState StorageFaults.none true).2.m_oGraph =
      twoRecordsNetwork.m_oGraph.ChangeAllBlockState true ∧
    ((twoRecordsNetwork.DisconnectFeaturesWithId
      StorageFaults.refuseDelete 4).2.ChangeAllBlockState
        StorageFaults.none true).2.m_oGraph.edges.map (fun e => e.blockMask) =
      [GNM_BLOCK_ALL, GNM_BLOCK_ALL] := by
  decide


/-! ## Claims about `DisconnectAll` -/

namespace GNMGenericNetwork

theorem ensureGraphLoaded_of_layer (net : GNMGenericNetwork) (layer : OGRLayer)
    (hL : net.m_poGraphLayer = some layer) :
    net.ensureGraphLoaded = some net.LoadGraph.2 := by
  rcases ensureGraphLoaded_cases net with ⟨h1, _, h3⟩ | ⟨h1, _⟩
  · simp [ensureGraphLoaded, LoadGraph, h3, hL] at h1
  · exact h1

theorem DisconnectAll_loop_spec (flt : StorageFaults) :
    ∀ (todo : List OGRFeature) (l : OGRLayer),
      (DisconnectAll.loop flt todo l).features =
        l.features.filter
          (fun x => !(todo.any (fun f => f.nFID == x.nFID) && !flt.deleteFails x.nFID)) ∧
      (DisconnectAll.loop flt todo l).attrFilter = l.attrFilter := by
  intro todo
  induction todo with
  | nil => intro l; simp [DisconnectAll.loop]
  | cons f rest ih =>
    intro l
    unfold DisconnectAll.loop
    obtain ⟨i1, i2⟩ := ih (l.DeleteFeature flt f.nFID).2
    rw [i1, i2]
    cases hfail : flt.deleteFails f.nFID with
    | true =>
      have e : (l.DeleteFeature flt f.nFID).2 = l := by simp [OGRLayer.DeleteFeature, hfail]
      rw [e]
      refine ⟨List.filter_congr ?_, rfl⟩
      intro x _
      by_cases hx : f.nFID = x.nFID
      · have hx2 : flt.deleteFails x.nFID = true := hx ▸ hfail
        simp [hx2]
      · have hx2 : (f.nFID == x.nFID) = false := beq_eq_false_iff_ne.mpr hx
        simp only [List.any_cons, hx2, Bool.false_or]
    | false =>
      have e : (l.DeleteFeature flt f.nFID).2.features =
          l.features.filter (fun x => x.nFID != f.nFID) ∧
          (l.DeleteFeature flt f.nFID).2.attrFilter = l.attrFilter := by
        unfold OGRLayer.DeleteFeature
        simp only [hfail, Bool.false_eq_true, if_false]
        split_ifs with hany
        · refine ⟨?_, rfl⟩
          symm
          rw [List.filter_eq_self]
          intro x hx
          simp only [Bool.not_eq_true', List.any_eq_false, beq_iff_eq] at hany
          exact bne_iff_ne.mpr (hany x hx)
        · exact ⟨rfl, rfl⟩
      rw [e.1, e.2, List.filter_filter]
      refine ⟨List.filter_congr ?_, rfl⟩
      intro x _
      by_cases hx : f.nFID = x.nFID
      · have hx2 : flt.deleteFails x.nFID = false := hx ▸ hfail
        have hx3 : (x.nFID != f.nFID) = false := by simp [hx]
        simp [hx, hx2]
      · have hx2 : (f.nFID == x.nFID) = false := beq_eq_false_iff_ne.mpr hx
        have hx3 : (x.nFID != f.nFID) = true := bne_iff_ne.mpr (fun h => hx h.symm)
        simp only [List.any_cons, hx2, hx3, Bool.false_or, Bool.and_true]

end GNMGenericNetwork

/-- C17 (as stated, refuted): `DisconnectAll` ignores the outcome of each deletion.  On
`oneEdgeNetwork` with a store that refuses every deletion it returns `CE_None` and empties
the graph, and the graph record is still persisted. -/
theorem DisconnectAll_succeeds_when_deletions_fail :
    (oneEdgeNetwork.DisconnectAll StorageFaults.refuseDelete).1 = CPLErr.CE_None ∧
    (oneEdgeNetwork.DisconnectAll StorageFaults.refuseDelete).2.graphRecords = [recordOneTwo] ∧
    oneEdgeNetwork.m_oGraph.edges.length = 1 ∧
    (oneEdgeNetwork.DisconnectAll StorageFaults.refuseDelete).2.m_oGraph.edges = [] := by
  decide

/-- C17 (amended): `DisconnectAll` visits the graph records one by one and goes on after a
storage failure: on a network with a graph layer on which no attribute filter is installed
it returns `CE_None` and empties the graph in every case, and the records that remain
persisted are exactly those whose deletion failed. -/
theorem DisconnectAll_ignores_failed_deletions (flt : StorageFaults) (net : GNMGenericNetwork)
    (layer0 : OGRLayer) (hL : net.m_poGraphLayer = some layer0)
    (hFilter : layer0.attrFilter = none) :
    (net.DisconnectAll flt).1 = CPLErr.CE_None ∧
    (net.DisconnectAll flt).2.graphRecords =
      net.graphRecords.filter (fun f => flt.deleteFails f.nFID) ∧
    (net.DisconnectAll flt).2.m_oGraph.edges = [] ∧
    (net.DisconnectAll flt).2.m_oGraph.vertices = [] := by
  have hLL := GNMGenericNetwork.LoadGraph_snd_layer net
  have hread := GNMGenericNetwork.reading_eq_features layer0 (Or.inr hFilter)
  unfold GNMGenericNetwork.DisconnectAll
  rw [GNMGenericNetwork.ensureGraphLoaded_of_layer net layer0 hL]
  simp only [hLL, hL, GNMGenericNetwork.graphRecords, hread,
    (GNMGenericNetwork.DisconnectAll_loop_spec flt layer0.features layer0).1, GNMGraph.Clear]
  refine ⟨trivial, List.filter_congr ?_, trivial, trivial⟩
  intro x hx
  have : layer0.features.any (fun f => f.nFID == x.nFID) = true := by
    simp only [List.any_eq_true, beq_iff_eq]
    exact ⟨x, hx, rfl⟩
  simp [this]

theorem DisconnectAll_ignores_failed_deletions_witness :
    (oneEdgeNetwork.DisconnectAll StorageFaults.none).1 = CPLErr.CE_None ∧
    (oneEdgeNetwork.DisconnectAll StorageFaults.none).2.graphRecords =
      oneEdgeNetwork.graphRecords.filter (fun f => StorageFaults.none.deleteFails f.nFID) ∧
    (oneEdgeNetwork.DisconnectAll StorageFaults.none).2.m_oGraph.edges = [] ∧
    (oneEdgeNetwork.DisconnectAll StorageFaults.none).2.m_oGraph.vertices = [] :=
  DisconnectAll_ignores_failed_deletions StorageFaults.none oneEdgeNetwork
    { features := [recordOneTwo], nNextFID := 1, attrFilter := none } (by decide) (by decide)


/-! ## Claims about the deletion of rules -/

/-- C18 (code at a failing input): `DeleteAllRules` deletes the rule records of the metadata
layer and leaves the member `m_asRules` as it is.  On `roadsNetwork`, which holds the
default rule, it returns `CE_None`; afterwards `GetRules` still gives the rule and a
`ConnectFeatures` call succeeds. -/
theorem DeleteAllRules_keeps_the_rules_in_memory :
    (roadsNetwork.DeleteAllRules StorageFaults.none).1 = CPLErr.CE_None ∧
    (roadsNetwork.DeleteAllRules StorageFaults.none).2.GetRules = ["ALLOW CONNECTS ANY"] ∧
    ((roadsNetwork.DeleteAllRules StorageFaults.none).2.ConnectFeatures StorageFaults.none
      1 2 3 1 1 GNM_EDGE_DIR_BOTH).1 = CPLErr.CE_None := by
  decide

namespace GNMGenericNetwork

theorem DeleteRule_loop_none (text : String) :
    ∀ rules : List GNMRule, DeleteRule.loop text rules = none →
      ∀ x ∈ rules, EQUAL text x.m_soRuleString = false := by
  intro rules
  induction rules with
  | nil => intro _ x hx; simp at hx
  | cons r rest ih =>
    intro h x hx
    unfold DeleteRule.loop at h
    cases he : EQUAL text r.m_soRuleString with
    | true => simp [he] at h
    | false =>
      simp only [he, Bool.false_eq_true, if_false] at h
      cases hrest : DeleteRule.loop text rest with
      | some out => simp [hrest] at h
      | none =>
        rcases List.mem_cons.mp hx with hx | hx
        · rw [hx]; exact he
        · exact ih hrest x hx

theorem DeleteRule_loop_some (text : String) :
    ∀ (rules out : List GNMRule), DeleteRule.loop text rules = some out →
      ∃ pre r post, rules = pre ++ r :: post ∧
        (∀ x ∈ pre, EQUAL text x.m_soRuleString = false) ∧
        EQUAL text r.m_soRuleString = true ∧ out = pre ++ post := by
  intro rules
  induction rules with
  | nil => intro out h; simp [DeleteRule.loop] at h
  | cons r rest ih =>
    intro out h
    unfold DeleteRule.loop at h
    cases he : EQUAL text r.m_soRuleString with
    | true =>
      simp only [he, if_true, Option.some.injEq] at h
      exact ⟨[], r, rest, rfl, by simp, he, by simp [h]⟩
    | false =>
      simp only [he, Bool.false_eq_true, if_false] at h
      cases hrest : DeleteRule.loop text rest with
      | none => simp [hrest] at h
      | some out1 =>
        simp only [hrest, Option.some.injEq] at h
        obtain ⟨pre, r1, post, h1, h2, h3, h4⟩ := ih out1 hrest
        refine ⟨r :: pre, r1, post, by simp [h1], ?_, h3, by simp [← h, h4]⟩
        intro x hx
        rcases List.mem_cons.mp hx with hx | hx
        · rw [hx]; exact he
        · exact h2 x hx

end GNMGenericNetwork

/-- C19 (as stated, refuted): `DeleteRule` compares the texts with `EQUAL`, which ignores
the case of letters.  The rule list of `roadsNetwork` is `ALLOW CONNECTS ANY`;
`DeleteRule` with the lower-case text, which is not that text, succeeds and removes the
rule. -/
theorem DeleteRule_ignores_letter_case :
    roadsNetwork.GetRules = ["ALLOW CONNECTS ANY"] ∧
    "allow connects any" ≠ "ALLOW CONNECTS ANY" ∧
    (roadsNetwork.DeleteRule "allow connects any").1 = CPLErr.CE_None ∧
    (roadsNetwork.DeleteRule "allow connects any").2.GetRules = [] := by
  decide

/-- C19 (amended): `DeleteRule(text)` succeeds if and only if the text of some stored rule
is equal to `text` up to the case of ASCII letters (`EQUAL`); on success exactly one rule,
the first such one, is removed, the remaining rules keep their relative order, and the
rules-changed flag is set; on failure the network is unchanged. -/
theorem DeleteRule_removes_the_first_EQUAL_rule (net : GNMGenericNetwork) (text : String) :
    ((net.DeleteRule text).1 = CPLErr.CE_None ↔
      ∃ r ∈ net.m_asRules, EQUAL text r.m_soRuleString = true) ∧
    ((net.DeleteRule text).1 = CPLErr.CE_None →
      ∃ pre r post, net.m_asRules = pre ++ r :: post ∧
        (∀ x ∈ pre, EQUAL text x.m_soRuleString = false) ∧
        EQUAL text r.m_soRuleString = true ∧
        (net.DeleteRule text).2.m_asRules = pre ++ post ∧
        (net.DeleteRule text).2.m_bIsRulesChanged = true) ∧
    ((net.DeleteRule text).1 = CPLErr.CE_Failure → (net.DeleteRule text).2 = net) := by
  unfold GNMGenericNetwork.DeleteRule
  cases h : GNMGenericNetwork.DeleteRule.loop text net.m_asRules with
  | none =>
    have hn := GNMGenericNetwork.DeleteRule_loop_none text net.m_asRules h
    refine ⟨⟨fun hc => by simp at hc, ?_⟩, fun hc => by simp at hc, fun _ => rfl⟩
    rintro ⟨r, hr, he⟩
    rw [hn r hr] at he
    exact absurd he (by decide)
  | some out =>
    obtain ⟨pre, r, post, h1, h2, h3, h4⟩ :=
      GNMGenericNetwork.DeleteRule_loop_some text net.m_asRules out h
    refine ⟨⟨fun _ => ⟨r, by simp [h1], h3⟩, fun _ => rfl⟩, fun _ => ?_, fun hc => by simp at hc⟩
    exact ⟨pre, r, post, h1, h2, h3, h4, rfl⟩

theorem DeleteRule_removes_the_first_EQUAL_rule_witness :
    (roadsNetwork.DeleteRule "ALLOW CONNECTS ANY").1 = CPLErr.CE_None ∧
    ∃ r ∈ roadsNetwork.m_asRules, EQUAL "ALLOW CONNECTS ANY" r.m_soRuleString = true :=
  ⟨by decide,
    (DeleteRule_removes_the_first_EQUAL_rule roadsNetwork "ALLOW CONNECTS ANY").1.mp
      (by decide)⟩


/-! ## Facts about the keys of the rule records -/

theorem decimalDigits_spec : ∀ (fuel n : Nat), n < fuel →
    decimalDigits fuel n ≠ [] ∧ (∀ d ∈ decimalDigits fuel n, d < 10) ∧
    (decimalDigits fuel n).foldl (fun a d => a * 10 + d) 0 = n := by
  intro fuel
  induction fuel with
  | zero => intro n h; omega
  | succ fuel ih =>
    intro n h
    unfold decimalDigits
    by_cases h10 : n < 10
    · simp [h10]
    · obtain ⟨_, i2, i3⟩ := ih (n / 10) (by omega)
      simp only [h10, if_false]
      refine ⟨by simp, ?_, ?_⟩
      · intro d hd
        rcases List.mem_append.mp hd with hd | hd
        · exact i2 d hd
        · simp only [List.mem_singleton] at hd; omega
      · rw [List.foldl_append, i3]
        simp only [List.foldl_cons, List.foldl_nil]
        omega

theorem digitChar_facts : ∀ d : Nat, d < 10 →
    digitValue (digitChar d) = some d ∧
    ¬(digitChar d = ' ' ∨ digitChar d = '\t' ∨ digitChar d = '\n' ∨ digitChar d = '\r') ∧
    digitChar d ≠ '-' ∧ digitChar d ≠ '+' := by
  intro d hd
  interval_cases d <;> decide

theorem atoiDigits_digits : ∀ (ds : List Nat) (acc : Nat), (∀ d ∈ ds, d < 10) →
    atoiDigits acc (ds.map digitChar) = ds.foldl (fun a d => a * 10 + d) acc := by
  intro ds
  induction ds with
  | nil => intro acc _; rfl
  | cons d rest ih =>
    intro acc h
    have hd := (digitChar_facts d (h d (List.mem_cons_self _ _))).1
    simp only [List.map_cons, atoiDigits, hd, List.foldl_cons]
    exact ih _ (fun x hx => h x (List.mem_cons_of_mem _ hx))

/-- The function `atoi` reads back the number that `%d` has written. -/
theorem atoiChars_formatDecimal (n : Nat) : atoiChars (formatDecimal n).data = (n : Int) := by
  obtain ⟨h1, h2, h3⟩ := decimalDigits_spec (n + 1) n (Nat.lt_succ_self n)
  unfold formatDecimal
  cases hds : decimalDigits (n + 1) n with
  | nil => exact absurd hds h1
  | cons d rest =>
    rw [hds] at h2 h3
    obtain ⟨_, f2, f3, f4⟩ := digitChar_facts d (h2 d (List.mem_cons_self _ _))
    have := atoiDigits_digits (d :: rest) 0 h2
    simp only [List.map_cons] at this ⊢
    unfold atoiChars
    simp only [if_neg f2, if_neg f3, if_neg f4]
    rw [this, h3]

theorem rule_key_data (s : String) :
    (GNM_MD_RULE ++ s).data = 'R' :: 'U' :: 'L' :: 'E' :: s.data := by
  rw [String.data_append]
  rfl

theorem isRuleKey_rule_key (s : String) : isRuleKey (GNM_MD_RULE ++ s) = true := by
  unfold isRuleKey EQUALN
  rw [rule_key_data]
  have : GNM_MD_RULE.length = 4 := rfl
  rw [this]
  have e : List.take 4 ('R' :: 'U' :: 'L' :: 'E' :: s.data) = ['R', 'U', 'L', 'E'] := rfl
  rw [e]
  decide

theorem rule_key_digits (s : String) :
    (GNM_MD_RULE ++ s).data.drop GNM_MD_RULE.length = s.data := by
  rw [rule_key_data]
  rfl

theorem EQUAL_rule_key (s b : String)
    (hb : (b.data.map upperCode).head? ≠ some (upperCode 'R')) :
    EQUAL (GNM_MD_RULE ++ s) b = false := by
  unfold EQUAL
  rw [rule_key_data]
  cases h : (List.map upperCode ('R' :: 'U' :: 'L' :: 'E' :: s.data) == List.map upperCode b.data)
    with
  | false => rfl
  | true =>
    have e := eq_of_beq h
    rw [← e] at hb
    simp at hb

theorem mapAssign_append : ∀ (m : List (Int × GNMRule)) (k : Int) (v : GNMRule),
    (∀ kv ∈ m, kv.1 < k) → mapAssign m k v = m ++ [(k, v)] := by
  intro m
  induction m with
  | nil => intro k v _; rfl
  | cons a rest ih =>
    intro k v h
    obtain ⟨k1, v1⟩ := a
    have h1 : k1 < k := h (k1, v1) (List.mem_cons_self _ _)
    unfold mapAssign
    have n1 : ¬ k < k1 := not_lt.mpr (le_of_lt h1)
    have n2 : ¬ k = k1 := ne_of_gt h1
    simp only [n1, n2, if_false, List.cons_append]
    rw [ih k v (fun kv hkv => h kv (List.mem_cons_of_mem _ hkv))]

namespace GNMGenericNetwork

theorem LoadMetadataLayer_step_rules (st : GNMGenericNetwork × List (Int × GNMRule))
    (f : MetadataFeature) :
    (LoadMetadataLayer.step st f).1.m_asRules = st.1.m_asRules ∧
    (isRuleKey f.soKey = false → (LoadMetadataLayer.step st f).2 = st.2) := by
  unfold LoadMetadataLayer.step
  dsimp only
  split_ifs with h1 h2 h3 h4 h5
  all_goals first
    | exact ⟨rfl, fun _ => rfl⟩
    | exact ⟨rfl, fun h => absurd h5 (by simp [isRuleKey] at h; simp [h])⟩

theorem LoadMetadataLayer_foldl_rules (fs : List MetadataFeature) :
    ∀ st : GNMGenericNetwork × List (Int × GNMRule),
      (fs.foldl LoadMetadataLayer.step st).1.m_asRules = st.1.m_asRules ∧
      ((∀ f ∈ fs, isRuleKey f.soKey = false) →
        (fs.foldl LoadMetadataLayer.step st).2 = st.2) := by
  induction fs with
  | nil => intro st; exact ⟨rfl, fun _ => rfl⟩
  | cons f rest ih =>
    intro st
    obtain ⟨a1, a2⟩ := LoadMetadataLayer_step_rules st f
    obtain ⟨b1, b2⟩ := ih (LoadMetadataLayer.step st f)
    simp only [List.foldl_cons]
    refine ⟨b1.trans a1, fun h => ?_⟩
    rw [b2 (fun x hx => h x (List.mem_cons_of_mem _ hx)),
      a2 (h f (List.mem_cons_self _ _))]

theorem LoadMetadataLayer_step_rule_key (st : GNMGenericNetwork × List (Int × GNMRule))
    (f : MetadataFeature) (k : Nat) (hk : f.soKey = GNM_MD_RULE ++ formatDecimal k) :
    (LoadMetadataLayer.step st f).2 = mapAssign st.2 (k : Int) (GNMRule.ofString f.soValue) := by
  have e1 : EQUAL f.soKey GNM_MD_NAME = false := by
    rw [hk]; exact EQUAL_rule_key _ _ (by decide)
  have e2 : EQUAL f.soKey GNM_MD_DESCR = false := by
    rw [hk]; exact EQUAL_rule_key _ _ (by decide)
  have e3 : EQUAL f.soKey GNM_MD_SRS = false := by
    rw [hk]; exact EQUAL_rule_key _ _ (by decide)
  have e4 : EQUAL f.soKey GNM_MD_VERSION = false := by
    rw [hk]; exact EQUAL_rule_key _ _ (by decide)
  have e5 : EQUALN f.soKey GNM_MD_RULE GNM_MD_RULE.length = true := by
    rw [hk]; exact isRuleKey_rule_key _
  unfold LoadMetadataLayer.step
  simp only [e1, e2, e3, e4, e5, Bool.false_eq_true, if_false, if_true]
  rw [hk, rule_key_digits, atoiChars_formatDecimal]

/-- The map `moRules` after the reading of the rule records `RULE<i+1>`, `RULE<i+2>`, ... -/
theorem LoadMetadataLayer_foldl_rule_records (fid : Nat × GNMRule → Int) :
    ∀ (rules : List GNMRule) (i : Nat) (st : GNMGenericNetwork × List (Int × GNMRule)),
      (∀ kv ∈ st.2, kv.1 < ((i + 1 : Nat) : Int)) →
      (((rules.enumFrom i).map (fun p =>
          ({ nFID := fid p, soKey := GNM_MD_RULE ++ formatDecimal (p.1 + 1),
             soValue := p.2.m_soRuleString } : MetadataFeature))).foldl
        LoadMetadataLayer.step st).2 =
        st.2 ++ (rules.enumFrom i).map
          (fun p => (((p.1 + 1 : Nat) : Int), GNMRule.ofString p.2.m_soRuleString)) := by
  intro rules
  induction rules with
  | nil => intro i st _; simp
  | cons r rest ih =>
    intro i st h
    simp only [List.enumFrom_cons, List.map_cons, List.foldl_cons]
    have hstep := LoadMetadataLayer_step_rule_key st
      { nFID := fid (i, r), soKey := GNM_MD_RULE ++ formatDecimal (i + 1),
        soValue := r.m_soRuleString } (i + 1) rfl
    rw [mapAssign_append _ _ _ h] at hstep
    have hnext : ∀ kv ∈ (LoadMetadataLayer.step st
        { nFID := fid (i, r), soKey := GNM_MD_RULE ++ formatDecimal (i + 1),
          soValue := r.m_soRuleString }).2, kv.1 < ((i + 1 + 1 : Nat) : Int) := by
      rw [hstep]
      intro kv hkv
      rcases List.mem_append.mp hkv with hkv | hkv
      · have := h kv hkv
        push_cast at this ⊢
        linarith
      · simp only [List.mem_singleton] at hkv
        rw [hkv]
        push_cast
        linarith
    rw [ih (i + 1) _ hnext, hstep]
    simp

theorem MetadataLayer_delete_foldl (flt : StorageFaults) :
    ∀ (fids : List Int) (l : MetadataLayer), (∀ k ∈ fids, flt.metaDeleteFails k = false) →
      (fids.foldl (fun l nFID => (l.DeleteFeature flt nFID).2) l).features =
        l.features.filter (fun x => fids.all (fun k => x.nFID != k)) ∧
      (fids.foldl (fun l nFID => (l.DeleteFeature flt nFID).2) l).nNextFID = l.nNextFID := by
  intro fids
  induction fids with
  | nil => intro l _; simp
  | cons k rest ih =>
    intro l h
    have hk := h k (List.mem_cons_self _ _)
    have e : (l.DeleteFeature flt k).2.features = l.features.filter (fun x => x.nFID != k) ∧
        (l.DeleteFeature flt k).2.nNextFID = l.nNextFID := by
      unfold MetadataLayer.DeleteFeature
      simp only [hk, Bool.false_eq_true, if_false]
      split_ifs with hany
      · refine ⟨?_, rfl⟩
        symm
        rw [List.filter_eq_self]
        intro x hx
        simp only [Bool.not_eq_true', List.any_eq_false, beq_iff_eq] at hany
        exact bne_iff_ne.mpr (hany x hx)
      · exact ⟨rfl, rfl⟩
    obtain ⟨i1, i2⟩ := ih (l.DeleteFeature flt k).2
      (fun x hx => h x (List.mem_cons_of_mem _ hx))
    simp only [List.foldl_cons]
    rw [i1, i2, e.1, e.2, List.filter_filter]
    refine ⟨List.filter_congr ?_, rfl⟩
    intro x _
    simp only [List.all_cons, Bool.and_comm]

/-- After a `DeleteAllRules` in which no deletion fails no rule record is left. -/
theorem DeleteAllRules_no_rule_left (flt : StorageFaults) (net : GNMGenericNetwork)
    (hDel : ∀ f ∈ net.m_poMetadataLayer.features, isRuleKey f.soKey = true →
      flt.metaDeleteFails f.nFID = false) :
    (net.DeleteAllRules flt).1 = CPLErr.CE_None ∧
    (net.DeleteAllRules flt).2.m_asRules = net.m_asRules ∧
    ∀ f ∈ (net.DeleteAllRules flt).2.m_poMetadataLayer.features, isRuleKey f.soKey = false := by
  refine ⟨rfl, rfl, ?_⟩
  have hfids : ∀ k ∈ (net.m_poMetadataLayer.features.filter (fun f => isRuleKey f.soKey)).map
      (fun f => f.nFID), flt.metaDeleteFails k = false := by
    intro k hk
    obtain ⟨f, hf, hfk⟩ := List.mem_map.mp hk
    rw [List.mem_filter] at hf
    rw [← hfk]
    exact hDel f hf.1 hf.2
  obtain ⟨a1, _⟩ := MetadataLayer_delete_foldl flt _ net.m_poMetadataLayer hfids
  intro f hf
  unfold DeleteAllRules at hf
  simp only [a1, List.mem_filter, List.all_eq_true, bne_iff_ne] at hf
  obtain ⟨hmem, hall⟩ := hf
  cases hkey : isRuleKey f.soKey with
  | false => rfl
  | true =>
    exact absurd rfl (hall f.nFID (List.mem_map.mpr ⟨f, List.mem_filter.mpr ⟨hmem, hkey⟩, rfl⟩))

/-- The records that a `SaveRules` loop without a failed creation appends. -/
theorem SaveRules_loop_ok (flt : StorageFaults) :
    ∀ (rules : List GNMRule) (i : Nat) (l : MetadataLayer),
      (SaveRules.loop flt i rules l).1 = true →
      (SaveRules.loop flt i rules l).2.features =
        l.features ++ (rules.enumFrom i).map (fun p =>
          ({ nFID := l.nNextFID + (p.1 : Int) - (i : Int),
             soKey := GNM_MD_RULE ++ formatDecimal (p.1 + 1),
             soValue := p.2.m_soRuleString } : MetadataFeature)) := by
  intro rules
  induction rules with
  | nil => intro i l _; simp [SaveRules.loop]
  | cons r rest ih =>
    intro i l h
    unfold SaveRules.loop at h ⊢
    cases hc : flt.metaCreateFails
        { nFID := OGRNullFID, soKey := GNM_MD_RULE ++ formatDecimal (i + 1),
          soValue := r.m_soRuleString } with
    | true =>
      simp [MetadataLayer.CreateFeature, hc, OGRERR_FAILURE, OGRERR_NONE] at h
    | false =>
      simp only [MetadataLayer.CreateFeature, hc, Bool.false_eq_true, if_false,
        bne_self_eq_false] at h ⊢
      rw [ih (i + 1) _ h]
      simp only [List.enumFrom_cons, List.map_cons, List.append_assoc, List.singleton_append,
        List.cons.injEq, List.append_cancel_left_eq]
      refine ⟨?_, ?_⟩
      · simp
      · apply List.map_congr_left
        intro p _
        congr 1
        push_cast
        ring

theorem enumFrom_map_ofString : ∀ (l : List GNMRule) (i : Nat),
    (∀ r ∈ l, GNMRule.ofString r.m_soRuleString = r) →
    ((l.enumFrom i).map
      (fun p => (((p.1 + 1 : Nat) : Int), GNMRule.ofString p.2.m_soRuleString))).map
      (fun kv => kv.2) = l := by
  intro l
  induction l with
  | nil => intro i _; rfl
  | cons r rest ih =>
    intro i h
    simp only [List.enumFrom_cons, List.map_cons]
    rw [h r (List.mem_cons_self _ _)]
    congr 1
    exact ih (i + 1) (fun x hx => h x (List.mem_cons_of_mem _ hx))

/-- The reading loop of `LoadMetadataLayer` over records without a rule key followed by the
rule records `RULE1`, `RULE2`, ... -/
theorem LoadMetadataLayer_foldl_saved (st0 : GNMGenericNetwork × List (Int × GNMRule))
    (kept : List MetadataFeature) (fid : Nat × GNMRule → Int) (rules : List GNMRule)
    (h0 : st0.2 = []) (hkept : ∀ f ∈ kept, isRuleKey f.soKey = false) :
    ((kept ++ (rules.enumFrom 0).map (fun p =>
        ({ nFID := fid p, soKey := GNM_MD_RULE ++ formatDecimal (p.1 + 1),
           soValue := p.2.m_soRuleString } : MetadataFeature))).foldl
      LoadMetadataLayer.step st0).1.m_asRules = st0.1.m_asRules ∧
    ((kept ++ (rules.enumFrom 0).map (fun p =>
        ({ nFID := fid p, soKey := GNM_MD_RULE ++ formatDecimal (p.1 + 1),
           soValue := p.2.m_soRuleString } : MetadataFeature))).foldl
      LoadMetadataLayer.step st0).2 =
      (rules.enumFrom 0).map
        (fun p => (((p.1 + 1 : Nat) : Int), GNMRule.ofString p.2.m_soRuleString)) := by
  refine ⟨(LoadMetadataLayer_foldl_rules _ st0).1, ?_⟩
  rw [List.foldl_append]
  have s2 := (LoadMetadataLayer_foldl_rules kept st0).2 hkept
  rw [h0] at s2
  have s4 := LoadMetadataLayer_foldl_rule_records fid rules 0
    (kept.foldl LoadMetadataLayer.step st0) (by rw [s2]; intro kv hkv; simp at hkv)
  rw [s4, s2, List.nil_append]

/-- The rule list after `LoadMetadataLayer`, in a network object without rules, over
records without a rule key followed by the rule records of a rule list. -/
theorem LoadMetadataLayer_saved (fresh : GNMGenericNetwork) (layer : MetadataLayer)
    (kept : List MetadataFeature) (fid : Nat × GNMRule → Int) (rules : List GNMRule)
    (hfeat : layer.features = kept ++ (rules.enumFrom 0).map (fun p =>
        ({ nFID := fid p, soKey := GNM_MD_RULE ++ formatDecimal (p.1 + 1),
           soValue := p.2.m_soRuleString } : MetadataFeature)))
    (hkept : ∀ f ∈ kept, isRuleKey f.soKey = false)
    (hRules : ∀ r ∈ rules, r.IsValid = true ∧ GNMRule.ofString r.m_soRuleString = r)
    (hFresh : fresh.m_asRules = []) :
    (fresh.LoadMetadataLayer (some layer)).2.m_asRules = rules := by
  obtain ⟨a1, a2⟩ := LoadMetadataLayer_foldl_saved
    ({ fresh with m_poMetadataLayer := layer }, []) kept fid rules rfl hkept
  unfold LoadMetadataLayer
  simp only [hfeat] at a1 a2 ⊢
  generalize List.foldl LoadMetadataLayer.step _ _ = st2 at a1 a2 ⊢
  obtain ⟨n1, mo⟩ := st2
  simp only at a1 a2
  have hrules : (mo.map (fun kv => kv.2)).filter (fun r => r.IsValid) = rules := by
    rw [a2, enumFrom_map_ofString rules 0 (fun r hr => (hRules r hr).2), List.filter_eq_self]
    exact fun r hr => (hRules r hr).1
  split_ifs <;> simp [a1, hFresh, hrules]

end GNMGenericNetwork

/-! ## Claims about the persistence of rules -/

/-- C20 (as stated, refuted): `SaveRules` goes on when `DeleteAllRules` could not delete a
rule record.  The rule list of `staleRulesNetwork` is the default rule, the flag is set,
and its metadata layer holds `RULE1` and `RULE2` of an earlier state; with a store that
refuses to delete the record of `RULE2`, `SaveRules` returns `true`, the rule records are
then the old `RULE2` and the new `RULE1`, and `LoadMetadataLayer` in a new network object
gives two rules. -/
theorem SaveRules_leaves_a_stale_rule_record :
    staleRulesNetwork.m_bIsRulesChanged = true ∧
    staleRulesNetwork.GetRules = ["ALLOW CONNECTS ANY"] ∧
    (staleRulesNetwork.SaveRules StorageFaults.keepSecondRule).1 = true ∧
    (((staleRulesNetwork.SaveRules
        StorageFaults.keepSecondRule).2.m_poMetadataLayer.features.filter
      (fun f => isRuleKey f.soKey)).map (fun f => (f.soKey, f.soValue)) =
      [("RULE2", "DENY CONNECTS ANY"), ("RULE1", "ALLOW CONNECTS ANY")]) ∧
    (newNetwork.LoadMetadataLayer
      (some (staleRulesNetwork.SaveRules
        StorageFaults.keepSecondRule).2.m_poMetadataLayer)).2.GetRules =
      ["ALLOW CONNECTS ANY", "DENY CONNECTS ANY"] := by
  decide

/-- C20 (amended): when the rules-changed flag is not set `SaveRules` returns `true` and
leaves the network as it is.  When it is set, every rule of the list `[r1, ..., rn]` is
valid and is the rule that its text makes, `SaveRules` returns `true` and no deletion of an
old rule record failed, then the metadata records whose key starts with the rule prefix are
exactly `RULE1 = r1, ..., RULEn = rn`, in this order, and `LoadMetadataLayer` over the
metadata layer in a network object without rules rebuilds the list `[r1, ..., rn]`. -/
theorem SaveRules_round_trip (flt : StorageFaults) (net fresh : GNMGenericNetwork) :
    (net.m_bIsRulesChanged = false → net.SaveRules flt = (true, net)) ∧
    (net.m_bIsRulesChanged = true →
      (∀ r ∈ net.m_asRules, r.IsValid = true ∧ GNMRule.ofString r.m_soRuleString = r) →
      (∀ f ∈ net.m_poMetadataLayer.features, isRuleKey f.soKey = true →
        flt.metaDeleteFails f.nFID = false) →
      (net.SaveRules flt).1 = true →
      fresh.m_asRules = [] →
      ((net.SaveRules flt).2.m_poMetadataLayer.features.filter
          (fun f => isRuleKey f.soKey)).map (fun f => (f.soKey, f.soValue)) =
        net.m_asRules.enum.map
          (fun p => (GNM_MD_RULE ++ formatDecimal (p.1 + 1), p.2.m_soRuleString)) ∧
      (fresh.LoadMetadataLayer (some (net.SaveRules flt).2.m_poMetadataLayer)).2.m_asRules =
        net.m_asRules) := by
  constructor
  · intro hflag
    simp [GNMGenericNetwork.SaveRules, hflag]
  · intro hflag hRules hDel hOk hFresh
    obtain ⟨d1, d2, d3⟩ := GNMGenericNetwork.DeleteAllRules_no_rule_left flt net hDel
    have hsave : (net.SaveRules flt).1 =
          (GNMGenericNetwork.SaveRules.loop flt 0 net.m_asRules
            (net.DeleteAllRules flt).2.m_poMetadataLayer).1 ∧
        (net.SaveRules flt).2.m_poMetadataLayer =
          (GNMGenericNetwork.SaveRules.loop flt 0 net.m_asRules
            (net.DeleteAllRules flt).2.m_poMetadataLayer).2 := by
      unfold GNMGenericNetwork.SaveRules
      simp only [hflag, d1, d2]
      simp
    rw [hsave.1] at hOk
    rw [hsave.2]
    have hloop := GNMGenericNetwork.SaveRules_loop_ok flt net.m_asRules 0 _ hOk
    simp only [hloop]
    have hkeys : ∀ f ∈ (net.m_asRules.enumFrom 0).map (fun p =>
        ({ nFID := (net.DeleteAllRules flt).2.m_poMetadataLayer.nNextFID + (p.1 : Int) -
              ((0 : Nat) : Int),
           soKey := GNM_MD_RULE ++ formatDecimal (p.1 + 1),
           soValue := p.2.m_soRuleString } : MetadataFeature)),
        isRuleKey f.soKey = true := by
      intro f hf
      obtain ⟨p, _, hp⟩ := List.mem_map.mp hf
      rw [← hp]
      exact isRuleKey_rule_key _
    constructor
    · rw [List.filter_append, List.filter_eq_nil_iff.mpr (fun f hf => by simp [d3 f hf]),
        List.filter_eq_self.mpr hkeys, List.nil_append, List.map_map]
      rfl
    · exact GNMGenericNetwork.LoadMetadataLayer_saved fresh _
        (net.DeleteAllRules flt).2.m_poMetadataLayer.features _ net.m_asRules hloop d3 hRules
        hFresh

theorem SaveRules_round_trip_witness :
    staleRulesNetwork.m_bIsRulesChanged = true ∧
    (staleRulesNetwork.SaveRules StorageFaults.none).1 = true ∧
    ((staleRulesNetwork.SaveRules StorageFaults.none).2.m_poMetadataLayer.features.filter
        (fun f => isRuleKey f.soKey)).map (fun f => (f.soKey, f.soValue)) =
      staleRulesNetwork.m_asRules.enum.map
        (fun p => (GNM_MD_RULE ++ formatDecimal (p.1 + 1), p.2.m_soRuleString)) ∧
    (newNetwork.LoadMetadataLayer
        (some (staleRulesNetwork.SaveRules
          StorageFaults.none).2.m_poMetadataLayer)).2.m_asRules =
      staleRulesNetwork.m_asRules :=
  ⟨by decide, by decide,
    (SaveRules_round_trip StorageFaults.none staleRulesNetwork newNetwork).2 (by decide)
      (by decide) (by decide) (by decide) (by decide)⟩


/-! ## Claims about the bulk load -/

namespace GNMGenericNetwork

theorem LoadGraph_step_AddEdge_calls (net : GNMGenericNetwork) (f : OGRFeature) :
    (LoadGraph.step net f).m_oGraph.calls.filter GraphCall.isAddEdge =
      net.m_oGraph.calls.filter GraphCall.isAddEdge ++ [addEdgeCallOf f] := by
  unfold LoadGraph.step
  dsimp only
  split_ifs <;>
    simp [GNMGraph.AddEdge, GNMGraph.ChangeBlockState, List.filter_append, GraphCall.isAddEdge,
      addEdgeCallOf]

theorem LoadGraph_foldl_AddEdge_calls (fs : List OGRFeature) (net : GNMGenericNetwork) :
    (fs.foldl LoadGraph.step net).m_oGraph.calls.filter GraphCall.isAddEdge =
      net.m_oGraph.calls.filter GraphCall.isAddEdge ++ fs.map addEdgeCallOf := by
  induction fs generalizing net with
  | nil => simp
  | cons f rest ih =>
    simp only [List.foldl_cons, List.map_cons]
    rw [ih, LoadGraph_step_AddEdge_calls]
    simp

end GNMGenericNetwork

/-- C21: on a network whose graph is not loaded and whose graph layer has no attribute
filter installed, `LoadGraph` returns `CE_None`, marks the graph loaded and makes exactly
one `AddEdge` call for each persisted graph record, in the order of the records; a further
`LoadGraph`, and the guard at the head of the graph operations, then return at once and
leave the network as it is.  On every network whose graph is loaded `LoadGraph` and the
guard change nothing.  Without a graph layer `LoadGraph` on an unloaded network returns
`CE_Failure` and changes nothing: the graph stays unloaded and as it was. -/
theorem LoadGraph_runs_once (net : GNMGenericNetwork) :
    (∀ layer, net.m_bIsGraphLoaded = false → net.m_poGraphLayer = some layer →
      layer.attrFilter = none →
      net.LoadGraph.1 = CPLErr.CE_None ∧
      net.LoadGraph.2.m_bIsGraphLoaded = true ∧
      net.LoadGraph.2.m_oGraph.calls.filter GraphCall.isAddEdge =
        net.m_oGraph.calls.filter GraphCall.isAddEdge ++ layer.features.map addEdgeCallOf ∧
      net.LoadGraph.2.LoadGraph = (CPLErr.CE_None, net.LoadGraph.2) ∧
      net.LoadGraph.2.ensureGraphLoaded = some net.LoadGraph.2) ∧
    (net.m_bIsGraphLoaded = true →
      net.LoadGraph = (CPLErr.CE_None, net) ∧ net.ensureGraphLoaded = some net) ∧
    (net.m_bIsGraphLoaded = false → net.m_poGraphLayer = none →
      net.LoadGraph = (CPLErr.CE_Failure, net)) := by
  refine ⟨?_, ?_, ?_⟩
  · intro layer hU hL hF
    have hread := GNMGenericNetwork.reading_eq_features layer (Or.inr hF)
    have h1 : net.LoadGraph =
        (CPLErr.CE_None,
          { layer.features.foldl GNMGenericNetwork.LoadGraph.step net with
            m_bIsGraphLoaded := true }) := by
      simp [GNMGenericNetwork.LoadGraph, hU, hL, hread]
    rw [h1]
    refine ⟨rfl, rfl, ?_, ?_, ?_⟩
    · exact GNMGenericNetwork.LoadGraph_foldl_AddEdge_calls layer.features net
    · simp [GNMGenericNetwork.LoadGraph]
    · simp [GNMGenericNetwork.ensureGraphLoaded]
  · intro hLoaded
    exact ⟨by simp [GNMGenericNetwork.LoadGraph, hLoaded],
      GNMGenericNetwork.ensureGraphLoaded_of_loaded net hLoaded⟩
  · intro hU hL
    simp [GNMGenericNetwork.LoadGraph, hU, hL]

theorem LoadGraph_runs_once_witness :
    unloadedNetwork.m_bIsGraphLoaded = false ∧
    unloadedNetwork.LoadGraph.1 = CPLErr.CE_None ∧
    unloadedNetwork.LoadGraph.2.m_bIsGraphLoaded = true ∧
    unloadedNetwork.LoadGraph.2.m_oGraph.calls.filter GraphCall.isAddEdge =
      unloadedNetwork.m_oGraph.calls.filter GraphCall.isAddEdge ++
        [recordOneTwo].map addEdgeCallOf ∧
    unloadedNetwork.LoadGraph.2.LoadGraph = (CPLErr.CE_None, unloadedNetwork.LoadGraph.2) ∧
    unloadedNetwork.LoadGraph.2.ensureGraphLoaded = some unloadedNetwork.LoadGraph.2 :=
  ⟨by decide,
    (LoadGraph_runs_once unloadedNetwork).1
      { features := [recordOneTwo], nNextFID := 1, attrFilter := none } (by decide) (by decide)
      (by decide)⟩


/-! ## Claims about the features index -/

theorem FeatureFIDMap.lookup_replace (m : FeatureFIDMap) (k k2 : GNMGFID) (v : String) :
    List.lookup k2 (m.map (fun kv => if kv.1 = k then (k, v) else kv)) =
      if k2 = k then (List.lookup k m).map (fun _ => v) else List.lookup k2 m := by
  induction m with
  | nil => simp
  | cons a rest ih =>
    obtain ⟨a1, a2⟩ := a
    by_cases h1 : a1 = k
    · subst h1
      by_cases h2 : k2 = a1
      · subst h2; simp [List.lookup_cons]
      · have hb : (k2 == a1) = false := beq_eq_false_iff_ne.mpr h2
        simp only [List.map_cons, if_true, List.lookup_cons, hb, h2, if_false] at ih ⊢
        exact ih
    · by_cases h2 : k2 = a1
      · subst h2
        simp [List.lookup_cons, h1]
      · have hb : (k2 == a1) = false := beq_eq_false_iff_ne.mpr h2
        have hb2 : (k == a1) = false := beq_eq_false_iff_ne.mpr (fun h => h1 h.symm)
        simp only [List.map_cons, h1, if_false, List.lookup_cons, hb, hb2] at ih ⊢
        exact ih

theorem FeatureFIDMap.lookup_assign (m : FeatureFIDMap) (k k2 : GNMGFID) (v : String) :
    List.lookup k2 (m.assign k v) = if k2 = k then some v else List.lookup k2 m := by
  unfold FeatureFIDMap.assign
  by_cases hany : m.any (fun kv => kv.1 == k) = true
  · simp only [hany, if_true]
    rw [FeatureFIDMap.lookup_replace]
    by_cases h2 : k2 = k
    · simp only [h2, if_true]
      cases hl : List.lookup k m with
      | some w => rfl
      | none =>
        rw [List.lookup_eq_none_iff] at hl
        simp only [List.any_eq_true, beq_iff_eq] at hany
        obtain ⟨p, hp, hpk⟩ := hany
        have := hl p hp
        simp [hpk] at this
    · simp only [h2, if_false]
  · simp only [hany, Bool.false_eq_true, if_false]
    have hnone : List.lookup k m = none := by
      rw [List.lookup_eq_none_iff]
      intro p hp
      simp only [Bool.not_eq_true, List.any_eq_false, beq_iff_eq] at hany
      have := hany p hp
      simpa using (fun h : k = p.1 => this h.symm)
    rw [List.lookup_append]
    by_cases h2 : k2 = k
    · subst h2; simp [hnone, List.lookup_cons]
    · have hb : (k2 == k) = false := beq_eq_false_iff_ne.mpr h2
      simp only [h2, if_false, List.lookup_cons, hb, List.lookup_nil]
      cases List.lookup k2 m <;> rfl

namespace GNMGenericNetwork

/-- The index and the counter of global ids after the reading loop of
`LoadFeaturesLayer`. -/
theorem LoadFeaturesLayer_foldl
    (LoadNetworkLayer : List GNMGenericLayer → String → List GNMGenericLayer) :
    ∀ (fs : List FeaturesRecord) (net : GNMGenericNetwork),
      net.m_nGID ≤ (fs.foldl (LoadFeaturesLayer.step LoadNetworkLayer) net).m_nGID ∧
      (∀ r ∈ fs, r.gfid < (fs.foldl (LoadFeaturesLayer.step LoadNetworkLayer) net).m_nGID) ∧
      (∀ pre r post, fs = pre ++ r :: post → (∀ x ∈ post, x.gfid ≠ r.gfid) →
        List.lookup r.gfid
          (fs.foldl (LoadFeaturesLayer.step LoadNetworkLayer) net).m_moFeatureFIDMap =
          some r.layerName) ∧
      (∀ k, (∀ x ∈ fs, x.gfid ≠ k) →
        List.lookup k (fs.foldl (LoadFeaturesLayer.step LoadNetworkLayer) net).m_moFeatureFIDMap =
          List.lookup k net.m_moFeatureFIDMap) := by
  intro fs
  induction fs with
  | nil =>
    intro net
    refine ⟨le_refl _, by simp, ?_, fun _ _ => rfl⟩
    intro pre r post h
    simp at h
  | cons f rest ih =>
    intro net
    obtain ⟨i1, i2, i3, i4⟩ := ih (LoadFeaturesLayer.step LoadNetworkLayer net f)
    have hstep1 : net.m_nGID ≤ (LoadFeaturesLayer.step LoadNetworkLayer net f).m_nGID ∧
        f.gfid < (LoadFeaturesLayer.step LoadNetworkLayer net f).m_nGID := by
      simp only [LoadFeaturesLayer.step]
      split_ifs with h
      · exact ⟨by linarith, by linarith⟩
      · exact ⟨le_refl _, by linarith⟩
    have hstep2 : ∀ k, List.lookup k
        (LoadFeaturesLayer.step LoadNetworkLayer net f).m_moFeatureFIDMap =
        if k = f.gfid then some f.layerName else List.lookup k net.m_moFeatureFIDMap := by
      intro k
      simp only [LoadFeaturesLayer.step]
      exact FeatureFIDMap.lookup_assign _ _ _ _
    simp only [List.foldl_cons]
    refine ⟨le_trans hstep1.1 i1, ?_, ?_, ?_⟩
    · intro r hr
      rcases List.mem_cons.mp hr with hr | hr
      · rw [hr]; exact lt_of_lt_of_le hstep1.2 i1
      · exact i2 r hr
    · intro pre r post hsplit hlast
      cases pre with
      | nil =>
        simp only [List.nil_append, List.cons.injEq] at hsplit
        obtain ⟨e1, e2⟩ := hsplit
        subst e1 e2
        rw [i4 f.gfid hlast, hstep2]
        simp
      | cons p pre1 =>
        simp only [List.cons_append, List.cons.injEq] at hsplit
        exact i3 pre1 r post hsplit.2 hlast
    · intro k hk
      rw [i4 k (fun x hx => hk x (List.mem_cons_of_mem _ hx)), hstep2]
      have : k ≠ f.gfid := fun h => hk f (List.mem_cons_self _ _) h.symm
      simp [this]

theorem GetNewGlobalFID_iterate (net : GNMGenericNetwork) (k : Nat) :
    ((fun n : GNMGenericNetwork => n.GetNewGlobalFID.2)^[k] net).m_nGID = net.m_nGID + k := by
  induction k generalizing net with
  | zero => simp
  | succ k ih =>
    rw [Function.iterate_succ_apply, ih]
    simp only [GetNewGlobalFID]
    push_cast
    ring

end GNMGenericNetwork

namespace GNMGenericNetwork

theorem LoadFeaturesLayer_foldl_below
    (LoadNetworkLayer : List GNMGenericLayer → String → List GNMGenericLayer) (M : Int) :
    ∀ (fs : List FeaturesRecord) (net : GNMGenericNetwork),
      (∀ r ∈ fs, r.gfid < M) → net.m_nGID ≤ M →
      (fs.foldl (LoadFeaturesLayer.step LoadNetworkLayer) net).m_nGID ≤ M := by
  intro fs
  induction fs with
  | nil => intro net _ h; exact h
  | cons f rest ih =>
    intro net hfs h
    simp only [List.foldl_cons]
    apply ih
    · exact fun r hr => hfs r (List.mem_cons_of_mem _ hr)
    · have hf : f.gfid < M := hfs f (List.mem_cons_self _ _)
      simp only [LoadFeaturesLayer.step]
      split_ifs
      · have : f.gfid + 1 ≤ M := hf
        exact this
      · exact h

end GNMGenericNetwork

/-! ## Claims about the features index -/

/-- C23 (as stated, refuted): the ids are values of `GIntBig`, and above its greatest value
there is none.  The features index `greatestIndex` records the GFID `GINTBIG_MAX`:
`LoadFeaturesLayer` succeeds, and for this record the source computes `nFID + 1` at the
greatest value of `GIntBig`.  The result `GINTBIG_MAX + 1` that the definitions give to
`m_nGID`, and that `GetNewGlobalFID` then returns, is not a value of `GIntBig` (the addition
of the source overflows), and no value of `GIntBig` is strictly greater than the recorded
GFID. -/
theorem LoadFeaturesLayer_needs_an_id_above_the_greatest :
    isGIntBig newNetwork.m_nGID ∧
    greatestIndex.features.map (fun r => r.gfid) = [1, GINTBIG_MAX] ∧
    isGIntBig GINTBIG_MAX ∧
    (newNetwork.LoadFeaturesLayer (fun ls _ => ls) (some greatestIndex)).1 = CPLErr.CE_None ∧
    (newNetwork.LoadFeaturesLayer (fun ls _ => ls) (some greatestIndex)).2.m_nGID =
      GINTBIG_MAX + 1 ∧
    (newNetwork.LoadFeaturesLayer (fun ls _ => ls)
      (some greatestIndex)).2.GetNewGlobalFID.1 = GINTBIG_MAX + 1 ∧
    ¬isGIntBig (GINTBIG_MAX + 1) ∧
    ¬∃ v, isGIntBig v ∧ GINTBIG_MAX < v :=
  ⟨by decide, by decide, by decide, by decide, by decide, by decide, by decide,
    fun ⟨v, hv, h⟩ => absurd hv.2 (not_le.mpr h)⟩

/-- C23 (amended): after `LoadFeaturesLayer` over a list of features index records the
FeatureLayerIndex gives for each recorded GFID the layer name of the last record that
carries it.  When `m_nGID` was a value of `GIntBig` and every recorded GFID is below the
greatest value of `GIntBig`, `m_nGID` is afterwards a value of `GIntBig` above every
recorded GFID, and as long as the counter stays below the greatest value the `k`-th
following call of `GetNewGlobalFID` (counted from 0) returns `m_nGID + k`, a value of
`GIntBig` that is strictly greater than every recorded GFID, leaves a counter that is a
value of `GIntBig`, and the call after it returns one more. -/
theorem LoadFeaturesLayer_index_and_new_ids
    (LoadNetworkLayer : List GNMGenericLayer → String → List GNMGenericLayer)
    (net : GNMGenericNetwork) (layer : FeaturesLayer) :
    (net.LoadFeaturesLayer LoadNetworkLayer (some layer)).1 = CPLErr.CE_None ∧
    (∀ pre r post, layer.features = pre ++ r :: post → (∀ x ∈ post, x.gfid ≠ r.gfid) →
      (net.LoadFeaturesLayer LoadNetworkLayer (some layer)).2.layerName r.gfid =
        r.layerName ∧
      List.lookup r.gfid
        (net.LoadFeaturesLayer LoadNetworkLayer (some layer)).2.m_moFeatureFIDMap =
        some r.layerName) ∧
    (isGIntBig net.m_nGID → (∀ r ∈ layer.features, r.gfid < GINTBIG_MAX) →
      isGIntBig (net.LoadFeaturesLayer LoadNetworkLayer (some layer)).2.m_nGID ∧
      (∀ r ∈ layer.features,
        r.gfid < (net.LoadFeaturesLayer LoadNetworkLayer (some layer)).2.m_nGID) ∧
      ∀ k : Nat,
        (net.LoadFeaturesLayer LoadNetworkLayer (some layer)).2.m_nGID + k < GINTBIG_MAX →
        ((fun n : GNMGenericNetwork => n.GetNewGlobalFID.2)^[k]
          (net.LoadFeaturesLayer LoadNetworkLayer (some layer)).2).GetNewGlobalFID.1 =
          (net.LoadFeaturesLayer LoadNetworkLayer (some layer)).2.m_nGID + k ∧
        isGIntBig
          ((fun n : GNMGenericNetwork => n.GetNewGlobalFID.2)^[k]
            (net.LoadFeaturesLayer LoadNetworkLayer (some layer)).2).GetNewGlobalFID.1 ∧
        isGIntBig
          ((fun n : GNMGenericNetwork => n.GetNewGlobalFID.2)^[k]
            (net.LoadFeaturesLayer LoadNetworkLayer (some layer)).2).GetNewGlobalFID.2.m_nGID ∧
        (∀ r ∈ layer.features,
          r.gfid <
            ((fun n : GNMGenericNetwork => n.GetNewGlobalFID.2)^[k]
              (net.LoadFeaturesLayer LoadNetworkLayer (some layer)).2).GetNewGlobalFID.1) ∧
        ((fun n : GNMGenericNetwork => n.GetNewGlobalFID.2)^[k + 1]
            (net.LoadFeaturesLayer LoadNetworkLayer (some layer)).2).GetNewGlobalFID.1 =
          ((fun n : GNMGenericNetwork => n.GetNewGlobalFID.2)^[k]
            (net.LoadFeaturesLayer LoadNetworkLayer (some layer)).2).GetNewGlobalFID.1 + 1) := by
  obtain ⟨a1, a2, a3, _⟩ := GNMGenericNetwork.LoadFeaturesLayer_foldl LoadNetworkLayer
    layer.features { net with m_poFeaturesLayer := some layer }
  have hres : (net.LoadFeaturesLayer LoadNetworkLayer (some layer)).2 =
      layer.features.foldl (GNMGenericNetwork.LoadFeaturesLayer.step LoadNetworkLayer)
        { net with m_poFeaturesLayer := some layer } := rfl
  rw [hres]
  refine ⟨rfl, ?_, ?_⟩
  · intro pre r post hsplit hlast
    have := a3 pre r post hsplit hlast
    exact ⟨by simp [GNMGenericNetwork.layerName, this], this⟩
  · intro hGID hRec
    have hup := GNMGenericNetwork.LoadFeaturesLayer_foldl_below LoadNetworkLayer GINTBIG_MAX
      layer.features { net with m_poFeaturesLayer := some layer } hRec hGID.2
    have hlow : GINTBIG_MIN ≤ (layer.features.foldl
        (GNMGenericNetwork.LoadFeaturesLayer.step LoadNetworkLayer)
        { net with m_poFeaturesLayer := some layer }).m_nGID := le_trans hGID.1 a1
    refine ⟨⟨hlow, hup⟩, a2, ?_⟩
    intro k hk
    have hval : ∀ j : Nat, ((fun n : GNMGenericNetwork => n.GetNewGlobalFID.2)^[j]
        (layer.features.foldl (GNMGenericNetwork.LoadFeaturesLayer.step LoadNetworkLayer)
          { net with m_poFeaturesLayer := some layer })).GetNewGlobalFID.1 =
        (layer.features.foldl (GNMGenericNetwork.LoadFeaturesLayer.step LoadNetworkLayer)
          { net with m_poFeaturesLayer := some layer }).m_nGID + j :=
      fun j => GNMGenericNetwork.GetNewGlobalFID_iterate _ j
    have hk0 : (0 : Int) ≤ (k : Int) := Int.ofNat_nonneg k
    refine ⟨hval k, ?_, ?_, ?_, ?_⟩
    · rw [hval k]
      exact ⟨by linarith, by linarith⟩
    · show isGIntBig (((fun n : GNMGenericNetwork => n.GetNewGlobalFID.2)^[k] _).m_nGID + 1)
      rw [GNMGenericNetwork.GetNewGlobalFID_iterate]
      exact ⟨by linarith, by
        have : (layer.features.foldl
          (GNMGenericNetwork.LoadFeaturesLayer.step LoadNetworkLayer)
          { net with m_poFeaturesLayer := some layer }).m_nGID + k + 1 ≤ GINTBIG_MAX := hk
        exact this⟩
    · intro r hr
      rw [hval k]
      have := a2 r hr
      linarith
    · rw [hval (k + 1), hval k]
      push_cast
      ring

theorem LoadFeaturesLayer_index_and_new_ids_witness :
    ((newNetwork.LoadFeaturesLayer (fun ls _ => ls) (some featuresIndex)).2.layerName 1 =
        "Rivers" ∧
      List.lookup 1
        (newNetwork.LoadFeaturesLayer (fun ls _ => ls)
          (some featuresIndex)).2.m_moFeatureFIDMap = some "Rivers") ∧
    isGIntBig newNetwork.m_nGID ∧ (∀ r ∈ featuresIndex.features, r.gfid < GINTBIG_MAX) ∧
    (newNetwork.LoadFeaturesLayer (fun ls _ => ls) (some featuresIndex)).2.m_nGID + (2 : Nat) <
      GINTBIG_MAX ∧
    ((fun n : GNMGenericNetwork => n.GetNewGlobalFID.2)^[2]
      (newNetwork.LoadFeaturesLayer (fun ls _ => ls) (some featuresIndex)).2).GetNewGlobalFID.1 =
      (newNetwork.LoadFeaturesLayer (fun ls _ => ls) (some featuresIndex)).2.m_nGID +
        (2 : Nat) ∧
    (newNetwork.LoadFeaturesLayer (fun ls _ => ls) (some featuresIndex)).2.m_nGID = 3 :=
  ⟨(LoadFeaturesLayer_index_and_new_ids (fun ls _ => ls) newNetwork featuresIndex).2.1
      [{ nFID := 0, gfid := 1, layerName := "Roads" },
       { nFID := 1, gfid := 2, layerName := "Roads" }]
      { nFID := 2, gfid := 1, layerName := "Rivers" } [] rfl (by simp),
    by decide, by decide, by decide,
    (((LoadFeaturesLayer_index_and_new_ids (fun ls _ => ls) newNetwork featuresIndex).2.2
      (by decide) (by decide)).2.2 2 (by decide)).1,
    by decide⟩

/-! ## Claims about `DeleteLayer` -/

/-- C24 (code at a failing input): `DeleteLayer` deletes the features index records and the
graph records of the layer and leaves the member `m_moFeatureFIDMap` as it is.  On
`indexedNetwork`, `DeleteLayer(0)` returns `OGRERR_NONE`; afterwards there is no layer and
no features index record, and the FeatureLayerIndex still gives the name `Roads` for the
GFIDs 1 and 2. -/
theorem DeleteLayer_keeps_the_index_entries :
    indexedNetwork.m_apoLayers.map (fun l => l.GetName) = ["Roads"] ∧
    (indexedNetwork.DeleteLayer StorageFaults.none 0).1 = OGRERR_NONE ∧
    (indexedNetwork.DeleteLayer StorageFaults.none 0).2.m_apoLayers = [] ∧
    (indexedNetwork.DeleteLayer StorageFaults.none 0).2.m_poFeaturesLayer =
      some { features := [] } ∧
    (indexedNetwork.DeleteLayer StorageFaults.none 0).2.m_moFeatureFIDMap =
      [(1, "Roads"), (2, "Roads")] ∧
    (indexedNetwork.DeleteLayer StorageFaults.none 0).2.layerName 1 = "Roads" ∧
    (indexedNetwork.DeleteLayer StorageFaults.none 0).2.layerName 2 = "Roads" := by
  decide

namespace GNMGenericNetwork

theorem DeleteLayer_rulesLoop_spec (pszLayerName : String) :
    ∀ (i : Nat) (asRules : List GNMRule) (b : Bool), i ≤ asRules.length →
      DeleteLayer.rulesLoop pszLayerName i (asRules, b) =
        ((asRules.take i).filter (fun r => !r.namesLayer pszLayerName) ++ asRules.drop i,
          b || (asRules.take i).any (fun r => r.namesLayer pszLayerName)) := by
  intro i
  induction i with
  | zero => intro asRules b _; simp [DeleteLayer.rulesLoop]
  | succ i ih =>
    intro asRules b hi
    have hlt : i < asRules.length := hi
    obtain ⟨r, hr⟩ : ∃ r, asRules.get ⟨i, hlt⟩ = r := ⟨_, rfl⟩
    have hget : asRules.get? i = some r := by rw [List.get?_eq_get hlt, hr]
    have htake : asRules.take (i + 1) = asRules.take i ++ [r] := by
      rw [List.take_succ, List.getElem?_eq_getElem hlt, ← hr]; rfl
    have hdrop : asRules.drop i = r :: asRules.drop (i + 1) := by
      rw [← hr]; exact List.drop_eq_getElem_cons hlt
    have herase : asRules.eraseIdx i = asRules.take i ++ asRules.drop (i + 1) :=
      List.eraseIdx_eq_take_drop_succ asRules i
    have hlen : i ≤ (asRules.eraseIdx i).length := by
      rw [List.length_eraseIdx]
      split_ifs
      omega
    have htake2 : (asRules.eraseIdx i).take i = asRules.take i := by
      rw [herase, List.take_append_of_le_length (by simp; omega)]
      simp
    have hdrop2 : (asRules.eraseIdx i).drop i = asRules.drop (i + 1) := by
      rw [herase, List.drop_append_of_le_length (by simp; omega)]
      simp [List.drop_take]
    have hremove : r.namesLayer pszLayerName = true →
        DeleteLayer.rulesLoop pszLayerName i (asRules.eraseIdx i, true) =
          ((asRules.take (i + 1)).filter (fun r => !r.namesLayer pszLayerName) ++
              asRules.drop (i + 1),
            b || (asRules.take (i + 1)).any (fun r => r.namesLayer pszLayerName)) := by
      intro hp
      rw [ih _ true hlen, htake2, hdrop2, htake]
      simp only [List.filter_append, List.filter_cons, hp, Bool.not_true, Bool.false_eq_true,
        if_false, List.filter_nil, List.append_nil, List.any_append, List.any_cons,
        Bool.true_or, Bool.or_true]
    unfold DeleteLayer.rulesLoop
    simp only [hget]
    by_cases h1 : EQUAL r.GetSourceLayerName pszLayerName = true
    · simp only [h1, if_true]
      exact hremove (by simp only [GNMRule.namesLayer, h1, Bool.true_or])
    · by_cases h2 : EQUAL r.GetTargetLayerName pszLayerName = true
      · simp only [h1, h2, if_true, if_false]
        exact hremove (by simp only [GNMRule.namesLayer, h2, Bool.true_or, Bool.or_true])
      · by_cases h3 : EQUAL r.GetConnectorLayerName pszLayerName = true
        · simp only [h1, h2, h3, if_true, if_false]
          exact hremove (by simp only [GNMRule.namesLayer, h3, Bool.or_true])
        · simp only [h1, h2, h3, if_false]
          have hp : r.namesLayer pszLayerName = false := by
            simp only [Bool.not_eq_true] at h1 h2 h3
            simp only [GNMRule.namesLayer, h1, h2, h3, Bool.or_false]
          rw [ih _ b (le_of_lt hlt), htake, hdrop]
          simp only [List.filter_append, List.filter_cons, hp, Bool.not_false, if_true,
            List.filter_nil, List.append_assoc, List.singleton_append, List.any_append,
            List.any_cons, List.any_nil, Bool.or_false, Bool.false_eq_true, if_false]

end GNMGenericNetwork

/-- C29: for a layer index `i` in `0 .. count - 1`, `DeleteLayer(i)` returns `OGRERR_NONE`
and the rule list afterwards is the previous list without the rules that name the deleted
layer as source, target or connector (names compared with `EQUAL`, which ignores case), the
other rules in their order; the rules-changed flag is set when a rule was removed and keeps
its value otherwise.  For an index outside that range `DeleteLayer` returns
`OGRERR_FAILURE` and leaves the network as it is. -/
theorem DeleteLayer_removes_the_rules_of_the_layer (flt : StorageFaults)
    (net : GNMGenericNetwork) (nIndex : Int) :
    (∀ poLayer, 0 ≤ nIndex → nIndex < (net.m_apoLayers.length : Int) →
      net.m_apoLayers.get? nIndex.toNat = some poLayer →
      (net.DeleteLayer flt nIndex).1 = OGRERR_NONE ∧
      (net.DeleteLayer flt nIndex).2.m_asRules =
        net.m_asRules.filter (fun r => !r.namesLayer poLayer.GetName) ∧
      (net.DeleteLayer flt nIndex).2.m_bIsRulesChanged =
        (net.m_bIsRulesChanged || net.m_asRules.any (fun r => r.namesLayer poLayer.GetName))) ∧
    ((nIndex < 0 ∨ (net.m_apoLayers.length : Int) ≤ nIndex) →
      net.DeleteLayer flt nIndex = (OGRERR_FAILURE, net)) := by
  constructor
  · intro poLayer h0 h1 hget
    have hcond : ¬(nIndex < 0 ∨ nIndex ≥ (net.m_apoLayers.length : Int)) := by
      push_neg; exact ⟨h0, h1⟩
    have hloop := GNMGenericNetwork.DeleteLayer_rulesLoop_spec poLayer.GetName
      net.m_asRules.length net.m_asRules net.m_bIsRulesChanged (le_refl _)
    unfold GNMGenericNetwork.DeleteLayer
    simp only [hcond, if_false, hget, hloop, List.take_length, List.drop_length,
      List.append_nil]
    exact ⟨trivial, trivial, trivial⟩
  · intro h
    have hcond : nIndex < 0 ∨ nIndex ≥ (net.m_apoLayers.length : Int) := h
    unfold GNMGenericNetwork.DeleteLayer
    simp only [hcond, if_true]

theorem DeleteLayer_removes_the_rules_of_the_layer_witness :
    (twoLayersNetwork.DeleteLayer StorageFaults.none 0).1 = OGRERR_NONE ∧
    (twoLayersNetwork.DeleteLayer StorageFaults.none 0).2.m_asRules =
      twoLayersNetwork.m_asRules.filter
        (fun r => !r.namesLayer ({ name := "Roads" } : GNMGenericLayer).GetName) ∧
    (twoLayersNetwork.DeleteLayer StorageFaults.none 0).2.m_bIsRulesChanged =
      (twoLayersNetwork.m_bIsRulesChanged ||
        twoLayersNetwork.m_asRules.any
          (fun r => r.namesLayer ({ name := "Roads" } : GNMGenericLayer).GetName)) ∧
    (twoLayersNetwork.DeleteLayer StorageFaults.none 0).2.GetRules = ["ALLOW CONNECTS ANY"] :=
  ⟨((DeleteLayer_removes_the_rules_of_the_layer StorageFaults.none twoLayersNetwork 0).1
    { name := "Roads" } (by decide) (by decide) (by decide)).1,
   ((DeleteLayer_removes_the_rules_of_the_layer StorageFaults.none twoLayersNetwork 0).1
    { name := "Roads" } (by decide) (by decide) (by decide)).2.1,
   ((DeleteLayer_removes_the_rules_of_the_layer StorageFaults.none twoLayersNetwork 0).1
    { name := "Roads" } (by decide) (by decide) (by decide)).2.2,
   by decide⟩


/-! ## Claims about virtual ids after a load -/

/-- C27 (code at a failing input): `LoadGraph` lowers the counter of virtual ids by the
connector ids of the records only.  The network `reopened` is opened on the records
`(1, 2, -2)` and `(-3, -4, 7)`; `LoadGraph` leaves the counter at `-2`, and the following
`ConnectFeatures(-1, -1, 8)` succeeds and allocates the ids `-3` and `-4`, which are the
source and the target of a loaded record. -/
theorem LoadGraph_restores_the_counter_from_connectors_only :
    reopened.m_bIsGraphLoaded = false ∧
    reopened.graphRecords.map (fun f => (f.source, f.target, f.connector)) =
      [(1, 2, -2), (-3, -4, 7)] ∧
    reopened.LoadGraph.1 = CPLErr.CE_None ∧
    reopened.LoadGraph.2.m_nVirtualConnectionGID = -2 ∧
    (reopened.LoadGraph.2.ConnectFeatures StorageFaults.none (-1) (-1) 8 1 1
      GNM_EDGE_DIR_BOTH).1 = CPLErr.CE_None ∧
    (reopened.LoadGraph.2.ConnectFeatures StorageFaults.none (-1) (-1) 8 1 1
      GNM_EDGE_DIR_BOTH).2.virtualFIDs = [-4, -3] ∧
    (reopened.LoadGraph.2.ConnectFeatures StorageFaults.none (-1) (-1) 8 1 1
      GNM_EDGE_DIR_BOTH).2.graphRecords.map (fun f => (f.source, f.target, f.connector)) =
      [(1, 2, -2), (-3, -4, 7), (-3, -4, 8)] := by
  decide

/-! ## Claims about the attribute filter of the graph layer -/

/-- C30 (code at a failing input): when a deletion fails, `DisconnectFeaturesWithId`
returns inside its reading loop and the attribute filter stays installed.  On
`twoRecordsNetwork` with a store that refuses deletions, `DisconnectFeaturesWithId(3)`
returns `CE_Failure` and leaves the filter on the id 3; the following
`ChangeAllBlockState(true)` succeeds and rewrites only the record that passes the filter:
the second graph record keeps its mask. -/
theorem DisconnectFeaturesWithId_leaves_the_filter_installed :
    twoRecordsNetwork.m_bIsGraphLoaded = true ∧
    (twoRecordsNetwork.m_poGraphLayer.map (fun l => l.attrFilter)) = some none ∧
    (twoRecordsNetwork.DisconnectFeaturesWithId StorageFaults.refuseDelete 3).1 =
      CPLErr.CE_Failure ∧
    ((twoRecordsNetwork.DisconnectFeaturesWithId
      StorageFaults.refuseDelete 3).2.m_poGraphLayer.map (fun l => l.attrFilter)) =
      some (some (AttrFilter.reference 3)) ∧
    ((twoRecordsNetwork.DisconnectFeaturesWithId
      StorageFaults.refuseDelete 3).2.ChangeAllBlockState StorageFaults.none true).1 =
      CPLErr.CE_None ∧
    ((twoRecordsNetwork.DisconnectFeaturesWithId
      StorageFaults.refuseDelete 3).2.ChangeAllBlockState
        StorageFaults.none true).2.graphRecords.map (fun f => f.blocked) =
      [GNM_BLOCK_ALL, GNM_BLOCK_NONE] := by
  decide

/-! ## Claims about path queries -/

/-- C28 (code at a failing input): in the connected-components branch of `GetPath` the end
id is pushed under the test `nStartFID != -1`, not `nEndFID != -1`.  With the start id 5,
the end id `-1` and no options the emitter list is `[5, -1]`: the unspecified id is an
emitter.  With the start id `-1` and the end id 5 the emitter list is empty: the end id is
left out. -/
theorem GetPath_tests_the_start_id_twice :
    GNMGenericNetwork.GetPath.emitters 5 (-1) none = [5, -1] ∧
    GNMGenericNetwork.GetPath.emitters (-1) 5 none = [] ∧
    (oneEdgeNetwork.GetPath true 1 (-1) GNMGraphAlgorithmType.GATConnectedComponents none).1 =
      some (oneEdgeNetwork.FillResultLayer []
        (oneEdgeNetwork.m_oGraph.ConnectedComponents [1, -1]) 1 true true).2 := by
  decide


namespace GNMGenericNetwork

/-- Two network states in which every id has the same layer name and the layers are the
same give the same result records. -/
theorem resultRecords_congr (net net1 : GNMGenericNetwork)
    (hL : net1.m_apoLayers = net.m_apoLayers) (hN : ∀ k, net1.layerName k = net.layerName k)
    (nNoOfPath : Int) (bIsEdge : Bool) (nGFID : GNMGFID) :
    net1.resultRecords nNoOfPath bIsEdge nGFID = net.resultRecords nNoOfPath bIsEdge nGFID := by
  have h1 : ∀ n : GNMGenericNetwork, (n.GetFeatureByGlobalFID nGFID).1 =
      match firstLayer (fun l => EQUAL (n.layerName nGFID) l.GetName) n.m_apoLayers with
      | none => none
      | some (_, poLayer) => poLayer.GetFeature nGFID := by
    intro n
    simp only [GetFeatureByGlobalFID, layerName, ← index_fst]
  unfold resultRecords
  rw [h1 net1, h1 net, hL, hN]

theorem pathRecords_congr (net net1 : GNMGenericNetwork)
    (hL : net1.m_apoLayers = net.m_apoLayers) (hN : ∀ k, net1.layerName k = net.layerName k)
    (path : GNMPATH) (nNoOfPath : Int) (bReturnVertices bReturnEdges : Bool) :
    net1.pathRecords path nNoOfPath bReturnVertices bReturnEdges =
      net.pathRecords path nNoOfPath bReturnVertices bReturnEdges := by
  unfold pathRecords
  simp only [resultRecords_congr net net1 hL hN]

theorem GetFeatureByGlobalFID_frame (net : GNMGenericNetwork) (nGFID : GNMGFID) :
    (net.GetFeatureByGlobalFID nGFID).2.m_apoLayers = net.m_apoLayers ∧
    (∀ k, (net.GetFeatureByGlobalFID nGFID).2.layerName k = net.layerName k) ∧
    (net.GetFeatureByGlobalFID nGFID).2.m_oGraph = net.m_oGraph := by
  refine ⟨rfl, ?_, rfl⟩
  intro k
  simp only [GetFeatureByGlobalFID, layerName]
  exact index_snd_lookup _ _ _

/-- What the body of `FillResultLayer` does for one id. -/
theorem FillResultLayer_insert_spec (nNoOfPath : Int) (bIsEdge : Bool)
    (st : GNMGenericNetwork × OGRGNMWrappedResultLayer) (nGFID : GNMGFID) :
    (FillResultLayer.insert nNoOfPath bIsEdge st nGFID).2 =
      st.2 ++ st.1.resultRecords nNoOfPath bIsEdge nGFID ∧
    (FillResultLayer.insert nNoOfPath bIsEdge st nGFID).1.m_apoLayers = st.1.m_apoLayers ∧
    (∀ k, (FillResultLayer.insert nNoOfPath bIsEdge st nGFID).1.layerName k =
      st.1.layerName k) := by
  have hmapN : ∀ k, ({ st.1 with m_moFeatureFIDMap := (st.1.m_moFeatureFIDMap.index nGFID).2 } :
      GNMGenericNetwork).layerName k = st.1.layerName k := by
    intro k
    simp only [layerName]
    exact index_snd_lookup _ _ _
  obtain ⟨f1, f2, _⟩ := GetFeatureByGlobalFID_frame
    ({ st.1 with m_moFeatureFIDMap := (st.1.m_moFeatureFIDMap.index nGFID).2 } :
      GNMGenericNetwork) nGFID
  have hrec := resultRecords_congr st.1
    ({ st.1 with m_moFeatureFIDMap := (st.1.m_moFeatureFIDMap.index nGFID).2 } :
      GNMGenericNetwork) rfl hmapN nNoOfPath bIsEdge nGFID
  have hname : (st.1.m_moFeatureFIDMap.index nGFID).1 = st.1.layerName nGFID := by
    simp only [layerName, index_fst]
  unfold FillResultLayer.insert
  simp only
  rw [← hrec]
  unfold resultRecords
  cases hf : (({ st.1 with m_moFeatureFIDMap := (st.1.m_moFeatureFIDMap.index nGFID).2 } :
      GNMGenericNetwork).GetFeatureByGlobalFID nGFID) with
  | mk poFeature net1 =>
    rw [hf] at f1 f2
    cases poFeature with
    | none =>
      simp only [List.append_nil]
      exact ⟨trivial, f1, fun k => (f2 k).trans (hmapN k)⟩
    | some f =>
      simp only [OGRGNMWrappedResultLayer.InsertFeature, hname, hmapN]
      exact ⟨trivial, f1, fun k => (f2 k).trans (hmapN k)⟩

/-- The records that `FillResultLayer` inserts, and what it leaves of the network. -/
theorem FillResultLayer_spec (nNoOfPath : Int) (bReturnVertices bReturnEdges : Bool) :
    ∀ (path : GNMPATH) (net : GNMGenericNetwork) (poResLayer : OGRGNMWrappedResultLayer),
      (net.FillResultLayer poResLayer path nNoOfPath bReturnVertices bReturnEdges).2 =
        poResLayer ++ net.pathRecords path nNoOfPath bReturnVertices bReturnEdges ∧
      (net.FillResultLayer poResLayer path nNoOfPath bReturnVertices
        bReturnEdges).1.m_apoLayers = net.m_apoLayers ∧
      (∀ k, (net.FillResultLayer poResLayer path nNoOfPath bReturnVertices
        bReturnEdges).1.layerName k = net.layerName k) := by
  intro path
  induction path with
  | nil => intro net res; simp [FillResultLayer, pathRecords]
  | cons seg rest ih =>
    intro net res
    have hstep : (FillResultLayer.step nNoOfPath bReturnVertices bReturnEdges (net, res) seg).2 =
          res ++ ((if bReturnVertices then net.resultRecords nNoOfPath false seg.1 else []) ++
            (if bReturnEdges then net.resultRecords nNoOfPath true seg.2 else [])) ∧
        (FillResultLayer.step nNoOfPath bReturnVertices bReturnEdges
          (net, res) seg).1.m_apoLayers = net.m_apoLayers ∧
        (∀ k, (FillResultLayer.step nNoOfPath bReturnVertices bReturnEdges
          (net, res) seg).1.layerName k = net.layerName k) := by
      unfold FillResultLayer.step
      cases bReturnVertices <;> cases bReturnEdges
      · simp
      · obtain ⟨a1, a2, a3⟩ := FillResultLayer_insert_spec nNoOfPath true (net, res) seg.2
        simp only [Bool.false_eq_true, if_false, if_true, List.nil_append]
        exact ⟨a1, a2, a3⟩
      · obtain ⟨a1, a2, a3⟩ := FillResultLayer_insert_spec nNoOfPath false (net, res) seg.1
        simp only [Bool.false_eq_true, if_false, if_true, List.append_nil]
        exact ⟨a1, a2, a3⟩
      · obtain ⟨a1, a2, a3⟩ := FillResultLayer_insert_spec nNoOfPath false (net, res) seg.1
        obtain ⟨b1, b2, b3⟩ := FillResultLayer_insert_spec nNoOfPath true
          (FillResultLayer.insert nNoOfPath false (net, res) seg.1) seg.2
        simp only [if_true]
        refine ⟨?_, b2.trans a2, fun k => (b3 k).trans (a3 k)⟩
        rw [b1, a1, resultRecords_congr net _ a2 a3, List.append_assoc]
    obtain ⟨s1, s2, s3⟩ := hstep
    obtain ⟨i1, i2, i3⟩ := ih
      (FillResultLayer.step nNoOfPath bReturnVertices bReturnEdges (net, res) seg).1
      (FillResultLayer.step nNoOfPath bReturnVertices bReturnEdges (net, res) seg).2
    have hfold : net.FillResultLayer res (seg :: rest) nNoOfPath bReturnVertices bReturnEdges =
        FillResultLayer
          (FillResultLayer.step nNoOfPath bReturnVertices bReturnEdges (net, res) seg).1
          (FillResultLayer.step nNoOfPath bReturnVertices bReturnEdges (net, res) seg).2
          rest nNoOfPath bReturnVertices bReturnEdges := rfl
    rw [hfold]
    refine ⟨?_, i2.trans s2, fun k => (i3 k).trans (s3 k)⟩
    rw [i1, s1, pathRecords_congr net _ s2 s3]
    simp only [pathRecords, List.flatMap_cons, List.append_assoc]

/-- The records that the loop of `GetPath` over the k shortest paths inserts. -/
theorem GetPath_fillPaths_spec (bReturnVertices bReturnEdges : Bool) :
    ∀ (paths : List GNMPATH) (i : Nat) (net : GNMGenericNetwork)
      (poResLayer : OGRGNMWrappedResultLayer),
      (GetPath.fillPaths bReturnVertices bReturnEdges i paths (net, poResLayer)).2 =
        poResLayer ++ (paths.enumFrom i).flatMap
          (fun p => net.pathRecords p.2 ((p.1 : Int) + 1) bReturnVertices bReturnEdges) := by
  intro paths
  induction paths with
  | nil => intro i net res; simp [GetPath.fillPaths]
  | cons path rest ih =>
    intro i net res
    obtain ⟨a1, a2, a3⟩ := FillResultLayer_spec ((i : Int) + 1) bReturnVertices bReturnEdges
      path net res
    unfold GetPath.fillPaths
    have := ih (i + 1)
      (net.FillResultLayer res path ((i : Int) + 1) bReturnVertices bReturnEdges).1
      (net.FillResultLayer res path ((i : Int) + 1) bReturnVertices bReturnEdges).2
    simp only at this ⊢
    rw [this, a1]
    simp only [List.enumFrom_cons, List.flatMap_cons, List.append_assoc,
      pathRecords_congr net _ a2 a3]

end GNMGenericNetwork

/-- C22: `FillResultLayer` inserts, in the order of the path and for each pair `(v, e)`,
first the feature that `GetFeatureByGlobalFID` gives for `v`, with the number of the path
and the vertex flag, when vertices are asked for and there is such a feature, then the
feature of `e` with the number of the path and the edge flag, when edges are asked for and
there is such a feature, and nothing else.  `GetPath` (graph loaded or loadable, `Memory`
driver at hand) fills in the Dijkstra path and the connected-components result with the
number 1 and the `i`-th of the k shortest paths with the number `i` (from 1); both flags are
true when the options do not give them. -/
theorem FillResultLayer_and_GetPath_records (net net0 : GNMGenericNetwork)
    (nStartFID nEndFID : GNMGFID) (papszOptions : Option Options) :
    (∀ (poResLayer : OGRGNMWrappedResultLayer) (path : GNMPATH) (nNoOfPath : Int)
        (bReturnVertices bReturnEdges : Bool),
      (net.FillResultLayer poResLayer path nNoOfPath bReturnVertices bReturnEdges).2 =
        poResLayer ++ path.flatMap (fun seg =>
          (if bReturnVertices then net.resultRecords nNoOfPath false seg.1 else []) ++
            (if bReturnEdges then net.resultRecords nNoOfPath true seg.2 else []))) ∧
    (net.ensureGraphLoaded = some net0 →
      (net.GetPath true nStartFID nEndFID GNMGraphAlgorithmType.GATDijkstraShortestPath
          papszOptions).1 =
        some (net0.pathRecords (net0.m_oGraph.DijkstraShortestPath nStartFID nEndFID) 1
          (CPLFetchBool papszOptions GNM_MD_FETCHVERTEX true)
          (CPLFetchBool papszOptions GNM_MD_FETCHEDGES true)) ∧
      (net.GetPath true nStartFID nEndFID GNMGraphAlgorithmType.GATConnectedComponents
          papszOptions).1 =
        some (net0.pathRecords
          (net0.m_oGraph.ConnectedComponents
            (GNMGenericNetwork.GetPath.emitters nStartFID nEndFID papszOptions)) 1
          (CPLFetchBool papszOptions GNM_MD_FETCHVERTEX true)
          (CPLFetchBool papszOptions GNM_MD_FETCHEDGES true)) ∧
      (net.GetPath true nStartFID nEndFID GNMGraphAlgorithmType.GATKShortestPath
          papszOptions).1 =
        some ((net0.m_oGraph.KShortestPaths nStartFID nEndFID
            (atoi (CSLFetchNameValueDef papszOptions GNM_MD_NUM_PATHS "1"))).enum.flatMap
          (fun p => net0.pathRecords p.2 ((p.1 : Int) + 1)
            (CPLFetchBool papszOptions GNM_MD_FETCHVERTEX true)
            (CPLFetchBool papszOptions GNM_MD_FETCHEDGES true)))) ∧
    (∀ pszKey, CPLFetchBool none pszKey true = true) ∧
    (∀ (l : Options) (pszKey : String), (∀ kv ∈ l, EQUAL kv.1 pszKey = false) →
      CPLFetchBool (some l) pszKey true = true) := by
  refine ⟨?_, ?_, ?_, ?_⟩
  · intro res path n bV bE
    exact (GNMGenericNetwork.FillResultLayer_spec n bV bE path net res).1
  · intro hload
    unfold GNMGenericNetwork.GetPath
    simp only [hload, Bool.not_true, Bool.false_eq_true, if_false]
    refine ⟨?_, ?_, ?_⟩
    · rw [(GNMGenericNetwork.FillResultLayer_spec 1 _ _ _ net0 []).1]
      simp
    · rw [(GNMGenericNetwork.FillResultLayer_spec 1 _ _ _ net0 []).1]
      simp
    · rw [GNMGenericNetwork.GetPath_fillPaths_spec]
      simp [List.enum]
  · intro k
    rfl
  · intro l k h
    have : l.find? (fun kv => EQUAL kv.1 k) = none := by
      rw [List.find?_eq_none]
      intro kv hkv
      simp [h kv hkv]
    simp [CPLFetchBool, CSLFetchNameValue, this]

theorem FillResultLayer_and_GetPath_records_witness :
    loopNetwork.ensureGraphLoaded = some loopNetwork ∧
    (loopNetwork.GetPath true 5 5 GNMGraphAlgorithmType.GATDijkstraShortestPath none).1 =
      some (loopNetwork.pathRecords (loopNetwork.m_oGraph.DijkstraShortestPath 5 5) 1
        (CPLFetchBool none GNM_MD_FETCHVERTEX true)
        (CPLFetchBool none GNM_MD_FETCHEDGES true)) ∧
    (loopNetwork.GetPath true 5 5 GNMGraphAlgorithmType.GATDijkstraShortestPath none).1 =
      some [{ poFeature := { nGFID := 5, blocked := 0 }, soLayerName := "Roads", nPathNo := 1,
              bIsEdge := false }] :=
  ⟨by decide,
    ((FillResultLayer_and_GetPath_records loopNetwork loopNetwork 5 5 none).2.1
      (by decide)).1,
    by decide⟩


/-! ## Facts about the Dijkstra search -/

theorem movesCost_append (a b : List GNMMove) : movesCost (a ++ b) = movesCost a + movesCost b := by
  simp [movesCost, List.sum_append]

theorem movesCost_cons (m : GNMMove) (b : List GNMMove) :
    movesCost (m :: b) = m.cost + movesCost b := by
  simp [movesCost]

theorem GNMGraph.IsWalk_append (g : GNMGraph) :
    ∀ (w1 : List GNMMove) (a b c : GNMGFID) (w2 : List GNMMove),
      g.IsWalk a w1 b → g.IsWalk b w2 c → g.IsWalk a (w1 ++ w2) c := by
  intro w1
  induction w1 with
  | nil => intro a b c w2 h1 h2; simp only [GNMGraph.IsWalk] at h1; subst h1; exact h2
  | cons m rest ih =>
    intro a b c w2 h1 h2
    obtain ⟨h11, h12, h13⟩ := h1
    exact ⟨h11, h12, ih _ _ _ _ h13 h2⟩

theorem GNMGraph.IsWalk_nonneg (g : GNMGraph) (hCost : ∀ m ∈ g.moves, 0 ≤ m.cost) :
    ∀ (w : List GNMMove) (a b : GNMGFID), g.IsWalk a w b → 0 ≤ movesCost w := by
  intro w
  induction w with
  | nil => intro a b _; simp [movesCost]
  | cons m rest ih =>
    intro a b h
    obtain ⟨h1, _, h3⟩ := h
    rw [movesCost_cons]
    have := hCost m h1
    have := ih _ _ h3
    linarith

theorem GNMGraph.mem_GetOutMoves (g : GNMGraph) (a : GNMGFID) (m : GNMMove) :
    m ∈ g.GetOutMoves a ↔ m ∈ g.moves ∧ m.source = a := by
  simp [GNMGraph.GetOutMoves]

theorem DijkstraShortestPath.minLabel_spec :
    ∀ (frontier : List DijkstraLabel),
      (DijkstraShortestPath.minLabel frontier = none → frontier = []) ∧
      (∀ l, DijkstraShortestPath.minLabel frontier = some l →
        l ∈ frontier ∧ ∀ l1 ∈ frontier, l.cost ≤ l1.cost) := by
  intro frontier
  induction frontier with
  | nil => exact ⟨fun _ => rfl, fun l h => by simp [DijkstraShortestPath.minLabel] at h⟩
  | cons a rest ih =>
    obtain ⟨i1, i2⟩ := ih
    unfold DijkstraShortestPath.minLabel
    cases hm : DijkstraShortestPath.minLabel rest with
    | none =>
      have hr := i1 hm
      subst hr
      refine ⟨fun h => by simp at h, ?_⟩
      intro l hl
      simp only [Option.some.injEq] at hl
      subst hl
      exact ⟨by simp, by simp⟩
    | some m =>
      obtain ⟨j1, j2⟩ := i2 m hm
      refine ⟨fun h => by (simp only at h; split_ifs at h), ?_⟩
      intro l hl
      simp only at hl
      split_ifs at hl with hlt
      · simp only [Option.some.injEq] at hl
        subst hl
        refine ⟨List.mem_cons_of_mem _ j1, ?_⟩
        intro l1 hl1
        rcases List.mem_cons.mp hl1 with h | h
        · rw [h]; exact le_of_lt hlt
        · exact j2 l1 h
      · simp only [Option.some.injEq] at hl
        subst hl
        refine ⟨List.mem_cons_self _ _, ?_⟩
        intro l1 hl1
        rcases List.mem_cons.mp hl1 with h | h
        · rw [h]
        · exact le_trans (not_lt.mp hlt) (j2 l1 h)

theorem filter_split_length {α : Type} (ms : List α) (p q : α → Bool)
    (h : ∀ x ∈ ms, q x = true → p x = true) :
    (ms.filter (fun x => p x && !q x)).length + (ms.filter q).length =
      (ms.filter p).length := by
  induction ms with
  | nil => rfl
  | cons a rest ih =>
    have ih1 := ih (fun x hx => h x (List.mem_cons_of_mem _ hx))
    have ha := h a (List.mem_cons_self _ _)
    cases hq : q a with
    | true =>
      have hp := ha hq
      simp only [List.filter_cons, hq, hp, Bool.not_true, Bool.and_false, Bool.false_eq_true,
        if_false, if_true, List.length_cons]
      omega
    | false =>
      cases hp : p a with
      | true =>
        simp only [List.filter_cons, hq, hp, Bool.not_false, Bool.and_true, Bool.false_eq_true,
          if_false, if_true, List.length_cons]
        omega
      | false =>
        simp only [List.filter_cons, hq, hp, Bool.not_false, Bool.and_true, Bool.false_eq_true,
          if_false]
        exact ih1

/-- A walk that leaves the settled vertices passes an entry of the frontier that costs no
more than the walk. -/
theorem DijkstraShortestPath.exit (g : GNMGraph) (s : GNMGFID) (fuel : Nat)
    (settled frontier : List DijkstraLabel) (hCost : ∀ m ∈ g.moves, 0 ≤ m.cost)
    (hInv : DijkstraShortestPath.Inv g s fuel settled frontier) :
    ∀ (w : List GNMMove) (a b : GNMGFID), g.IsWalk a w b →
      ∀ la ∈ settled, la.vertex = a → (¬∃ l ∈ settled, l.vertex = b) →
      ∃ l1 ∈ frontier, l1.cost ≤ la.cost + movesCost w := by
  obtain ⟨I1, _, I3, _, _⟩ := hInv
  intro w
  induction w with
  | nil =>
    intro a b hw la hla hva hb
    simp only [GNMGraph.IsWalk] at hw
    exact absurd ⟨la, hla, hva.trans hw⟩ hb
  | cons m rest ih =>
    intro a b hw la hla hva hb
    obtain ⟨hm, hms, hrest⟩ := hw
    have hout : m ∈ g.GetOutMoves la.vertex := by
      rw [GNMGraph.mem_GetOutMoves]; exact ⟨hm, hms.trans hva.symm⟩
    have hnn := GNMGraph.IsWalk_nonneg g hCost rest _ _ hrest
    rw [movesCost_cons]
    rcases I3 la hla m hout with ⟨lt, hlt, hltv⟩ | hfr
    · obtain ⟨l1, hl1, hc⟩ := ih _ _ hrest lt hlt hltv hb
      refine ⟨l1, hl1, ?_⟩
      obtain ⟨wa, ca, _, _, _⟩ := I1 la hla
      obtain ⟨_, _, opt, _, _⟩ := I1 lt hlt
      have hwalk : g.IsWalk s (la.moves ++ [m]) lt.vertex := by
        apply GNMGraph.IsWalk_append g _ _ _ _ _ wa
        exact ⟨hm, hms.trans hva.symm, hltv.symm⟩
      have := opt _ hwalk
      rw [movesCost_append, ← ca] at this
      simp only [movesCost, List.map_cons, List.map_nil, List.sum_cons, List.sum_nil,
        add_zero] at this
      linarith
    · refine ⟨_, hfr, ?_⟩
      simp only [DijkstraLabel.extend]
      linarith

/-- The entry of least cost of the frontier holds a cheapest walk to its vertex, when this
vertex is not settled yet. -/
theorem DijkstraShortestPath.min_is_cheapest (g : GNMGraph) (s : GNMGFID) (fuel : Nat)
    (settled frontier : List DijkstraLabel) (hCost : ∀ m ∈ g.moves, 0 ≤ m.cost)
    (hInv : DijkstraShortestPath.Inv g s fuel settled frontier) (l : DijkstraLabel)
    (hmin : DijkstraShortestPath.minLabel frontier = some l)
    (hnew : ¬∃ l1 ∈ settled, l1.vertex = l.vertex) :
    ∀ w, g.IsWalk s w l.vertex → l.cost ≤ movesCost w := by
  intro w hw
  obtain ⟨hmem, hle⟩ := (DijkstraShortestPath.minLabel_spec frontier).2 l hmin
  have I1 := hInv.1
  have I4 := hInv.2.2.2.1
  rcases I4 with ⟨ls, hls, hlsv⟩ | hstart
  · obtain ⟨l1, hl1, hc⟩ := DijkstraShortestPath.exit g s fuel settled frontier hCost hInv
      w s l.vertex hw ls hls hlsv hnew
    obtain ⟨_, _, opt, _, _⟩ := I1 ls hls
    have h0 : ls.cost ≤ movesCost [] := opt [] (by rw [hlsv]; rfl)
    simp only [movesCost, List.map_nil, List.sum_nil] at h0
    have := hle l1 hl1
    linarith
  · have := hle _ hstart
    have hnn := GNMGraph.IsWalk_nonneg g hCost w _ _ hw
    simp only [DijkstraShortestPath.start] at this
    linarith

theorem DijkstraShortestPath.Inv_skip (g : GNMGraph) (s : GNMGFID) (fuel : Nat)
    (settled frontier : List DijkstraLabel)
    (hInv : DijkstraShortestPath.Inv g s (fuel + 1) settled frontier) (l : DijkstraLabel)
    (hmin : DijkstraShortestPath.minLabel frontier = some l)
    (hold : ∃ l1 ∈ settled, l1.vertex = l.vertex) :
    DijkstraShortestPath.Inv g s fuel settled (frontier.erase l) := by
  obtain ⟨I1, I2, I3, I4, I5⟩ := hInv
  obtain ⟨hmem, _⟩ := (DijkstraShortestPath.minLabel_spec frontier).2 l hmin
  refine ⟨I1, fun l1 hl1 => I2 l1 (List.mem_of_mem_erase hl1), ?_, ?_, ?_⟩
  · intro la hla m hm
    rcases I3 la hla m hm with h | h
    · exact Or.inl h
    · by_cases he : la.extend m = l
      · left
        obtain ⟨l1, hl1, hv⟩ := hold
        exact ⟨l1, hl1, by rw [hv, ← he]; rfl⟩
      · exact Or.inr ((List.mem_erase_of_ne he).mpr h)
  · rcases I4 with h | h
    · exact Or.inl h
    · by_cases he : DijkstraShortestPath.start s = l
      · left
        obtain ⟨l1, hl1, hv⟩ := hold
        exact ⟨l1, hl1, by rw [hv, ← he]; rfl⟩
      · exact Or.inr ((List.mem_erase_of_ne he).mpr h)
  · rw [List.length_erase_of_mem hmem]
    have : 0 < frontier.length := List.length_pos_of_mem hmem
    omega

theorem movesVertices_append (s : GNMGFID) (w : List GNMMove) (m : GNMMove) :
    movesVertices s (w ++ [m]) = movesVertices s w ++ [m.target] := by
  simp [movesVertices]

theorem DijkstraShortestPath.Inv_settle (g : GNMGraph) (s : GNMGFID) (fuel : Nat)
    (settled frontier : List DijkstraLabel) (hCost : ∀ m ∈ g.moves, 0 ≤ m.cost)
    (hInv : DijkstraShortestPath.Inv g s (fuel + 1) settled frontier) (l : DijkstraLabel)
    (hmin : DijkstraShortestPath.minLabel frontier = some l)
    (hnew : ¬∃ l1 ∈ settled, l1.vertex = l.vertex) :
    DijkstraShortestPath.Inv g s fuel (settled ++ [l])
      (frontier.erase l ++ (g.GetOutMoves l.vertex).map l.extend) := by
  have hopt := DijkstraShortestPath.min_is_cheapest g s (fuel + 1) settled frontier hCost hInv
    l hmin hnew
  obtain ⟨I1, I2, I3, I4, I5⟩ := hInv
  obtain ⟨hmem, _⟩ := (DijkstraShortestPath.minLabel_spec frontier).2 l hmin
  have hl : g.IsWalk s l.moves l.vertex ∧ l.cost = movesCost l.moves ∧
      (movesVertices s l.moves).Nodup ∧
      (∀ v ∈ movesVertices s l.moves, ∃ l1 ∈ settled ++ [l], l1.vertex = v) := by
    rcases I2 l hmem with h | ⟨l0, hl0, m, hm, h⟩
    · subst h
      refine ⟨rfl, rfl, by simp [movesVertices, DijkstraShortestPath.start], ?_⟩
      intro v hv
      simp only [movesVertices, DijkstraShortestPath.start, List.map_nil,
        List.mem_singleton] at hv
      exact ⟨DijkstraShortestPath.start s,
        List.mem_append_right _ (List.mem_singleton_self _), hv.symm⟩
    · subst h
      obtain ⟨w0, c0, _, nd0, v0⟩ := I1 l0 hl0
      rw [GNMGraph.mem_GetOutMoves] at hm
      refine ⟨?_, ?_, ?_, ?_⟩
      · exact GNMGraph.IsWalk_append g _ _ _ _ _ w0 ⟨hm.1, hm.2, rfl⟩
      · simp only [DijkstraLabel.extend, movesCost_append, c0]
        simp [movesCost]
      · simp only [DijkstraLabel.extend, movesVertices_append]
        rw [List.nodup_append]
        refine ⟨nd0, List.nodup_singleton _, ?_⟩
        intro v hv1 hv2
        simp only [List.mem_singleton] at hv2
        subst hv2
        exact hnew (v0 _ hv1)
      · intro v hv
        simp only [DijkstraLabel.extend, movesVertices_append, List.mem_append,
          List.mem_singleton] at hv
        rcases hv with hv | hv
        · obtain ⟨l1, hl1, hl1v⟩ := v0 v hv
          exact ⟨l1, List.mem_append_left _ hl1, hl1v⟩
        · exact ⟨l0.extend m, List.mem_append_right _ (List.mem_singleton_self _), hv.symm⟩
  refine ⟨?_, ?_, ?_, ?_, ?_⟩
  · intro l1 hl1
    rcases List.mem_append.mp hl1 with h | h
    · obtain ⟨a, b, c, d, e⟩ := I1 l1 h
      refine ⟨a, b, c, d, ?_⟩
      intro v hv
      obtain ⟨l2, hl2, hl2v⟩ := e v hv
      exact ⟨l2, List.mem_append_left _ hl2, hl2v⟩
    · simp only [List.mem_singleton] at h
      subst h
      exact ⟨hl.1, hl.2.1, hopt, hl.2.2.1, hl.2.2.2⟩
  · intro l1 hl1
    rcases List.mem_append.mp hl1 with h | h
    · rcases I2 l1 (List.mem_of_mem_erase h) with h2 | ⟨l0, hl0, m, hm, h2⟩
      · exact Or.inl h2
      · exact Or.inr ⟨l0, List.mem_append_left _ hl0, m, hm, h2⟩
    · obtain ⟨m, hm, hml⟩ := List.mem_map.mp h
      exact Or.inr ⟨l, by simp, m, hm, hml.symm⟩
  · intro la hla m hm
    rcases List.mem_append.mp hla with h | h
    · rcases I3 la h m hm with ⟨l1, hl1, hl1v⟩ | h3
      · exact Or.inl ⟨l1, List.mem_append_left _ hl1, hl1v⟩
      · by_cases he : la.extend m = l
        · left
          exact ⟨l, by simp, by rw [← he]; rfl⟩
        · exact Or.inr (List.mem_append_left _ ((List.mem_erase_of_ne he).mpr h3))
    · simp only [List.mem_singleton] at h
      subst h
      exact Or.inr (List.mem_append_right _ (List.mem_map_of_mem _ hm))
  · rcases I4 with ⟨l1, hl1, hl1v⟩ | h
    · exact Or.inl ⟨l1, List.mem_append_left _ hl1, hl1v⟩
    · by_cases he : DijkstraShortestPath.start s = l
      · left
        exact ⟨l, by simp, by rw [← he]; rfl⟩
      · exact Or.inr (List.mem_append_left _ ((List.mem_erase_of_ne he).mpr h))
  · have hsplit : (g.moves.filter (fun m => (!settled.any (fun x => x.vertex == m.source)) &&
          !(m.source == l.vertex))).length + (g.GetOutMoves l.vertex).length =
        (g.moves.filter (fun m => !settled.any (fun x => x.vertex == m.source))).length :=
      filter_split_length g.moves
      (fun m => !settled.any (fun x => x.vertex == m.source))
      (fun m => m.source == l.vertex)
      (by
        intro m _ hq
        simp only [beq_iff_eq] at hq
        simp only [Bool.not_eq_true', List.any_eq_false, beq_iff_eq]
        intro x hx hxv
        exact hnew ⟨x, hx, hxv.trans hq⟩)
    have hfilter : g.moves.filter (fun m => !(settled ++ [l]).any (fun x => x.vertex == m.source)) =
        g.moves.filter (fun m => (!settled.any (fun x => x.vertex == m.source)) &&
          !(m.source == l.vertex)) := by
      apply List.filter_congr
      intro m _
      have : (l.vertex == m.source) = (m.source == l.vertex) := by
        rw [Bool.eq_iff_iff]; simp only [beq_iff_eq]; exact eq_comm
      simp only [List.any_append, List.any_cons, List.any_nil, Bool.or_false, Bool.not_or, this]
    rw [hfilter, List.length_append, List.length_map, List.length_erase_of_mem hmem]
    have : 0 < frontier.length := List.length_pos_of_mem hmem
    omega

/-- The result of the search when the frontier is empty. -/
theorem DijkstraShortestPath.Inv_final (g : GNMGraph) (s : GNMGFID) (fuel : Nat)
    (settled : List DijkstraLabel) (hInv : DijkstraShortestPath.Inv g s fuel settled []) :
    ∀ (w : List GNMMove) (a b : GNMGFID), g.IsWalk a w b →
      (∃ l ∈ settled, l.vertex = a) → ∃ l ∈ settled, l.vertex = b := by
  obtain ⟨_, _, I3, _, _⟩ := hInv
  intro w
  induction w with
  | nil =>
    intro a b hw ha
    simp only [GNMGraph.IsWalk] at hw
    subst hw
    exact ha
  | cons m rest ih =>
    intro a b hw ⟨la, hla, hva⟩
    obtain ⟨hm, hms, hrest⟩ := hw
    have hout : m ∈ g.GetOutMoves la.vertex := by
      rw [GNMGraph.mem_GetOutMoves]; exact ⟨hm, hms.trans hva.symm⟩
    rcases I3 la hla m hout with h | h
    · exact ih _ _ hrest h
    · simp at h

/-- The entries that the Dijkstra search settles: each holds a cheapest walk from the start
to its vertex, which is a simple path, and every vertex that a walk from the start reaches
is settled. -/
theorem DijkstraShortestPath.loop_spec (g : GNMGraph) (s : GNMGFID)
    (hCost : ∀ m ∈ g.moves, 0 ≤ m.cost) :
    ∀ (fuel : Nat) (settled frontier : List DijkstraLabel),
      DijkstraShortestPath.Inv g s fuel settled frontier →
      (∀ l ∈ DijkstraShortestPath.loop g fuel settled frontier,
        g.IsWalk s l.moves l.vertex ∧ l.cost = movesCost l.moves ∧
        (∀ w, g.IsWalk s w l.vertex → l.cost ≤ movesCost w) ∧
        (movesVertices s l.moves).Nodup) ∧
      (∀ v, (∃ w, g.IsWalk s w v) →
        ∃ l ∈ DijkstraShortestPath.loop g fuel settled frontier, l.vertex = v) := by
  have hfinal : ∀ (fuel : Nat) (settled : List DijkstraLabel),
      DijkstraShortestPath.Inv g s fuel settled [] →
      (∀ l ∈ settled,
        g.IsWalk s l.moves l.vertex ∧ l.cost = movesCost l.moves ∧
        (∀ w, g.IsWalk s w l.vertex → l.cost ≤ movesCost w) ∧
        (movesVertices s l.moves).Nodup) ∧
      (∀ v, (∃ w, g.IsWalk s w v) → ∃ l ∈ settled, l.vertex = v) := by
    intro fuel settled hInv
    refine ⟨fun l hl => ?_, ?_⟩
    · obtain ⟨a, b, c, d, _⟩ := hInv.1 l hl
      exact ⟨a, b, c, d⟩
    · rintro v ⟨w, hw⟩
      have hs : ∃ l ∈ settled, l.vertex = s := by
        rcases hInv.2.2.2.1 with h | h
        · exact h
        · simp at h
      exact DijkstraShortestPath.Inv_final g s fuel settled hInv w s v hw hs
  intro fuel
  induction fuel with
  | zero =>
    intro settled frontier hInv
    have hlen : frontier.length = 0 := by
      have := hInv.2.2.2.2
      omega
    have hnil : frontier = [] := List.length_eq_zero.mp hlen
    subst hnil
    simpa [DijkstraShortestPath.loop] using hfinal 0 settled hInv
  | succ fuel ih =>
    intro settled frontier hInv
    unfold DijkstraShortestPath.loop
    cases hmin : DijkstraShortestPath.minLabel frontier with
    | none =>
      have hnil := (DijkstraShortestPath.minLabel_spec frontier).1 hmin
      subst hnil
      simpa using hfinal _ settled hInv
    | some l =>
      simp only
      by_cases hany : settled.any (fun x => x.vertex == l.vertex) = true
      · simp only [hany, if_true]
        apply ih
        apply DijkstraShortestPath.Inv_skip g s fuel settled frontier hInv l hmin
        simpa using hany
      · simp only [hany, Bool.false_eq_true, if_false]
        apply ih
        apply DijkstraShortestPath.Inv_settle g s fuel settled frontier hCost hInv l hmin
        simpa using hany

theorem GNMGraph.moves_cost_nonneg (g : GNMGraph)
    (hCost : ∀ e ∈ g.edges, 0 ≤ e.cost ∧ 0 ≤ e.inverseCost) : ∀ m ∈ g.moves, 0 ≤ m.cost := by
  intro m hm
  simp only [GNMGraph.moves, List.mem_flatMap] at hm
  obtain ⟨e, he, hme⟩ := hm
  obtain ⟨c1, c2⟩ := hCost e he
  simp only [GNMStdEdge.moves, List.mem_append] at hme
  rcases hme with h | h
  · split_ifs at h
    · simp only [List.mem_singleton] at h
      rw [h]; exact c1
    · simp at h
  · split_ifs at h
    · simp only [List.mem_singleton] at h
      rw [h]; exact c2
    · simp at h

theorem DijkstraShortestPath.Inv_start (g : GNMGraph) (s : GNMGFID) :
    DijkstraShortestPath.Inv g s (g.moves.length + 1) [] [DijkstraShortestPath.start s] := by
  refine ⟨by simp, by simp, by simp, Or.inr (by simp), ?_⟩
  have := List.length_filter_le
    (fun m : GNMMove => !([] : List DijkstraLabel).any (fun x => x.vertex == m.source)) g.moves
  simp only [List.length_singleton]
  omega

theorem GNMGraph.IsWalk_getLast (g : GNMGraph) :
    ∀ (w : List GNMMove) (a b : GNMGFID), g.IsWalk a w b →
      (movesVertices a w).getLast? = some b := by
  intro w
  induction w with
  | nil => intro a b h; simp only [GNMGraph.IsWalk] at h; simp [movesVertices, h]
  | cons m rest ih =>
    intro a b h
    obtain ⟨_, _, h3⟩ := h
    have := ih _ _ h3
    simp only [movesVertices, List.map_cons] at this ⊢
    rw [List.getLast?_cons_cons]
    exact this

/-- What the Dijkstra search returns on a graph without negative costs. -/
theorem GNMGraph.DijkstraMoves_spec (g : GNMGraph) (s t : GNMGFID)
    (hCost : ∀ m ∈ g.moves, 0 ≤ m.cost) :
    (∀ p, g.DijkstraMoves s t = some p →
      g.IsWalk s p t ∧ (movesVertices s p).Nodup ∧
      (∀ w, g.IsWalk s w t → movesCost p ≤ movesCost w) ∧
      g.isEndpoint s = true ∧ g.isEndpoint t = true) ∧
    (g.DijkstraMoves s t = none →
      g.isEndpoint s = false ∨ g.isEndpoint t = false ∨ ¬∃ w, g.IsWalk s w t) := by
  obtain ⟨F1, F2⟩ := DijkstraShortestPath.loop_spec g s hCost (g.moves.length + 1) []
    [DijkstraShortestPath.start s] (DijkstraShortestPath.Inv_start g s)
  have hstart : ({ cost := 0, vertex := s, moves := [] } : DijkstraLabel) =
      DijkstraShortestPath.start s := rfl
  unfold GNMGraph.DijkstraMoves
  rw [hstart]
  by_cases hs : g.isEndpoint s = true
  · by_cases ht : g.isEndpoint t = true
    · simp only [hs, ht, Bool.not_true, Bool.or_self, Bool.false_eq_true, if_false]
      cases hfind : (DijkstraShortestPath.loop g (g.moves.length + 1) []
          [DijkstraShortestPath.start s]).find? (fun l => l.vertex == t) with
      | none =>
        refine ⟨fun p hp => by simp at hp, fun _ => Or.inr (Or.inr ?_)⟩
        intro hw
        obtain ⟨l, hl, hlv⟩ := F2 t hw
        rw [List.find?_eq_none] at hfind
        exact hfind l hl (by simp [hlv])
      | some l =>
        refine ⟨?_, fun h => by simp at h⟩
        intro p hp
        simp only [Option.map_some', Option.some.injEq] at hp
        subst hp
        have hmem := List.mem_of_find?_eq_some hfind
        have hv : l.vertex = t := by
          have := List.find?_some hfind
          simpa using this
        obtain ⟨a, b, c, d⟩ := F1 l hmem
        rw [hv] at a c
        refine ⟨a, d, ?_, trivial, trivial⟩
        intro w hw
        rw [← b]
        exact c w hw
    · simp only [Bool.not_eq_true] at ht
      simp [ht]
  · simp only [Bool.not_eq_true] at hs
    simp [hs]

/-! ## Claims about the shortest path -/

/-- C25 (as stated, refuted): the Dijkstra search settles a vertex when it leaves the
frontier.  In `negativeCostGraph` the vertex 2 is settled with the edge 101 of cost 2
before the vertex 3 is looked at, and the path of `DijkstraShortestPath(1, 2)` costs 2,
while the path over the vertex 3 by the edges 102 and 103 is simple, traversable and costs
1. -/
theorem Dijkstra_misses_the_cheapest_path_with_a_negative_cost :
    negativeCostGraph.DijkstraShortestPath 1 2 = [(1, -1), (2, 101)] ∧
    negativeCostGraph.DijkstraMoves 1 2 =
      some [{ connector := 101, source := 1, target := 2, cost := 2 }] ∧
    negativeCostGraph.IsWalk 1
      [{ connector := 102, source := 1, target := 3, cost := 3 },
       { connector := 103, source := 3, target := 2, cost := -2 }] 2 ∧
    movesCost [{ connector := 102, source := 1, target := 3, cost := 3 },
       { connector := 103, source := 3, target := 2, cost := -2 }] = 1 ∧
    movesCost [{ connector := 101, source := 1, target := 2, cost := 2 }] = 2 := by
  decide

/-- C25 (amended): for every graph in which no cost and no inverse cost is negative and
every pair `(s, t)`: if `s` and `t` are edge endpoints and `t` is reachable from `s` along
edges traversable under the direction and block rules, the path of
`DijkstraShortestPath(s, t)` starts at `s`, ends at `t`, is the path of a simple
traversable walk, and its total cost is the least cost of a traversable walk from `s` to
`t`; if `t` is not reachable, or `s` or `t` is not an endpoint of an edge, the path is
empty, and with an empty path the result of `GetPath` has no records. -/
theorem Dijkstra_finds_a_cheapest_path (g : GNMGraph) (s t : GNMGFID)
    (hCost : ∀ e ∈ g.edges, 0 ≤ e.cost ∧ 0 ≤ e.inverseCost) :
    (g.isEndpoint s = true → g.isEndpoint t = true → (∃ w, g.IsWalk s w t) →
      ∃ p, g.IsWalk s p t ∧ (movesVertices s p).Nodup ∧
        g.DijkstraShortestPath s t = pathOfMoves s p ∧
        (g.DijkstraShortestPath s t).head? = some (s, -1) ∧
        ((g.DijkstraShortestPath s t).map (fun seg => seg.1)).getLast? = some t ∧
        ∀ w, g.IsWalk s w t → movesCost p ≤ movesCost w) ∧
    ((g.isEndpoint s = false ∨ g.isEndpoint t = false ∨ ¬∃ w, g.IsWalk s w t) →
      g.DijkstraShortestPath s t = []) ∧
    (∀ (net net0 : GNMGenericNetwork) (papszOptions : Option Options),
      net.ensureGraphLoaded = some net0 → net0.m_oGraph = g →
      g.DijkstraShortestPath s t = [] →
      (net.GetPath true s t GNMGraphAlgorithmType.GATDijkstraShortestPath papszOptions).1 =
        some []) := by
  have hm := GNMGraph.moves_cost_nonneg g hCost
  obtain ⟨S1, S2⟩ := GNMGraph.DijkstraMoves_spec g s t hm
  refine ⟨?_, ?_, ?_⟩
  · intro hs ht hw
    cases hd : g.DijkstraMoves s t with
    | none =>
      rcases S2 hd with h | h | h
      · rw [hs] at h; exact absurd h (by decide)
      · rw [ht] at h; exact absurd h (by decide)
      · exact absurd hw h
    | some p =>
      obtain ⟨a, b, c, _, _⟩ := S1 p hd
      have hpath : g.DijkstraShortestPath s t = pathOfMoves s p := by
        simp [GNMGraph.DijkstraShortestPath, hd]
      refine ⟨p, a, b, hpath, ?_, ?_, c⟩
      · rw [hpath]; rfl
      · rw [hpath]
        have := GNMGraph.IsWalk_getLast g p s t a
        simpa [pathOfMoves, movesVertices, List.map_map, Function.comp] using this
  · intro h
    cases hd : g.DijkstraMoves s t with
    | none => simp [GNMGraph.DijkstraShortestPath, hd]
    | some p =>
      obtain ⟨a, _, _, d, e⟩ := S1 p hd
      rcases h with h | h | h
      · rw [d] at h; exact absurd h (by decide)
      · rw [e] at h; exact absurd h (by decide)
      · exact absurd ⟨p, a⟩ h
  · intro net net0 opts hload hg hempty
    unfold GNMGenericNetwork.GetPath
    simp only [hload, Bool.not_true, Bool.false_eq_true, if_false, hg, hempty]
    rfl

theorem Dijkstra_finds_a_cheapest_path_witness :
    (∀ e ∈ scenarioGraph.edges, 0 ≤ e.cost ∧ 0 ≤ e.inverseCost) ∧
    (∃ p, scenarioGraph.IsWalk 1 p 3 ∧ (movesVertices 1 p).Nodup ∧
      scenarioGraph.DijkstraShortestPath 1 3 = pathOfMoves 1 p ∧
      (scenarioGraph.DijkstraShortestPath 1 3).head? = some (1, -1) ∧
      ((scenarioGraph.DijkstraShortestPath 1 3).map (fun seg => seg.1)).getLast? = some 3 ∧
      ∀ w, scenarioGraph.IsWalk 1 w 3 → movesCost p ≤ movesCost w) ∧
    scenarioGraph.DijkstraShortestPath 1 3 = [(1, -1), (2, 101), (3, 102)] ∧
    (scenarioGraph.ChangeBlockState 101 true).DijkstraShortestPath 1 3 = [] :=
  ⟨by decide,
    (Dijkstra_finds_a_cheapest_path scenarioGraph 1 3 (by decide)).1 (by decide) (by decide)
      ⟨[{ connector := 101, source := 1, target := 2, cost := 1 },
        { connector := 102, source := 2, target := 3, cost := 1 }], by decide⟩,
    by decide, by decide⟩

/-! ## Facts about the k shortest paths -/

theorem GNMStdEdge.mem_moves_cases (e : GNMStdEdge) (m : GNMMove) (h : m ∈ e.moves) :
    m.connector = e.connectorGFID ∧
    ((m.source = e.sourceGFID ∧ m.target = e.targetGFID ∧ m.cost = e.cost) ∨
     (m.source = e.targetGFID ∧ m.target = e.sourceGFID ∧ m.cost = e.inverseCost)) := by
  simp only [GNMStdEdge.moves, List.mem_append] at h
  rcases h with h | h
  · split_ifs at h
    · simp only [List.mem_singleton] at h
      subst h
      exact ⟨rfl, Or.inl ⟨rfl, rfl, rfl⟩⟩
    · simp at h
  · split_ifs at h
    · simp only [List.mem_singleton] at h
      subst h
      exact ⟨rfl, Or.inr ⟨rfl, rfl, rfl⟩⟩
    · simp at h

theorem GNMGraph.mem_moves (g : GNMGraph) (m : GNMMove) :
    m ∈ g.moves ↔ ∃ e ∈ g.edges, m ∈ e.moves := by
  simp [GNMGraph.moves, List.mem_flatMap]

theorem GNMGraph.UniqueConnectors.eq (g : GNMGraph) (hU : g.UniqueConnectors)
    (e1 e2 : GNMStdEdge) (h1 : e1 ∈ g.edges) (h2 : e2 ∈ g.edges)
    (h : e1.connectorGFID = e2.connectorGFID) : e1 = e2 :=
  List.inj_on_of_nodup_map hU h1 h2 h

/-- With connector ids that are unique, the connector and the source give the traversal,
unless it is a loop at the source. -/
theorem GNMGraph.move_eq (g : GNMGraph) (hU : g.UniqueConnectors) (m1 m2 : GNMMove)
    (h1 : m1 ∈ g.moves) (h2 : m2 ∈ g.moves) (hc : m1.connector = m2.connector)
    (hs : m1.source = m2.source) (hne : m1.target ≠ m1.source) : m1 = m2 := by
  rw [GNMGraph.mem_moves] at h1 h2
  obtain ⟨e1, he1, hm1⟩ := h1
  obtain ⟨e2, he2, hm2⟩ := h2
  obtain ⟨c1, d1⟩ := GNMStdEdge.mem_moves_cases e1 m1 hm1
  obtain ⟨c2, d2⟩ := GNMStdEdge.mem_moves_cases e2 m2 hm2
  have he : e1 = e2 := GNMGraph.UniqueConnectors.eq g hU e1 e2 he1 he2 (by rw [← c1, ← c2, hc])
  subst he
  obtain ⟨k1, s1, t1, x1⟩ := m1
  obtain ⟨k2, s2, t2, x2⟩ := m2
  simp only at c1 d1 c2 d2 hc hs hne
  simp only [GNMMove.mk.injEq]
  rcases d1 with ⟨a1, b1, f1⟩ | ⟨a1, b1, f1⟩ <;> rcases d2 with ⟨a2, b2, f2⟩ | ⟨a2, b2, f2⟩
  · exact ⟨hc, hs, by rw [b1, b2], by rw [f1, f2]⟩
  · exfalso; apply hne; rw [b1, a1, ← a2, ← hs, a1]
  · exfalso; apply hne; rw [b1, a1, ← a2, ← hs, a1]
  · exact ⟨hc, hs, by rw [b1, b2], by rw [f1, f2]⟩

/-- With connector ids that are unique, two traversals of one connector join the same two
vertices. -/
theorem GNMGraph.move_ends (g : GNMGraph) (hU : g.UniqueConnectors) (m1 m2 : GNMMove)
    (h1 : m1 ∈ g.moves) (h2 : m2 ∈ g.moves) (hc : m1.connector = m2.connector) :
    (m2.source = m1.source ∧ m2.target = m1.target) ∨
    (m2.source = m1.target ∧ m2.target = m1.source) := by
  rw [GNMGraph.mem_moves] at h1 h2
  obtain ⟨e1, he1, hm1⟩ := h1
  obtain ⟨e2, he2, hm2⟩ := h2
  obtain ⟨c1, d1⟩ := GNMStdEdge.mem_moves_cases e1 m1 hm1
  obtain ⟨c2, d2⟩ := GNMStdEdge.mem_moves_cases e2 m2 hm2
  have he : e1 = e2 := GNMGraph.UniqueConnectors.eq g hU e1 e2 he1 he2 (by rw [← c1, ← c2, hc])
  subst he
  rcases d1 with ⟨a1, b1, _⟩ | ⟨a1, b1, _⟩ <;> rcases d2 with ⟨a2, b2, _⟩ | ⟨a2, b2, _⟩
  · exact Or.inl ⟨by rw [a1, a2], by rw [b1, b2]⟩
  · exact Or.inr ⟨by rw [b1, a2], by rw [a1, b2]⟩
  · exact Or.inr ⟨by rw [b1, a2], by rw [a1, b2]⟩
  · exact Or.inl ⟨by rw [a1, a2], by rw [b1, b2]⟩

theorem GNMGraph.IsWalk_end_unique (g : GNMGraph) :
    ∀ (w : List GNMMove) (a b c : GNMGFID), g.IsWalk a w b → g.IsWalk a w c → b = c := by
  intro w
  induction w with
  | nil =>
    intro a b c h1 h2
    simp only [GNMGraph.IsWalk] at h1 h2
    rw [← h1, ← h2]
  | cons m rest ih =>
    intro a b c h1 h2
    exact ih _ _ _ h1.2.2 h2.2.2

theorem movesVertices_cons (a : GNMGFID) (m : GNMMove) (w : List GNMMove) :
    movesVertices a (m :: w) = a :: movesVertices m.target w := rfl

/-- The sources and the targets of the traversals of a walk are among its vertices. -/
theorem GNMGraph.IsWalk_mem_vertices (g : GNMGraph) :
    ∀ (w : List GNMMove) (a b : GNMGFID), g.IsWalk a w b →
      ∀ m ∈ w, m.source ∈ movesVertices a w ∧ m.target ∈ movesVertices a w := by
  intro w
  induction w with
  | nil => intro a b _ m hm; simp at hm
  | cons m0 rest ih =>
    intro a b h m hm
    obtain ⟨_, h2, h3⟩ := h
    rw [movesVertices_cons]
    rcases List.mem_cons.mp hm with rfl | hm
    · refine ⟨by rw [h2]; exact List.mem_cons_self _ _, List.mem_cons_of_mem _ ?_⟩
      simp [movesVertices]
    · obtain ⟨x, y⟩ := ih _ _ h3 m hm
      exact ⟨List.mem_cons_of_mem _ x, List.mem_cons_of_mem _ y⟩

/-- The walk with given connectors from a vertex: with connector ids that are unique, a
simple path is the only walk from its start with its sequence of connectors. -/
theorem GNMGraph.walk_eq_of_connectors (g : GNMGraph) (hU : g.UniqueConnectors) :
    ∀ (P Q : List GNMMove) (a b c : GNMGFID), g.IsWalk a P b → g.IsWalk a Q c →
      (movesVertices a P).Nodup →
      P.map (fun m => m.connector) = Q.map (fun m => m.connector) → P = Q := by
  intro P
  induction P with
  | nil =>
    intro Q a b c _ _ _ h
    simp only [List.map_nil] at h
    exact (List.map_eq_nil_iff.mp h.symm).symm
  | cons m1 P ih =>
    intro Q a b c hP hQ hnd h
    cases Q with
    | nil => simp at h
    | cons m2 Q =>
      simp only [List.map_cons, List.cons.injEq] at h
      obtain ⟨p1, p2, p3⟩ := hP
      obtain ⟨q1, q2, q3⟩ := hQ
      rw [movesVertices_cons, List.nodup_cons] at hnd
      have hne : m1.target ≠ m1.source := by
        intro he
        apply hnd.1
        rw [p2] at he
        rw [← he]
        simp [movesVertices]
      have hm : m1 = m2 := GNMGraph.move_eq g hU m1 m2 p1 q1 h.1 (by rw [p2, q2]) hne
      subst hm
      rw [ih Q _ _ _ p3 q3 hnd.2 h.2]

theorem movesVertices_take (a : GNMGFID) (w : List GNMMove) (i : Nat) :
    (movesVertices a w).take (i + 1) = movesVertices a (w.take i) := by
  simp [movesVertices, List.map_take]

/-- A walk splits at each of its vertices into a walk to the vertex and a walk from it. -/
theorem GNMGraph.IsWalk_take_drop (g : GNMGraph) :
    ∀ (P : List GNMMove) (a b : GNMGFID) (i : Nat), g.IsWalk a P b → i ≤ P.length →
      ∃ v, (movesVertices a P)[i]? = some v ∧ g.IsWalk a (P.take i) v ∧
        g.IsWalk v (P.drop i) b := by
  intro P
  induction P with
  | nil =>
    intro a b i h hi
    have : i = 0 := by simpa using hi
    subst this
    exact ⟨a, by simp [movesVertices], rfl, h⟩
  | cons m P ih =>
    intro a b i h hi
    cases i with
    | zero => exact ⟨a, by simp [movesVertices], rfl, h⟩
    | succ i =>
      obtain ⟨h1, h2, h3⟩ := h
      obtain ⟨v, e1, e2, e3⟩ := ih m.target b i h3 (by simpa using hi)
      refine ⟨v, ?_, ⟨h1, h2, e2⟩, e3⟩
      rw [movesVertices_cons]
      simpa using e1

/-- The vertices of a walk that continues a prefix of a walk. -/
theorem GNMGraph.movesVertices_splice (g : GNMGraph) :
    ∀ (P : List GNMMove) (a v : GNMGFID) (i : Nat) (X : List GNMMove), i ≤ P.length →
      g.IsWalk a (P.take i) v →
      movesVertices a (P.take i ++ X) = (movesVertices a P).take i ++ movesVertices v X := by
  intro P
  induction P with
  | nil =>
    intro a v i X hi h
    have : i = 0 := by simpa using hi
    subst this
    simp only [List.take_zero, GNMGraph.IsWalk] at h
    subst h
    simp
  | cons m P ih =>
    intro a v i X hi h
    cases i with
    | zero =>
      simp only [List.take_zero, GNMGraph.IsWalk] at h
      subst h
      simp
    | succ i =>
      simp only [List.take_succ_cons] at h
      obtain ⟨_, _, h3⟩ := h
      have := ih m.target v i X (by simpa using hi) h3
      simp only [List.take_succ_cons, List.cons_append, movesVertices_cons, this]

/-- A simple path splits at each of its vertices into two simple paths that share only
this vertex. -/
theorem GNMGraph.IsPath_take_drop (g : GNMGraph) (P : List GNMMove) (a b : GNMGFID) (i : Nat)
    (h : g.IsPath a P b) (hi : i ≤ P.length) :
    ∃ v, (movesVertices a P)[i]? = some v ∧ g.IsWalk a (P.take i) v ∧
      g.IsPath v (P.drop i) b ∧
      (∀ x ∈ (movesVertices a P).take i, x ∉ movesVertices v (P.drop i)) ∧
      ((movesVertices a P).take i).Nodup := by
  obtain ⟨v, e1, e2, e3⟩ := GNMGraph.IsWalk_take_drop g P a b i h.1 hi
  have hsp := GNMGraph.movesVertices_splice g P a v i (P.drop i) hi e2
  rw [List.take_append_drop] at hsp
  have hnd := h.2
  rw [hsp, List.nodup_append] at hnd
  exact ⟨v, e1, e2, ⟨e3, hnd.2.1⟩, fun x hx hx2 => hnd.2.2 hx hx2, hnd.1⟩

/-- The traversals of the graph of a spur search: those of the graph whose connector does
not follow the prefix in an accepted path and that do not touch a vertex of the prefix. -/
theorem KShortestPaths.mem_spurGraph_moves (g : GNMGraph) (s : GNMGFID)
    (A : List (List GNMMove)) (P : List GNMMove) (i : Nat) (m : GNMMove) :
    m ∈ (KShortestPaths.spurGraph g s A P i).moves ↔
      m ∈ g.moves ∧
      m.connector ∉ A.filterMap (fun Q =>
        if Q.take i = P.take i then (Q.get? i).map (fun m => m.connector) else none) ∧
      m.source ∉ (movesVertices s P).take i ∧ m.target ∉ (movesVertices s P).take i := by
  simp only [GNMGraph.mem_moves, KShortestPaths.spurGraph, List.mem_filter, Bool.and_eq_true,
    Bool.not_eq_true', List.contains_eq_any_beq, List.any_eq_false, beq_iff_eq]
  constructor
  · rintro ⟨e, ⟨he, ⟨k1, k2⟩, k3⟩, hm⟩
    obtain ⟨c, d⟩ := GNMStdEdge.mem_moves_cases e m hm
    refine ⟨⟨e, he, hm⟩, ?_, ?_, ?_⟩
    · intro hx; exact k1 _ hx c.symm
    · rcases d with ⟨a1, b1, _⟩ | ⟨a1, b1, _⟩
      · intro hx; exact k2 _ hx a1.symm
      · intro hx; exact k3 _ hx a1.symm
    · rcases d with ⟨a1, b1, _⟩ | ⟨a1, b1, _⟩
      · intro hx; exact k3 _ hx b1.symm
      · intro hx; exact k2 _ hx b1.symm
  · rintro ⟨⟨e, he, hm⟩, k1, k2, k3⟩
    obtain ⟨c, d⟩ := GNMStdEdge.mem_moves_cases e m hm
    refine ⟨e, ⟨he, ⟨?_, ?_⟩, ?_⟩, hm⟩
    · intro x hx hxe; apply k1; rw [c, hxe]; exact hx
    · rcases d with ⟨a1, b1, _⟩ | ⟨a1, b1, _⟩
      · intro x hx hxe; apply k2; rw [a1, hxe]; exact hx
      · intro x hx hxe; apply k3; rw [b1, hxe]; exact hx
    · rcases d with ⟨a1, b1, _⟩ | ⟨a1, b1, _⟩
      · intro x hx hxe; apply k3; rw [b1, hxe]; exact hx
      · intro x hx hxe; apply k2; rw [a1, hxe]; exact hx

/-- A walk whose traversals all belong to a second graph is a walk of the second graph. -/
theorem GNMGraph.IsWalk_mono (g h : GNMGraph) :
    ∀ (w : List GNMMove) (a b : GNMGFID), g.IsWalk a w b → (∀ m ∈ w, m ∈ h.moves) →
      h.IsWalk a w b := by
  intro w
  induction w with
  | nil => intro a b h1 _; exact h1
  | cons m rest ih =>
    intro a b h1 h2
    exact ⟨h2 m (List.mem_cons_self _ _), h1.2.1,
      ih _ _ h1.2.2 (fun x hx => h2 x (List.mem_cons_of_mem _ hx))⟩

theorem GNMGraph.IsWalk_mem_moves (g : GNMGraph) :
    ∀ (w : List GNMMove) (a b : GNMGFID), g.IsWalk a w b → ∀ m ∈ w, m ∈ g.moves := by
  intro w
  induction w with
  | nil => intro a b _ m hm; simp at hm
  | cons m0 rest ih =>
    intro a b h m hm
    rcases List.mem_cons.mp hm with rfl | hm
    · exact h.1
    · exact ih _ _ h.2.2 m hm

/-- The entries that the Dijkstra search settles hold simple paths from the start, whatever
the costs are. -/
theorem DijkstraShortestPath.loop_simple (g : GNMGraph) (s : GNMGFID) :
    ∀ (fuel : Nat) (settled frontier : List DijkstraLabel),
      (∀ l ∈ settled, g.IsWalk s l.moves l.vertex ∧ (movesVertices s l.moves).Nodup ∧
        ∀ v ∈ movesVertices s l.moves, ∃ l1 ∈ settled, l1.vertex = v) →
      (∀ l ∈ frontier, l = DijkstraShortestPath.start s ∨
        ∃ l0 ∈ settled, ∃ m ∈ g.GetOutMoves l0.vertex, l = l0.extend m) →
      ∀ l ∈ DijkstraShortestPath.loop g fuel settled frontier,
        g.IsWalk s l.moves l.vertex ∧ (movesVertices s l.moves).Nodup := by
  intro fuel
  induction fuel with
  | zero =>
    intro settled frontier I1 _ l hl
    simp only [DijkstraShortestPath.loop] at hl
    exact ⟨(I1 l hl).1, (I1 l hl).2.1⟩
  | succ fuel ih =>
    intro settled frontier I1 I2
    unfold DijkstraShortestPath.loop
    cases hmin : DijkstraShortestPath.minLabel frontier with
    | none => intro l hl; exact ⟨(I1 l hl).1, (I1 l hl).2.1⟩
    | some l =>
      simp only
      obtain ⟨hmem, _⟩ := (DijkstraShortestPath.minLabel_spec frontier).2 l hmin
      by_cases hany : settled.any (fun x => x.vertex == l.vertex) = true
      · simp only [hany, if_true]
        exact ih settled (frontier.erase l) I1
          (fun l1 hl1 => I2 l1 (List.mem_of_mem_erase hl1))
      · simp only [hany, Bool.false_eq_true, if_false]
        have hnew : ¬∃ l1 ∈ settled, l1.vertex = l.vertex := by simpa using hany
        have hl : g.IsWalk s l.moves l.vertex ∧ (movesVertices s l.moves).Nodup ∧
            (∀ v ∈ movesVertices s l.moves, ∃ l1 ∈ settled ++ [l], l1.vertex = v) := by
          rcases I2 l hmem with h | ⟨l0, hl0, m, hm, h⟩
          · subst h
            refine ⟨rfl, by simp [movesVertices, DijkstraShortestPath.start], ?_⟩
            intro v hv
            simp only [movesVertices, DijkstraShortestPath.start, List.map_nil,
              List.mem_singleton] at hv
            exact ⟨DijkstraShortestPath.start s,
              List.mem_append_right _ (List.mem_singleton_self _), hv.symm⟩
          · subst h
            obtain ⟨w0, nd0, v0⟩ := I1 l0 hl0
            rw [GNMGraph.mem_GetOutMoves] at hm
            refine ⟨?_, ?_, ?_⟩
            · exact GNMGraph.IsWalk_append g _ _ _ _ _ w0 ⟨hm.1, hm.2, rfl⟩
            · simp only [DijkstraLabel.extend, movesVertices_append]
              rw [List.nodup_append]
              refine ⟨nd0, List.nodup_singleton _, ?_⟩
              intro v hv1 hv2
              simp only [List.mem_singleton] at hv2
              subst hv2
              exact hnew (v0 _ hv1)
            · intro v hv
              simp only [DijkstraLabel.extend, movesVertices_append, List.mem_append,
                List.mem_singleton] at hv
              rcases hv with hv | hv
              · obtain ⟨l1, hl1, hl1v⟩ := v0 v hv
                exact ⟨l1, List.mem_append_left _ hl1, hl1v⟩
              · exact ⟨l0.extend m, List.mem_append_right _ (List.mem_singleton_self _),
                  hv.symm⟩
        apply ih
        · intro l1 hl1
          rcases List.mem_append.mp hl1 with h | h
          · obtain ⟨a, b, c⟩ := I1 l1 h
            refine ⟨a, b, fun v hv => ?_⟩
            obtain ⟨l2, hl2, hl2v⟩ := c v hv
            exact ⟨l2, List.mem_append_left _ hl2, hl2v⟩
          · simp only [List.mem_singleton] at h
            subst h
            exact hl
        · intro l1 hl1
          rcases List.mem_append.mp hl1 with h | h
          · rcases I2 l1 (List.mem_of_mem_erase h) with h2 | ⟨l0, hl0, m, hm, h2⟩
            · exact Or.inl h2
            · exact Or.inr ⟨l0, List.mem_append_left _ hl0, m, hm, h2⟩
          · obtain ⟨m, hm, rfl⟩ := List.mem_map.mp h
            exact Or.inr ⟨l, List.mem_append_right _ (List.mem_singleton_self _), m, hm, rfl⟩

/-- The Dijkstra search returns a simple path from the start to the end, whatever the costs
are. -/
theorem GNMGraph.DijkstraMoves_simple (g : GNMGraph) (s t : GNMGFID) (p : List GNMMove)
    (h : g.DijkstraMoves s t = some p) : g.IsPath s p t := by
  unfold GNMGraph.DijkstraMoves at h
  split_ifs at h
  simp only [Option.map_eq_some'] at h
  obtain ⟨l, hfind, rfl⟩ := h
  have hmem := List.mem_of_find?_eq_some hfind
  have hv : l.vertex = t := by
    have := List.find?_some hfind
    simpa using this
  have := DijkstraShortestPath.loop_simple g s (g.moves.length + 1) []
    [{ cost := 0, vertex := s, moves := [] }] (by simp)
    (fun l hl => Or.inl (by simpa [DijkstraShortestPath.start] using hl)) l hmem
  rw [hv] at this
  exact this

theorem commonPrefixLength_take :
    ∀ (P Q : List GNMMove),
      P.take (commonPrefixLength P Q) = Q.take (commonPrefixLength P Q) := by
  intro P
  induction P with
  | nil => intro Q; simp [commonPrefixLength]
  | cons a P ih =>
    intro Q
    cases Q with
    | nil => simp [commonPrefixLength]
    | cons b Q =>
      simp only [commonPrefixLength]
      split_ifs with h
      · subst h
        simp only [List.take_succ_cons, ih Q]
      · simp

theorem commonPrefixLength_le :
    ∀ (P Q : List GNMMove),
      commonPrefixLength P Q ≤ P.length ∧ commonPrefixLength P Q ≤ Q.length := by
  intro P
  induction P with
  | nil => intro Q; simp [commonPrefixLength]
  | cons a P ih =>
    intro Q
    cases Q with
    | nil => simp [commonPrefixLength]
    | cons b Q =>
      simp only [commonPrefixLength]
      split_ifs with h
      · have := ih Q
        simp only [List.length_cons]
        omega
      · simp

theorem commonPrefixLength_ge :
    ∀ (j : Nat) (P Q : List GNMMove), P.take j = Q.take j → j ≤ P.length → j ≤ Q.length →
      j ≤ commonPrefixLength P Q := by
  intro j
  induction j with
  | zero => intro P Q _ _ _; exact Nat.zero_le _
  | succ j ih =>
    intro P Q h hP hQ
    cases P with
    | nil => simp at hP
    | cons a P =>
      cases Q with
      | nil => simp at hQ
      | cons b Q =>
        simp only [List.take_succ_cons, List.cons.injEq] at h
        simp only [commonPrefixLength, h.1, if_true]
        have := ih P Q h.2 (by simpa using hP) (by simpa using hQ)
        omega

theorem movesVertices_take_congr (a : GNMGFID) (P Q : List GNMMove) (i : Nat)
    (h : P.take i = Q.take i) : (movesVertices a P).take i = (movesVertices a Q).take i := by
  have e : ∀ w : List GNMMove, (movesVertices a w).take i =
      (movesVertices a (w.take i)).take i := by
    intro w
    rw [← movesVertices_take, List.take_take]
    simp
  rw [e P, e Q, h]

theorem GNMGraph.isEndpoint_of_move (g : GNMGraph) (m : GNMMove) (h : m ∈ g.moves) :
    g.isEndpoint m.source = true ∧ g.isEndpoint m.target = true := by
  rw [GNMGraph.mem_moves] at h
  obtain ⟨e, he, hm⟩ := h
  obtain ⟨_, d⟩ := GNMStdEdge.mem_moves_cases e m hm
  simp only [GNMGraph.isEndpoint, List.any_eq_true, Bool.or_eq_true, beq_iff_eq]
  rcases d with ⟨a1, b1, _⟩ | ⟨a1, b1, _⟩
  · exact ⟨⟨e, he, Or.inl a1.symm⟩, ⟨e, he, Or.inr b1.symm⟩⟩
  · exact ⟨⟨e, he, Or.inr a1.symm⟩, ⟨e, he, Or.inl b1.symm⟩⟩

theorem GNMGraph.IsWalk_endpoints (g : GNMGraph) :
    ∀ (w : List GNMMove) (a b : GNMGFID), g.IsWalk a w b → w ≠ [] →
      g.isEndpoint a = true ∧ g.isEndpoint b = true := by
  intro w
  induction w with
  | nil => intro a b _ h; exact absurd rfl h
  | cons m rest ih =>
    intro a b h _
    obtain ⟨h1, h2, h3⟩ := h
    obtain ⟨e1, e2⟩ := GNMGraph.isEndpoint_of_move g m h1
    refine ⟨h2 ▸ e1, ?_⟩
    cases rest with
    | nil =>
      simp only [GNMGraph.IsWalk] at h3
      exact h3 ▸ e2
    | cons m2 rest2 => exact (ih _ _ h3 (by simp)).2

theorem KShortestPaths.mem_candidates (g : GNMGraph) (s t : GNMGFID)
    (A : List (List GNMMove)) (P c : List GNMMove) :
    c ∈ KShortestPaths.candidates g s t A P ↔
      ∃ i, i < P.length ∧ ∃ spur,
        (KShortestPaths.spurGraph g s A P i).DijkstraMoves ((movesVertices s P).getD i s) t =
          some spur ∧ P.take i ++ spur = c := by
  simp only [KShortestPaths.candidates, List.mem_filterMap, List.mem_range,
    Option.map_eq_some']

/-- The first traversal of a simple path from a vertex of a path to its end, and what
follows it. -/
theorem GNMGraph.IsPath_drop_cons (g : GNMGraph) (P : List GNMMove) (a b : GNMGFID) (i : Nat)
    (h : g.IsPath a P b) (hi : i < P.length) :
    ∃ v m rest, (movesVertices a P)[i]? = some v ∧ g.IsWalk a (P.take i) v ∧
      P.drop i = m :: rest ∧ P[i]? = some m ∧ m ∈ g.moves ∧ m.source = v ∧ m.target ≠ v ∧
      g.IsWalk m.target rest b ∧ v ∉ movesVertices m.target rest ∧ v ≠ b ∧
      g.IsPath v (P.drop i) b ∧
      (∀ x ∈ (movesVertices a P).take i, x ∉ movesVertices v (P.drop i)) ∧
      ((movesVertices a P).take i).Nodup := by
  obtain ⟨v, e1, e2, e3, e4, e5⟩ := GNMGraph.IsPath_take_drop g P a b i h (Nat.le_of_lt hi)
  have hd : P.drop i = P[i] :: P.drop (i + 1) := List.drop_eq_getElem_cons hi
  have e3c := e3
  rw [hd] at e3
  obtain ⟨⟨w1, w2, w3⟩, nd⟩ := e3
  rw [movesVertices_cons, List.nodup_cons] at nd
  have hlast := GNMGraph.IsWalk_getLast g _ _ _ w3
  refine ⟨v, P[i], P.drop (i + 1), e1, e2, hd, List.getElem?_eq_getElem hi, w1, w2, ?_, w3,
    nd.1, ?_, e3c, e4, e5⟩
  · intro he
    apply nd.1
    rw [← he]
    simp [movesVertices]
  · intro he
    apply nd.1
    rw [he]
    exact List.mem_of_mem_getLast? hlast

/-- A candidate of a simple path is a simple path from the start to the end. -/
theorem KShortestPaths.candidate_isPath (g : GNMGraph) (s t : GNMGFID)
    (A : List (List GNMMove)) (P c : List GNMMove) (hP : g.IsPath s P t)
    (hc : c ∈ KShortestPaths.candidates g s t A P) : g.IsPath s c t := by
  rw [KShortestPaths.mem_candidates] at hc
  obtain ⟨i, hi, spur, hd, rfl⟩ := hc
  obtain ⟨v, e1, e2, e3, e4, e5⟩ := GNMGraph.IsPath_take_drop g P s t i hP (Nat.le_of_lt hi)
  have hgetD : (movesVertices s P).getD i s = v := by
    rw [List.getD_eq_getElem?_getD, e1]; rfl
  rw [hgetD] at hd
  obtain ⟨sw, snd⟩ := GNMGraph.DijkstraMoves_simple _ v t spur hd
  have hmem := GNMGraph.IsWalk_mem_moves _ spur v t sw
  have sw2 : g.IsWalk v spur t :=
    GNMGraph.IsWalk_mono _ g spur v t sw
      (fun m hm => ((KShortestPaths.mem_spurGraph_moves g s A P i m).mp (hmem m hm)).1)
  refine ⟨GNMGraph.IsWalk_append g _ _ _ _ _ e2 sw2, ?_⟩
  rw [GNMGraph.movesVertices_splice g P s v i spur (Nat.le_of_lt hi) e2, List.nodup_append]
  refine ⟨e5, snd, ?_⟩
  intro x hx1 hx2
  simp only [movesVertices, List.mem_cons, List.mem_map] at hx2
  rcases hx2 with rfl | ⟨m, hm, rfl⟩
  · apply e4 _ hx1
    simp [movesVertices]
  · exact ((KShortestPaths.mem_spurGraph_moves g s A P i m).mp (hmem m hm)).2.2.2 hx1

/-- A candidate of a simple path is not one of the accepted paths that the spur search was
given. -/
theorem KShortestPaths.candidate_not_accepted (g : GNMGraph) (s t : GNMGFID)
    (A : List (List GNMMove)) (P c : List GNMMove) (hP : g.IsPath s P t)
    (hc : c ∈ KShortestPaths.candidates g s t A P) : c ∉ A := by
  intro hcA
  rw [KShortestPaths.mem_candidates] at hc
  obtain ⟨i, hi, spur, hd, rfl⟩ := hc
  obtain ⟨v, m, rest, e1, e2, _, _, _, _, _, _, _, hvt, _⟩ :=
    GNMGraph.IsPath_drop_cons g P s t i hP hi
  have hgetD : (movesVertices s P).getD i s = v := by
    rw [List.getD_eq_getElem?_getD, e1]; rfl
  rw [hgetD] at hd
  obtain ⟨sw, _⟩ := GNMGraph.DijkstraMoves_simple _ v t spur hd
  cases spur with
  | nil => exact hvt sw
  | cons m0 spur =>
    have hm0 := ((KShortestPaths.mem_spurGraph_moves g s A P i m0).mp sw.1).2.1
    apply hm0
    rw [List.mem_filterMap]
    have hlen : (P.take i).length = i := by
      rw [List.length_take]; omega
    refine ⟨P.take i ++ m0 :: spur, hcA, ?_⟩
    have h1 : (P.take i ++ m0 :: spur).take i = P.take i := by
      rw [List.take_left' hlen]
    have h2 : (P.take i ++ m0 :: spur).get? i = some m0 := by
      rw [List.get?_eq_getElem?, List.getElem?_append_right (by omega)]
      simp [hlen]
    rw [if_pos h1, h2]
    rfl

/-- The spur search finds the rest of a simple path: when the simple path `Q` leaves the
path `P` at its vertex `i` and no accepted path shares a longer prefix with `Q`, the rest
of `Q` is a walk of the graph of the spur search, so that with costs that are not negative
the search gives a candidate that costs no more than `Q`. -/
theorem KShortestPaths.spur_exists (g : GNMGraph) (s t : GNMGFID) (hU : g.UniqueConnectors)
    (hCost : ∀ m ∈ g.moves, 0 ≤ m.cost) (A : List (List GNMMove)) (P Q : List GNMMove)
    (i : Nat) (hA : ∀ R ∈ A, g.IsPath s R t) (hP : g.IsPath s P t) (hQ : g.IsPath s Q t)
    (hpre : P.take i = Q.take i) (hiP : i < P.length) (hiQ : i < Q.length)
    (hmax : ∀ R ∈ A, commonPrefixLength R Q ≤ i) :
    ∃ spur, (KShortestPaths.spurGraph g s A P i).DijkstraMoves
        ((movesVertices s P).getD i s) t = some spur ∧
      movesCost (P.take i ++ spur) ≤ movesCost Q := by
  obtain ⟨v, m0, rest, q1, q2, q3, q4, q5, q6, q7, q8, q9, q10, q11, q12, _⟩ :=
    GNMGraph.IsPath_drop_cons g Q s t i hQ hiQ
  obtain ⟨v1, p1, p2, _⟩ := GNMGraph.IsPath_take_drop g P s t i hP (Nat.le_of_lt hiP)
  have hv1 : v1 = v := by
    rw [hpre] at p2
    exact GNMGraph.IsWalk_end_unique g _ _ _ _ p2 q2
  subst hv1
  have hgetD : (movesVertices s P).getD i s = v1 := by
    rw [List.getD_eq_getElem?_getD, p1]; rfl
  rw [hgetD]
  have htake := movesVertices_take_congr s P Q i hpre
  have hverts := GNMGraph.IsWalk_mem_vertices g _ _ _ q11.1
  have hrest := GNMGraph.IsWalk_mem_vertices g _ _ _ q8
  have hmoves := GNMGraph.IsWalk_mem_moves g _ _ _ q11.1
  -- the rest of `Q` is a walk of the graph of the spur search
  have hin : ∀ m ∈ Q.drop i, m ∈ (KShortestPaths.spurGraph g s A P i).moves := by
    intro m hm
    rw [KShortestPaths.mem_spurGraph_moves, htake]
    refine ⟨hmoves m hm, ?_, fun hx => q12 _ hx (hverts m hm).1,
      fun hx => q12 _ hx (hverts m hm).2⟩
    intro hx
    rw [List.mem_filterMap] at hx
    obtain ⟨R, hR, hRe⟩ := hx
    split_ifs at hRe with hRpre
    simp only [Option.map_eq_some'] at hRe
    obtain ⟨m1, hget, hconn⟩ := hRe
    have hiR : i < R.length := by
      rw [List.get?_eq_getElem?] at hget
      by_contra hge
      rw [List.getElem?_eq_none (by omega)] at hget
      simp at hget
    obtain ⟨v2, m2, rest2, r1, r2, r3, r4, r5, r6, r7, _⟩ :=
      GNMGraph.IsPath_drop_cons g R s t i (hA R hR) hiR
    have hm12 : m2 = m1 := by
      rw [List.get?_eq_getElem?, r4] at hget
      simpa using hget
    subst hm12
    have hv2 : v2 = v1 := by
      rw [hRpre, hpre] at r2
      exact GNMGraph.IsWalk_end_unique g _ _ _ _ r2 q2
    subst hv2
    rw [q3] at hm
    rcases List.mem_cons.mp hm with rfl | hm
    · have hmm : m2 = m :=
        GNMGraph.move_eq g hU m2 m r5 q5 hconn (by rw [r6, q6]) (by rw [r6]; exact r7)
      subst hmm
      have htk : R.take (i + 1) = Q.take (i + 1) := by
        rw [List.take_succ, List.take_succ, r4, q4, hRpre, hpre]
      have := commonPrefixLength_ge (i + 1) R Q htk hiR hiQ
      have := hmax R hR
      omega
    · obtain ⟨x, y⟩ := hrest m hm
      rcases GNMGraph.move_ends g hU m2 m r5 (hmoves m (by rw [q3]; exact List.mem_cons_of_mem _ hm))
        hconn with ⟨z, _⟩ | ⟨_, z⟩
      · apply q9
        rw [← r6, ← z]
        exact x
      · apply q9
        rw [← r6, ← z]
        exact y
  have hwalk : (KShortestPaths.spurGraph g s A P i).IsWalk v1 (Q.drop i) t :=
    GNMGraph.IsWalk_mono g _ _ _ _ q11.1 hin
  have hCost2 : ∀ m ∈ (KShortestPaths.spurGraph g s A P i).moves, 0 ≤ m.cost :=
    fun m hm => hCost m ((KShortestPaths.mem_spurGraph_moves g s A P i m).mp hm).1
  obtain ⟨F1, F2⟩ := GNMGraph.DijkstraMoves_spec (KShortestPaths.spurGraph g s A P i) v1 t hCost2
  obtain ⟨n1, n2⟩ := GNMGraph.IsWalk_endpoints _ _ _ _ hwalk (by rw [q3]; simp)
  cases hd : (KShortestPaths.spurGraph g s A P i).DijkstraMoves v1 t with
  | none =>
    rcases F2 hd with h | h | h
    · rw [n1] at h; simp at h
    · rw [n2] at h; simp at h
    · exact absurd ⟨_, hwalk⟩ h
  | some spur =>
    refine ⟨spur, rfl, ?_⟩
    have hopt := (F1 spur hd).2.2.1 _ hwalk
    have hsplit : movesCost Q = movesCost (Q.take i) + movesCost (Q.drop i) := by
      rw [← movesCost_append, List.take_append_drop]
    rw [movesCost_append, hsplit, hpre]
    linarith

theorem KShortestPaths.minCandidate_spec :
    ∀ (B : List (List GNMMove)),
      ∀ c, KShortestPaths.minCandidate B = some c →
        c ∈ B ∧ ∀ c1 ∈ B, movesCost c ≤ movesCost c1 := by
  intro B
  induction B with
  | nil => intro c h; simp [KShortestPaths.minCandidate] at h
  | cons a rest ih =>
    unfold KShortestPaths.minCandidate
    cases hm : KShortestPaths.minCandidate rest with
    | none =>
      intro c hc
      simp only [Option.some.injEq] at hc
      subst hc
      have hr : rest = [] := by
        cases rest with
        | nil => rfl
        | cons b rest2 =>
          unfold KShortestPaths.minCandidate at hm
          cases h2 : KShortestPaths.minCandidate rest2 with
          | none => rw [h2] at hm; simp at hm
          | some x => rw [h2] at hm; simp only at hm; split_ifs at hm
      subst hr
      exact ⟨by simp, by simp⟩
    | some m =>
      obtain ⟨j1, j2⟩ := ih m hm
      intro c hc
      simp only at hc
      split_ifs at hc with hlt
      · simp only [Option.some.injEq] at hc
        subst hc
        refine ⟨List.mem_cons_of_mem _ j1, ?_⟩
        intro c1 hc1
        rcases List.mem_cons.mp hc1 with h | h
        · rw [h]; exact le_of_lt hlt
        · exact j2 c1 h
      · simp only [Option.some.injEq] at hc
        subst hc
        refine ⟨List.mem_cons_self _ _, ?_⟩
        intro c1 hc1
        rcases List.mem_cons.mp hc1 with h | h
        · rw [h]
        · exact le_trans (not_lt.mp hlt) (j2 c1 h)

/-- The candidate that leaves the pending list: it is pending, its path is not accepted
yet, and no pending candidate whose path is not accepted yet costs less. -/
theorem KShortestPaths.pop_spec (s : GNMGFID) (A B : List (List GNMMove)) (c : List GNMMove)
    (h : KShortestPaths.pop s A B = some c) :
    c ∈ B ∧ pathOfMoves s c ∉ A.map (pathOfMoves s) ∧
      ∀ c1 ∈ B, pathOfMoves s c1 ∉ A.map (pathOfMoves s) → movesCost c ≤ movesCost c1 := by
  obtain ⟨h1, h2⟩ := KShortestPaths.minCandidate_spec _ c h
  simp only [List.mem_filter, List.contains_eq_any_beq, Bool.not_eq_true', List.any_eq_false,
    beq_iff_eq] at h1 h2
  refine ⟨h1.1, ?_, ?_⟩
  · intro hx
    exact h1.2 _ hx rfl
  · intro c1 hc1 hn
    exact h2 c1 ⟨hc1, fun x hx hxe => hn (hxe ▸ hx)⟩

theorem pathOfMoves_connectors (s : GNMGFID) (P Q : List GNMMove)
    (h : pathOfMoves s P = pathOfMoves s Q) :
    P.map (fun m => m.connector) = Q.map (fun m => m.connector) := by
  simp only [pathOfMoves, List.cons.injEq, true_and] at h
  have := congrArg (List.map Prod.snd) h
  simpa [List.map_map, Function.comp] using this

/-- With connector ids that are unique, the path of a simple path is accepted only when
the simple path is. -/
theorem KShortestPaths.path_mem_iff (g : GNMGraph) (s t : GNMGFID) (hU : g.UniqueConnectors)
    (A : List (List GNMMove)) (hA : ∀ P ∈ A, g.IsPath s P t) (c : List GNMMove)
    (hc : g.IsPath s c t) :
    pathOfMoves s c ∈ A.map (pathOfMoves s) ↔ c ∈ A := by
  constructor
  · intro h
    obtain ⟨P, hP, hPe⟩ := List.mem_map.mp h
    have := GNMGraph.walk_eq_of_connectors g hU P c s t t (hA P hP).1 hc.1 (hA P hP).2
      (pathOfMoves_connectors s P c hPe)
    rw [← this]
    exact hP
  · intro h
    exact List.mem_map_of_mem _ h

/-- A simple path to the end that begins with a simple path to the end is this path. -/
theorem GNMGraph.IsPath_initial_eq (g : GNMGraph) (s t : GNMGFID) (P Q : List GNMMove)
    (hP : g.IsPath s P t) (hQ : g.IsPath s Q t) (h : Q.take P.length = P) : P = Q := by
  by_cases hlt : P.length < Q.length
  · obtain ⟨v, _, _, _, q2, _, _, _, _, _, _, _, q10, _⟩ :=
      GNMGraph.IsPath_drop_cons g Q s t P.length hQ hlt
    rw [h] at q2
    exact absurd (GNMGraph.IsWalk_end_unique g _ _ _ _ q2 hP.1) q10
  · rw [List.take_of_length_le (by omega)] at h
    exact h.symm

theorem list_exists_max {α : Type} (f : α → Nat) :
    ∀ (l : List α), l ≠ [] → ∃ x ∈ l, ∀ y ∈ l, f y ≤ f x := by
  intro l
  induction l with
  | nil => intro h; exact absurd rfl h
  | cons a rest ih =>
    intro _
    by_cases hr : rest = []
    · subst hr
      exact ⟨a, by simp, by simp⟩
    · obtain ⟨x, hx, hmax⟩ := ih hr
      by_cases hle : f x ≤ f a
      · refine ⟨a, List.mem_cons_self _ _, ?_⟩
        intro y hy
        rcases List.mem_cons.mp hy with h | h
        · rw [h]
        · exact le_trans (hmax y h) hle
      · refine ⟨x, List.mem_cons_of_mem _ hx, ?_⟩
        intro y hy
        rcases List.mem_cons.mp hy with h | h
        · rw [h]; omega
        · exact hmax y h

/-- The pending list is complete: when the candidates of every accepted path are pending or
accepted, each simple path to the end that is not accepted has a pending candidate that is
not accepted and costs no more. -/
theorem KShortestPaths.complete (g : GNMGraph) (s t : GNMGFID) (hU : g.UniqueConnectors)
    (hCost : ∀ m ∈ g.moves, 0 ≤ m.cost) (A B : List (List GNMMove))
    (K1 : ∀ P ∈ A, g.IsPath s P t)
    (K3 : ∀ (j : Nat) (P : List GNMMove), A[j]? = some P →
      ∀ c ∈ KShortestPaths.candidates g s t (A.take (j + 1)) P, c ∈ B ∨ c ∈ A)
    (hne : A ≠ []) (Q : List GNMMove) (hQ : g.IsPath s Q t) (hQA : Q ∉ A) :
    ∃ c ∈ B, c ∉ A ∧ movesCost c ≤ movesCost Q := by
  obtain ⟨P0, hP0, hmax⟩ := list_exists_max (fun P => commonPrefixLength P Q) A hne
  have H : ∀ (d j : Nat) (P : List GNMMove), A[j]? = some P →
      commonPrefixLength P Q = commonPrefixLength P0 Q → A.length - j ≤ d →
      ∃ c ∈ B, c ∉ A ∧ movesCost c ≤ movesCost Q := by
    intro d
    induction d with
    | zero =>
      intro j P hj _ hd
      have : j < A.length := by
        by_contra hge
        rw [List.getElem?_eq_none (by omega)] at hj
        simp at hj
      omega
    | succ d ih =>
      intro j P hj hi hd
      have hPA : P ∈ A := List.getElem?_mem hj
      have hP := K1 P hPA
      have hpre := commonPrefixLength_take P Q
      obtain ⟨le1, le2⟩ := commonPrefixLength_le P Q
      have hiP : commonPrefixLength P Q < P.length := by
        by_contra hge
        have he : commonPrefixLength P Q = P.length := by omega
        rw [he, List.take_length] at hpre
        have := GNMGraph.IsPath_initial_eq g s t P Q hP hQ hpre.symm
        exact hQA (this ▸ hPA)
      have hiQ : commonPrefixLength P Q < Q.length := by
        by_contra hge
        have he : commonPrefixLength P Q = Q.length := by omega
        rw [he, List.take_length] at hpre
        have := GNMGraph.IsPath_initial_eq g s t Q P hQ hP hpre
        exact hQA (this ▸ hPA)
      obtain ⟨spur, hsp, hcost⟩ := KShortestPaths.spur_exists g s t hU hCost (A.take (j + 1))
        P Q (commonPrefixLength P Q) (fun R hR => K1 R (List.mem_of_mem_take hR)) hP hQ hpre
        hiP hiQ (fun R hR => hi ▸ hmax R (List.mem_of_mem_take hR))
      have hcand : P.take (commonPrefixLength P Q) ++ spur ∈
          KShortestPaths.candidates g s t (A.take (j + 1)) P :=
        (KShortestPaths.mem_candidates g s t _ P _).mpr ⟨_, hiP, spur, hsp, rfl⟩
      by_cases hcA : P.take (commonPrefixLength P Q) ++ spur ∈ A
      · obtain ⟨l, hl⟩ := List.getElem?_of_mem hcA
        by_cases hlj : l ≤ j
        · exfalso
          apply KShortestPaths.candidate_not_accepted g s t (A.take (j + 1)) P _ hP hcand
          have hl2 : (A.take (j + 1))[l]? = some (P.take (commonPrefixLength P Q) ++ spur) := by
            rw [List.getElem?_take_of_lt (by omega)]
            exact hl
          exact List.getElem?_mem hl2
        · apply ih l _ hl
          · apply le_antisymm
            · rw [← hi]
              have := hmax _ hcA
              rw [← hi] at this
              exact this
            · rw [← hi]
              apply commonPrefixLength_ge
              · rw [← hpre, List.take_left']
                rw [List.length_take]; omega
              · rw [List.length_append, List.length_take]; omega
              · omega
          · omega
      · rcases K3 j P hj _ hcand with h | h
        · exact ⟨_, h, hcA, hcost⟩
        · exact absurd h hcA
  obtain ⟨j0, hj0⟩ := List.getElem?_of_mem hP0
  exact H A.length j0 P0 hj0 rfl (by omega)

/-- The accepted list of Yen's algorithm, whatever the costs are: each iteration accepts at
most one path, the accepted paths are simple paths from the start to the end, and no two of
them have the same path. -/
theorem KShortestPaths.loop_paths (g : GNMGraph) (s t : GNMGFID) :
    ∀ (n : Nat) (A B : List (List GNMMove)),
      (∀ P ∈ A, g.IsPath s P t) → (∀ c ∈ B, g.IsPath s c t) →
      (A.map (pathOfMoves s)).Nodup →
      (KShortestPaths.loop g s t n A B).length ≤ A.length + n ∧
      (∀ P ∈ KShortestPaths.loop g s t n A B, g.IsPath s P t) ∧
      ((KShortestPaths.loop g s t n A B).map (pathOfMoves s)).Nodup := by
  intro n
  induction n with
  | zero =>
    intro A B K1 _ K3
    simp only [KShortestPaths.loop]
    exact ⟨by omega, K1, K3⟩
  | succ n ih =>
    intro A B K1 K2 K3
    unfold KShortestPaths.loop
    cases hlast : A.getLast? with
    | none => exact ⟨by simp only []; omega, K1, K3⟩
    | some P =>
      simp only
      have hP : g.IsPath s P t := K1 P (List.mem_of_mem_getLast? hlast)
      have hB : ∀ c ∈ B ++ KShortestPaths.candidates g s t A P, g.IsPath s c t := by
        intro c hc
        rcases List.mem_append.mp hc with h | h
        · exact K2 c h
        · exact KShortestPaths.candidate_isPath g s t A P c hP h
      cases hpop : KShortestPaths.pop s A (B ++ KShortestPaths.candidates g s t A P) with
      | none => exact ⟨by simp only []; omega, K1, K3⟩
      | some c =>
        simp only
        obtain ⟨c1, c2, _⟩ := KShortestPaths.pop_spec s A _ c hpop
        obtain ⟨r1, r2, r3⟩ := ih (A ++ [c])
          ((B ++ KShortestPaths.candidates g s t A P).erase c)
          (by
            intro R hR
            rcases List.mem_append.mp hR with h | h
            · exact K1 R h
            · simp only [List.mem_singleton] at h
              subst h
              exact hB _ c1)
          (fun x hx => hB x (List.mem_of_mem_erase hx))
          (by
            rw [List.map_append, List.nodup_append]
            refine ⟨K3, by simp, ?_⟩
            intro x hx1 hx2
            simp only [List.map_cons, List.map_nil, List.mem_singleton] at hx2
            subst hx2
            exact c2 hx1)
        refine ⟨?_, r2, r3⟩
        simp only [List.length_append, List.length_singleton] at r1
        omega

/-- The accepted list of Yen's algorithm on a graph with unique connector ids and without
negative costs: when every accepted path costs no more than any simple path that is not
accepted, and the candidates of the accepted paths before the last are pending or accepted,
the accepted list stays ordered by cost. -/
theorem KShortestPaths.loop_sorted (g : GNMGraph) (s t : GNMGFID) (hU : g.UniqueConnectors)
    (hCost : ∀ m ∈ g.moves, 0 ≤ m.cost) :
    ∀ (n : Nat) (A B : List (List GNMMove)),
      (∀ P ∈ A, g.IsPath s P t) → (∀ c ∈ B, g.IsPath s c t) →
      (∀ (j : Nat) (P : List GNMMove), A[j]? = some P → j + 1 < A.length →
        ∀ c ∈ KShortestPaths.candidates g s t (A.take (j + 1)) P, c ∈ B ∨ c ∈ A) →
      (∀ P ∈ A, ∀ Q, g.IsPath s Q t → Q ∉ A → movesCost P ≤ movesCost Q) →
      (A.map movesCost).Pairwise (fun a b => a ≤ b) →
      ((KShortestPaths.loop g s t n A B).map movesCost).Pairwise (fun a b => a ≤ b) := by
  intro n
  induction n with
  | zero =>
    intro A B _ _ _ _ K5
    simpa only [KShortestPaths.loop] using K5
  | succ n ih =>
    intro A B K1 K2 K3 K4 K5
    unfold KShortestPaths.loop
    cases hlast : A.getLast? with
    | none => exact K5
    | some P =>
      simp only
      have hPA : P ∈ A := List.mem_of_mem_getLast? hlast
      have hne : A ≠ [] := List.ne_nil_of_mem hPA
      have hP : g.IsPath s P t := K1 P hPA
      have hB : ∀ c ∈ B ++ KShortestPaths.candidates g s t A P, g.IsPath s c t := by
        intro c hc
        rcases List.mem_append.mp hc with h | h
        · exact K2 c h
        · exact KShortestPaths.candidate_isPath g s t A P c hP h
      have K3b : ∀ (j : Nat) (R : List GNMMove), A[j]? = some R →
          ∀ c ∈ KShortestPaths.candidates g s t (A.take (j + 1)) R,
            c ∈ B ++ KShortestPaths.candidates g s t A P ∨ c ∈ A := by
        intro j R hj c hc
        have hjlt : j < A.length := by
          by_contra hge
          rw [List.getElem?_eq_none (by omega)] at hj
          simp at hj
        by_cases hj1 : j + 1 < A.length
        · rcases K3 j R hj hj1 c hc with h | h
          · exact Or.inl (List.mem_append_left _ h)
          · exact Or.inr h
        · have hje : j = A.length - 1 := by omega
          rw [List.getLast?_eq_getElem?, ← hje, hj] at hlast
          simp only [Option.some.injEq] at hlast
          subst hlast
          rw [List.take_of_length_le (by omega)] at hc
          exact Or.inl (List.mem_append_right _ hc)
      have hcomplete := KShortestPaths.complete g s t hU hCost A
        (B ++ KShortestPaths.candidates g s t A P) K1 K3b hne
      cases hpop : KShortestPaths.pop s A (B ++ KShortestPaths.candidates g s t A P) with
      | none => exact K5
      | some c =>
        simp only
        obtain ⟨c1, c2, c3⟩ := KShortestPaths.pop_spec s A _ c hpop
        have hc : g.IsPath s c t := hB c c1
        have hcA : c ∉ A := fun h => c2 (List.mem_map_of_mem _ h)
        apply ih
        · intro R hR
          rcases List.mem_append.mp hR with h | h
          · exact K1 R h
          · simp only [List.mem_singleton] at h
            subst h
            exact hc
        · exact fun x hx => hB x (List.mem_of_mem_erase hx)
        · intro j R hj hj1 x hx
          simp only [List.length_append, List.length_singleton] at hj1
          rw [List.getElem?_append_left (by omega)] at hj
          rw [List.take_append_of_le_length (by omega)] at hx
          rcases K3b j R hj x hx with h | h
          · by_cases hxc : x = c
            · exact Or.inr (by rw [hxc]; simp)
            · exact Or.inl ((List.mem_erase_of_ne hxc).mpr h)
          · exact Or.inr (List.mem_append_left _ h)
        · intro R hR Q hQ hQA
          have hQA1 : Q ∉ A := fun h => hQA (List.mem_append_left _ h)
          rcases List.mem_append.mp hR with h | h
          · exact K4 R h Q hQ hQA1
          · simp only [List.mem_singleton] at h
            subst h
            obtain ⟨x, hx1, hx2, hx3⟩ := hcomplete Q hQ hQA1
            have := c3 x hx1
              (fun hp => hx2 ((KShortestPaths.path_mem_iff g s t hU A K1 x (hB x hx1)).mp hp))
            exact le_trans this hx3
        · rw [List.map_append, List.pairwise_append]
          refine ⟨K5, by simp, ?_⟩
          intro a ha b hb
          simp only [List.map_cons, List.map_nil, List.mem_singleton] at hb
          subst hb
          obtain ⟨R, hR, rfl⟩ := List.mem_map.mp ha
          exact K4 R hR c hc hcA

/-- The operations of the graph keep the connector ids unique: the graph at construction
has no edge, `AddEdge` replaces the edge of a connector id that is present, and the other
operations add no edge and change no connector id. -/
theorem GNMGraph.UniqueConnectors_kept (g : GNMGraph) (h : g.UniqueConnectors) :
    GNMGraph.empty.UniqueConnectors ∧
    (∀ nConFID nSrcFID nTgtFID bIsBidir dfCost dfInvCost,
      (g.AddEdge nConFID nSrcFID nTgtFID bIsBidir dfCost dfInvCost).UniqueConnectors) ∧
    (∀ nConFID, (g.DeleteEdge nConFID).UniqueConnectors) ∧
    (∀ nFID, (g.DeleteVertex nFID).UniqueConnectors) ∧
    (∀ nFID dfCost dfInvCost, (g.ChangeEdge nFID dfCost dfInvCost).UniqueConnectors) ∧
    (∀ nFID bBlock, (g.ChangeBlockState nFID bBlock).UniqueConnectors) ∧
    (∀ bBlock, (g.ChangeAllBlockState bBlock).UniqueConnectors) ∧
    g.Clear.UniqueConnectors := by
  have hmap : ∀ f : GNMStdEdge → GNMStdEdge, (∀ e, (f e).connectorGFID = e.connectorGFID) →
      ((g.edges.map f).map (fun e => e.connectorGFID)).Nodup := by
    intro f hf
    have : (g.edges.map f).map (fun e => e.connectorGFID) =
        g.edges.map (fun e => e.connectorGFID) := by
      rw [List.map_map]
      exact List.map_congr_left (fun e _ => hf e)
    rw [this]
    exact h
  refine ⟨by simp [GNMGraph.UniqueConnectors, GNMGraph.empty], ?_, ?_, ?_, ?_, ?_, ?_,
    by simp [GNMGraph.UniqueConnectors, GNMGraph.Clear]⟩
  · intro c a b bd x y
    simp only [GNMGraph.UniqueConnectors, GNMGraph.AddEdge]
    split_ifs with hany
    · apply hmap
      intro e
      split_ifs with he
      · exact he.symm
      · rfl
    · rw [List.map_append, List.nodup_append]
      refine ⟨h, by simp, ?_⟩
      intro v hv1 hv2
      simp only [List.map_cons, List.map_nil, List.mem_singleton] at hv2
      subst hv2
      apply hany
      obtain ⟨e, he, hec⟩ := List.mem_map.mp hv1
      simp only [List.any_eq_true, beq_iff_eq]
      exact ⟨e, he, hec⟩
  · intro c
    simp only [GNMGraph.UniqueConnectors, GNMGraph.DeleteEdge]
    exact List.Nodup.sublist (List.Sublist.map _ (List.filter_sublist _)) h
  · intro v
    exact h
  · intro c x y
    simp only [GNMGraph.UniqueConnectors, GNMGraph.ChangeEdge]
    apply hmap
    intro e
    split_ifs <;> rfl
  · intro c b
    simp only [GNMGraph.UniqueConnectors, GNMGraph.ChangeBlockState]
    exact hmap _ (fun e => rfl)
  · intro b
    simp only [GNMGraph.UniqueConnectors, GNMGraph.ChangeAllBlockState]
    exact hmap _ (fun e => rfl)

/-! ## Claims about the k shortest paths -/

/-- C26 (as stated, refuted): Yen's algorithm starts from the path of the Dijkstra search,
which with a negative cost need not be a cheapest path.  In `negativeCostGraph`, whose
connector ids are unique, `KShortestPaths(1, 2, 3)` returns first the path by the edge 101,
which costs 2, and then the path over the vertex 3 by the edges 102 and 103, which costs
1: the total costs decrease. -/
theorem KShortestPaths_returns_a_dearer_path_first_with_a_negative_cost :
    negativeCostGraph.UniqueConnectors ∧
    negativeCostGraph.KShortestPaths 1 2 3 =
      [pathOfMoves 1 [{ connector := 101, source := 1, target := 2, cost := 2 }],
       pathOfMoves 1 [{ connector := 102, source := 1, target := 3, cost := 3 },
         { connector := 103, source := 3, target := 2, cost := -2 }]] ∧
    negativeCostGraph.KShortestPaths 1 2 3 =
      [[(1, -1), (2, 101)], [(1, -1), (3, 102), (2, 103)]] ∧
    negativeCostGraph.IsWalk 1 [{ connector := 101, source := 1, target := 2, cost := 2 }] 2 ∧
    negativeCostGraph.IsWalk 1
      [{ connector := 102, source := 1, target := 3, cost := 3 },
       { connector := 103, source := 3, target := 2, cost := -2 }] 2 ∧
    movesCost [{ connector := 101, source := 1, target := 2, cost := 2 }] = 2 ∧
    movesCost [{ connector := 102, source := 1, target := 3, cost := 3 },
       { connector := 103, source := 3, target := 2, cost := -2 }] = 1 := by
  decide

/-- C26 (amended): for every graph, pair `(s, t)` and `k`, the paths of
`KShortestPaths(s, t, k)` are the paths of a list of walks from `s` to `t` that has at most
`k` members (none for `k ≤ 0`), each of them loopless (no vertex repeated), no two with the
same path; when the connector ids of the edges are unique, no two have the same sequence of
connectors, and when moreover no cost and no inverse cost is negative, the total costs do
not decrease along the list. -/
theorem KShortestPaths_are_loopless_distinct_and_ordered (g : GNMGraph) (s t : GNMGFID)
    (nK : Int) :
    ∃ A : List (List GNMMove),
      g.KShortestPaths s t nK = A.map (pathOfMoves s) ∧
      (A.length : Int) ≤ max nK 0 ∧
      (∀ P ∈ A, g.IsWalk s P t ∧ (movesVertices s P).Nodup) ∧
      (A.map (pathOfMoves s)).Nodup ∧
      (g.UniqueConnectors →
        (A.map (fun P => P.map (fun m => m.connector))).Nodup ∧
        ((∀ e ∈ g.edges, 0 ≤ e.cost ∧ 0 ≤ e.inverseCost) →
          (A.map movesCost).Pairwise (fun a b => a ≤ b))) := by
  unfold GNMGraph.KShortestPaths
  by_cases hk : nK ≤ 0
  · refine ⟨[], by simp [hk], by simp, by simp, by simp, fun _ => ⟨by simp, fun _ => by simp⟩⟩
  · simp only [hk, if_false]
    cases hd : g.DijkstraMoves s t with
    | none =>
      refine ⟨[], by simp, by simp, by simp, by simp, fun _ => ⟨by simp, fun _ => by simp⟩⟩
    | some first =>
      simp only
      have hfirst : g.IsPath s first t := GNMGraph.DijkstraMoves_simple g s t first hd
      obtain ⟨r1, r2, r3⟩ := KShortestPaths.loop_paths g s t (nK.toNat - 1) [first] []
        (by simpa using hfirst) (by simp) (by simp)
      refine ⟨KShortestPaths.loop g s t (nK.toNat - 1) [first] [], rfl, ?_, r2, r3, ?_⟩
      · simp only [List.length_singleton] at r1
        have h1 : (nK.toNat : Int) = nK := Int.toNat_of_nonneg (by omega)
        have h2 : ((KShortestPaths.loop g s t (nK.toNat - 1) [first] []).length : Int) ≤
            (nK.toNat : Int) := by
          have : 0 < nK.toNat := by omega
          omega
        rw [h1] at h2
        exact le_trans h2 (le_max_left _ _)
      · intro hU
        refine ⟨?_, ?_⟩
        · apply List.Nodup.map_on _ (List.Nodup.of_map _ r3)
          intro P hP Q hQ hPQ
          exact GNMGraph.walk_eq_of_connectors g hU P Q s t t (r2 P hP).1 (r2 Q hQ).1
            (r2 P hP).2 hPQ
        · intro hCost
          have hC := GNMGraph.moves_cost_nonneg g hCost
          apply KShortestPaths.loop_sorted g s t hU hC
          · simpa using hfirst
          · simp
          · intro j P _ hj
            simp at hj
          · intro P hP Q hQ _
            simp only [List.mem_singleton] at hP
            subst hP
            exact ((GNMGraph.DijkstraMoves_spec g s t hC).1 P hd).2.2.1 Q hQ.1
          · simp

theorem KShortestPaths_are_loopless_distinct_and_ordered_witness :
    threePathsGraph.UniqueConnectors ∧
    (∀ e ∈ threePathsGraph.edges, 0 ≤ e.cost ∧ 0 ≤ e.inverseCost) ∧
    (∃ A : List (List GNMMove),
      threePathsGraph.KShortestPaths 1 4 3 = A.map (pathOfMoves 1) ∧
      (A.length : Int) ≤ max 3 0 ∧
      (∀ P ∈ A, threePathsGraph.IsWalk 1 P 4 ∧ (movesVertices 1 P).Nodup) ∧
      (A.map (pathOfMoves 1)).Nodup ∧
      (A.map (fun P => P.map (fun m => m.connector))).Nodup ∧
      (A.map movesCost).Pairwise (fun a b => a ≤ b)) ∧
    threePathsGraph.KShortestPaths 1 4 3 =
      [[(1, -1), (2, 101), (4, 102)], [(1, -1), (3, 103), (4, 104)],
       [(1, -1), (2, 101), (3, 105), (4, 104)]] :=
  ⟨by decide, by decide,
    (KShortestPaths_are_loopless_distinct_and_ordered threePathsGraph 1 4 3).imp
      (fun _ h => ⟨h.1, h.2.1, h.2.2.1, h.2.2.2.1, (h.2.2.2.2 (by decide)).1,
        (h.2.2.2.2 (by decide)).2 (by decide)⟩),
    by decide⟩

end GNM
